import Mathlib

/-!
# zkbnb committer: a shallow embedding of `service/committer/committer/committer.go`

The committer is an eight-stage pipeline.  This development embeds the stages as pure
functions over explicit state.  Collaborators that live outside the committer file (the
rollup state `core.BlockChain`, the DAO models, the clock, the executor queue) are taken
as parameters: a `Collaborators` record supplies their results, and every theorem is
quantified over it.

Conventions
* Go `int`/`int64` values are `Int`; where the source does arithmetic that can overflow,
  the result is wrapped with `wrapInt64`.
* `time.Time` values are nanoseconds since the Unix epoch (`Int`); `Unix` is the floor to
  whole seconds, as `time.Time.Unix` is.
* Go maps are association lists iterated in list order (`GoMap`); a Go map has distinct
  keys, which theorems that depend on it assume as `GoMap.WF`.
* A `panic` is the `Except.error` branch with a `Panic` value naming the panic site.
* Effects on other stages (enqueues, block-row writes) are returned as a list of `Event`s.
-/

namespace Zkbnb

/-! ## Machine integers and time -/

/-- Two's-complement wrap of an integer into the `int64` range. -/
def wrapInt64 (x : Int) : Int := (x + 2 ^ 63) % 2 ^ 64 - 2 ^ 63

/-- Nanoseconds per second. -/
def nanosPerSecond : Int := 1000000000

/-- The embedding of `time.Time.Unix`: whole seconds since the epoch, rounded down.
The argument is an instant in nanoseconds since the epoch. -/
def Unix (t : Int) : Int := t / nanosPerSecond

/-- The constant `MaxCommitterInterval = 60 * 1` (seconds). -/
def MaxCommitterInterval : Int := 60 * 1

/-! ## Go maps -/

/-- A Go map with `int64` keys, as an association list. -/
abbrev GoMap (V : Type) := List (Int × V)

namespace GoMap

variable {V : Type}

/-- The value stored under key `k` (`m[k]` with the `ok` flag). -/
def get : GoMap V → Int → Option V
  | [], _ => none
  | (k0, v0) :: rest, k => if k0 = k then some v0 else get rest k

/-- The assignment `m[k] = v`: overwrite an existing entry, or add a new one. -/
def set : GoMap V → Int → V → GoMap V
  | [], k, v => [(k, v)]
  | (k0, v0) :: rest, k, v => if k0 = k then (k0, v) :: rest else (k0, v0) :: set rest k v

/-- The keys of the map, in iteration order. -/
def keys (m : GoMap V) : List Int := m.map Prod.fst

/-- A Go map never holds a key twice. -/
def WF (m : GoMap V) : Prop := (keys m).Nodup

end GoMap

/-! ## Data model -/

/-- A row of `tx.TxDetail`. -/
structure TxDetail where
  AssetId : Int
  AccountIndex : Int
  deriving DecidableEq, Repr

/-- The pool transaction `tx.Tx` (the fields the committer reads or writes). -/
structure Tx where
  ID : Nat
  TxType : Int
  TxHash : String
  TxStatus : Int
  BlockHeight : Int
  CreatedAt : Int
  TxDetails : List TxDetail
  deriving DecidableEq, Repr

/-- The record `priorityrequest.PriorityRequest`. -/
structure PriorityRequest where
  RequestId : Int
  L1BlockHeight : Int
  L2TxHash : String
  deriving DecidableEq, Repr

/-- One asset of an account, `types.AccountAsset`. -/
structure AccountAsset where
  Balance : Int
  OfferCanceledOrFinalized : Int
  deriving DecidableEq, Repr

/-- The formatted account `types.AccountInfo`. -/
structure AccountInfo where
  AccountIndex : Int
  Nonce : Int
  AssetInfo : GoMap AccountAsset
  deriving DecidableEq, Repr

/-- The NFT record `nft.L2Nft`. -/
structure L2Nft where
  NftIndex : Int
  OwnerAccountIndex : Int
  deriving DecidableEq, Repr

/-- The block row `block.Block`. -/
structure Block where
  ID : Nat
  BlockHeight : Int
  BlockSize : Int
  BlockStatus : Int
  CreatedAt : Int
  Txs : List Tx
  AccountIndexes : String
  NftIndexes : String
  deriving DecidableEq, Repr

/-- The executor's working set `statedb.StateCache`. -/
structure StateCache where
  Txs : List Tx
  PendingAccountMap : GoMap AccountInfo
  PendingNftMap : GoMap L2Nft
  PendingGasMap : GoMap Int
  deriving DecidableEq, Repr

/-- The hand-off record `statedb.StateDataCopy`. -/
structure StateDataCopy where
  StateCache : StateCache
  CurrentBlock : Block
  deriving DecidableEq, Repr

/-- The rollup state `core.BlockChain` as far as the committer observes it: the current
block (the executor's `curBlock` is a pointer to it) and the state cache. -/
structure BlockChain where
  currentBlock : Block
  Statedb : StateCache
  deriving DecidableEq, Repr

/-- The struct `UpdatePoolTx`; a `nil` slice is `none`. -/
structure UpdatePoolTx where
  PendingUpdatePoolTxs : Option (List Tx)
  PendingDeletePoolTxs : Option (List Tx)
  deriving DecidableEq, Repr

/-- The struct `PendingMap`. -/
structure PendingMap where
  PendingAccountMap : GoMap AccountInfo
  PendingNftMap : GoMap L2Nft
  deriving DecidableEq, Repr

/-- The `BlockConfig` part of `Config`. -/
structure BlockConfig where
  OptionalBlockSizes : List Int
  BlockSaveDisabled : Bool
  SaveBlockDataPoolSize : Int
  deriving DecidableEq, Repr

/-- The fields of `Committer` that the stage functions read. -/
structure Committer where
  running : Bool
  config : BlockConfig
  maxTxsPerBlock : Int
  optionalBlockSizes : List Int
  deriving DecidableEq, Repr

/-! ## Block size and commit criterion -/

/-- The loop of `computeCurrentBlockSize` from index `i` on: the first slot that is at
least the tx count, or the zero value of `blockSize` when the loop runs out. -/
def firstFittingSlot (txsLen : Int) : List Int → Int
  | [] => 0
  | s :: rest => if txsLen ≤ s then s else firstFittingSlot txsLen rest

/-- The embedding of `computeCurrentBlockSize`. -/
def computeCurrentBlockSize (c : Committer) (stateCopy : StateDataCopy) : Int :=
  firstFittingSlot stateCopy.StateCache.Txs.length c.optionalBlockSizes

/-- The embedding of `shouldCommit`, with the reading of `time.Now()` passed as `now`. -/
def shouldCommit (c : Committer) (bc : BlockChain) (curBlock : Block) (now : Int) : Bool :=
  if ((bc.Statedb.Txs.length : Int) > 0 ∧
        wrapInt64 (Unix now - Unix curBlock.CreatedAt) ≥ MaxCommitterInterval) ∨
      (bc.Statedb.Txs.length : Int) ≥ c.maxTxsPerBlock then
    true
  else
    false

/-! ## Collaborators of the executor -/

/-- The result of `TxPoolModel.GetLatestTx`: a row, `types.DbErrNotFound`, or another
error. -/
inductive LatestTxResult where
  | found (latestTx : Tx)
  | notFound
  | failed (err : String)
  deriving DecidableEq, Repr

/-- What the executor consumes from outside the committer file.  The constants come from
the packages `types`, `block` and `tx`; the functions are the rollup state, the DAO
models, the clock and the executor queue.

* `ApplyTransaction bc poolTx` returns the rollup state and the pool tx as the call left
  them, and the error if any (`none` is `nil`).
* `InitNewBlock bc` returns the rollup state with the fresh block installed as
  `currentBlock` (the pointer the call returns), and the error if any.
* `CreateBlockInTransact b` returns the block as the ORM left it, and the error if any.
* `clock k` is the `k`-th reading of `time.Now()` made by `shouldCommit`.
* `drain k` is what the `k`-th call of `getPoolTxsFromQueue` takes from the queue. -/
structure Collaborators where
  IsPriorityOperationTx : Int → Bool
  StatusProposing : Int
  StatusFailed : Int
  GasAccount : Int
  ApplyTransaction : BlockChain → Tx → BlockChain × Tx × Option String
  InitNewBlock : BlockChain → BlockChain × Option String
  GetPriorityRequestsByL2TxHash : String → Except String PriorityRequest
  CreateBlockInTransact : Block → Block × Option String
  GetLatestTx : LatestTxResult
  clock : Nat → Int
  drain : Nat → List Tx

/-- The panic sites of `executeTxFunc`. -/
inductive Panic where
  | getLatestRequestIdFailed
  | proposeNewBlockFailed
  | applyPriorityPoolTxFailed (id : Nat)
  | invalidRequestId (requestId : Int)
  | queryPriorityRequestFailed (txHash : String)
  | createNewBlockFailed
  deriving DecidableEq, Repr

/-- What an executor iteration does that other stages or the database observe, in the
order it happens.  `applied` and `priorityAccepted` record the executor's own progress:
`ApplyTransaction` returned `nil`, and `latestRequestId` was set to the request id. -/
inductive Event where
  | parked (poolTx : Tx)
  | applyFailed (poolTx : Tx)
  | applied (poolTx : Tx)
  | priorityAccepted (poolTx : Tx) (requestId : Int)
  | createNewBlock (curBlock : Block)
  | enqueueUpdatePoolTx (batch : UpdatePoolTx)
  | enqueueSyncAccountToRedis (pendingMap : PendingMap)
  | enqueueUpdateAccountAssetTree (stateDataCopy : StateDataCopy)
  | initNewBlock (curBlock : Block)
  deriving DecidableEq, Repr

/-- Where the executor stands between two steps: at the head of the outer loop, or inside
the idle loop (`for len(pendingTxs) == 0`) after a sleep and an empty poll. -/
inductive Position where
  | loopHead
  | idleLoop
  deriving DecidableEq, Repr

/-- The local variables of `executeTxFunc` together with the rollup state. -/
structure ExecutorState where
  bc : BlockChain
  latestRequestId : Int
  subPendingTxs : List Tx
  pendingUpdatePoolTxs : List Tx
  pendingDeletePoolTxs : List Tx
  clockReads : Nat
  polls : Nat
  position : Position
  deriving DecidableEq, Repr

/-- The embedding of `getLatestExecutedRequestId`. -/
def getLatestExecutedRequestId (env : Collaborators) : Except String Int :=
  match env.GetLatestTx with
  | .failed err => .error err
  | .notFound => .ok (-1)
  | .found latestTx =>
    match env.GetPriorityRequestsByL2TxHash latestTx.TxHash with
    | .error err => .error err
    | .ok p => .ok p.RequestId

/-- The embedding of `enqueueUpdatePoolTx`; `DeepCopy` is the identity on values. -/
def enqueueUpdatePoolTx (pendingUpdatePoolTxs pendingDeletePoolTxs : Option (List Tx)) :
    Event :=
  .enqueueUpdatePoolTx
    { PendingUpdatePoolTxs := pendingUpdatePoolTxs,
      PendingDeletePoolTxs := pendingDeletePoolTxs }

/-- Rebuild a map keyed by an index field, as the loops that range over a map `m` and
assign `fresh[index v] = v.DeepCopy()` for every value `v` do. -/
def rekey {V : Type} (index : V → Int) (m : GoMap V) : GoMap V :=
  m.foldl (fun fresh e => GoMap.set fresh (index e.2) e.2) []

/-- The embedding of `enqueueSyncAccountToRedis`. -/
def enqueueSyncAccountToRedis (originPendingAccountMap : GoMap AccountInfo)
    (originPendingNftMap : GoMap L2Nft) : Event :=
  .enqueueSyncAccountToRedis
    { PendingAccountMap := rekey AccountInfo.AccountIndex originPendingAccountMap,
      PendingNftMap := rekey L2Nft.NftIndex originPendingNftMap }

/-! ## Gas-fee folding (lines 774-789 of `executeTxFunc`) -/

/-- The body of the inner loop for one `(assetId, delta)` of `PendingGasMap`: add `delta`
to the asset's balance, or create the asset with balance `delta`. -/
def addGasToAsset (formatAccount : AccountInfo) (assetId delta : Int) : AccountInfo :=
  match GoMap.get formatAccount.AssetInfo assetId with
  | some asset =>
    { formatAccount with
      AssetInfo := GoMap.set formatAccount.AssetInfo assetId
        { asset with Balance := asset.Balance + delta } }
  | none =>
    { formatAccount with
      AssetInfo := GoMap.set formatAccount.AssetInfo assetId
        { Balance := delta, OfferCanceledOrFinalized := 0 } }

/-- The inner loop `for assetId, delta := range PendingGasMap` over the entries still to
visit, with the account and the gas map as they stand. -/
def foldGasEntries : List (Int × Int) → AccountInfo → GoMap Int → AccountInfo × GoMap Int
  | [], formatAccount, gasMap => (formatAccount, gasMap)
  | (assetId, delta) :: rest, formatAccount, gasMap =>
    foldGasEntries rest (addGasToAsset formatAccount assetId delta) (GoMap.set gasMap assetId 0)

/-- The outer loop `for _, formatAccount := range PendingAccountMap`: entries whose
`AccountIndex` is not the gas account are skipped. -/
def foldGasAccounts (gasAccount : Int) :
    GoMap AccountInfo → GoMap Int → GoMap AccountInfo × GoMap Int
  | [], gasMap => ([], gasMap)
  | (key, formatAccount) :: rest, gasMap =>
    if formatAccount.AccountIndex ≠ gasAccount then
      let r := foldGasAccounts gasAccount rest gasMap
      ((key, formatAccount) :: r.1, r.2)
    else
      let folded := foldGasEntries gasMap formatAccount gasMap
      let r := foldGasAccounts gasAccount rest folded.2
      ((key, folded.1) :: r.1, r.2)

/-- The fold step on the state cache. -/
def foldGas (gasAccount : Int) (sc : StateCache) : StateCache :=
  let r := foldGasAccounts gasAccount sc.PendingAccountMap sc.PendingGasMap
  { sc with PendingAccountMap := r.1, PendingGasMap := r.2 }

/-! ## The executor (`executeTxFunc`)

A panic ends the run: the events of the iteration that panics are not reported. -/

/-- The embedding of `getPoolTxsFromQueue`: at most 300 txs of what the queue holds. -/
def getPoolTxsFromQueue (env : Collaborators) (st : ExecutorState) :
    List Tx × ExecutorState :=
  ((env.drain st.polls).take 300, { st with polls := st.polls + 1 })

/-- The embedding of `createNewBlock`: a transaction around the single statement
`CreateBlockInTransact`. -/
def createNewBlock (env : Collaborators) (curBlock : Block) : Block × Option String :=
  env.CreateBlockInTransact curBlock

/-- Lines 741-756: the priority-request check of a tx that was applied.  Returns the new
`latestRequestId`. -/
def checkPriorityRequest (env : Collaborators) (latestRequestId : Int) (poolTx : Tx) :
    Except Panic (Int × List Event) :=
  if env.IsPriorityOperationTx poolTx.TxType then
    match env.GetPriorityRequestsByL2TxHash poolTx.TxHash with
    | .ok request =>
      if latestRequestId ≠ -1 ∧ request.RequestId ≠ wrapInt64 (latestRequestId + 1) then
        .error (.invalidRequestId request.RequestId)
      else
        .ok (request.RequestId, [.priorityAccepted poolTx request.RequestId])
    | .error _ => .error (.queryPriorityRequestFailed poolTx.TxHash)
  else
    .ok (latestRequestId, [])

/-- Lines 758-769: write the proposed block when the first tx of the block was executed. -/
def writeProposedBlock (env : Collaborators) (bc : BlockChain) :
    Except Panic (BlockChain × List Event) :=
  if bc.Statedb.Txs.length = 1 then
    match createNewBlock env bc.currentBlock with
    | (created, none) => .ok ({ bc with currentBlock := created }, [.createNewBlock created])
    | (_, some _) => .error .createNewBlockFailed
  else
    .ok (bc, [])

/-- The body of `for _, poolTx := range pendingTxs` (lines 719-771) for one pool tx. -/
def executePoolTx (env : Collaborators) (c : Committer) (st : ExecutorState) (poolTx : Tx) :
    Except Panic (ExecutorState × List Event) :=
  let now := env.clock st.clockReads
  let st1 := { st with clockReads := st.clockReads + 1 }
  if shouldCommit c st.bc st.bc.currentBlock now then
    .ok ({ st1 with subPendingTxs := st1.subPendingTxs ++ [poolTx] }, [.parked poolTx])
  else
    match env.ApplyTransaction st.bc poolTx with
    | (bc1, poolTx1, some _) =>
      if env.IsPriorityOperationTx poolTx1.TxType then
        .error (.applyPriorityPoolTxFailed poolTx1.ID)
      else
        let failedTx := { poolTx1 with TxStatus := env.StatusFailed }
        .ok ({ st1 with
                bc := bc1,
                pendingDeletePoolTxs := st1.pendingDeletePoolTxs ++ [failedTx] },
             [.applyFailed failedTx])
    | (bc1, poolTx1, none) =>
      match checkPriorityRequest env st.latestRequestId poolTx1 with
      | .error p => .error p
      | .ok (requestId, evs1) =>
        match writeProposedBlock env bc1 with
        | .error p => .error p
        | .ok (bc2, evs2) =>
          .ok ({ st1 with
                  bc := bc2,
                  latestRequestId := requestId,
                  pendingUpdatePoolTxs := st1.pendingUpdatePoolTxs ++ [poolTx1] },
               .applied poolTx1 :: (evs1 ++ evs2))

/-- Put events that already happened in front of the events of what follows. -/
def withEvents (evs : List Event) (r : Except Panic (ExecutorState × List Event)) :
    Except Panic (ExecutorState × List Event) :=
  match r with
  | .error p => .error p
  | .ok (st, evs1) => .ok (st, evs ++ evs1)

/-- The loop `for _, poolTx := range pendingTxs`. -/
def processPendingTxs (env : Collaborators) (c : Committer) :
    List Tx → ExecutorState → Except Panic (ExecutorState × List Event)
  | [], st => .ok (st, [])
  | poolTx :: rest, st =>
    match executePoolTx env c st poolTx with
    | .error p => .error p
    | .ok (st1, evs1) => withEvents evs1 (processPendingTxs env c rest st1)

/-- Lines 798-839: the commit of the open block.  The pending maps are replaced by deep
copies, the state cache and the block are handed to the asset-tree stage, and a new block
is opened. -/
def commitBlock (env : Collaborators) (st : ExecutorState) :
    Except Panic (ExecutorState × List Event) :=
  let sc := st.bc.Statedb
  let sc1 := { sc with
    PendingAccountMap := rekey AccountInfo.AccountIndex sc.PendingAccountMap,
    PendingNftMap := rekey L2Nft.NftIndex sc.PendingNftMap }
  let stateDataCopy : StateDataCopy := { StateCache := sc1, CurrentBlock := st.bc.currentBlock }
  match env.InitNewBlock { st.bc with Statedb := sc1 } with
  | (_, some _) => .error .proposeNewBlockFailed
  | (bc1, none) =>
    .ok ({ st with bc := bc1, pendingUpdatePoolTxs := [] },
         [.enqueueUpdateAccountAssetTree stateDataCopy, .initNewBlock bc1.currentBlock])

/-- Lines 716-839: the rest of an iteration of the outer loop once `pendingTxs` is
chosen: process the txs, fold the gas, publish, enqueue the delete batch, and commit the
block if the commit criterion holds. -/
def executeRound (env : Collaborators) (c : Committer) (st : ExecutorState)
    (pendingTxs : List Tx) : Except Panic (ExecutorState × List Event) :=
  match processPendingTxs env c pendingTxs { st with pendingDeletePoolTxs := [] } with
  | .error p => .error p
  | .ok (st1, evs1) =>
    let sc := foldGas env.GasAccount st1.bc.Statedb
    let st2 := { st1 with bc := { st1.bc with Statedb := sc } }
    let evs2 := [enqueueSyncAccountToRedis sc.PendingAccountMap sc.PendingNftMap,
                 enqueueUpdatePoolTx none (some st2.pendingDeletePoolTxs)]
    let now := env.clock st2.clockReads
    let st3 := { st2 with clockReads := st2.clockReads + 1, position := .loopHead }
    if shouldCommit c st2.bc st2.bc.currentBlock now then
      withEvents (evs1 ++ evs2) (commitBlock env st3)
    else
      .ok (st3, evs1 ++ evs2)

/-- Lines 707-710: the flush of the pending update batch inside the idle loop. -/
def flushPendingUpdates (st : ExecutorState) : ExecutorState × List Event :=
  if st.pendingUpdatePoolTxs.length > 0 then
    ({ st with pendingUpdatePoolTxs := [] },
     [enqueueUpdatePoolTx (some st.pendingUpdatePoolTxs) none])
  else
    (st, [])

/-- One pass of the idle loop `for len(pendingTxs) == 0` (lines 703-714), entered with
`pendingTxs` empty.  If the commit criterion holds the loop is left and the iteration
goes on with no txs; otherwise the update batch is flushed and the queue polled again:
an empty poll leaves the executor in the idle loop, a non-empty one goes on with it. -/
def idleIteration (env : Collaborators) (c : Committer) (st : ExecutorState) :
    Except Panic (ExecutorState × List Event) :=
  let now := env.clock st.clockReads
  let st1 := { st with clockReads := st.clockReads + 1 }
  if shouldCommit c st.bc st.bc.currentBlock now then
    executeRound env c st1 []
  else
    let flushed := flushPendingUpdates st1
    let polled := getPoolTxsFromQueue env flushed.1
    if polled.1.length = 0 then
      .ok ({ polled.2 with position := .idleLoop }, flushed.2)
    else
      withEvents flushed.2 (executeRound env c polled.2 polled.1)

/-- Lines 687-702 and on: an iteration of the outer loop from its head. -/
def loopIteration (env : Collaborators) (c : Committer) (st : ExecutorState) :
    Except Panic (ExecutorState × List Event) :=
  let opened : Except Panic (BlockChain × List Event) :=
    if st.bc.currentBlock.BlockStatus > env.StatusProposing then
      match env.InitNewBlock st.bc with
      | (_, some _) => .error .proposeNewBlockFailed
      | (bc1, none) => .ok (bc1, [.initNewBlock bc1.currentBlock])
    else
      .ok (st.bc, [])
  match opened with
  | .error p => .error p
  | .ok (bc1, evs0) =>
    let st1 := { st with bc := bc1 }
    if st1.subPendingTxs.length > 0 then
      withEvents evs0 (executeRound env c { st1 with subPendingTxs := [] } st1.subPendingTxs)
    else
      let polled := getPoolTxsFromQueue env st1
      if polled.1.length = 0 then
        withEvents evs0 (idleIteration env c polled.2)
      else
        withEvents evs0 (executeRound env c polled.2 polled.1)

/-- One step of the executor: an iteration of the outer loop, or a further pass of the
idle loop it is waiting in. -/
def executeTxStep (env : Collaborators) (c : Committer) (st : ExecutorState) :
    Except Panic (ExecutorState × List Event) :=
  match st.position with
  | .loopHead => loopIteration env c st
  | .idleLoop => idleIteration env c st

/-- The executor run for `n` steps from state `st`. -/
def executeTxSteps (env : Collaborators) (c : Committer) :
    Nat → ExecutorState → Except Panic (ExecutorState × List Event)
  | 0, st => .ok (st, [])
  | n + 1, st =>
    match executeTxStep env c st with
    | .error p => .error p
    | .ok (st1, evs1) => withEvents evs1 (executeTxSteps env c n st1)

/-- The locals of `executeTxFunc` as they are when the outer loop is entered. -/
def initialExecutorState (bc : BlockChain) (latestRequestId : Int) : ExecutorState :=
  { bc := bc,
    latestRequestId := latestRequestId,
    subPendingTxs := [],
    pendingUpdatePoolTxs := [],
    pendingDeletePoolTxs := [],
    clockReads := 0,
    polls := 0,
    position := .loopHead }

/-- The embedding of `executeTxFunc`, observed for `n` steps of its endless loop. -/
def executeTxFunc (env : Collaborators) (c : Committer) (bc : BlockChain) (n : Nat) :
    Except Panic (ExecutorState × List Event) :=
  match getLatestExecutedRequestId env with
  | .error _ => .error .getLatestRequestIdFailed
  | .ok latestRequestId => executeTxSteps env c n (initialExecutorState bc latestRequestId)

/-! ## The puller (`pullPoolTxs2`) -/

/-- What the puller consumes from outside the committer file.

* `GetLatestExecutedTx` is the row found at start-up (`none` when there is none).
* `GetTxsByStatusAndMaxId k maxId limit` is the result of the `k`-th fetch.
* `now k` is the `k`-th reading of `time.Now()` made by the gap check.
* `running k` is the flag `c.running` as read at the head of the `k`-th loop iteration.
* `GetQueueSize k` is the size of the executor queue as read after the `k`-th fetch
  (`c.executeTxWorker.GetQueueSize()`, line 634). -/
structure PullerCollaborators where
  GetLatestExecutedTx : Except String (Option Tx)
  GetTxsByStatusAndMaxId : Nat → Nat → Int → Except String (List Tx)
  now : Nat → Int
  running : Nat → Bool
  GetQueueSize : Nat → Nat

/-- The locals of `pullPoolTxs2`. -/
structure PullerState where
  executedTxMaxId : Nat
  limit : Int
  fetches : Nat
  clockReads : Nat
  loops : Nat
  deriving DecidableEq, Repr

/-- What an iteration of the puller does, in order. -/
inductive PullEvent where
  | fetch (executedTxMaxId : Nat) (limit : Int)
  | queueMetric (queueSize : Nat)
  | sleep (milliseconds : Nat)
  | enqueue (poolTx : Tx)
  deriving DecidableEq, Repr

/-- The embedding of `time.Time.Sub`: the difference in nanoseconds, saturated to the
range of a `Duration`. -/
def Sub (t u : Int) : Int := max (-(2 ^ 63)) (min (2 ^ 63 - 1) (t - u))

/-- The test `int(poolTx.ID)-int(executedTxMaxId) != 1` on 64-bit integers. -/
def notNextId (id executedTxMaxId : Nat) : Bool :=
  wrapInt64 (wrapInt64 id - wrapInt64 executedTxMaxId) ≠ 1

/-- The test `time.Now().Sub(poolTx.CreatedAt).Seconds() < 5`.  `Seconds` is the duration
as a floating-point number of seconds; it is below 5 exactly when the duration is below
five thousand million nanoseconds. -/
def youngerThan5s (now createdAt : Int) : Bool := Sub now createdAt < 5 * nanosPerSecond

/-- The loop `for _, poolTx := range pendingTxs` of `pullPoolTxs2` (lines 645-658). -/
def dispatchBatch (env : PullerCollaborators) :
    List Tx → PullerState → PullerState × List PullEvent
  | [], st => (st, [])
  | poolTx :: rest, st =>
    if notNextId poolTx.ID st.executedTxMaxId then
      let now := env.now st.clockReads
      let st1 := { st with clockReads := st.clockReads + 1 }
      if youngerThan5s now poolTx.CreatedAt then
        ({ st1 with limit := 10 }, [.sleep 50])
      else
        let r := dispatchBatch env rest { st1 with executedTxMaxId := poolTx.ID }
        (r.1, .enqueue poolTx :: r.2)
    else
      let r := dispatchBatch env rest { st with executedTxMaxId := poolTx.ID }
      (r.1, .enqueue poolTx :: r.2)

/-- One iteration of the loop of `pullPoolTxs2` after the `running` check
(lines 629-658). -/
def pullIteration (env : PullerCollaborators) (st : PullerState) :
    PullerState × List PullEvent :=
  let fetched := env.GetTxsByStatusAndMaxId st.fetches st.executedTxMaxId st.limit
  let queueSize := env.GetQueueSize st.fetches
  let st1 := { st with fetches := st.fetches + 1 }
  match fetched with
  | .error _ =>
    (st1, [.fetch st.executedTxMaxId st.limit, .queueMetric queueSize, .sleep 100])
  | .ok pendingTxs =>
    if pendingTxs.length = 0 then
      (st1, [.fetch st.executedTxMaxId st.limit, .queueMetric queueSize, .sleep 100])
    else
      let r := dispatchBatch env pendingTxs { st1 with limit := 1000 }
      (r.1, .fetch st.executedTxMaxId st.limit :: .queueMetric queueSize :: r.2)

/-- The loop of `pullPoolTxs2`, observed for at most `n` iterations; it ends when
`c.running` is found false. -/
def pullLoop (env : PullerCollaborators) : Nat → PullerState → PullerState × List PullEvent
  | 0, st => (st, [])
  | n + 1, st =>
    if env.running st.loops then
      let r1 := pullIteration env { st with loops := st.loops + 1 }
      let r2 := pullLoop env n r1.1
      (r2.1, r1.2 ++ r2.2)
    else
      (st, [])

/-- The locals of `pullPoolTxs2` when its loop is entered. -/
def initialPullerState (executedTx : Option Tx) : PullerState :=
  { executedTxMaxId := match executedTx with
      | some row => row.ID
      | none => 0,
    limit := 1000,
    fetches := 0,
    clockReads := 0,
    loops := 0 }

/-- The embedding of `pullPoolTxs2`, observed for at most `n` loop iterations; the error
branch is the panic on a failed `GetLatestExecutedTx`. -/
def pullPoolTxs2 (env : PullerCollaborators) (n : Nat) :
    Except String (PullerState × List PullEvent) :=
  match env.GetLatestExecutedTx with
  | .error err => .error err
  | .ok executedTx => .ok (pullLoop env n (initialPullerState executedTx))

/-- The pool txs handed to the executor queue, in order. -/
def enqueuedTxs : List PullEvent → List Tx
  | [] => []
  | .enqueue poolTx :: rest => poolTx :: enqueuedTxs rest
  | .fetch _ _ :: rest => enqueuedTxs rest
  | .queueMetric _ :: rest => enqueuedTxs rest
  | .sleep _ :: rest => enqueuedTxs rest

/-! ## FinalSave (`finalSaveBlockDataFunc`) -/

/-- A row of `compressedblock.CompressedBlock`. -/
structure CompressedBlock where
  BlockHeight : Int
  BlockSize : Int
  deriving DecidableEq, Repr

/-- A row of `account.Account`. -/
structure Account where
  AccountIndex : Int
  Nonce : Int
  deriving DecidableEq, Repr

/-- A row of `account.AccountHistory`. -/
structure AccountHistory where
  AccountIndex : Int
  L2BlockHeight : Int
  deriving DecidableEq, Repr

/-- The hand-off record `block.BlockStates`; a `nil` compressed block is `none`. -/
structure BlockStates where
  Block : Block
  CompressedBlock : Option CompressedBlock
  PendingAccount : List Account
  PendingAccountHistory : List AccountHistory
  PendingNft : List L2Nft
  deriving DecidableEq, Repr

/-- The part of the database that FinalSave writes: the rows of `compressed_block`, and
the ids of the block rows that were set to `Pending`. -/
structure Database where
  compressedBlockRows : List CompressedBlock
  pendingBlockIds : List Nat
  deriving DecidableEq, Repr

/-- A statement of FinalSave. -/
inductive Statement where
  | insertCompressedBlock (row : CompressedBlock)
  | updateBlockToPending (id : Nat)
  deriving DecidableEq, Repr

/-- The effect of a statement on the database. -/
def Database.execute (db : Database) : Statement → Database
  | .insertCompressedBlock row => { db with compressedBlockRows := db.compressedBlockRows ++ [row] }
  | .updateBlockToPending id => { db with pendingBlockIds := db.pendingBlockIds ++ [id] }

/-- The database library's `DB.Transaction(fc)`.  The closure gets the transaction handle;
statements issued on the handle are held back (the list) and take effect when the closure
returns `nil`, and are rolled back when it returns an error.  Statements that the closure
issues on the connection itself, not on the handle, take effect at once and are not
rolled back. -/
def Transaction (db : Database)
    (fc : Database → List Statement → Database × List Statement × Option String) :
    Database × Option String :=
  match fc db [] with
  | (db1, _, some err) => (db1, some err)
  | (db1, held, none) => (held.foldl Database.execute db1, none)

/-- What FinalSave consumes from outside the committer file: whether the insert of a
compressed block and the update of a block row fail. -/
structure FinalSaveCollaborators where
  CreateCompressedBlock : CompressedBlock → Option String
  UpdateBlockToPendingInTransact : Nat → Option String

/-- The closure that `finalSaveBlockDataFunc` passes to `Transaction` (lines 1267-1283).
`CreateCompressedBlock(blockStates.CompressedBlock)` is called on the model without the
handle `tx`, so its insert is issued on the connection;
`UpdateBlockToPendingInTransact(tx, blockStates.Block.ID)` is issued on the handle. -/
def finalSaveStatements (env : FinalSaveCollaborators) (blockStates : BlockStates)
    (db : Database) (tx : List Statement) : Database × List Statement × Option String :=
  let created : Database × Option String :=
    match blockStates.CompressedBlock with
    | some row =>
      match env.CreateCompressedBlock row with
      | some err => (db, some err)
      | none => (db.execute (.insertCompressedBlock row), none)
    | none => (db, none)
  match created with
  | (db1, some err) => (db1, tx, some err)
  | (db1, none) =>
    match env.UpdateBlockToPendingInTransact blockStates.Block.ID with
    | some err => (db1, tx, some err)
    | none => (db1, tx ++ [.updateBlockToPending blockStates.Block.ID], none)

/-- The state FinalSave leaves: the database, the pruned-height watermark, and whether the
stage panicked. -/
structure FinalSaveOutcome where
  db : Database
  prunedBlockHeight : Int
  panicked : Bool
  deriving DecidableEq, Repr

/-- Modelled from the spec: `Statedb.UpdatePrunedBlockHeight(h)`, whose code is not among
the sources, advances the in-memory pruned-height watermark to `h`; the result is the new
watermark. -/
@[reducible]
def UpdatePrunedBlockHeight (h : Int) : Int := h

/-- The embedding of `finalSaveBlockDataFunc`. -/
def finalSaveBlockDataFunc (env : FinalSaveCollaborators) (db : Database)
    (prunedBlockHeight : Int) (blockStates : BlockStates) : FinalSaveOutcome :=
  match Transaction db (finalSaveStatements env blockStates) with
  | (db1, some _) => { db := db1, prunedBlockHeight := prunedBlockHeight, panicked := true }
  | (db1, none) =>
    { db := db1,
      prunedBlockHeight := UpdatePrunedBlockHeight blockStates.Block.BlockHeight,
      panicked := false }

/-! ## Start-up (`NewCommitter`, `Run`) -/

/-- The eight workers of the pipeline. -/
inductive Worker where
  | executeTxWorker
  | updatePoolTxWorker
  | syncAccountToRedisWorker
  | updateAccountAssetTreeWorker
  | updateAccountTreeAndNftTreeWorker
  | preSaveBlockDataWorker
  | saveBlockDataWorker
  | finalSaveBlockDataWorker
  deriving DecidableEq, Repr

/-- The calls that start-up can make, as far as their order matters. -/
inductive StartupCall where
  | NewBlockChain
  | registerMetrics
  | NewPool
  | createWorker (w : Worker)
  | startWorker (w : Worker)
  | restoreExecutedTxs
  | loadAllAccounts
  | pullPoolTxs2
  deriving DecidableEq, Repr

/-- What start-up consumes from outside the committer file: the errors of
`core.NewBlockChain` and of the first failing `prometheus.Register` (if any), and whether
`loadAllAccounts` returns (it panics on a database error). -/
structure StartupCollaborators where
  NewBlockChain : Option String
  Register : Option String
  loadAllAccountsReturns : Bool

/-- The embedding of `NewCommitter`: the committer, or the error, together with the calls
made. -/
def NewCommitter (env : StartupCollaborators) (config : BlockConfig) :
    Except String Committer × List StartupCall :=
  if config.OptionalBlockSizes.length = 0 then
    (.error "nil optional block sizes", [])
  else
    match env.NewBlockChain with
    | some err => (.error ("new blockchain error: " ++ err), [.NewBlockChain])
    | none =>
      match env.Register with
      | some err => (.error ("prometheus.Register error: " ++ err),
          [.NewBlockChain, .registerMetrics])
      | none =>
        (.ok { running := true,
               config := config,
               maxTxsPerBlock := config.OptionalBlockSizes.getLastD 0,
               optionalBlockSizes := config.OptionalBlockSizes },
         [.NewBlockChain, .registerMetrics, .NewPool])

/-- The embedding of `Run` (lines 454-490): the calls it makes, in order.  The eight
workers are created and started, then `loadAllAccounts` runs, and when it has returned
the puller `pullPoolTxs2` is entered. -/
def Run (env : StartupCollaborators) : List StartupCall :=
  [ .createWorker .executeTxWorker,
    .createWorker .updatePoolTxWorker,
    .createWorker .syncAccountToRedisWorker,
    .createWorker .updateAccountAssetTreeWorker,
    .createWorker .updateAccountTreeAndNftTreeWorker,
    .createWorker .preSaveBlockDataWorker,
    .createWorker .saveBlockDataWorker,
    .createWorker .finalSaveBlockDataWorker,
    .startWorker .executeTxWorker,
    .startWorker .syncAccountToRedisWorker,
    .startWorker .updatePoolTxWorker,
    .startWorker .updateAccountAssetTreeWorker,
    .startWorker .updateAccountTreeAndNftTreeWorker,
    .startWorker .preSaveBlockDataWorker,
    .startWorker .saveBlockDataWorker,
    .startWorker .finalSaveBlockDataWorker,
    .loadAllAccounts ] ++
  (if env.loadAllAccountsReturns then [.pullPoolTxs2] else [])

/-- Start-up: `NewCommitter` followed, when it returned a committer, by `Run`. -/
def startup (env : StartupCollaborators) (config : BlockConfig) : List StartupCall :=
  match NewCommitter env config with
  | (.ok _, calls) => calls ++ Run env
  | (.error _, calls) => calls

/-! ## A concrete environment for worked examples

Tx types: 2 is a deposit (a priority operation), 4 a transfer, 0 the empty type that no
executor accepts.  A transfer pays a fee of 5 on asset 1. -/

/-- A pool tx with the given id, type and hash. -/
def poolTx (id : Nat) (txType : Int) (txHash : String) : Tx :=
  { ID := id, TxType := txType, TxHash := txHash, TxStatus := 0, BlockHeight := -1,
    CreatedAt := 0, TxDetails := [] }

/-- A gas account (index 1) that holds 100 of asset 1. -/
def sampleGasAccount : AccountInfo :=
  { AccountIndex := 1, Nonce := 0,
    AssetInfo := [(1, { Balance := 100, OfferCanceledOrFinalized := 7 })] }

/-- An open block of height 1 in status `Proposing` (0), created at instant 0. -/
def sampleBlock : Block :=
  { ID := 1, BlockHeight := 1, BlockSize := 0, BlockStatus := 0, CreatedAt := 0, Txs := [],
    AccountIndexes := "", NftIndexes := "" }

/-- A rollup state with the open block, no txs, and the gas account pending. -/
def sampleBlockChain : BlockChain :=
  { currentBlock := sampleBlock,
    Statedb := { Txs := [], PendingAccountMap := [(1, sampleGasAccount)], PendingNftMap := [],
                 PendingGasMap := [] } }

/-- The rollup state `sampleBlockChain` without the gas account in the pending map. -/
def sampleBlockChainNoGas : BlockChain :=
  { currentBlock := sampleBlock,
    Statedb := { Txs := [], PendingAccountMap := [], PendingNftMap := [],
                 PendingGasMap := [] } }

/-- The sample `ApplyTransaction`: the empty tx type is rejected; any other tx is stamped
with the height of the open block and appended to `Txs`, and a transfer adds its fee of 5
to `PendingGasMap[1]`. -/
def sampleApplyTransaction (bc : BlockChain) (t : Tx) : BlockChain × Tx × Option String :=
  if t.TxType = 0 then
    (bc, t, some "unknown tx type")
  else
    let stamped := { t with BlockHeight := bc.currentBlock.BlockHeight }
    let gas :=
      if t.TxType = 4 then
        GoMap.set bc.Statedb.PendingGasMap 1 ((GoMap.get bc.Statedb.PendingGasMap 1).getD 0 + 5)
      else
        bc.Statedb.PendingGasMap
    ({ bc with Statedb := { bc.Statedb with Txs := bc.Statedb.Txs ++ [stamped],
                                            PendingGasMap := gas } },
     stamped, none)

/-- The sample `InitNewBlock`: a block one higher in status `Proposing`, an empty state
cache but for the gas account, which stays pending. -/
def sampleInitNewBlock (bc : BlockChain) : BlockChain × Option String :=
  ({ currentBlock := { bc.currentBlock with
        ID := bc.currentBlock.ID + 1,
        BlockHeight := bc.currentBlock.BlockHeight + 1,
        BlockStatus := 0 },
     Statedb := { Txs := [],
                  PendingAccountMap :=
                    match GoMap.get bc.Statedb.PendingAccountMap 1 with
                    | some gasAccount => [(1, gasAccount)]
                    | none => [],
                  PendingNftMap := [],
                  PendingGasMap := [] } },
   none)

/-- The sample environment.  The request id of a priority tx is read off `requestIds` by
the tx hash; the clock stands still at instant 0; the `k`-th poll of the queue yields
`drains k`. -/
def sampleCollaborators (requestIds : List (String × Int)) (drains : Nat → List Tx) :
    Collaborators :=
  { IsPriorityOperationTx := fun txType => txType = 2,
    StatusProposing := 0,
    StatusFailed := 6,
    GasAccount := 1,
    ApplyTransaction := sampleApplyTransaction,
    InitNewBlock := sampleInitNewBlock,
    GetPriorityRequestsByL2TxHash := fun h =>
      match requestIds.lookup h with
      | some r => .ok { RequestId := r, L1BlockHeight := 0, L2TxHash := h }
      | none => .error "record not found",
    CreateBlockInTransact := fun b => (b, none),
    GetLatestTx := .notFound,
    clock := fun _ => 0,
    drain := drains }

/-- A committer with the slot sizes 2, 4 and 8. -/
def sampleCommitter : Committer :=
  { running := true,
    config := { OptionalBlockSizes := [2, 4, 8], BlockSaveDisabled := false,
                SaveBlockDataPoolSize := 100 },
    maxTxsPerBlock := 8,
    optionalBlockSizes := [2, 4, 8] }

/-- The request ids that the priority-request check accepted, in order. -/
def acceptedRequestIds : List Event → List Int
  | [] => []
  | .priorityAccepted _ requestId :: rest => requestId :: acceptedRequestIds rest
  | _ :: rest => acceptedRequestIds rest

/-- The txs for which `ApplyTransaction` returned `nil`, in order. -/
def appliedTxs : List Event → List Tx
  | [] => []
  | .applied t :: rest => t :: appliedTxs rest
  | _ :: rest => appliedTxs rest

/-- The update batches (`PendingUpdatePoolTxs`) handed to the PoolTxUpdater, in order. -/
def updateBatches : List Event → List (List Tx)
  | [] => []
  | .enqueueUpdatePoolTx batch :: rest =>
    match batch.PendingUpdatePoolTxs with
    | some txs => txs :: updateBatches rest
    | none => updateBatches rest
  | _ :: rest => updateBatches rest

/-- A hand-off record whose state cache holds three txs. -/
def threeTxsCopy : StateDataCopy :=
  { StateCache := { Txs := [poolTx 1 4 "t", poolTx 2 4 "t", poolTx 3 4 "t"],
                    PendingAccountMap := [], PendingNftMap := [], PendingGasMap := [] },
    CurrentBlock := sampleBlock }

/-- A rollup state whose open block was created at 0.9 s and holds one tx. -/
def oneTxBlockChain : BlockChain :=
  { currentBlock := { sampleBlock with CreatedAt := 900000000 },
    Statedb := { Txs := [poolTx 1 4 "t"], PendingAccountMap := [], PendingNftMap := [],
                 PendingGasMap := [] } }

/-- The balance of an asset of an account, 0 when the account does not hold the asset. -/
def balanceOf (formatAccount : AccountInfo) (assetId : Int) : Int :=
  match GoMap.get formatAccount.AssetInfo assetId with
  | some asset => asset.Balance
  | none => 0

/-- The asset that the fold leaves for an amount `delta`, given the asset before the fold
(`none` when the account did not hold it). -/
def foldedAsset (before : Option AccountAsset) (delta : Int) : AccountAsset :=
  match before with
  | some asset => { asset with Balance := asset.Balance + delta }
  | none => { Balance := delta, OfferCanceledOrFinalized := 0 }

/-- Every value of a pending account map is stored under its own `AccountIndex`. -/
def KeyedByIndex (m : GoMap AccountInfo) : Prop := ∀ e ∈ m, e.2.AccountIndex = e.1

/-- A state cache in which three fees of 5 on asset 1 have accumulated and the gas
account (index 1) is pending. -/
def threeFeesCache : StateCache :=
  { Txs := [], PendingAccountMap := [(1, sampleGasAccount)], PendingNftMap := [],
    PendingGasMap := [(1, 5 + 5 + 5)] }

/-! ## Relations that the executor's steps compose -/

/-- The executor state once the gas is folded and the round's two enqueues are made
(lines 774-795), with the clock reading of the commit check that follows counted. -/
def afterPublish (env : Collaborators) (st : ExecutorState) : ExecutorState :=
  { st with
    bc := { st.bc with Statedb := foldGas env.GasAccount st.bc.Statedb },
    clockReads := st.clockReads + 1,
    position := .loopHead }

/-- A relation `P` between the executor state before, the events emitted, and the state
after is compositional when it holds of each basic action of the executor and is closed
under sequencing.  The basic actions are: bookkeeping that leaves the rollup state,
`latestRequestId` and `pendingUpdatePoolTxs` alone (`frame`), the loop body for one pool
tx (`pool`), the fold of the gas and the two enqueues that end a round (`publish`), the
commit of a block (`commit`), the flush of the idle loop (`flush`), and the opening of a
block at the loop head when the open block is past `Proposing` (`init`).  `S` is a
property of the rollup state that the publish step establishes and that a commit and the
opening of a block may rely on and must keep. -/
structure Compositional (env : Collaborators) (c : Committer)
    (P : ExecutorState → List Event → ExecutorState → Prop) (S : BlockChain → Prop) :
    Prop where
  trans : ∀ st1 evs1 st2 evs2 st3, P st1 evs1 st2 → P st2 evs2 st3 → P st1 (evs1 ++ evs2) st3
  frame : ∀ st st1 : ExecutorState, st1.bc = st.bc → st1.latestRequestId = st.latestRequestId →
    st1.pendingUpdatePoolTxs = st.pendingUpdatePoolTxs → P st [] st1
  pool : ∀ st t st1 evs, executePoolTx env c st t = .ok (st1, evs) → P st evs st1
  publish : ∀ st : ExecutorState,
    P st
      [enqueueSyncAccountToRedis (foldGas env.GasAccount st.bc.Statedb).PendingAccountMap
         (foldGas env.GasAccount st.bc.Statedb).PendingNftMap,
       enqueueUpdatePoolTx none (some st.pendingDeletePoolTxs)]
      (afterPublish env st)
  published : ∀ st : ExecutorState, S (afterPublish env st).bc
  commit : ∀ st st1 evs, S st.bc → commitBlock env st = .ok (st1, evs) →
    P st evs st1 ∧ S st1.bc
  flush : ∀ st, P st (flushPendingUpdates st).2 (flushPendingUpdates st).1
  init : ∀ (st : ExecutorState) bc1, S st.bc →
    st.bc.currentBlock.BlockStatus > env.StatusProposing →
    env.InitNewBlock st.bc = (bc1, none) →
    P st [.initNewBlock bc1.currentBlock] { st with bc := bc1 } ∧ S bc1

/-! ## Priority-request continuity -/

/-- The step rule of the priority-request check between two consecutive accepted request
ids: unless the earlier id is the value -1 that stands for "none yet", the later id is
the earlier one plus one (in `int64` arithmetic). -/
def NextRequestId (a b : Int) : Prop := a ≠ -1 → b = wrapInt64 (a + 1)

/-- The accepted request ids `ids` follow the step rule, starting after `latest`. -/
def RequestChain : Int → List Int → Prop
  | _, [] => True
  | latest, x :: rest => NextRequestId latest x ∧ RequestChain x rest

/-- The last of the ids `ids`, or `latest` when there is none. -/
def lastRequestId : Int → List Int → Int
  | latest, [] => latest
  | _, x :: rest => lastRequestId x rest

/-- The relation of priority-request continuity across a stretch of the run. -/
def RequestLinked (st : ExecutorState) (evs : List Event) (st1 : ExecutorState) : Prop :=
  RequestChain st.latestRequestId (acceptedRequestIds evs) ∧
  st1.latestRequestId = lastRequestId st.latestRequestId (acceptedRequestIds evs)

/-- The result of a run that did not panic (and a default value for one that did). -/
def resultOf (r : Except Panic (ExecutorState × List Event)) : ExecutorState × List Event :=
  match r with
  | .ok x => x
  | .error _ => (initialExecutorState sampleBlockChain 0, [])

/-- The queue yields two deposits with hashes `a` and `b` at the first poll, then
nothing. -/
def twoDeposits : Nat → List Tx :=
  fun k => if k = 0 then [poolTx 1 2 "a", poolTx 2 2 "b"] else []

/-! ## The pending update batch -/

/-- The list `pendingUpdatePoolTxs` as the events determine it, starting from `pending`:
a tx that was applied is appended; an enqueue that carries an update batch (the flush of
the idle loop) and a commit of the block (the hand-off to the asset-tree stage) both
empty the list. -/
def pendingAfter : List Tx → List Event → List Tx
  | pending, [] => pending
  | pending, .applied t :: rest => pendingAfter (pending ++ [t]) rest
  | pending, .enqueueUpdatePoolTx batch :: rest =>
    match batch.PendingUpdatePoolTxs with
    | some _ => pendingAfter [] rest
    | none => pendingAfter pending rest
  | _, .enqueueUpdateAccountAssetTree _ :: rest => pendingAfter [] rest
  | pending, .parked _ :: rest => pendingAfter pending rest
  | pending, .applyFailed _ :: rest => pendingAfter pending rest
  | pending, .priorityAccepted _ _ :: rest => pendingAfter pending rest
  | pending, .createNewBlock _ :: rest => pendingAfter pending rest
  | pending, .enqueueSyncAccountToRedis _ :: rest => pendingAfter pending rest
  | pending, .initNewBlock _ :: rest => pendingAfter pending rest

/-- Every update batch among the events is the list pending at that point (not empty),
and comes without a delete batch. -/
def UpdateBatchesExact : List Tx → List Event → Prop
  | _, [] => True
  | pending, .applied t :: rest => UpdateBatchesExact (pending ++ [t]) rest
  | pending, .enqueueUpdatePoolTx batch :: rest =>
    match batch.PendingUpdatePoolTxs with
    | some txs =>
      (txs = pending ∧ txs ≠ [] ∧ batch.PendingDeletePoolTxs = none) ∧
        UpdateBatchesExact [] rest
    | none => UpdateBatchesExact pending rest
  | _, .enqueueUpdateAccountAssetTree _ :: rest => UpdateBatchesExact [] rest
  | pending, .parked _ :: rest => UpdateBatchesExact pending rest
  | pending, .applyFailed _ :: rest => UpdateBatchesExact pending rest
  | pending, .priorityAccepted _ _ :: rest => UpdateBatchesExact pending rest
  | pending, .createNewBlock _ :: rest => UpdateBatchesExact pending rest
  | pending, .enqueueSyncAccountToRedis _ :: rest => UpdateBatchesExact pending rest
  | pending, .initNewBlock _ :: rest => UpdateBatchesExact pending rest

/-- The relation between the list `pendingUpdatePoolTxs` and the events across a stretch
of the run. -/
def UpdateLinked (st : ExecutorState) (evs : List Event) (st1 : ExecutorState) : Prop :=
  UpdateBatchesExact st.pendingUpdatePoolTxs evs ∧
  st1.pendingUpdatePoolTxs = pendingAfter st.pendingUpdatePoolTxs evs

/-- The queue yields eight transfers with ids 1 to 8 at the first poll, then nothing. -/
def eightTransfers : Nat → List Tx :=
  fun k => if k = 0 then (List.range 8).map (fun i => poolTx (i + 1) 4 "t") else []

/-- The queue yields three transfers with ids 1 to 3 at the first poll, then nothing. -/
def threeTransfers : Nat → List Tx :=
  fun k => if k = 0 then (List.range 3).map (fun i => poolTx (i + 1) 4 "t") else []

/-- A pool tx of the empty type (no executor accepts it), followed by a transfer. -/
def rejectedThenTransfer : List Tx := [poolTx 1 0 "x", poolTx 2 4 "t"]

/-! ## Gas accounting across the run -/

/-- The gas account's balance of an asset as the pending account map shows it; 0 when the
gas account or the asset is absent. -/
def gasBalance (gasAccount : Int) (bc : BlockChain) (assetId : Int) : Int :=
  match GoMap.get bc.Statedb.PendingAccountMap gasAccount with
  | some formatAccount => balanceOf formatAccount assetId
  | none => 0

/-- The amount of an asset in `PendingGasMap`; 0 when the asset has no entry. -/
def pendingGas (bc : BlockChain) (assetId : Int) : Int :=
  (GoMap.get bc.Statedb.PendingGasMap assetId).getD 0

/-- The pending maps are Go maps, every account is stored under its index, and the gas
account is in the pending account map. -/
def GasReady (gasAccount : Int) (sc : StateCache) : Prop :=
  GoMap.WF sc.PendingAccountMap ∧ KeyedByIndex sc.PendingAccountMap ∧
  GoMap.WF sc.PendingGasMap ∧ gasAccount ∈ GoMap.keys sc.PendingAccountMap

/-- What the gas accounting assumes of the rollup state, for a given gas contribution
`contribution t assetId` of each tx.

* A successful `ApplyTransaction` adds the tx's contribution to `PendingGasMap` and leaves
  the gas account's balances alone.
* A failed `ApplyTransaction` changes neither.
* `InitNewBlock` starts the new block with no pending gas, and keeps the gas account
  pending with its balances.

Each keeps the pending maps well formed with the gas account pending. -/
structure GasFaithful (env : Collaborators) (contribution : Tx → Int → Int) : Prop where
  applied : ∀ bc t bc1 t1, env.ApplyTransaction bc t = (bc1, t1, none) →
    GasReady env.GasAccount bc.Statedb →
    GasReady env.GasAccount bc1.Statedb ∧
    ∀ a, gasBalance env.GasAccount bc1 a = gasBalance env.GasAccount bc a ∧
      pendingGas bc1 a = pendingGas bc a + contribution t1 a
  failed : ∀ bc t bc1 t1 err, env.ApplyTransaction bc t = (bc1, t1, some err) →
    GasReady env.GasAccount bc.Statedb →
    GasReady env.GasAccount bc1.Statedb ∧
    ∀ a, gasBalance env.GasAccount bc1 a = gasBalance env.GasAccount bc a ∧
      pendingGas bc1 a = pendingGas bc a
  opened : ∀ bc bc1, env.InitNewBlock bc = (bc1, none) →
    (∀ a, pendingGas bc1 a = 0) ∧
    (GasReady env.GasAccount bc.Statedb →
      GasReady env.GasAccount bc1.Statedb ∧
      ∀ a, gasBalance env.GasAccount bc1 a = gasBalance env.GasAccount bc a)

/-- The sum of the gas contributions on an asset of the txs that were applied. -/
def contributed (contribution : Tx → Int → Int) (evs : List Event) (assetId : Int) : Int :=
  ((appliedTxs evs).map (fun t => contribution t assetId)).sum

/-- The gas relation across a stretch of the run: the gas account's balance plus the
pending gas grows by what the applied txs contributed. -/
def GasLinked (env : Collaborators) (contribution : Tx → Int → Int) (st : ExecutorState)
    (evs : List Event) (st1 : ExecutorState) : Prop :=
  GasReady env.GasAccount st.bc.Statedb →
  GasReady env.GasAccount st1.bc.Statedb ∧
  ∀ a, gasBalance env.GasAccount st1.bc a + pendingGas st1.bc a =
    gasBalance env.GasAccount st.bc a + pendingGas st.bc a + contributed contribution evs a

/-- No gas is pending (once the pending maps are well formed with the gas account
pending). -/
def GasSettled (env : Collaborators) (bc : BlockChain) : Prop :=
  GasReady env.GasAccount bc.Statedb → ∀ a, pendingGas bc a = 0

/-- The gas contribution in the sample environment: a transfer pays 5 on asset 1. -/
def sampleContribution (t : Tx) (assetId : Int) : Int :=
  if t.TxType = 4 ∧ assetId = 1 then 5 else 0

/-! ## Samples for the puller, FinalSave and start-up -/

/-- The ids of the pool txs handed to the executor queue, in order. -/
def enqueuedIds (evs : List PullEvent) : List Nat := (enqueuedTxs evs).map (fun t => t.ID)

/-- The last of the ids `ids`, or `latest` when there is none. -/
def lastIdFrom : Nat → List Nat → Nat
  | latest, [] => latest
  | _, x :: rest => lastIdFrom x rest

/-- A pending pool row with the given id and creation instant. -/
def poolRow (id : Nat) (createdAt : Int) : Tx :=
  { ID := id, TxType := 4, TxHash := "t", TxStatus := 0, BlockHeight := -1,
    CreatedAt := createdAt, TxDetails := [] }

/-- The pool of scenario S6 as the `k`-th fetch finds it: rows 1, 2 and 4 at first, row 3
from the second fetch on.  Row 4 was created at 5 s, row 3 at 7 s. -/
def samplePool (k : Nat) : List Tx :=
  if k = 0 then [poolRow 1 0, poolRow 2 0, poolRow 4 5000000000]
  else [poolRow 1 0, poolRow 2 0, poolRow 3 7000000000, poolRow 4 5000000000]

/-- A sample puller environment: no executed tx at start-up, fetches that return the rows
of `samplePool` above the given id (at most `limit` of them), a clock that reads 6 s,
`running` always set, and an executor queue that is always empty. -/
def samplePullerCollaborators : PullerCollaborators :=
  { GetLatestExecutedTx := .ok none,
    GetTxsByStatusAndMaxId := fun k maxId limit =>
      .ok (((samplePool k).filter (fun row => maxId < row.ID)).take limit.toNat),
    now := fun _ => 6000000000,
    running := fun _ => true,
    GetQueueSize := fun _ => 0 }

/-- The sample puller environment with an executor queue that holds 5000 items at every
reading. -/
def congestedPullerCollaborators : PullerCollaborators :=
  { samplePullerCollaborators with GetQueueSize := fun _ => 5000 }

/-- Block states of block 7 with a compressed block. -/
def sampleBlockStates : BlockStates :=
  { Block := { sampleBlock with ID := 7, BlockHeight := 7 },
    CompressedBlock := some { BlockHeight := 7, BlockSize := 2 },
    PendingAccount := [], PendingAccountHistory := [], PendingNft := [] }

/-- FinalSave collaborators for which the insert of the compressed block succeeds and the
update of the block row to `Pending` fails. -/
def updateFails : FinalSaveCollaborators :=
  { CreateCompressedBlock := fun _ => none,
    UpdateBlockToPendingInTransact := fun _ => some "update block failed" }

/-- An empty database. -/
def emptyDatabase : Database := { compressedBlockRows := [], pendingBlockIds := [] }

/-- Start-up collaborators for which nothing fails. -/
def startupSucceeds : StartupCollaborators :=
  { NewBlockChain := none, Register := none, loadAllAccountsReturns := true }

/-! ## Samples for the configuration and the priority-request check -/

/-- A configuration whose slot sizes are not in ascending order. -/
def descendingConfig : BlockConfig :=
  { OptionalBlockSizes := [8, 4, 2], BlockSaveDisabled := false, SaveBlockDataPoolSize := 100 }

/-- An executor state at the loop head whose open block is empty. -/
def sampleExecutorState : ExecutorState := initialExecutorState sampleBlockChain (-1)

/-! ## Start-up recovery (`restoreExecutedTxs`) -/

/-- What `restoreExecutedTxs` consumes from outside the committer file: the three loads,
the status constants, and the two calls on the rollup state, which return the state as
they left it and the error if any. -/
structure RestoreCollaborators where
  GetCurrentBlockHeight : Except String Int
  GetBlockByHeight : Int → Except String Block
  GetTxsByStatus : Int → Except String (List Tx)
  StatusExecuted : Int
  StatusProposing : Int
  MarkGasAccountAsPending : BlockChain → BlockChain × Option String
  ApplyTransaction : BlockChain → Tx → BlockChain × Tx × Option String

/-- The calls that `restoreExecutedTxs` makes on the rollup state, in order. -/
inductive RestoreCall where
  | MarkGasAccountAsPending
  | ApplyTransaction (executedTx : Tx)
  deriving DecidableEq, Repr

/-- The loop `for _, executedTx := range executedTxs` (lines 1334-1339): the error that
ended it (if any), the rollup state, and the calls made. -/
def replayExecutedTxs (env : RestoreCollaborators) :
    List Tx → BlockChain → Option String × BlockChain × List RestoreCall
  | [], bc => (none, bc, [])
  | executedTx :: rest, bc =>
    match env.ApplyTransaction bc executedTx with
    | (bc1, _, some err) => (some err, bc1, [.ApplyTransaction executedTx])
    | (bc1, _, none) =>
      let r := replayExecutedTxs env rest bc1
      (r.1, r.2.1, .ApplyTransaction executedTx :: r.2.2)

/-- The embedding of `restoreExecutedTxs`: the block or the error it returns, the rollup
state it leaves, and the calls it made on the rollup state. -/
def restoreExecutedTxs (env : RestoreCollaborators) (bc : BlockChain) :
    Except String Block × BlockChain × List RestoreCall :=
  match env.GetCurrentBlockHeight with
  | .error err => (.error err, bc, [])
  | .ok curHeight =>
    match env.GetBlockByHeight curHeight with
    | .error err => (.error err, bc, [])
    | .ok curBlock =>
      match env.GetTxsByStatus env.StatusExecuted with
      | .error err => (.error err, bc, [])
      | .ok executedTxs =>
        if curBlock.BlockStatus > env.StatusProposing then
          if executedTxs.length ≠ 0 then
            (.error "no proposing block but exist executed txs", bc, [])
          else
            (.ok curBlock, bc, [])
        else
          match env.MarkGasAccountAsPending bc with
          | (bc1, some err) => (.error err, bc1, [.MarkGasAccountAsPending])
          | (bc1, none) =>
            let r := replayExecutedTxs env executedTxs bc1
            (match r.1 with
              | some err => .error err
              | none => .ok curBlock,
             r.2.1, .MarkGasAccountAsPending :: r.2.2)

/-- A sample recovery environment: the current block is `curBlock`, the Executed pool txs
are `executedTxs`, `MarkGasAccountAsPending` fails when `markFails` is set, and
`ApplyTransaction` is the sample one. -/
def sampleRestore (curBlock : Block) (executedTxs : List Tx) (markFails : Bool) :
    RestoreCollaborators :=
  { GetCurrentBlockHeight := .ok curBlock.BlockHeight,
    GetBlockByHeight := fun _ => .ok curBlock,
    GetTxsByStatus := fun _ => .ok executedTxs,
    StatusExecuted := 2,
    StatusProposing := 0,
    MarkGasAccountAsPending := fun bc =>
      if markFails then (bc, some "gas account not found") else (bc, none),
    ApplyTransaction := sampleApplyTransaction }

/-- Three Executed pool txs: a transfer, a tx of the empty type (which the sample
`ApplyTransaction` rejects), and another transfer. -/
def executedWithRejected : List Tx := [poolTx 1 4 "t", poolTx 2 0 "x", poolTx 3 4 "t"]

/-! ## PreSave (`preSaveBlockDataFunc`) and the persistence stages -/

/-- The JSON text that `json.Marshal` produces for a slice of `int64` (a list in square
brackets, the elements separated by commas); marshalling such a slice does not fail. -/
def marshalIndexes (indexes : List Int) : String :=
  "[" ++ ",".intercalate (indexes.map toString) ++ "]"

/-- What PreSave leaves: the pruned-height watermark, the block states as the stage left
them, the block row written (if any), the block states enqueued to the Save stage (if
any), and whether the stage panicked. -/
structure PreSaveOutcome where
  prunedBlockHeight : Int
  blockStates : BlockStates
  blockRowWritten : Option Block
  forwarded : Option BlockStates
  panicked : Bool
  deriving DecidableEq, Repr

/-- The embedding of `preSaveBlockDataFunc`.  `PreSaveBlockData` is the DAO call: its
error, if any. -/
def preSaveBlockDataFunc (c : Committer) (PreSaveBlockData : Block → Option String)
    (prunedBlockHeight : Int) (blockStates : BlockStates) : PreSaveOutcome :=
  if c.config.BlockSaveDisabled then
    { prunedBlockHeight := UpdatePrunedBlockHeight blockStates.Block.BlockHeight,
      blockStates := blockStates,
      blockRowWritten := none,
      forwarded := none,
      panicked := false }
  else
    let accountIndexes := blockStates.PendingAccount.map (fun accountInfo => accountInfo.AccountIndex)
    let nftIndexes := blockStates.PendingNft.map (fun nftInfo => nftInfo.NftIndex)
    let marked : BlockStates :=
      { blockStates with
        Block := { blockStates.Block with
          AccountIndexes := marshalIndexes accountIndexes,
          NftIndexes := marshalIndexes nftIndexes } }
    match PreSaveBlockData marked.Block with
    | some _ =>
      { prunedBlockHeight := prunedBlockHeight,
        blockStates := marked,
        blockRowWritten := none,
        forwarded := none,
        panicked := true }
    | none =>
      { prunedBlockHeight := prunedBlockHeight,
        blockStates := marked,
        blockRowWritten := some marked.Block,
        forwarded := some marked,
        panicked := false }

/-- What the persistence stages consume from outside: the DAO call of PreSave, the Save
stage as a whole (the block states it forwards to FinalSave, or `none` when it panics),
and the collaborators of FinalSave. -/
structure PersistenceCollaborators where
  PreSaveBlockData : Block → Option String
  saveBlockData : BlockStates → Option BlockStates
  finalSave : FinalSaveCollaborators

/-- The three persistence stages. -/
inductive Stage where
  | PreSave
  | Save
  | FinalSave
  deriving DecidableEq, Repr

/-- The state of the persistence stages: the three input queues, the block rows written by
PreSave, the database of FinalSave, the pruned-height watermark, the heights of the blocks
that completed FinalSave (in order), and whether a stage panicked. -/
structure PersistenceState where
  preSaveQueue : List BlockStates
  saveQueue : List BlockStates
  finalSaveQueue : List BlockStates
  blockRows : List Block
  db : Database
  prunedBlockHeight : Int
  finalSaved : List Int
  panicked : Bool
  deriving DecidableEq, Repr

/-- One step of a stage's worker: it takes the first item of its queue and runs the
stage function on it.  Nothing happens when the queue is empty, or once a stage has
panicked (a panic ends the process). -/
def stageStep (c : Committer) (env : PersistenceCollaborators) (st : PersistenceState) :
    Stage → PersistenceState
  | .PreSave =>
    if st.panicked then st
    else
      match st.preSaveQueue with
      | [] => st
      | blockStates :: rest =>
        let r := preSaveBlockDataFunc c env.PreSaveBlockData st.prunedBlockHeight blockStates
        { st with
          preSaveQueue := rest,
          saveQueue := st.saveQueue ++ r.forwarded.toList,
          blockRows := st.blockRows ++ r.blockRowWritten.toList,
          prunedBlockHeight := r.prunedBlockHeight,
          panicked := r.panicked }
  | .Save =>
    if st.panicked then st
    else
      match st.saveQueue with
      | [] => st
      | blockStates :: rest =>
        match env.saveBlockData blockStates with
        | none => { st with saveQueue := rest, panicked := true }
        | some saved =>
          { st with saveQueue := rest, finalSaveQueue := st.finalSaveQueue ++ [saved] }
  | .FinalSave =>
    if st.panicked then st
    else
      match st.finalSaveQueue with
      | [] => st
      | blockStates :: rest =>
        let r := finalSaveBlockDataFunc env.finalSave st.db st.prunedBlockHeight blockStates
        { st with
          finalSaveQueue := rest,
          db := r.db,
          prunedBlockHeight := r.prunedBlockHeight,
          finalSaved :=
            if r.panicked then st.finalSaved
            else st.finalSaved ++ [blockStates.Block.BlockHeight],
          panicked := r.panicked }

/-- The persistence stages run in the order of a schedule. -/
def runStages (c : Committer) (env : PersistenceCollaborators) :
    List Stage → PersistenceState → PersistenceState
  | [], st => st
  | stage :: rest, st => runStages c env rest (stageStep c env st stage)

/-- The persistence stages before any block arrived at FinalSave: `blocks` wait for
PreSave, and the watermark is `prunedBlockHeight`. -/
def initialPersistence (blocks : List BlockStates) (prunedBlockHeight : Int) :
    PersistenceState :=
  { preSaveQueue := blocks,
    saveQueue := [],
    finalSaveQueue := [],
    blockRows := [],
    db := emptyDatabase,
    prunedBlockHeight := prunedBlockHeight,
    finalSaved := [],
    panicked := false }

/-- The heights of the blocks of a queue. -/
def heights (queue : List BlockStates) : List Int :=
  queue.map (fun blockStates => blockStates.Block.BlockHeight)

/-- The heights of the blocks in the persistence stages, from the oldest on: those that
completed FinalSave, then those waiting for FinalSave, for Save and for PreSave. -/
def heightsInFlight (st : PersistenceState) : List Int :=
  st.finalSaved ++ heights st.finalSaveQueue ++ heights st.saveQueue ++ heights st.preSaveQueue

/-- A committer whose configuration disables the block save. -/
def saveDisabledCommitter : Committer :=
  { sampleCommitter with
    config := { sampleCommitter.config with BlockSaveDisabled := true } }

/-- Persistence collaborators for which nothing fails; the Save stage forwards the block
states as they are. -/
def persistenceSucceeds : PersistenceCollaborators :=
  { PreSaveBlockData := fun _ => none,
    saveBlockData := fun blockStates => some blockStates,
    finalSave := { CreateCompressedBlock := fun _ => none,
                   UpdateBlockToPendingInTransact := fun _ => none } }

/-- Block states of block 8, following `sampleBlockStates` (block 7). -/
def nextBlockStates : BlockStates :=
  { Block := { sampleBlock with ID := 8, BlockHeight := 8 },
    CompressedBlock := none,
    PendingAccount := [{ AccountIndex := 1, Nonce := 0 }, { AccountIndex := 5, Nonce := 2 }],
    PendingAccountHistory := [], PendingNft := [] }

/-! ## The gap rule of the puller, in the words of the specification -/

/-- The gap rule as the specification words it, on unbounded integers: walking the rows
of a fetched batch, a row whose id is not `executedTxMaxId + 1` and for which
`now − created_at < 5 s` stops the walk; every other row is dispatched and becomes the
new `executedTxMaxId`.  The result is the dispatched rows and whether the walk stopped at
a row.  `reads` counts the readings of the clock, one per row found with a gap. -/
def gapRule (now : Nat → Int) : Nat → Nat → List Tx → List Tx × Bool
  | _, _, [] => ([], false)
  | reads, executedTxMaxId, row :: rest =>
    if row.ID ≠ executedTxMaxId + 1 ∧ now reads - row.CreatedAt < 5 * nanosPerSecond then
      ([], true)
    else
      let r := gapRule now (if row.ID ≠ executedTxMaxId + 1 then reads + 1 else reads)
        row.ID rest
      (row :: r.1, r.2)

/-! ## Loading the accounts at start-up (`loadAllAccounts`) -/

/-- What `loadAllAccounts` consumes from outside the committer file.

* `GetUsers limit offset` is `c.bc.AccountModel.GetUsers`; `.ok none` is the nil slice.
* `ToFormatAccountInfo` is `chain.ToFormatAccountInfo`. -/
structure LoadCollaborators where
  GetUsers : Int → Int → Except String (Option (List Account))
  ToFormatAccountInfo : Account → Except String AccountInfo

/-- The local `offset` of `loadAllAccounts`, with the calls it has made so far: the
`(limit, offset)` of each `GetUsers` call and the key and value of each
`AccountCache.Add` call, in order. -/
structure LoadState where
  offset : Int
  requests : List (Int × Int)
  added : List (Int × AccountInfo)
  deriving DecidableEq, Repr

/-- The loop `for _, accountInfo := range accounts` of `loadAllAccounts`
(lines 1493-1501); the error is the panic message.  `offset` counts the accounts
received, so it stays far below the `int64` bound. -/
def addAccounts (env : LoadCollaborators) : List Account → LoadState → Except String LoadState
  | [], st => .ok st
  | accountInfo :: rest, st =>
    let st1 := { st with offset := st.offset + 1 }
    match env.ToFormatAccountInfo accountInfo with
    | .error err => .error ("load all accounts failed: " ++ err)
    | .ok formatAccount =>
      addAccounts env rest
        { st1 with added := st1.added ++ [(accountInfo.AccountIndex, formatAccount)] }

/-- The outer loop of `loadAllAccounts` (lines 1483-1502), run for at most `fuel`
iterations: `.ok none` when the fuel runs out before the loop returns, `.error` for a
panic. -/
def loadAllAccountsLoop (env : LoadCollaborators) :
    Nat → LoadState → Except String (Option LoadState)
  | 0, _ => .ok none
  | fuel + 1, st =>
    let limit : Int := 1000
    let st1 := { st with requests := st.requests ++ [(limit, st.offset)] }
    match env.GetUsers limit st.offset with
    | .error err => .error ("load all accounts failed: " ++ err)
    | .ok none => .ok (some st1)
    | .ok (some accounts) =>
      match addAccounts env accounts st1 with
      | .error err => .error err
      | .ok st2 => loadAllAccountsLoop env fuel st2

/-- The embedding of `loadAllAccounts`, with `fuel` bounding the iterations of its loop. -/
def loadAllAccounts (env : LoadCollaborators) (fuel : Nat) : Except String (Option LoadState) :=
  loadAllAccountsLoop env fuel { offset := 0, requests := [], added := [] }

/-- The store that the statement about `loadAllAccounts` assumes behind `GetUsers`: the
answer to `GetUsers limit offset` is the accounts at positions `[offset, offset + limit)`
of a fixed order, and nil when that range is empty. -/
def page (store : List Account) (limit offset : Int) : Option (List Account) :=
  match (store.drop offset.toNat).take limit.toNat with
  | [] => none
  | accountInfo :: rest => some (accountInfo :: rest)

/-- A sample formatting of an account row. -/
def sampleFormat (accountInfo : Account) : AccountInfo :=
  { AccountIndex := accountInfo.AccountIndex, Nonce := accountInfo.Nonce, AssetInfo := [] }

/-- Collaborators backed by a store of accounts, for which nothing fails. -/
def storeCollaborators (store : List Account) : LoadCollaborators :=
  { GetUsers := fun limit offset => .ok (page store limit offset),
    ToFormatAccountInfo := fun accountInfo => .ok (sampleFormat accountInfo) }

/-- The page requests that a store of `n` accounts receives: `pages + 1` requests of 1000
rows, the `k`-th at offset `min (1000 * k) n`. -/
def pageRequests (n : Nat) : List (Int × Int) :=
  (List.range ((n + 999) / 1000 + 1)).map
    (fun k => ((1000 : Int), ((min (1000 * k) n : Nat) : Int)))

/-- A sample store of `n` accounts, with the indexes `0, 1, …, n - 1`. -/
def sampleStore (n : Nat) : List Account :=
  (List.range n).map (fun i => Account.mk (Int.ofNat i) 0)

/-! ## Parked txs -/

/-- An instant whose whole seconds since the epoch are far inside the `int64` range, so
that the difference of two such readings does not wrap. -/
def InRange (t : Int) : Prop := -(2 ^ 62) ≤ Unix t ∧ Unix t < 2 ^ 62

/-- The txs that a round parked in `subPendingTxs`, in order. -/
def parkedTxs : List Event → List Tx
  | [] => []
  | .parked poolTx :: rest => poolTx :: parkedTxs rest
  | _ :: rest => parkedTxs rest

/-- A committer whose blocks hold at most two txs. -/
def twoTxCommitter : Committer :=
  { sampleCommitter with maxTxsPerBlock := 2, optionalBlockSizes := [2] }

/-- A round of the sample executor on three transfers, with blocks of at most two txs:
the round as it ends (the initial state if it panicked). -/
def parkedRound : ExecutorState × List Event :=
  resultOf (executeRound (sampleCollaborators [] (fun _ => [])) twoTxCommitter
    sampleExecutorState [poolTx 1 4 "t", poolTx 2 4 "t", poolTx 3 4 "t"])

/-! ## Samples for the block size in configuration order -/

/-- The committer that `NewCommitter` builds from `descendingConfig`: slots 8, 4, 2 and
the cap 2. -/
def descendingCommitter : Committer :=
  { running := true, config := descendingConfig, maxTxsPerBlock := 2,
    optionalBlockSizes := [8, 4, 2] }

/-- A committer with the slots 1 and 2. -/
def twoSlotCommitter : Committer :=
  { sampleCommitter with maxTxsPerBlock := 2, optionalBlockSizes := [1, 2] }

/-! ## Samples for the conservation of gas -/

/-- A rollup state whose state cache is `threeFeesCache`: the gas account holds 100 of
asset 1 and 15 of asset 1 are pending as gas. -/
def threeFeesBlockChain : BlockChain :=
  { currentBlock := sampleBlock, Statedb := threeFeesCache }

/-! ## Samples for the ids that the puller skips -/

/-- The sample puller environment with a clock that reads 11 s, so that row 4 (created at
5 s) is 6 s old when the first fetch finds it behind the gap. -/
def latePullerCollaborators : PullerCollaborators :=
  { samplePullerCollaborators with now := fun _ => 11000000000 }

/-! ## Signature bodies (`SignBodyGenerator.go`) -/

/-- An operand of `fmt.Sprintf`: an integer (printed by `%d`) or a string (printed by
`%s`). -/
inductive Operand where
  | int (value : Int)
  | str (value : String)
  deriving DecidableEq, Repr

/-- The embedding of `fmt.Sprintf` on the characters of a template, for the verbs `%d` and
`%s` with operands of the matching kind, which is how the signature functions call it:
`%d` prints an integer in decimal, `%s` prints a string as it is.  Any other character is
copied. -/
def formatChars : List Char → List Operand → List Char
  | [], _ => []
  | '%' :: 'd' :: rest, .int value :: operands =>
    (toString value).toList ++ formatChars rest operands
  | '%' :: 's' :: rest, .str value :: operands => value.toList ++ formatChars rest operands
  | ch :: rest, operands => ch :: formatChars rest operands

/-- The embedding of `fmt.Sprintf`. -/
def Sprintf (template : String) (operands : List Operand) : String :=
  String.mk (formatChars template.toList operands)

/-- The constant `SignatureTemplateWithdrawal`. -/
def SignatureTemplateWithdrawal : String := "Withdrawal %d to: %s\\nFee: %d %d\\nNonce: %d"

/-- The constant `SignatureTemplateTransfer`. -/
def SignatureTemplateTransfer : String := "Transfer %d %d to: %d\\nFee: %d %d\\nNonce: %d"

/-- The constant `SignatureTemplateCreateCollection`. -/
def SignatureTemplateCreateCollection : String :=
  "CreateCollection %d %d %s \\nFee: %d %d\\nNonce: %d"

/-- The constant `SignatureTemplateMintNft`. -/
def SignatureTemplateMintNft : String := "MintNFT %s for: %d\\nFee: %d %d\\nNonce: %d"

/-- The constant `SignatureTemplateTransferNft`. -/
def SignatureTemplateTransferNft : String :=
  "TransferNFT %d %d to %d \\nFee: %d %d\\nNonce: %d"

/-- The constant `SignatureTemplateWithdrawalNft`. -/
def SignatureTemplateWithdrawalNft : String :=
  "Withdrawal %d to: %s\\nFee: %d %d\\nNonce: %d"

/-- The constant `SignatureTemplateCancelOffer`. -/
def SignatureTemplateCancelOffer : String := "CancelOffer %d by: %d \\nFee: %d %d\\nNonce: %d"

/-- The constant `SignatureTemplateAtomicMatch`. -/
def SignatureTemplateAtomicMatch : String :=
  "AtomicMatch %d %d %d %d \\nFee: %d %d\\nNonce: %d"

/-- The fields of `types.WithdrawTxInfo` that the signature body reads. -/
structure WithdrawTxInfo where
  AssetAmount : Int
  ToAddress : String
  GasFeeAssetAmount : Int
  GasAccountIndex : Int
  Nonce : Int
  deriving DecidableEq, Repr

/-- The fields of `types.TransferTxInfo` that the signature body reads. -/
structure TransferTxInfo where
  AssetAmount : Int
  FromAccountIndex : Int
  ToAccountIndex : Int
  GasFeeAssetAmount : Int
  GasAccountIndex : Int
  Nonce : Int
  deriving DecidableEq, Repr

/-- The fields of `types.CreateCollectionTxInfo` that the signature body reads. -/
structure CreateCollectionTxInfo where
  CollectionId : Int
  AccountIndex : Int
  Name : String
  GasFeeAssetAmount : Int
  GasAccountIndex : Int
  Nonce : Int
  deriving DecidableEq, Repr

/-- The fields of `types.MintNftTxInfo` that the signature body reads. -/
structure MintNftTxInfo where
  ToAccountNameHash : String
  ToAccountIndex : Int
  GasFeeAssetAmount : Int
  GasAccountIndex : Int
  Nonce : Int
  deriving DecidableEq, Repr

/-- The fields of `types.TransferNftTxInfo` that the signature body reads. -/
structure TransferNftTxInfo where
  NftIndex : Int
  FromAccountIndex : Int
  ToAccountIndex : Int
  GasFeeAssetAmount : Int
  GasAccountIndex : Int
  Nonce : Int
  deriving DecidableEq, Repr

/-- The fields of `types.WithdrawNftTxInfo` that the signature body reads. -/
structure WithdrawNftTxInfo where
  NftIndex : Int
  ToAddress : String
  GasFeeAssetAmount : Int
  GasAccountIndex : Int
  Nonce : Int
  deriving DecidableEq, Repr

/-- The fields of `types.CancelOfferTxInfo` that the signature body reads. -/
structure CancelOfferTxInfo where
  OfferId : Int
  AccountIndex : Int
  GasFeeAssetAmount : Int
  GasAccountIndex : Int
  Nonce : Int
  deriving DecidableEq, Repr

/-- The fields of `types.OfferTxInfo` that the signature body reads. -/
structure OfferTxInfo where
  AssetAmount : Int
  OfferId : Int
  NftIndex : Int
  deriving DecidableEq, Repr

/-- The fields of `types.AtomicMatchTxInfo` that the signature body reads; a nil offer is
`none`. -/
structure AtomicMatchTxInfo where
  BuyOffer : Option OfferTxInfo
  SellOffer : Option OfferTxInfo
  AccountIndex : Int
  GasFeeAssetAmount : Int
  GasAccountIndex : Int
  Nonce : Int
  deriving DecidableEq, Repr

/-- What the signature functions consume from the package `types`, whose code is not
among the sources: the tx type constants and the parsers of the tx info. -/
structure SignatureCollaborators where
  TxTypeWithdraw : Int
  TxTypeTransfer : Int
  TxTypeCreateCollection : Int
  TxTypeMintNft : Int
  TxTypeTransferNft : Int
  TxTypeWithdrawNft : Int
  TxTypeCancelOffer : Int
  TxTypeAtomicMatch : Int
  ParseWithdrawTxInfo : String → Except String WithdrawTxInfo
  ParseTransferTxInfo : String → Except String TransferTxInfo
  ParseCreateCollectionTxInfo : String → Except String CreateCollectionTxInfo
  ParseMintNftTxInfo : String → Except String MintNftTxInfo
  ParseTransferNftTxInfo : String → Except String TransferNftTxInfo
  ParseWithdrawNftTxInfo : String → Except String WithdrawNftTxInfo
  ParseCancelOfferTxInfo : String → Except String CancelOfferTxInfo
  ParseAtomicMatchTxInfo : String → Except String AtomicMatchTxInfo

/-- The embedding of `SignatureForWithdrawal`. -/
def SignatureForWithdrawal (env : SignatureCollaborators) (txInfo : String) :
    Except String String :=
  match env.ParseWithdrawTxInfo txInfo with
  | .error _ => .error "invalid tx info"
  | .ok transaction =>
    .ok (Sprintf SignatureTemplateWithdrawal
      [.int transaction.AssetAmount, .str transaction.ToAddress,
       .int transaction.GasFeeAssetAmount, .int transaction.GasAccountIndex,
       .int transaction.Nonce])

/-- The embedding of `SignatureForTransfer`. -/
def SignatureForTransfer (env : SignatureCollaborators) (txInfo : String) :
    Except String String :=
  match env.ParseTransferTxInfo txInfo with
  | .error _ => .error "invalid tx info"
  | .ok transaction =>
    .ok (Sprintf SignatureTemplateTransfer
      [.int transaction.AssetAmount, .int transaction.FromAccountIndex,
       .int transaction.ToAccountIndex, .int transaction.GasFeeAssetAmount,
       .int transaction.GasAccountIndex, .int transaction.Nonce])

/-- The embedding of `SignatureForCreateCollection`. -/
def SignatureForCreateCollection (env : SignatureCollaborators) (txInfo : String) :
    Except String String :=
  match env.ParseCreateCollectionTxInfo txInfo with
  | .error _ => .error "invalid tx info"
  | .ok transaction =>
    .ok (Sprintf SignatureTemplateCreateCollection
      [.int transaction.CollectionId, .int transaction.AccountIndex, .str transaction.Name,
       .int transaction.GasFeeAssetAmount, .int transaction.GasAccountIndex,
       .int transaction.Nonce])

/-- The embedding of `SignatureForMintNft`. -/
def SignatureForMintNft (env : SignatureCollaborators) (txInfo : String) :
    Except String String :=
  match env.ParseMintNftTxInfo txInfo with
  | .error _ => .error "invalid tx info"
  | .ok transaction =>
    .ok (Sprintf SignatureTemplateMintNft
      [.str transaction.ToAccountNameHash, .int transaction.ToAccountIndex,
       .int transaction.GasFeeAssetAmount, .int transaction.GasAccountIndex,
       .int transaction.Nonce])

/-- The embedding of `SignatureForTransferNft`. -/
def SignatureForTransferNft (env : SignatureCollaborators) (txInfo : String) :
    Except String String :=
  match env.ParseTransferNftTxInfo txInfo with
  | .error _ => .error "invalid tx info"
  | .ok transaction =>
    .ok (Sprintf SignatureTemplateTransferNft
      [.int transaction.NftIndex, .int transaction.FromAccountIndex,
       .int transaction.ToAccountIndex, .int transaction.GasFeeAssetAmount,
       .int transaction.GasAccountIndex, .int transaction.Nonce])

/-- The embedding of `SignatureForWithdrawalNft`. -/
def SignatureForWithdrawalNft (env : SignatureCollaborators) (txInfo : String) :
    Except String String :=
  match env.ParseWithdrawNftTxInfo txInfo with
  | .error _ => .error "invalid tx info"
  | .ok transaction =>
    .ok (Sprintf SignatureTemplateWithdrawalNft
      [.int transaction.NftIndex, .str transaction.ToAddress,
       .int transaction.GasFeeAssetAmount, .int transaction.GasAccountIndex,
       .int transaction.Nonce])

/-- The embedding of `SignatureForCancelOffer`. -/
def SignatureForCancelOffer (env : SignatureCollaborators) (txInfo : String) :
    Except String String :=
  match env.ParseCancelOfferTxInfo txInfo with
  | .error _ => .error "invalid tx info"
  | .ok transaction =>
    .ok (Sprintf SignatureTemplateCancelOffer
      [.int transaction.OfferId, .int transaction.AccountIndex,
       .int transaction.GasFeeAssetAmount, .int transaction.GasAccountIndex,
       .int transaction.Nonce])

/-- The embedding of `SignatureForAtomicMatch`. -/
def SignatureForAtomicMatch (env : SignatureCollaborators) (txInfo : String) :
    Except String String :=
  match env.ParseAtomicMatchTxInfo txInfo with
  | .error _ => .error "invalid tx info"
  | .ok transaction =>
    let offer := match transaction.BuyOffer with
      | some buyOffer => some buyOffer
      | none => transaction.SellOffer
    match offer with
    | none => .error "both buyOffer and sellOffer does not exist"
    | some offer =>
      .ok (Sprintf SignatureTemplateAtomicMatch
        [.int offer.AssetAmount, .int offer.OfferId, .int offer.NftIndex,
         .int transaction.AccountIndex, .int transaction.GasFeeAssetAmount,
         .int transaction.GasAccountIndex, .int transaction.Nonce])

/-- The embedding of `ConstructSignatureFunction`: the assignments to
`SignatureFunctionMap`, in the order of the source, starting from the empty map. -/
def ConstructSignatureFunction (env : SignatureCollaborators) :
    GoMap (String → Except String String) :=
  let m0 : GoMap (String → Except String String) := []
  let m1 := GoMap.set m0 env.TxTypeWithdraw (SignatureForWithdrawal env)
  let m2 := GoMap.set m1 env.TxTypeTransfer (SignatureForTransfer env)
  let m3 := GoMap.set m2 env.TxTypeCreateCollection (SignatureForCreateCollection env)
  let m4 := GoMap.set m3 env.TxTypeMintNft (SignatureForMintNft env)
  let m5 := GoMap.set m4 env.TxTypeTransferNft (SignatureForTransferNft env)
  let m6 := GoMap.set m5 env.TxTypeWithdrawNft (SignatureForWithdrawalNft env)
  let m7 := GoMap.set m6 env.TxTypeCancelOffer (SignatureForCancelOffer env)
  GoMap.set m7 env.TxTypeAtomicMatch (SignatureForAtomicMatch env)

/-- The embedding of `GenerateSignatureBody`; the map is the one that
`ConstructSignatureFunction` fills at the first call. -/
def GenerateSignatureBody (env : SignatureCollaborators) (txType : Int) (txInfo : String) :
    Except String String :=
  match GoMap.get (ConstructSignatureFunction env) txType with
  | none => .error ("Can not find Signature Function for TxType:" ++ toString txType)
  | some SignatureFunc =>
    match SignatureFunc txInfo with
    | .error err => .error err
    | .ok signatureBody => .ok signatureBody

/-- Sample collaborators: the tx types numbered as in the package `types` (withdraw 5,
transfer 4, create collection 6, mint NFT 7, transfer NFT 8, atomic match 9, cancel offer
10, withdraw NFT 11), and parsers that read the tx info `w` as a withdrawal of 7 and the
tx info `n` as the withdrawal of NFT 7, both to the same address with the same fee and
nonce, and fail on anything else. -/
def sampleSignatureCollaborators : SignatureCollaborators :=
  { TxTypeWithdraw := 5,
    TxTypeTransfer := 4,
    TxTypeCreateCollection := 6,
    TxTypeMintNft := 7,
    TxTypeTransferNft := 8,
    TxTypeWithdrawNft := 11,
    TxTypeCancelOffer := 10,
    TxTypeAtomicMatch := 9,
    ParseWithdrawTxInfo := fun txInfo =>
      if txInfo = "w" then
        .ok { AssetAmount := 7, ToAddress := "0xabc", GasFeeAssetAmount := 3,
              GasAccountIndex := 1, Nonce := 9 }
      else .error "unexpected end of JSON input",
    ParseTransferTxInfo := fun _ => .error "unexpected end of JSON input",
    ParseCreateCollectionTxInfo := fun _ => .error "unexpected end of JSON input",
    ParseMintNftTxInfo := fun _ => .error "unexpected end of JSON input",
    ParseTransferNftTxInfo := fun _ => .error "unexpected end of JSON input",
    ParseWithdrawNftTxInfo := fun txInfo =>
      if txInfo = "n" then
        .ok { NftIndex := 7, ToAddress := "0xabc", GasFeeAssetAmount := 3,
              GasAccountIndex := 1, Nonce := 9 }
      else .error "unexpected end of JSON input",
    ParseCancelOfferTxInfo := fun _ => .error "unexpected end of JSON input",
    ParseAtomicMatchTxInfo := fun _ => .error "unexpected end of JSON input" }

/-! ## Packed amounts (`packedAmountHelper.go`) -/

/-- A Go `error` value as far as the packed-amount checks tell errors apart: an error of
the packing library, or one made by `zerror.New(code, message)`. -/
inductive GoError where
  | library (message : String)
  | New (code : Int) (message : String)
  deriving DecidableEq, Repr

/-- The constant `errcode.ErrInvalidGasFee`. -/
def ErrInvalidGasFee : GoError := .New 20002 "Invalid Gas Fee"

/-- The constant `errcode.ErrInvalidAmount`. -/
def ErrInvalidAmount : GoError := .New 20003 "Invalid Amount"

/-- The embedding of `CheckPackedFee`; the result is the error returned, `none` for nil.
`CleanPackedFee` is `util.CleanPackedFee` of the packing library, and `ffmath.Equal` is
the equality of big integers. -/
def CheckPackedFee (CleanPackedFee : Int → Except GoError Int) (gassFee : Int) :
    Option GoError :=
  match CleanPackedFee gassFee with
  | .error err => some err
  | .ok checkParm =>
    if ¬ (gassFee = checkParm) then some (.New 20002 "Invalid Gas Fee") else none

/-- The embedding of `CheckPackedAmount`; the result is the error returned, `none` for
nil.  `CleanPackedAmount` is `util.CleanPackedAmount` of the packing library. -/
def CheckPackedAmount (CleanPackedAmount : Int → Except GoError Int) (amount : Int) :
    Option GoError :=
  match CleanPackedAmount amount with
  | .error err => some err
  | .ok checkParm =>
    if ¬ (amount = checkParm) then some (.New 20003 "Invalid amount") else none

/-- A sample cleaning function: negative amounts are rejected, and an amount is rounded
down to a multiple of 10 (the digits the packed form cannot hold are dropped). -/
def sampleClean (amount : Int) : Except GoError Int :=
  if amount < 0 then .error (.library "invalid packed amount") else .ok (amount / 10 * 10)

/-! ## Save (`saveBlockDataFunc`) -/

/-- A sub-task that `saveBlockDataFunc` submits to the pool, with the arguments of its
DAO call. -/
inductive SubTask where
  | DeleteTxsBatch (poolTxIds : List Nat) (status : Int) (blockHeight : Int)
  | BatchInsertOrUpdate (accounts : List Account)
  | CreateAccountHistories (accountHistories : List AccountHistory)
  | CreateTxs (txs : List Tx)
  | CreateTxDetails (txDetails : List TxDetail)
  deriving DecidableEq, Repr

/-- What `saveBlockDataFunc` consumes from outside the committer file.

* `ClearTxsModel` is the method of `block.Block` (its code is not among the sources): the
  block as the call leaves it.
* `StatusExecuted` is the constant `tx.StatusExecuted`.
* `Submit k` is the error that the `k`-th call of `c.pool.Submit` returns, if any; a call
  that returns no error has started the sub-task.  The call is taken to return, that is,
  the pool to have a worker for the sub-task.
* `result` is the error that the DAO call of a sub-task returns, if any. -/
structure SaveCollaborators where
  ClearTxsModel : Block → Block
  StatusExecuted : Int
  Submit : Nat → Option String
  result : SubTask → Option String

/-- Insertion of an account before the first account whose index is not smaller. -/
def insertByIndex (a : Account) : List Account → List Account
  | [] => [a]
  | b :: rest =>
    if a.AccountIndex ≤ b.AccountIndex then a :: b :: rest else b :: insertByIndex a rest

/-- The embedding of `sort.SliceStable` with the comparison
`PendingAccount[i].AccountIndex < PendingAccount[j].AccountIndex`: the stable sort by
ascending account index, as an insertion sort from the right. -/
def SliceStable : List Account → List Account
  | [] => []
  | a :: rest => insertByIndex a (SliceStable rest)

/-- The chunking loop of `saveBlockDataFunc` (the loop `for` with `fromIndex`, `toIndex`
and `limit := 100`), run for at most `fuel` iterations on the list `xs`: the slices
`xs[fromIndex:toIndex]` in the order they are taken, or `none` when the fuel runs out. -/
def chunkLoop {α : Type} (xs : List α) : Nat → Nat → Nat → Option (List (List α))
  | 0, _, _ => none
  | fuel + 1, fromIndex, toIndex =>
    if fromIndex ≥ xs.length then
      some []
    else
      let toIndex1 := if toIndex > xs.length then xs.length else toIndex
      let slice := (xs.drop fromIndex).take (toIndex1 - fromIndex)
      match chunkLoop xs fuel toIndex1 (toIndex1 + 100) with
      | none => none
      | some rest => some (slice :: rest)

/-- The guarded chunking of a list: `if len > 0` and then the loop from `fromIndex := 0`,
`toIndex := limit`. -/
def chunks {α : Type} (xs : List α) (fuel : Nat) : Option (List (List α)) :=
  if xs.length > 0 then chunkLoop xs fuel 0 100 else some []

/-- The block states as `saveBlockDataFunc` leaves them: `ClearTxsModel` was called on the
block and `PendingAccount` was sorted in place. -/
def savedBlockStates (env : SaveCollaborators) (blockStates : BlockStates) : BlockStates :=
  { blockStates with
    Block := env.ClearTxsModel blockStates.Block,
    PendingAccount := SliceStable blockStates.PendingAccount }

/-- The tx details flattened from the txs, in tx order. -/
def flattenTxDetails (txs : List Tx) : List TxDetail :=
  (txs.map (fun txInfo => txInfo.TxDetails)).flatten

/-- The sub-tasks that `saveBlockDataFunc` submits, in the order of submission (lines
1005-1170), with `fuel` bounding each chunking loop: `none` when a loop runs out of
fuel. -/
def saveTasks (env : SaveCollaborators) (fuel : Nat) (blockStates : BlockStates) :
    Option (List SubTask) :=
  let poolTxIds := blockStates.Block.Txs.map (fun poolTx => poolTx.ID)
  let saved := savedBlockStates env blockStates
  let deletion := SubTask.DeleteTxsBatch poolTxIds env.StatusExecuted saved.Block.BlockHeight
  match chunks saved.PendingAccount fuel with
  | none => none
  | some accountBatches =>
    match chunks saved.PendingAccountHistory fuel with
    | none => none
    | some historyBatches =>
      if saved.Block.Txs.length > 0 then
        match chunks saved.Block.Txs fuel with
        | none => none
        | some txBatches =>
          match chunks (flattenTxDetails saved.Block.Txs) fuel with
          | none => none
          | some detailBatches =>
            some (deletion :: (accountBatches.map SubTask.BatchInsertOrUpdate ++
              historyBatches.map SubTask.CreateAccountHistories ++
              txBatches.map SubTask.CreateTxs ++
              detailBatches.map SubTask.CreateTxDetails))
      else
        some (deletion :: (accountBatches.map SubTask.BatchInsertOrUpdate ++
          historyBatches.map SubTask.CreateAccountHistories))

/-- The message of the panic on a failed `c.pool.Submit` of a sub-task. -/
def submitPanic (task : SubTask) (err : String) : String :=
  match task with
  | .DeleteTxsBatch _ _ _ => "DeleteTxsBatch failed: " ++ err
  | .BatchInsertOrUpdate _ => "batchInsertOrUpdate accounts failed: " ++ err
  | .CreateAccountHistories _ => "createAccountHistories failed: " ++ err
  | .CreateTxs _ => "CreateTxs failed: " ++ err
  | .CreateTxDetails _ => "CreateTxDetails failed: " ++ err

/-- Whether the closure of a sub-task assigns the error of its DAO call to the variable
`err` of `saveBlockDataFunc` itself (`err = ...` at lines 1015, 1085, 1118 and 1155; the
`err :=` to the left of those closures comes into scope only after them) or to a variable
of its own (`err := ...` at line 1051, the accounts). -/
def assignsSharedErr : SubTask → Bool
  | .DeleteTxsBatch _ _ _ => true
  | .BatchInsertOrUpdate _ => false
  | .CreateAccountHistories _ => true
  | .CreateTxs _ => true
  | .CreateTxDetails _ => true

/-- Where a sub-task stands: started by `Submit` and about to make its DAO call; past the
assignment of the call's error to the shared `err` and about to test `err != nil`; past a
test that found `err` non-nil and about to read `err` for the send; about to send a
value on `errChan`; or done. -/
inductive TaskPc where
  | started
  | assigned
  | failed
  | sending (value : Option String)
  | finished
  deriving DecidableEq, Repr

/-- Where the goroutine of `saveBlockDataFunc` stands: about to make the `k`-th call of
`Submit`; about to assign what the first `Submit` returned to `err` (line 1012); about to
test `err` (line 1024); past all submissions, at the loop that awaits the results; or
panicked. -/
inductive MainPc where
  | submitting (k : Nat)
  | assigning (submitError : Option String)
  | testing
  | awaiting
  | panicked (message : String)
  deriving DecidableEq, Repr

/-- Who takes the next step: the goroutine of `saveBlockDataFunc` or the `k`-th sub-task
submitted. -/
inductive Thread where
  | main
  | task (k : Nat)
  deriving DecidableEq, Repr

/-- The state of `saveBlockDataFunc` and of its sub-tasks: the variable `err` declared at
line 1003, `totalTask`, where the function stands, the sub-tasks started with where each
stands, and the values sent on `errChan` in the order of the sends. -/
structure SaveState where
  err : Option String
  totalTask : Nat
  main : MainPc
  tasks : List (SubTask × TaskPc)
  arrivals : List (Option String)
  deriving DecidableEq, Repr

/-- Where the function goes after the `k - 1`-th submission: to the next one, or to the
await loop when all sub-tasks are submitted. -/
def nextSubmit (all : List SubTask) (k : Nat) : MainPc :=
  if k < all.length then .submitting k else .awaiting

/-- A step of the goroutine of `saveBlockDataFunc` up to the await loop, `all` being the
sub-tasks to submit.  `totalTask` is incremented before each `Submit`.  What the first
`Submit` (the deletion) returns is assigned to the function's `err` and `err` is then
tested, in two steps; what a later `Submit` returns goes to a variable of the loop body
and is tested at once. -/
def mainStep (env : SaveCollaborators) (all : List SubTask) (st : SaveState) : SaveState :=
  match st.main with
  | .submitting k =>
    match all[k]? with
    | none => { st with main := .awaiting }
    | some task =>
      match env.Submit k with
      | some err =>
        if k = 0 then
          { st with totalTask := st.totalTask + 1, main := .assigning (some err) }
        else
          { st with totalTask := st.totalTask + 1, main := .panicked (submitPanic task err) }
      | none =>
        { st with
          totalTask := st.totalTask + 1,
          tasks := st.tasks ++ [(task, .started)],
          main := if k = 0 then .assigning none else nextSubmit all (k + 1) }
  | .assigning submitError => { st with err := submitError, main := .testing }
  | .testing =>
    match st.err with
    | some err => { st with main := .panicked ("DeleteTxsBatch failed: " ++ err) }
    | none => { st with main := nextSubmit all 1 }
  | .awaiting => st
  | .panicked _ => st

/-- A step of the `k`-th sub-task.  A closure that assigns to the shared `err` makes its
DAO call and assigns, then tests `err != nil`, then (if the test found an error) reads
`err` again as the operand of the send, then sends; each of the three readings sees `err`
as the last assignment by anyone left it.  The accounts closure keeps the error in its
own variable, so it sends what its DAO call returned. -/
def taskStep (env : SaveCollaborators) (st : SaveState) (k : Nat) : SaveState :=
  match st.tasks[k]? with
  | none => st
  | some (task, pc) =>
    match pc with
    | .started =>
      if assignsSharedErr task then
        { st with err := env.result task, tasks := st.tasks.set k (task, .assigned) }
      else
        { st with tasks := st.tasks.set k (task, .sending (env.result task)) }
    | .assigned =>
      match st.err with
      | some _ => { st with tasks := st.tasks.set k (task, .failed) }
      | none => { st with tasks := st.tasks.set k (task, .sending none) }
    | .failed => { st with tasks := st.tasks.set k (task, .sending st.err) }
    | .sending value =>
      { st with arrivals := st.arrivals ++ [value], tasks := st.tasks.set k (task, .finished) }
    | .finished => st

/-- A step of the thread that the scheduler picks; a panic of the function ends the
process, so nothing steps after it. -/
def saveStep (env : SaveCollaborators) (all : List SubTask) (st : SaveState)
    (thread : Thread) : SaveState :=
  match st.main with
  | .panicked _ => st
  | _ =>
    match thread with
    | .main => mainStep env all st
    | .task k => taskStep env st k

/-- The state when `saveBlockDataFunc` has made its first statements: `err` is nil,
`totalTask` is 0, nothing is submitted. -/
def initialSaveState (all : List SubTask) : SaveState :=
  { err := none, totalTask := 0, main := nextSubmit all 0, tasks := [], arrivals := [] }

/-- The submissions and the sub-tasks run under a schedule. -/
def runSave (env : SaveCollaborators) (all : List SubTask) (schedule : List Thread)
    (st : SaveState) : SaveState :=
  schedule.foldl (saveStep env all) st

/-- How the loop `for i := 0; i < totalTask; i++ { err := <-errChan ... }` ends. -/
inductive Awaited where
  | completed (read : Nat)
  | panicked (read : Nat) (message : String)
  | blocked (read : Nat)
  deriving DecidableEq, Repr

/-- The loop that awaits `totalTask` results from `errChan` (lines 1173-1178), given the
values in the order they arrive: it panics at the first error, and blocks if fewer
values arrive than it awaits. -/
def awaitResults : Nat → List (Option String) → Awaited
  | 0, _ => .completed 0
  | _ + 1, [] => .blocked 0
  | _ + 1, some err :: _ => .panicked 1 ("saveBlockDataFunc failed: " ++ err)
  | n + 1, none :: rest =>
    match awaitResults n rest with
    | .completed read => .completed (read + 1)
    | .panicked read message => .panicked (read + 1) message
    | .blocked read => .blocked (read + 1)

/-- What `saveBlockDataFunc` did: the sub-tasks submitted, the value of `totalTask`, the
values sent on `errChan`, how the await loop ended (`none` if it was not reached), the
block states enqueued to the FinalSave worker (if any), and the panic message (if
any). -/
structure SaveOutcome where
  submitted : List SubTask
  totalTask : Nat
  sent : List (Option String)
  awaited : Option Awaited
  forwarded : Option BlockStates
  panic : Option String
  deriving DecidableEq, Repr

/-- The embedding of `saveBlockDataFunc`, with `fuel` bounding each chunking loop and
`schedule` the order in which the function (up to its await loop) and its sub-tasks take
their steps; the await loop then reads the values in the order of the sends.  The result
is `none` when a chunking loop runs out of fuel or the schedule ends before the function
reached the await loop or a panic. -/
def saveBlockDataFunc (env : SaveCollaborators) (fuel : Nat) (schedule : List Thread)
    (blockStates : BlockStates) : Option SaveOutcome :=
  match saveTasks env fuel blockStates with
  | none => none
  | some all =>
    let final := runSave env all schedule (initialSaveState all)
    let submitted := final.tasks.map Prod.fst
    match final.main with
    | .panicked message =>
      some { submitted := submitted, totalTask := final.totalTask, sent := final.arrivals,
             awaited := none, forwarded := none, panic := some message }
    | .awaiting =>
      match awaitResults final.totalTask final.arrivals with
      | .completed read =>
        some { submitted := submitted, totalTask := final.totalTask, sent := final.arrivals,
               awaited := some (.completed read),
               forwarded := some (savedBlockStates env blockStates), panic := none }
      | .panicked read message =>
        some { submitted := submitted, totalTask := final.totalTask, sent := final.arrivals,
               awaited := some (.panicked read message),
               forwarded := none, panic := some message }
      | .blocked read =>
        some { submitted := submitted, totalTask := final.totalTask, sent := final.arrivals,
               awaited := some (.blocked read), forwarded := none, panic := none }
    | .submitting _ => none
    | .assigning _ => none
    | .testing => none

/-- The batches `bs` are a chunking of the list `xs` by 100: consecutive slices whose
concatenation is `xs`, each non-empty and of at most 100 elements, all but the last of
exactly 100, `ceil(n/100)` of them for `n` elements. -/
def IsChunking {α : Type} (xs : List α) (bs : List (List α)) : Prop :=
  bs.flatten = xs ∧ (∀ b ∈ bs, b ≠ [] ∧ b.length ≤ 100) ∧ (∀ b ∈ bs.dropLast, b.length = 100) ∧
  bs.length = (xs.length + 99) / 100

/-- Save collaborators for which nothing fails; `ClearTxsModel` leaves the block as it
is. -/
def saveSucceeds : SaveCollaborators :=
  { ClearTxsModel := fun b => b,
    StatusExecuted := 2,
    Submit := fun _ => none,
    result := fun _ => none }

/-- Save collaborators for which the insert of the txs fails. -/
def createTxsFails : SaveCollaborators :=
  { saveSucceeds with
    result := fun task =>
      match task with
      | .CreateTxs _ => some "duplicate key"
      | _ => none }

/-- Save collaborators for which the deletion of the pool txs fails. -/
def deleteTxsFails : SaveCollaborators :=
  { saveSucceeds with
    result := fun task =>
      match task with
      | .DeleteTxsBatch _ _ _ => some "connection refused"
      | _ => none }

/-- The threads `thread`, `n` times in a row. -/
def steps (n : Nat) (thread : Thread) : List Thread := List.replicate n thread

/-- A schedule for five sub-tasks in which each sub-task runs to its end before the next
one starts, after the function has submitted them all. -/
def oneByOne : List Thread :=
  steps 7 .main ++ steps 3 (.task 0) ++ steps 2 (.task 1) ++ steps 3 (.task 2) ++
    steps 4 (.task 3) ++ steps 3 (.task 4)

/-- A schedule for five sub-tasks in which the insert of the tx details (sub-task 4)
assigns to `err` between the assignment and the test of the insert of the txs
(sub-task 3). -/
def detailsOverwriteTxs : List Thread :=
  steps 7 .main ++ [.task 3, .task 4, .task 3, .task 3] ++ steps 2 (.task 4) ++
    steps 3 (.task 0) ++ steps 2 (.task 1) ++ steps 3 (.task 2)

/-- A schedule for the deletion alone in which the sub-task makes its DAO call and
assigns to `err` after `Submit` returned and before the function assigns what `Submit`
returned. -/
def submitOverwritesDeletion : List Thread :=
  [.main, .task 0, .main, .main, .task 0, .task 0]

/-- Block states of block 9 with no account, no history and no tx. -/
def bareBlockStates : BlockStates :=
  { Block := { sampleBlock with ID := 9, BlockHeight := 9 },
    CompressedBlock := none,
    PendingAccount := [],
    PendingAccountHistory := [],
    PendingNft := [] }

/-- What the submissions of `saveBlockDataFunc` have done so far, `all` being the
sub-tasks to submit: before the `k`-th `Submit` the first `k` sub-tasks are started and
`totalTask` is `k`; at the await loop all of them are started and `totalTask` is their
number.  After a first `Submit` that failed no sub-task is started and `err` holds the
error. -/
def SubmittedSoFar (all : List SubTask) (st : SaveState) : Prop :=
  match st.main with
  | .submitting k =>
    k < all.length ∧ st.tasks.map Prod.fst = all.take k ∧ st.totalTask = k
  | .assigning submitError =>
    0 < all.length ∧ st.totalTask = 1 ∧
      ((submitError = none ∧ st.tasks.map Prod.fst = all.take 1) ∨
       (submitError ≠ none ∧ st.tasks = []))
  | .testing =>
    0 < all.length ∧ st.totalTask = 1 ∧
      (st.tasks.map Prod.fst = all.take 1 ∨ (st.err ≠ none ∧ st.tasks = []))
  | .awaiting => st.tasks.map Prod.fst = all ∧ st.totalTask = all.length
  | .panicked _ => True

/-- Accounts with the indexes `n, n - 1, …, 1`. -/
def accountsDescending (n : Nat) : List Account :=
  (List.range n).map (fun i => Account.mk (Int.ofNat (n - i)) 0)

/-- Block states of block 9 with three accounts in descending order of their index, one
account history and two txs, the first with two tx details. -/
def filledBlockStates : BlockStates :=
  { Block := { sampleBlock with
      ID := 9, BlockHeight := 9,
      Txs := [{ poolTx 1 4 "t" with
                TxDetails := [{ AssetId := 1, AccountIndex := 3 },
                              { AssetId := 1, AccountIndex := 1 }] },
              poolTx 2 4 "t"] },
    CompressedBlock := none,
    PendingAccount := accountsDescending 3,
    PendingAccountHistory := [{ AccountIndex := 3, L2BlockHeight := 9 }],
    PendingNft := [] }

/-- Block states of block 9 with 250 accounts and nothing else. -/
def manyAccountsBlockStates : BlockStates :=
  { Block := { sampleBlock with ID := 9, BlockHeight := 9 },
    CompressedBlock := none,
    PendingAccount := accountsDescending 250,
    PendingAccountHistory := [],
    PendingNft := [] }

/-! ## The asset-tree stage and the size of a committed block -/

/-- How `updateAccountAssetTreeFunc` panics. -/
inductive AssetTreePanic where
  | blockSizeTooSmall
  | updateAccountAssetTreeFailed (err : String)
  deriving DecidableEq, Repr

/-- The embedding of `updateAccountAssetTreeFunc`: the hand-off record enqueued to the
next stage, or the panic.  `UpdateAccountAssetTree` is the call on the rollup state: its
error, if any. -/
def updateAccountAssetTreeFunc (c : Committer)
    (UpdateAccountAssetTree : StateDataCopy → Option String) (stateDataCopy : StateDataCopy) :
    Except AssetTreePanic StateDataCopy :=
  let blockSize := computeCurrentBlockSize c stateDataCopy
  if blockSize < (stateDataCopy.StateCache.Txs.length : Int) then
    .error .blockSizeTooSmall
  else
    match UpdateAccountAssetTree stateDataCopy with
    | some err => .error (.updateAccountAssetTreeFailed err)
    | none => .ok stateDataCopy

/-- The assumption on the tx list of the rollup state: a successful `ApplyTransaction`
appends exactly one tx to `Statedb.Txs`, a failed one leaves the list as long as it was,
and the block that `InitNewBlock` opens has no txs. -/
structure TxsCounted (env : Collaborators) : Prop where
  applied : ∀ bc t bc1 t1, env.ApplyTransaction bc t = (bc1, t1, none) →
    bc1.Statedb.Txs.length = bc.Statedb.Txs.length + 1
  failed : ∀ bc t bc1 t1 err, env.ApplyTransaction bc t = (bc1, t1, some err) →
    bc1.Statedb.Txs.length = bc.Statedb.Txs.length
  opened : ∀ bc bc1, env.InitNewBlock bc = (bc1, none) → bc1.Statedb.Txs = []

/-- The hand-off records that the executor enqueued to the asset-tree stage, in order. -/
def enqueuedCopies : List Event → List StateDataCopy
  | [] => []
  | .enqueueUpdateAccountAssetTree stateDataCopy :: rest => stateDataCopy :: enqueuedCopies rest
  | _ :: rest => enqueuedCopies rest

/-- The bound on the txs of the open block: at most `maxTxsPerBlock` (none, should the cap
be negative). -/
def TxsWithinCap (c : Committer) (txs : List Tx) : Prop :=
  (txs.length : Int) ≤ max 0 c.maxTxsPerBlock

/-- The bound on the txs of the open block across a stretch of the run: if it holds
before, it holds after and of every hand-off record enqueued. -/
def TxsBounded (c : Committer) (st : ExecutorState) (evs : List Event)
    (st1 : ExecutorState) : Prop :=
  TxsWithinCap c st.bc.Statedb.Txs →
  TxsWithinCap c st1.bc.Statedb.Txs ∧
  ∀ stateDataCopy ∈ enqueuedCopies evs, TxsWithinCap c stateDataCopy.StateCache.Txs

/-! ## The block row written at the first tx of a block -/

/-- The number of txs in the open block after the events, starting from `n`: a tx that was
applied adds one, and the opening of a block starts again from none. -/
def txsAfter : Nat → List Event → Nat
  | n, [] => n
  | n, .applied _ :: rest => txsAfter (n + 1) rest
  | _, .initNewBlock _ :: rest => txsAfter 0 rest
  | n, .parked _ :: rest => txsAfter n rest
  | n, .applyFailed _ :: rest => txsAfter n rest
  | n, .priorityAccepted _ _ :: rest => txsAfter n rest
  | n, .createNewBlock _ :: rest => txsAfter n rest
  | n, .enqueueUpdatePoolTx _ :: rest => txsAfter n rest
  | n, .enqueueSyncAccountToRedis _ :: rest => txsAfter n rest
  | n, .enqueueUpdateAccountAssetTree _ :: rest => txsAfter n rest

/-- The block row is written exactly at the first applied tx of each block.  `n` is the
number of txs in the open block and `due` tells that the block's first tx has just been
applied and its row is not written yet.  A tx applied to a block with no txs makes the
write due; while it is due nothing may happen but the acceptance of that tx's request id
and then the write (`createNewBlock`); and a write that is not due may not happen. -/
def rowWritesOk : Nat → Bool → List Event → Bool
  | _, due, [] => !due
  | n, due, .applied _ :: rest => !due && rowWritesOk (n + 1) (n == 0) rest
  | n, due, .priorityAccepted _ _ :: rest => rowWritesOk n due rest
  | n, due, .createNewBlock _ :: rest => due && rowWritesOk n false rest
  | _, due, .initNewBlock _ :: rest => !due && rowWritesOk 0 false rest
  | n, due, .parked _ :: rest => !due && rowWritesOk n false rest
  | n, due, .applyFailed _ :: rest => !due && rowWritesOk n false rest
  | n, due, .enqueueUpdatePoolTx _ :: rest => !due && rowWritesOk n false rest
  | n, due, .enqueueSyncAccountToRedis _ :: rest => !due && rowWritesOk n false rest
  | n, due, .enqueueUpdateAccountAssetTree _ :: rest => !due && rowWritesOk n false rest

/-- The number of block rows written (`createNewBlock`). -/
def rowWrites : List Event → Nat
  | [] => 0
  | .createNewBlock _ :: rest => rowWrites rest + 1
  | _ :: rest => rowWrites rest

/-- The number of blocks that received a first applied tx: the txs applied to a block
that had no txs, `n` being the number of txs in the open block. -/
def firstAppliedTxs : Nat → List Event → Nat
  | _, [] => 0
  | n, .applied _ :: rest => (if n = 0 then 1 else 0) + firstAppliedTxs (n + 1) rest
  | _, .initNewBlock _ :: rest => firstAppliedTxs 0 rest
  | n, .parked _ :: rest => firstAppliedTxs n rest
  | n, .applyFailed _ :: rest => firstAppliedTxs n rest
  | n, .priorityAccepted _ _ :: rest => firstAppliedTxs n rest
  | n, .createNewBlock _ :: rest => firstAppliedTxs n rest
  | n, .enqueueUpdatePoolTx _ :: rest => firstAppliedTxs n rest
  | n, .enqueueSyncAccountToRedis _ :: rest => firstAppliedTxs n rest
  | n, .enqueueUpdateAccountAssetTree _ :: rest => firstAppliedTxs n rest

/-- The relation of the block-row writes across a stretch of the run. -/
def RowWritten (st : ExecutorState) (evs : List Event) (st1 : ExecutorState) : Prop :=
  rowWritesOk st.bc.Statedb.Txs.length false evs = true ∧
  st1.bc.Statedb.Txs.length = txsAfter st.bc.Statedb.Txs.length evs

/-- The queue yields a pool tx of the empty type and three transfers at the first poll,
then nothing. -/
def rejectedAndThreeTransfers : Nat → List Tx :=
  fun k => if k = 0 then [poolTx 1 0 "x", poolTx 2 4 "t", poolTx 3 4 "t", poolTx 4 4 "t"]
    else []

/-! ## The PoolTxUpdater (`updatePoolTxFunc`) -/

/-- What `updatePoolTxFunc` consumes from outside the committer file: the two status
constants of package `tx` and the two bulk statements of `TxPoolModel`, each returning
the error if any (`none` is `nil`). -/
structure PoolTxCollaborators where
  StatusExecuted : Int
  StatusFailed : Int
  UpdateTxsStatusAndHeightByIds : List Nat → Int → Int → Option String
  DeleteTxsBatch : List Nat → Int → Int → Option String

/-- What `updatePoolTxFunc` does that the database or the log observes. -/
inductive PoolTxCall where
  | UpdateTxsStatusAndHeightByIds (ids : List Nat) (status blockHeight : Int)
  | DeleteTxsBatch (ids : List Nat) (status blockHeight : Int)
  | logError (err : String)
  deriving DecidableEq, Repr

/-- Lines 862-874 of `updatePoolTxFunc`: the update batch.  A list that is `nil` or has
no element makes no call; otherwise the ids are collected and one bulk update is made
with the block height of the element at index 0, and an error is logged. -/
def updatePendingPoolTxs (env : PoolTxCollaborators) : Option (List Tx) → List PoolTxCall
  | some (first :: rest) =>
    let ids := (first :: rest).map (fun pendingUpdatePoolTx => pendingUpdatePoolTx.ID)
    match env.UpdateTxsStatusAndHeightByIds ids env.StatusExecuted first.BlockHeight with
    | some err =>
      [.UpdateTxsStatusAndHeightByIds ids env.StatusExecuted first.BlockHeight, .logError err]
    | none => [.UpdateTxsStatusAndHeightByIds ids env.StatusExecuted first.BlockHeight]
  | some [] => []
  | none => []

/-- Lines 875-887 of `updatePoolTxFunc`: the delete batch, in the same way, with status
`Failed` and block height -1. -/
def deletePendingPoolTxs (env : PoolTxCollaborators) : Option (List Tx) → List PoolTxCall
  | some (first :: rest) =>
    let poolTxIds := (first :: rest).map (fun poolTx => poolTx.ID)
    match env.DeleteTxsBatch poolTxIds env.StatusFailed (-1) with
    | some err => [.DeleteTxsBatch poolTxIds env.StatusFailed (-1), .logError err]
    | none => [.DeleteTxsBatch poolTxIds env.StatusFailed (-1)]
  | some [] => []
  | none => []

/-- The embedding of `updatePoolTxFunc`: the calls it makes, in order.  The function has
no panic site and no loop but the two over the lists, so it returns in every case. -/
def updatePoolTxFunc (env : PoolTxCollaborators) (updatePoolTxMap : UpdatePoolTx) :
    List PoolTxCall :=
  updatePendingPoolTxs env updatePoolTxMap.PendingUpdatePoolTxs ++
    deletePendingPoolTxs env updatePoolTxMap.PendingDeletePoolTxs

/-- The bulk updates among the calls. -/
def bulkUpdates : List PoolTxCall → List PoolTxCall
  | [] => []
  | .UpdateTxsStatusAndHeightByIds ids status blockHeight :: rest =>
    .UpdateTxsStatusAndHeightByIds ids status blockHeight :: bulkUpdates rest
  | _ :: rest => bulkUpdates rest

/-- The assumption on the rollup state for the block heights of the update batches: a
successful `ApplyTransaction` stamps the tx with the height of the open block; neither
`ApplyTransaction` nor the write of the block row changes the height or the status of the
open block; and a newly opened block is not past `Proposing`. -/
structure BlockStamped (env : Collaborators) : Prop where
  stamped : ∀ bc t bc1 t1, env.ApplyTransaction bc t = (bc1, t1, none) →
    t1.BlockHeight = bc.currentBlock.BlockHeight
  applied : ∀ bc t bc1 t1 err, env.ApplyTransaction bc t = (bc1, t1, err) →
    bc1.currentBlock.BlockHeight = bc.currentBlock.BlockHeight ∧
    bc1.currentBlock.BlockStatus = bc.currentBlock.BlockStatus
  created : ∀ b b1, env.CreateBlockInTransact b = (b1, none) →
    b1.BlockHeight = b.BlockHeight ∧ b1.BlockStatus = b.BlockStatus
  opened : ∀ bc bc1, env.InitNewBlock bc = (bc1, none) →
    ¬ bc1.currentBlock.BlockStatus > env.StatusProposing

/-- The open block is not past `Proposing` and every tx of `pendingUpdatePoolTxs` carries
its height. -/
def OpenBlockPending (env : Collaborators) (st : ExecutorState) : Prop :=
  ¬ st.bc.currentBlock.BlockStatus > env.StatusProposing ∧
  ∀ t ∈ st.pendingUpdatePoolTxs, t.BlockHeight = st.bc.currentBlock.BlockHeight

/-- Every update batch among the events is not empty and its txs all carry the same block
height. -/
def OneBlockBatches (evs : List Event) : Prop :=
  ∀ batch txs, Event.enqueueUpdatePoolTx batch ∈ evs →
    batch.PendingUpdatePoolTxs = some txs →
    txs ≠ [] ∧ ∀ t ∈ txs, ∀ u ∈ txs, t.BlockHeight = u.BlockHeight

/-- The relation of the update batches across a stretch of the run. -/
def BatchLinked (env : Collaborators) (st : ExecutorState) (evs : List Event)
    (st1 : ExecutorState) : Prop :=
  OpenBlockPending env st → OpenBlockPending env st1 ∧ OneBlockBatches evs

/-- A pool-tx table whose bulk update fails when `updateFails` is set; status `Executed`
is 2 and status `Failed` is 6. -/
def samplePoolTxModel (updateFails : Bool) : PoolTxCollaborators :=
  { StatusExecuted := 2,
    StatusFailed := 6,
    UpdateTxsStatusAndHeightByIds := fun _ _ _ =>
      if updateFails then some "connection refused" else none,
    DeleteTxsBatch := fun _ _ _ => none }

/-- A batch with two txs of block 7 to update and one tx to delete. -/
def sampleUpdatePoolTx : UpdatePoolTx :=
  { PendingUpdatePoolTxs :=
      some [{ poolTx 1 4 "t" with BlockHeight := 7 }, { poolTx 2 4 "t" with BlockHeight := 7 }],
    PendingDeletePoolTxs := some [poolTx 3 0 "x"] }

/-! # Theorems -/

/-! ## Theorems: block size and commit criterion -/

theorem firstFittingSlot_mem (n : Int) :
    ∀ sizes : List Int, (∃ s ∈ sizes, n ≤ s) →
      firstFittingSlot n sizes ∈ sizes ∧ n ≤ firstFittingSlot n sizes
  | [], h => by
    obtain ⟨s, hs, _⟩ := h
    simp at hs
  | s0 :: rest, h => by
    unfold firstFittingSlot
    by_cases h0 : n ≤ s0
    · simp [h0]
    · have hrest : ∃ s ∈ rest, n ≤ s := by
        obtain ⟨s, hs, hle⟩ := h
        rcases List.mem_cons.mp hs with rfl | hs
        · exact absurd hle h0
        · exact ⟨s, hs, hle⟩
      have ih := firstFittingSlot_mem n rest hrest
      simp only [h0, if_false]
      exact ⟨List.mem_cons_of_mem _ ih.1, ih.2⟩

theorem firstFittingSlot_le (n : Int) :
    ∀ sizes : List Int, sizes.Sorted (· ≤ ·) →
      ∀ s ∈ sizes, n ≤ s → firstFittingSlot n sizes ≤ s
  | [], _, s, hs, _ => by simp at hs
  | s0 :: rest, hsorted, s, hs, hle => by
    unfold firstFittingSlot
    have hs0 : ∀ b ∈ rest, s0 ≤ b := List.rel_of_sorted_cons hsorted
    by_cases h0 : n ≤ s0
    · simp only [h0, if_true]
      rcases List.mem_cons.mp hs with rfl | hs
      · exact le_refl _
      · exact hs0 s hs
    · simp only [h0, if_false]
      rcases List.mem_cons.mp hs with rfl | hs
      · exact absurd hle h0
      · exact firstFittingSlot_le n rest (List.Sorted.of_cons hsorted) s hs hle

/-- C2: for a non-empty ascending list of slot sizes and a tx count that does not exceed
its last element, `computeCurrentBlockSize` returns the least slot that is at least the
tx count: the result is a configured slot, it is at least the tx count, and every
configured slot that fits the tx count is at least the result. -/
theorem computeCurrentBlockSize_least (c : Committer) (stateCopy : StateDataCopy)
    (hne : c.optionalBlockSizes ≠ [])
    (hsorted : c.optionalBlockSizes.Sorted (· ≤ ·))
    (hfit : (stateCopy.StateCache.Txs.length : Int) ≤ c.optionalBlockSizes.getLast hne) :
    computeCurrentBlockSize c stateCopy ∈ c.optionalBlockSizes ∧
    (stateCopy.StateCache.Txs.length : Int) ≤ computeCurrentBlockSize c stateCopy ∧
    ∀ s ∈ c.optionalBlockSizes, (stateCopy.StateCache.Txs.length : Int) ≤ s →
      computeCurrentBlockSize c stateCopy ≤ s := by
  have hex : ∃ s ∈ c.optionalBlockSizes, (stateCopy.StateCache.Txs.length : Int) ≤ s :=
    ⟨_, List.getLast_mem hne, hfit⟩
  have h1 := firstFittingSlot_mem _ _ hex
  exact ⟨h1.1, h1.2, firstFittingSlot_le _ _ hsorted⟩

/-- C2 at the slots 2, 4, 8 and three txs: the block size is 4. -/
theorem computeCurrentBlockSize_least_witness :
    computeCurrentBlockSize sampleCommitter threeTxsCopy = 4 ∧
    computeCurrentBlockSize sampleCommitter threeTxsCopy ∈ sampleCommitter.optionalBlockSizes ∧
    (threeTxsCopy.StateCache.Txs.length : Int) ≤
      computeCurrentBlockSize sampleCommitter threeTxsCopy ∧
    ∀ s ∈ sampleCommitter.optionalBlockSizes, (threeTxsCopy.StateCache.Txs.length : Int) ≤ s →
      computeCurrentBlockSize sampleCommitter threeTxsCopy ≤ s :=
  ⟨by decide,
   computeCurrentBlockSize_least sampleCommitter threeTxsCopy (by decide) (by decide)
     (by decide)⟩

theorem wrapInt64_of_range (x : Int) (h1 : -(2 ^ 63) ≤ x) (h2 : x < 2 ^ 63) :
    wrapInt64 x = x := by
  unfold wrapInt64
  rw [Int.emod_eq_of_lt (by omega) (by omega)]
  omega

theorem Unix_diff_of_elapsed (now createdAt : Int)
    (h : now - createdAt ≥ 60 * nanosPerSecond) : Unix now - Unix createdAt ≥ 60 := by
  unfold Unix nanosPerSecond at *
  omega

theorem elapsed_of_Unix_diff (now createdAt : Int)
    (h : Unix now - Unix createdAt ≥ 60) : now - createdAt > 59 * nanosPerSecond := by
  unfold Unix nanosPerSecond at *
  omega

/-- C3, amended: `shouldCommit` compares whole Unix seconds.  For instants whose
difference in whole seconds fits an `int64`, it returns true exactly when the tx count is
at least `maxTxsPerBlock`, or the tx count is positive and the whole-second part of `now`
minus the whole-second part of `created_at` is at least 60.  That holds whenever 60 s
have elapsed, and only when more than 59 s have elapsed. -/
theorem shouldCommit_iff_whole_seconds (c : Committer) (bc : BlockChain) (curBlock : Block)
    (now : Int)
    (hlo : -(2 ^ 63) ≤ Unix now - Unix curBlock.CreatedAt)
    (hhi : Unix now - Unix curBlock.CreatedAt < 2 ^ 63) :
    (shouldCommit c bc curBlock now = true ↔
      ((bc.Statedb.Txs.length : Int) ≥ c.maxTxsPerBlock ∨
        ((bc.Statedb.Txs.length : Int) > 0 ∧ Unix now - Unix curBlock.CreatedAt ≥ 60))) ∧
    (now - curBlock.CreatedAt ≥ 60 * nanosPerSecond →
      Unix now - Unix curBlock.CreatedAt ≥ 60) ∧
    (Unix now - Unix curBlock.CreatedAt ≥ 60 →
      now - curBlock.CreatedAt > 59 * nanosPerSecond) := by
  refine ⟨?_, Unix_diff_of_elapsed _ _, elapsed_of_Unix_diff _ _⟩
  unfold shouldCommit
  rw [wrapInt64_of_range _ hlo hhi]
  simp only [MaxCommitterInterval]
  constructor
  · intro h
    by_contra hcon
    rw [if_neg (by tauto)] at h
    exact absurd h (by decide)
  · intro h
    rw [if_pos (by tauto)]

/-- C3 amended, at one tx, a block created at 0.9 s and the instant 60.0 s. -/
theorem shouldCommit_iff_whole_seconds_witness :
    (shouldCommit sampleCommitter oneTxBlockChain oneTxBlockChain.currentBlock 60000000000 = true ↔
      ((oneTxBlockChain.Statedb.Txs.length : Int) ≥ sampleCommitter.maxTxsPerBlock ∨
        ((oneTxBlockChain.Statedb.Txs.length : Int) > 0 ∧
          Unix 60000000000 - Unix oneTxBlockChain.currentBlock.CreatedAt ≥ 60))) ∧
    (60000000000 - oneTxBlockChain.currentBlock.CreatedAt ≥ 60 * nanosPerSecond →
      Unix 60000000000 - Unix oneTxBlockChain.currentBlock.CreatedAt ≥ 60) ∧
    (Unix 60000000000 - Unix oneTxBlockChain.currentBlock.CreatedAt ≥ 60 →
      60000000000 - oneTxBlockChain.currentBlock.CreatedAt > 59 * nanosPerSecond) :=
  shouldCommit_iff_whole_seconds sampleCommitter oneTxBlockChain oneTxBlockChain.currentBlock
    60000000000 (by decide) (by decide)

/-- C3 as stated fails: with one tx, a block created at 0.9 s and `now` at 60.0 s, only
59.1 s have elapsed and the tx count is below `maxTxsPerBlock`, yet `shouldCommit`
returns true. -/
theorem shouldCommit_before_60s :
    shouldCommit sampleCommitter oneTxBlockChain oneTxBlockChain.currentBlock 60000000000 = true ∧
    ¬ ((oneTxBlockChain.Statedb.Txs.length : Int) ≥ sampleCommitter.maxTxsPerBlock ∨
        ((oneTxBlockChain.Statedb.Txs.length : Int) > 0 ∧
          60000000000 - oneTxBlockChain.currentBlock.CreatedAt ≥ 60 * nanosPerSecond)) := by
  decide

/-! ## Theorems: Go maps -/

namespace GoMap

variable {V : Type}

theorem get_set_self (m : GoMap V) (k : Int) (v : V) : get (set m k v) k = some v := by
  induction m with
  | nil => simp [set, get]
  | cons e rest ih =>
    obtain ⟨k0, v0⟩ := e
    by_cases h : k0 = k
    · simp [set, get, h]
    · simp [set, get, h, ih]

theorem get_set_ne (m : GoMap V) (k k1 : Int) (v : V) (hne : k1 ≠ k) :
    get (set m k v) k1 = get m k1 := by
  induction m with
  | nil =>
    have : ¬ k = k1 := fun h => hne h.symm
    simp [set, get, this]
  | cons e rest ih =>
    obtain ⟨k0, v0⟩ := e
    by_cases h : k0 = k
    · subst h
      have : ¬ k0 = k1 := fun h => hne h.symm
      simp [set, get, this]
    · by_cases h1 : k0 = k1
      · subst h1
        simp [set, get, h]
      · simp [set, get, h, h1, ih]

theorem get_eq_none_iff (m : GoMap V) (k : Int) : get m k = none ↔ k ∉ keys m := by
  induction m with
  | nil => simp [get, keys]
  | cons e rest ih =>
    obtain ⟨k0, v0⟩ := e
    by_cases h : k0 = k
    · simp [get, keys, h]
    · have h1 : ¬ k = k0 := fun h2 => h h2.symm
      simp only [get, h, if_false, keys, List.map_cons, List.mem_cons, h1, false_or]
      exact ih

theorem get_isSome_iff (m : GoMap V) (k : Int) : (∃ v, get m k = some v) ↔ k ∈ keys m := by
  constructor
  · rintro ⟨v, hv⟩
    by_contra hcon
    rw [(get_eq_none_iff m k).mpr hcon] at hv
    exact absurd hv (by simp)
  · intro hk
    cases hg : get m k with
    | none => exact absurd hk ((get_eq_none_iff m k).mp hg)
    | some v => exact ⟨v, rfl⟩

theorem keys_set_of_mem (m : GoMap V) (k : Int) (v : V) (hk : k ∈ keys m) :
    keys (set m k v) = keys m := by
  induction m with
  | nil => simp [keys] at hk
  | cons e rest ih =>
    obtain ⟨k0, v0⟩ := e
    by_cases h : k0 = k
    · simp [set, keys, h]
    · have h1 : ¬ k = k0 := fun h2 => h h2.symm
      simp only [keys, List.map_cons, List.mem_cons, h1, false_or] at hk
      have := ih hk
      simp only [keys] at this
      simp [set, keys, h, this]

theorem keys_set_of_not_mem (m : GoMap V) (k : Int) (v : V) (hk : k ∉ keys m) :
    keys (set m k v) = keys m ++ [k] := by
  induction m with
  | nil => simp [set, keys]
  | cons e rest ih =>
    obtain ⟨k0, v0⟩ := e
    simp only [keys, List.map_cons, List.mem_cons, not_or] at hk
    have h : ¬ k0 = k := fun h2 => hk.1 h2.symm
    have := ih hk.2
    simp only [keys] at this
    simp [set, keys, h, this]

theorem get_of_mem (m : GoMap V) (hwf : WF m) (k : Int) (v : V) (hmem : (k, v) ∈ m) :
    get m k = some v := by
  induction m with
  | nil => simp at hmem
  | cons e rest ih =>
    obtain ⟨k0, v0⟩ := e
    simp only [WF, keys, List.map_cons, List.nodup_cons] at hwf
    rcases List.mem_cons.mp hmem with heq | hrest
    · injection heq with h1 h2
      subst h1 h2
      simp [get]
    · have hk : k ∈ List.map Prod.fst rest := List.mem_map.mpr ⟨(k, v), hrest, rfl⟩
      have hne : ¬ k0 = k := fun h => hwf.1 (h ▸ hk)
      simp only [get, hne, if_false]
      exact ih hwf.2 hrest

theorem mem_of_get (m : GoMap V) (k : Int) (v : V) (hget : get m k = some v) : (k, v) ∈ m := by
  induction m with
  | nil => simp [get] at hget
  | cons e rest ih =>
    obtain ⟨k0, v0⟩ := e
    by_cases h : k0 = k
    · simp only [get, h, if_true, Option.some.injEq] at hget
      subst h hget
      exact List.mem_cons_self _ _
    · simp only [get, h, if_false] at hget
      exact List.mem_cons_of_mem _ (ih hget)

end GoMap

/-! ## Theorems: gas-fee folding -/

theorem addGasToAsset_eq (formatAccount : AccountInfo) (assetId delta : Int) :
    addGasToAsset formatAccount assetId delta =
      { formatAccount with
        AssetInfo := GoMap.set formatAccount.AssetInfo assetId
          (foldedAsset (GoMap.get formatAccount.AssetInfo assetId) delta) } := by
  unfold addGasToAsset foldedAsset
  cases GoMap.get formatAccount.AssetInfo assetId <;> rfl

theorem foldGasEntries_index (es : List (Int × Int)) :
    ∀ (a : AccountInfo) (g : GoMap Int),
      (foldGasEntries es a g).1.AccountIndex = a.AccountIndex := by
  induction es with
  | nil => intro a g; rfl
  | cons e rest ih =>
    intro a g
    obtain ⟨k0, d0⟩ := e
    simp only [foldGasEntries]
    rw [ih, addGasToAsset_eq]

theorem foldGasEntries_get_of_not_mem (es : List (Int × Int)) (k : Int) :
    ∀ (a : AccountInfo) (g : GoMap Int), k ∉ GoMap.keys es →
      GoMap.get (foldGasEntries es a g).1.AssetInfo k = GoMap.get a.AssetInfo k ∧
      GoMap.get (foldGasEntries es a g).2 k = GoMap.get g k := by
  induction es with
  | nil => intro a g _; exact ⟨rfl, rfl⟩
  | cons e rest ih =>
    intro a g hk
    obtain ⟨k0, d0⟩ := e
    simp only [GoMap.keys, List.map_cons, List.mem_cons, not_or] at hk
    have h := ih (addGasToAsset a k0 d0) (GoMap.set g k0 0) hk.2
    simp only [foldGasEntries]
    rw [h.1, h.2, addGasToAsset_eq]
    exact ⟨GoMap.get_set_ne _ _ _ _ hk.1, GoMap.get_set_ne _ _ _ _ hk.1⟩

theorem foldGasEntries_get_of_mem (es : List (Int × Int)) (k d : Int) :
    ∀ (a : AccountInfo) (g : GoMap Int), GoMap.WF es → (k, d) ∈ es →
      GoMap.get (foldGasEntries es a g).1.AssetInfo k =
        some (foldedAsset (GoMap.get a.AssetInfo k) d) ∧
      GoMap.get (foldGasEntries es a g).2 k = some 0 := by
  induction es with
  | nil => intro a g _ hmem; simp at hmem
  | cons e rest ih =>
    intro a g hwf hmem
    obtain ⟨k0, d0⟩ := e
    simp only [GoMap.WF, GoMap.keys, List.map_cons, List.nodup_cons] at hwf
    simp only [foldGasEntries]
    rcases List.mem_cons.mp hmem with heq | hrest
    · injection heq with h1 h2
      subst h1 h2
      have h := foldGasEntries_get_of_not_mem rest k (addGasToAsset a k d) (GoMap.set g k 0)
        hwf.1
      rw [h.1, h.2, addGasToAsset_eq]
      exact ⟨GoMap.get_set_self _ _ _, GoMap.get_set_self _ _ _⟩
    · have hk : k ∈ List.map Prod.fst rest := List.mem_map.mpr ⟨(k, d), hrest, rfl⟩
      have hne : k ≠ k0 := fun h => hwf.1 (h ▸ hk)
      have h := ih (addGasToAsset a k0 d0) (GoMap.set g k0 0) hwf.2 hrest
      rw [h.1, h.2, addGasToAsset_eq]
      simp only [GoMap.get_set_ne _ _ _ _ hne, and_self]

theorem foldGasEntries_keys (es : List (Int × Int)) :
    ∀ (a : AccountInfo) (g : GoMap Int), (∀ k ∈ GoMap.keys es, k ∈ GoMap.keys g) →
      GoMap.keys (foldGasEntries es a g).2 = GoMap.keys g := by
  induction es with
  | nil => intro a g _; rfl
  | cons e rest ih =>
    intro a g hsub
    obtain ⟨k0, d0⟩ := e
    have hk0 : k0 ∈ GoMap.keys g := hsub k0 (by simp [GoMap.keys])
    have hset := GoMap.keys_set_of_mem g k0 0 hk0
    simp only [foldGasEntries]
    rw [ih, hset]
    intro k hk
    rw [hset]
    exact hsub k (by simp only [GoMap.keys, List.map_cons, List.mem_cons]; exact Or.inr hk)

theorem foldGasAccounts_of_no_gas (gasAccount : Int) (m : GoMap AccountInfo) (g : GoMap Int)
    (hno : ∀ e ∈ m, e.2.AccountIndex ≠ gasAccount) :
    foldGasAccounts gasAccount m g = (m, g) := by
  induction m with
  | nil => rfl
  | cons e rest ih =>
    obtain ⟨k0, a0⟩ := e
    have h0 : a0.AccountIndex ≠ gasAccount := hno (k0, a0) (List.mem_cons_self _ _)
    have hrest := ih (fun e he => hno e (List.mem_cons_of_mem _ he))
    simp only [foldGasAccounts, h0, ne_eq, not_false_eq_true, if_true, hrest]

theorem foldGasAccounts_keys (gasAccount : Int) (m : GoMap AccountInfo) :
    ∀ g : GoMap Int, GoMap.keys (foldGasAccounts gasAccount m g).1 = GoMap.keys m := by
  induction m with
  | nil => intro g; rfl
  | cons e rest ih =>
    intro g
    obtain ⟨k0, a0⟩ := e
    by_cases h0 : a0.AccountIndex ≠ gasAccount
    · have := ih g
      simp only [GoMap.keys] at this
      simp [foldGasAccounts, h0, GoMap.keys, this]
    · have := ih (foldGasEntries g a0 g).2
      simp only [GoMap.keys] at this
      simp [foldGasAccounts, h0, GoMap.keys, this]

theorem foldGasAccounts_keyed (gasAccount : Int) (m : GoMap AccountInfo) :
    ∀ g : GoMap Int, KeyedByIndex m → KeyedByIndex (foldGasAccounts gasAccount m g).1 := by
  induction m with
  | nil => intro g _ e he; simp [foldGasAccounts] at he
  | cons e rest ih =>
    intro g hkey
    obtain ⟨k0, a0⟩ := e
    have hk0 : a0.AccountIndex = k0 := hkey (k0, a0) (List.mem_cons_self _ _)
    have hrest : KeyedByIndex rest := fun e he => hkey e (List.mem_cons_of_mem _ he)
    by_cases h0 : a0.AccountIndex ≠ gasAccount
    · intro e he
      simp only [foldGasAccounts, h0, ne_eq, not_false_eq_true, if_true, List.mem_cons] at he
      rcases he with rfl | he
      · exact hk0
      · exact ih g hrest e he
    · intro e he
      simp only [foldGasAccounts, h0, if_false, List.mem_cons] at he
      rcases he with rfl | he
      · simp only [foldGasEntries_index]
        exact hk0
      · exact ih _ hrest e he

theorem foldGasAccounts_of_gas (gasAccount : Int) (m : GoMap AccountInfo) (acct : AccountInfo) :
    ∀ g : GoMap Int, GoMap.WF m → KeyedByIndex m → GoMap.get m gasAccount = some acct →
      GoMap.get (foldGasAccounts gasAccount m g).1 gasAccount = some (foldGasEntries g acct g).1 ∧
      (foldGasAccounts gasAccount m g).2 = (foldGasEntries g acct g).2 ∧
      ∀ k, k ≠ gasAccount → GoMap.get (foldGasAccounts gasAccount m g).1 k = GoMap.get m k := by
  induction m with
  | nil => intro g _ _ hget; simp [GoMap.get] at hget
  | cons e rest ih =>
    intro g hwf hkey hget
    obtain ⟨k0, a0⟩ := e
    have hk0 : a0.AccountIndex = k0 := hkey (k0, a0) (List.mem_cons_self _ _)
    have hrest : KeyedByIndex rest := fun e he => hkey e (List.mem_cons_of_mem _ he)
    simp only [GoMap.WF, GoMap.keys, List.map_cons, List.nodup_cons] at hwf
    by_cases h0 : a0.AccountIndex ≠ gasAccount
    · have hne : ¬ k0 = gasAccount := fun h => h0 (hk0.trans h)
      simp only [GoMap.get, hne, if_false] at hget
      have h := ih g hwf.2 hrest hget
      simp only [foldGasAccounts, h0, ne_eq, not_false_eq_true, if_true, GoMap.get, hne,
        if_false]
      refine ⟨h.1, h.2.1, ?_⟩
      intro k hk
      by_cases hkk : k0 = k
      · simp [hkk]
      · simp only [hkk, if_false]
        exact h.2.2 k hk
    · have heq : k0 = gasAccount := by
        rw [← hk0]
        exact not_not.mp h0
      simp only [GoMap.get, heq, if_true, Option.some.injEq] at hget
      subst hget
      have hno : ∀ e ∈ rest, e.2.AccountIndex ≠ gasAccount := by
        intro e he hidx
        have hke : e.1 = gasAccount := (hrest e he).symm.trans hidx
        exact hwf.1 (List.mem_map.mpr ⟨e, he, hke.trans heq.symm⟩)
      simp only [foldGasAccounts, h0, if_false, foldGasAccounts_of_no_gas _ _ _ hno,
        GoMap.get, heq, if_true, true_and]
      intro k hk
      have : ¬ gasAccount = k := fun h => hk h.symm
      simp [this]

/-- C5: gas-fee folding postcondition.  With the gas account in `PendingAccountMap`
(a Go map holding each account under its index) the fold leaves, for every asset in
`PendingGasMap`, the gas account's balance at its previous value (0 if the asset was
absent) plus the previous `PendingGasMap` amount; an asset the fold creates has
`OfferCanceledOrFinalized = 0`; an existing asset keeps its `OfferCanceledOrFinalized`;
and every entry of `PendingGasMap` is 0 afterwards, under the same keys. -/
theorem foldGas_postcondition (gasAccount : Int) (sc : StateCache) (acct : AccountInfo)
    (hwfA : GoMap.WF sc.PendingAccountMap) (hkey : KeyedByIndex sc.PendingAccountMap)
    (hwfG : GoMap.WF sc.PendingGasMap)
    (hgas : GoMap.get sc.PendingAccountMap gasAccount = some acct) :
    ∃ folded, GoMap.get (foldGas gasAccount sc).PendingAccountMap gasAccount = some folded ∧
      (∀ assetId delta, GoMap.get sc.PendingGasMap assetId = some delta →
        balanceOf folded assetId = balanceOf acct assetId + delta ∧
        (∀ asset, GoMap.get acct.AssetInfo assetId = some asset →
          GoMap.get folded.AssetInfo assetId =
            some { Balance := asset.Balance + delta,
                   OfferCanceledOrFinalized := asset.OfferCanceledOrFinalized }) ∧
        (GoMap.get acct.AssetInfo assetId = none →
          GoMap.get folded.AssetInfo assetId =
            some { Balance := delta, OfferCanceledOrFinalized := 0 }) ∧
        GoMap.get (foldGas gasAccount sc).PendingGasMap assetId = some 0) ∧
      GoMap.keys (foldGas gasAccount sc).PendingGasMap = GoMap.keys sc.PendingGasMap ∧
      ∀ e ∈ (foldGas gasAccount sc).PendingGasMap, e.2 = 0 := by
  have hfold := foldGasAccounts_of_gas gasAccount sc.PendingAccountMap acct sc.PendingGasMap
    hwfA hkey hgas
  have hkeys : GoMap.keys (foldGas gasAccount sc).PendingGasMap = GoMap.keys sc.PendingGasMap := by
    simp only [foldGas]
    rw [hfold.2.1]
    exact foldGasEntries_keys _ _ _ (fun k hk => hk)
  refine ⟨(foldGasEntries sc.PendingGasMap acct sc.PendingGasMap).1, hfold.1, ?_, hkeys, ?_⟩
  · intro assetId delta hget
    have hmem := GoMap.mem_of_get _ _ _ hget
    have h := foldGasEntries_get_of_mem sc.PendingGasMap assetId delta acct sc.PendingGasMap
      hwfG hmem
    refine ⟨?_, ?_, ?_, ?_⟩
    · unfold balanceOf
      rw [h.1]
      cases GoMap.get acct.AssetInfo assetId <;> simp [foldedAsset]
    · intro asset hasset
      rw [h.1, hasset]
      rfl
    · intro hnone
      rw [h.1, hnone]
      rfl
    · simp only [foldGas]
      rw [hfold.2.1]
      exact h.2
  · intro e he
    have hwf2 : GoMap.WF (foldGas gasAccount sc).PendingGasMap := by
      unfold GoMap.WF
      rw [hkeys]
      exact hwfG
    have hget := GoMap.get_of_mem _ hwf2 e.1 e.2 he
    have hk : e.1 ∈ GoMap.keys sc.PendingGasMap := by
      rw [← hkeys]
      exact List.mem_map.mpr ⟨e, he, rfl⟩
    obtain ⟨d, hd⟩ := (GoMap.get_isSome_iff _ _).mpr hk
    have hmem := GoMap.mem_of_get _ _ _ hd
    have h := foldGasEntries_get_of_mem sc.PendingGasMap e.1 d acct sc.PendingGasMap hwfG hmem
    simp only [foldGas] at hget
    rw [hfold.2.1, h.2] at hget
    exact (Option.some.inj hget).symm

/-- C5 at three fees of 5 on asset 1: the gas account's balance of asset 1 goes from 100
to 115, its `OfferCanceledOrFinalized` stays 7, and `PendingGasMap[1]` is 0. -/
theorem foldGas_postcondition_witness :
    GoMap.get (foldGas 1 threeFeesCache).PendingAccountMap 1 =
      some { AccountIndex := 1, Nonce := 0,
             AssetInfo := [(1, { Balance := 115, OfferCanceledOrFinalized := 7 })] } ∧
    GoMap.get (foldGas 1 threeFeesCache).PendingGasMap 1 = some 0 ∧
    ∃ folded, GoMap.get (foldGas 1 threeFeesCache).PendingAccountMap 1 = some folded ∧
      (∀ assetId delta, GoMap.get threeFeesCache.PendingGasMap assetId = some delta →
        balanceOf folded assetId = balanceOf sampleGasAccount assetId + delta ∧
        (∀ asset, GoMap.get sampleGasAccount.AssetInfo assetId = some asset →
          GoMap.get folded.AssetInfo assetId =
            some { Balance := asset.Balance + delta,
                   OfferCanceledOrFinalized := asset.OfferCanceledOrFinalized }) ∧
        (GoMap.get sampleGasAccount.AssetInfo assetId = none →
          GoMap.get folded.AssetInfo assetId =
            some { Balance := delta, OfferCanceledOrFinalized := 0 }) ∧
        GoMap.get (foldGas 1 threeFeesCache).PendingGasMap assetId = some 0) ∧
      GoMap.keys (foldGas 1 threeFeesCache).PendingGasMap =
        GoMap.keys threeFeesCache.PendingGasMap ∧
      ∀ e ∈ (foldGas 1 threeFeesCache).PendingGasMap, e.2 = 0 :=
  ⟨by decide, by decide,
   foldGas_postcondition 1 threeFeesCache sampleGasAccount (by unfold GoMap.WF; decide)
     (by intro e he; simp [threeFeesCache] at he; subst he; rfl) (by unfold GoMap.WF; decide)
     (by decide)⟩

/-! ## Theorems: the executor's steps compose -/

theorem withEvents_ok (evs1 : List Event) (r : Except Panic (ExecutorState × List Event))
    (st : ExecutorState) (evs : List Event) (h : withEvents evs1 r = .ok (st, evs)) :
    ∃ evs2, r = .ok (st, evs2) ∧ evs = evs1 ++ evs2 := by
  unfold withEvents at h
  split at h
  · exact absurd h (by simp)
  · rename_i st0 evs0
    injection h with h
    injection h with h1 h2
    subst h1 h2
    exact ⟨evs0, rfl, rfl⟩

section Composition

variable {env : Collaborators} {c : Committer}
  {P : ExecutorState → List Event → ExecutorState → Prop} {S : BlockChain → Prop}

theorem processPendingTxs_rel (hP : Compositional env c P S) :
    ∀ (txs : List Tx) (st st1 : ExecutorState) (evs : List Event),
      processPendingTxs env c txs st = .ok (st1, evs) → P st evs st1 := by
  intro txs
  induction txs with
  | nil =>
    intro st st1 evs h
    simp only [processPendingTxs] at h
    injection h with h
    injection h with h1 h2
    subst h1 h2
    exact hP.frame st st rfl rfl rfl
  | cons t rest ih =>
    intro st st1 evs h
    simp only [processPendingTxs] at h
    cases h1 : executePoolTx env c st t with
    | error p => rw [h1] at h; exact absurd h (by simp)
    | ok r =>
      obtain ⟨st2, evs2⟩ := r
      rw [h1] at h
      obtain ⟨evs3, h3, rfl⟩ := withEvents_ok _ _ _ _ h
      exact hP.trans _ _ _ _ _ (hP.pool _ _ _ _ h1) (ih _ _ _ h3)

theorem executeRound_rel (hP : Compositional env c P S) (st st1 : ExecutorState)
    (txs : List Tx) (evs : List Event) (h : executeRound env c st txs = .ok (st1, evs)) :
    P st evs st1 ∧ S st1.bc := by
  unfold executeRound at h
  cases h1 : processPendingTxs env c txs { st with pendingDeletePoolTxs := [] } with
  | error p => rw [h1] at h; exact absurd h (by simp)
  | ok r =>
    obtain ⟨st2, evs2⟩ := r
    rw [h1] at h
    simp only at h
    have hstart : P st [] { st with pendingDeletePoolTxs := [] } := hP.frame _ _ rfl rfl rfl
    have hproc := processPendingTxs_rel hP _ _ _ _ h1
    have hpub := hP.publish st2
    have hS := hP.published st2
    have h12 := hP.trans _ _ _ _ _ (hP.trans _ _ _ _ _ hstart hproc) hpub
    simp only [List.nil_append] at h12
    split at h
    · obtain ⟨evs3, h3, rfl⟩ := withEvents_ok _ _ _ _ h
      have hc := hP.commit (afterPublish env st2) _ _ hS h3
      exact ⟨hP.trans _ _ _ _ _ h12 hc.1, hc.2⟩
    · injection h with h
      injection h with h3 h4
      subst h3 h4
      exact ⟨h12, hS⟩

theorem flushPendingUpdates_bc (st : ExecutorState) : (flushPendingUpdates st).1.bc = st.bc := by
  unfold flushPendingUpdates
  split <;> rfl

theorem idleIteration_rel (hP : Compositional env c P S) (st st1 : ExecutorState)
    (evs : List Event) (hS : S st.bc) (h : idleIteration env c st = .ok (st1, evs)) :
    P st evs st1 ∧ S st1.bc := by
  unfold idleIteration at h
  simp only at h
  have htick : P st [] { st with clockReads := st.clockReads + 1 } := hP.frame _ _ rfl rfl rfl
  split at h
  · have hr := executeRound_rel hP _ _ _ _ h
    have := hP.trans _ _ _ _ _ htick hr.1
    exact ⟨by simpa using this, hr.2⟩
  · have hflush := hP.flush { st with clockReads := st.clockReads + 1 }
    have h01 := hP.trans _ _ _ _ _ htick hflush
    simp only [List.nil_append] at h01
    split at h
    · injection h with h
      injection h with h3 h4
      subst h3 h4
      have hpoll := hP.frame (flushPendingUpdates { st with clockReads := st.clockReads + 1 }).1
        { (getPoolTxsFromQueue env
            (flushPendingUpdates { st with clockReads := st.clockReads + 1 }).1).2 with
          position := .idleLoop } rfl rfl rfl
      have := hP.trans _ _ _ _ _ h01 hpoll
      refine ⟨by simpa using this, ?_⟩
      have hbc := flushPendingUpdates_bc { st with clockReads := st.clockReads + 1 }
      simp only [getPoolTxsFromQueue]
      rw [hbc]
      exact hS
    · obtain ⟨evs3, h3, rfl⟩ := withEvents_ok _ _ _ _ h
      have hpoll := hP.frame (flushPendingUpdates { st with clockReads := st.clockReads + 1 }).1
        (getPoolTxsFromQueue env
            (flushPendingUpdates { st with clockReads := st.clockReads + 1 }).1).2 rfl rfl rfl
      have hr := executeRound_rel hP _ _ _ _ h3
      have := hP.trans _ _ _ _ _ (hP.trans _ _ _ _ _ h01 hpoll) hr.1
      exact ⟨by simpa using this, hr.2⟩

theorem loopIteration_rel (hP : Compositional env c P S) (st st1 : ExecutorState)
    (evs : List Event) (hS : S st.bc) (h : loopIteration env c st = .ok (st1, evs)) :
    P st evs st1 ∧ S st1.bc := by
  unfold loopIteration at h
  simp only at h
  by_cases hstatus : st.bc.currentBlock.BlockStatus > env.StatusProposing
  · simp only [hstatus, if_true] at h
    rcases hinit : env.InitNewBlock st.bc with ⟨bc1, err⟩
    rw [hinit] at h
    cases err with
    | some e => exact absurd h (by simp)
    | none =>
      simp only at h
      have h0 := hP.init st bc1 hS hstatus hinit
      split at h
      · obtain ⟨evs3, h3, rfl⟩ := withEvents_ok _ _ _ _ h
        have h1 : P { st with bc := bc1 } [] { st with bc := bc1, subPendingTxs := [] } :=
          hP.frame _ _ rfl rfl rfl
        have hr := executeRound_rel hP _ _ _ _ h3
        have := hP.trans _ _ _ _ _ (hP.trans _ _ _ _ _ h0.1 h1) hr.1
        exact ⟨by simpa using this, hr.2⟩
      · have h1 : P { st with bc := bc1 } [] (getPoolTxsFromQueue env { st with bc := bc1 }).2 :=
          hP.frame _ _ rfl rfl rfl
        split at h
        · obtain ⟨evs3, h3, rfl⟩ := withEvents_ok _ _ _ _ h
          have hr := idleIteration_rel hP (getPoolTxsFromQueue env { st with bc := bc1 }).2
            _ _ h0.2 h3
          have := hP.trans _ _ _ _ _ (hP.trans _ _ _ _ _ h0.1 h1) hr.1
          exact ⟨by simpa using this, hr.2⟩
        · obtain ⟨evs3, h3, rfl⟩ := withEvents_ok _ _ _ _ h
          have hr := executeRound_rel hP _ _ _ _ h3
          have := hP.trans _ _ _ _ _ (hP.trans _ _ _ _ _ h0.1 h1) hr.1
          exact ⟨by simpa using this, hr.2⟩
  · simp only [hstatus, if_false] at h
    split at h
    · obtain ⟨evs3, h3, rfl⟩ := withEvents_ok _ _ _ _ h
      have h1 : P st [] { st with bc := st.bc, subPendingTxs := [] } :=
        hP.frame _ _ rfl rfl rfl
      have hr := executeRound_rel hP _ _ _ _ h3
      have := hP.trans _ _ _ _ _ h1 hr.1
      exact ⟨by simpa using this, hr.2⟩
    · have h1 : P st [] (getPoolTxsFromQueue env { st with bc := st.bc }).2 :=
        hP.frame _ _ rfl rfl rfl
      split at h
      · obtain ⟨evs3, h3, rfl⟩ := withEvents_ok _ _ _ _ h
        have hr := idleIteration_rel hP (getPoolTxsFromQueue env { st with bc := st.bc }).2
          _ _ hS h3
        have := hP.trans _ _ _ _ _ h1 hr.1
        exact ⟨by simpa using this, hr.2⟩
      · obtain ⟨evs3, h3, rfl⟩ := withEvents_ok _ _ _ _ h
        have hr := executeRound_rel hP _ _ _ _ h3
        have := hP.trans _ _ _ _ _ h1 hr.1
        exact ⟨by simpa using this, hr.2⟩

theorem executeTxStep_rel (hP : Compositional env c P S) (st st1 : ExecutorState)
    (evs : List Event) (hS : S st.bc) (h : executeTxStep env c st = .ok (st1, evs)) :
    P st evs st1 ∧ S st1.bc := by
  unfold executeTxStep at h
  split at h
  · exact loopIteration_rel hP _ _ _ hS h
  · exact idleIteration_rel hP _ _ _ hS h

theorem executeTxSteps_rel (hP : Compositional env c P S) :
    ∀ (n : Nat) (st st1 : ExecutorState) (evs : List Event), S st.bc →
      executeTxSteps env c n st = .ok (st1, evs) → P st evs st1 ∧ S st1.bc := by
  intro n
  induction n with
  | zero =>
    intro st st1 evs hS h
    simp only [executeTxSteps] at h
    injection h with h
    injection h with h1 h2
    subst h1 h2
    exact ⟨hP.frame st st rfl rfl rfl, hS⟩
  | succ n ih =>
    intro st st1 evs hS h
    simp only [executeTxSteps] at h
    cases h1 : executeTxStep env c st with
    | error p => rw [h1] at h; exact absurd h (by simp)
    | ok r =>
      obtain ⟨st2, evs2⟩ := r
      rw [h1] at h
      obtain ⟨evs3, h3, rfl⟩ := withEvents_ok _ _ _ _ h
      have hs := executeTxStep_rel hP _ _ _ hS h1
      have hr := ih _ _ _ hs.2 h3
      exact ⟨hP.trans _ _ _ _ _ hs.1 hr.1, hr.2⟩

end Composition

/-! ## Theorems: the loop body for one pool tx -/

theorem checkPriorityRequest_cases (env : Collaborators) (latestRequestId : Int) (t : Tx)
    (requestId : Int) (evs : List Event)
    (h : checkPriorityRequest env latestRequestId t = .ok (requestId, evs)) :
    (env.IsPriorityOperationTx t.TxType = false ∧ requestId = latestRequestId ∧ evs = []) ∨
    (env.IsPriorityOperationTx t.TxType = true ∧
      ∃ request, env.GetPriorityRequestsByL2TxHash t.TxHash = .ok request ∧
        requestId = request.RequestId ∧
        (latestRequestId = -1 ∨ request.RequestId = wrapInt64 (latestRequestId + 1)) ∧
        evs = [.priorityAccepted t request.RequestId]) := by
  unfold checkPriorityRequest at h
  by_cases hp : env.IsPriorityOperationTx t.TxType = true
  · simp only [hp, if_true] at h
    right
    refine ⟨hp, ?_⟩
    cases hreq : env.GetPriorityRequestsByL2TxHash t.TxHash with
    | error e => rw [hreq] at h; exact absurd h (by simp)
    | ok request =>
      rw [hreq] at h
      simp only at h
      split at h
      · exact absurd h (by simp)
      · rename_i hcond
        injection h with h
        injection h with h1 h2
        refine ⟨request, rfl, h1.symm, ?_, h2.symm⟩
        by_cases hl : latestRequestId = -1
        · exact Or.inl hl
        · right
          by_contra hne
          exact hcond ⟨hl, hne⟩
  · have hp2 : env.IsPriorityOperationTx t.TxType = false := by
      cases hb : env.IsPriorityOperationTx t.TxType
      · rfl
      · exact absurd hb hp
    simp only [hp2] at h
    left
    injection h with h
    injection h with h1 h2
    exact ⟨hp2, h1.symm, h2.symm⟩

theorem writeProposedBlock_cases (env : Collaborators) (bc bc2 : BlockChain)
    (evs : List Event) (h : writeProposedBlock env bc = .ok (bc2, evs)) :
    bc2.Statedb = bc.Statedb ∧
    ((bc.Statedb.Txs.length ≠ 1 ∧ bc2 = bc ∧ evs = []) ∨
     (bc.Statedb.Txs.length = 1 ∧
       createNewBlock env bc.currentBlock = (bc2.currentBlock, none) ∧
       evs = [.createNewBlock bc2.currentBlock])) := by
  unfold writeProposedBlock at h
  by_cases hlen : bc.Statedb.Txs.length = 1
  · simp only [hlen, if_true] at h
    rcases hc : createNewBlock env bc.currentBlock with ⟨created, err⟩
    rw [hc] at h
    cases err with
    | some e => exact absurd h (by simp)
    | none =>
      simp only at h
      injection h with h
      injection h with h1 h2
      subst h1 h2
      exact ⟨rfl, Or.inr ⟨hlen, rfl, rfl⟩⟩
  · simp only [hlen, if_false] at h
    injection h with h
    injection h with h1 h2
    subst h1 h2
    exact ⟨rfl, Or.inl ⟨hlen, rfl, rfl⟩⟩

theorem executePoolTx_cases (env : Collaborators) (c : Committer) (st : ExecutorState)
    (t : Tx) (st1 : ExecutorState) (evs : List Event)
    (h : executePoolTx env c st t = .ok (st1, evs)) :
    (shouldCommit c st.bc st.bc.currentBlock (env.clock st.clockReads) = true ∧
      st1 = { st with clockReads := st.clockReads + 1,
                      subPendingTxs := st.subPendingTxs ++ [t] } ∧
      evs = [.parked t]) ∨
    (shouldCommit c st.bc st.bc.currentBlock (env.clock st.clockReads) = false ∧
      ∃ bc1 t1 err, env.ApplyTransaction st.bc t = (bc1, t1, some err) ∧
        env.IsPriorityOperationTx t1.TxType = false ∧
        st1 = { st with clockReads := st.clockReads + 1, bc := bc1,
                        pendingDeletePoolTxs := st.pendingDeletePoolTxs ++
                          [{ t1 with TxStatus := env.StatusFailed }] } ∧
        evs = [.applyFailed { t1 with TxStatus := env.StatusFailed }]) ∨
    (shouldCommit c st.bc st.bc.currentBlock (env.clock st.clockReads) = false ∧
      ∃ bc1 t1 requestId evs1 bc2 evs2, env.ApplyTransaction st.bc t = (bc1, t1, none) ∧
        checkPriorityRequest env st.latestRequestId t1 = .ok (requestId, evs1) ∧
        writeProposedBlock env bc1 = .ok (bc2, evs2) ∧
        st1 = { st with clockReads := st.clockReads + 1, bc := bc2,
                        latestRequestId := requestId,
                        pendingUpdatePoolTxs := st.pendingUpdatePoolTxs ++ [t1] } ∧
        evs = .applied t1 :: (evs1 ++ evs2)) := by
  unfold executePoolTx at h
  simp only at h
  by_cases hsc : shouldCommit c st.bc st.bc.currentBlock (env.clock st.clockReads) = true
  · simp only [hsc, if_true] at h
    injection h with h
    injection h with h1 h2
    exact Or.inl ⟨hsc, h1.symm, h2.symm⟩
  · have hsc2 : shouldCommit c st.bc st.bc.currentBlock (env.clock st.clockReads) = false := by
      cases hb : shouldCommit c st.bc st.bc.currentBlock (env.clock st.clockReads)
      · rfl
      · exact absurd hb hsc
    simp only [hsc2] at h
    right
    rcases happ : env.ApplyTransaction st.bc t with ⟨bc1, t1, err⟩
    rw [happ] at h
    cases err with
    | some e =>
      left
      simp only at h
      by_cases hp : env.IsPriorityOperationTx t1.TxType = true
      · simp only [hp, if_true] at h
        exact absurd h (by simp)
      · have hp2 : env.IsPriorityOperationTx t1.TxType = false := by
          cases hb : env.IsPriorityOperationTx t1.TxType
          · rfl
          · exact absurd hb hp
        simp only [hp2] at h
        injection h with h
        injection h with h1 h2
        exact ⟨hsc2, bc1, t1, e, rfl, hp2, h1.symm, h2.symm⟩
    | none =>
      right
      simp only at h
      cases hchk : checkPriorityRequest env st.latestRequestId t1 with
      | error p => rw [hchk] at h; exact absurd h (by simp)
      | ok r =>
        obtain ⟨requestId, evs1⟩ := r
        rw [hchk] at h
        simp only at h
        cases hw : writeProposedBlock env bc1 with
        | error p => rw [hw] at h; exact absurd h (by simp)
        | ok r2 =>
          obtain ⟨bc2, evs2⟩ := r2
          rw [hw] at h
          simp only at h
          injection h with h
          injection h with h1 h2
          exact ⟨hsc2, bc1, t1, requestId, evs1, bc2, evs2, rfl, hchk, hw, h1.symm, h2.symm⟩

/-! ## Theorems: priority-request continuity -/

theorem acceptedRequestIds_append (evs1 evs2 : List Event) :
    acceptedRequestIds (evs1 ++ evs2) = acceptedRequestIds evs1 ++ acceptedRequestIds evs2 := by
  induction evs1 with
  | nil => rfl
  | cons e rest ih => cases e <;> simp [acceptedRequestIds, ih]

theorem RequestChain_append (ids1 : List Int) :
    ∀ (latest : Int) (ids2 : List Int), RequestChain latest ids1 →
      RequestChain (lastRequestId latest ids1) ids2 → RequestChain latest (ids1 ++ ids2) := by
  induction ids1 with
  | nil => intro latest ids2 _ h; exact h
  | cons x rest ih =>
    intro latest ids2 h1 h2
    exact ⟨h1.1, ih x ids2 h1.2 h2⟩

theorem lastRequestId_append (ids1 : List Int) :
    ∀ (latest : Int) (ids2 : List Int),
      lastRequestId latest (ids1 ++ ids2) = lastRequestId (lastRequestId latest ids1) ids2 := by
  induction ids1 with
  | nil => intro latest ids2; rfl
  | cons x rest ih => intro latest ids2; exact ih x ids2

theorem RequestChain_chain (ids : List Int) :
    ∀ latest : Int, RequestChain latest ids → List.Chain NextRequestId latest ids := by
  induction ids with
  | nil => intro latest _; exact List.Chain.nil
  | cons x rest ih => intro latest h; exact List.Chain.cons h.1 (ih x h.2)

theorem RequestLinked_silent (st st1 : ExecutorState) (evs : List Event)
    (hevs : acceptedRequestIds evs = []) (hlatest : st1.latestRequestId = st.latestRequestId) :
    RequestLinked st evs st1 := by
  unfold RequestLinked
  rw [hevs]
  exact ⟨trivial, hlatest⟩

theorem writeProposedBlock_silent (env : Collaborators) (bc bc2 : BlockChain)
    (evs : List Event) (h : writeProposedBlock env bc = .ok (bc2, evs)) :
    acceptedRequestIds evs = [] := by
  rcases (writeProposedBlock_cases env bc bc2 evs h).2 with ⟨_, _, rfl⟩ | ⟨_, _, rfl⟩ <;> rfl

theorem RequestLinked_compositional (env : Collaborators) (c : Committer) :
    Compositional env c RequestLinked (fun _ => True) where
  trans := by
    intro st1 evs1 st2 evs2 st3 h1 h2
    unfold RequestLinked at *
    rw [acceptedRequestIds_append, lastRequestId_append, ← h1.2]
    refine ⟨RequestChain_append _ _ _ h1.1 ?_, h2.2⟩
    rw [← h1.2]
    exact h2.1
  frame := by
    intro st st1 _ hl _
    exact RequestLinked_silent _ _ _ rfl hl
  pool := by
    intro st t st1 evs h
    rcases executePoolTx_cases env c st t st1 evs h with
      ⟨_, rfl, rfl⟩ | ⟨_, bc1, t1, err, _, _, rfl, rfl⟩ |
      ⟨_, bc1, t1, requestId, evs1, bc2, evs2, _, hchk, hw, rfl, rfl⟩
    · exact RequestLinked_silent _ _ _ rfl rfl
    · exact RequestLinked_silent _ _ _ rfl rfl
    · have hsilent := writeProposedBlock_silent env bc1 bc2 evs2 hw
      rcases checkPriorityRequest_cases env _ _ _ _ hchk with
        ⟨_, rfl, rfl⟩ | ⟨_, request, _, rfl, hstep, rfl⟩
      · apply RequestLinked_silent
        · simp [acceptedRequestIds, hsilent]
        · rfl
      · have hids : acceptedRequestIds
            (Event.applied t1 :: ([Event.priorityAccepted t1 request.RequestId] ++ evs2)) =
            [request.RequestId] := by
          simp [acceptedRequestIds, hsilent]
        unfold RequestLinked
        rw [hids]
        refine ⟨⟨?_, trivial⟩, rfl⟩
        intro hne
        rcases hstep with h1 | h1
        · exact absurd h1 hne
        · exact h1
  publish := by
    intro st
    exact RequestLinked_silent _ _ _ rfl rfl
  published := fun _ => trivial
  commit := by
    intro st st1 evs _ h
    unfold commitBlock at h
    simp only at h
    split at h
    · exact absurd h (by simp)
    · injection h with h
      injection h with h1 h2
      subst h1 h2
      exact ⟨RequestLinked_silent _ _ _ rfl rfl, trivial⟩
  flush := by
    intro st
    unfold flushPendingUpdates
    split
    · exact RequestLinked_silent _ _ _ rfl rfl
    · exact RequestLinked_silent _ _ _ rfl rfl
  init := by
    intro st bc1 _ _ _
    exact ⟨RequestLinked_silent _ _ _ rfl rfl, trivial⟩

/-- C1, amended: in a run of the executor that does not panic, any two request ids that
the priority-request check accepts consecutively satisfy `b = a + 1` (in `int64`
arithmetic, so exactly `a + 1` when that fits), unless `a` is -1, the value that
`latestRequestId` uses for "none yet": after a request id of -1 the next id is accepted
whatever it is. -/
theorem request_ids_step_by_one (env : Collaborators) (c : Committer) (bc : BlockChain)
    (n : Nat) (st : ExecutorState) (evs : List Event)
    (h : executeTxFunc env c bc n = .ok (st, evs)) :
    List.Chain' (fun a b : Int => a ≠ -1 → b = wrapInt64 (a + 1) ∧
        (-(2 ^ 63) ≤ a + 1 → a + 1 < 2 ^ 63 → b = a + 1))
      (acceptedRequestIds evs) := by
  unfold executeTxFunc at h
  cases hlatest : getLatestExecutedRequestId env with
  | error e => rw [hlatest] at h; exact absurd h (by simp)
  | ok latest =>
    rw [hlatest] at h
    simp only at h
    have hlinked := (executeTxSteps_rel (RequestLinked_compositional env c) n _ _ _ trivial h).1
    have hchain := RequestChain_chain _ _ hlinked.1
    have hchain2 : List.Chain' NextRequestId (acceptedRequestIds evs) := by
      cases hids : acceptedRequestIds evs with
      | nil => exact List.chain'_nil
      | cons x rest =>
        rw [hids] at hchain
        cases hchain with
        | cons _ hrest => exact hrest
    refine List.Chain'.imp ?_ hchain2
    intro a b hab hne
    have hb := hab hne
    refine ⟨hb, ?_⟩
    intro h1 h2
    rw [hb, wrapInt64_of_range _ h1 h2]

/-- C1 amended, at two deposits whose request ids are 7 and 8: both are accepted. -/
theorem request_ids_step_by_one_witness :
    acceptedRequestIds
      (resultOf (executeTxFunc (sampleCollaborators [("a", 7), ("b", 8)] twoDeposits)
        sampleCommitter sampleBlockChain 1)).2 = [7, 8] ∧
    List.Chain' (fun a b : Int => a ≠ -1 → b = wrapInt64 (a + 1) ∧
        (-(2 ^ 63) ≤ a + 1 → a + 1 < 2 ^ 63 → b = a + 1))
      (acceptedRequestIds
        (resultOf (executeTxFunc (sampleCollaborators [("a", 7), ("b", 8)] twoDeposits)
          sampleCommitter sampleBlockChain 1)).2) :=
  ⟨by decide,
   request_ids_step_by_one (sampleCollaborators [("a", 7), ("b", 8)] twoDeposits)
     sampleCommitter sampleBlockChain 1 _ _ (by rfl)⟩

/-- C1 as stated fails: the executor accepts the request ids -1 and 5 one after the
other without panicking, and 5 is not -1 + 1. -/
theorem request_id_after_minus_one_unchecked :
    (executeTxFunc (sampleCollaborators [("a", -1), ("b", 5)] twoDeposits)
        sampleCommitter sampleBlockChain 1).toOption.map
      (fun r => acceptedRequestIds r.2) = some [-1, 5] ∧
    ¬ List.Chain' (fun a b : Int => b = a + 1) [-1, 5] := by
  constructor
  · decide
  · simp

/-! ## Theorems: the pending update batch -/

theorem pendingAfter_append (evs1 : List Event) :
    ∀ (pending : List Tx) (evs2 : List Event),
      pendingAfter pending (evs1 ++ evs2) = pendingAfter (pendingAfter pending evs1) evs2 := by
  induction evs1 with
  | nil => intro pending evs2; rfl
  | cons e rest ih =>
    intro pending evs2
    cases e with
    | enqueueUpdatePoolTx batch =>
      simp only [List.cons_append, pendingAfter]
      cases batch.PendingUpdatePoolTxs <;> simp only [List.append_eq, ih]
    | _ => simp only [List.cons_append, pendingAfter, List.append_eq, ih]

theorem UpdateBatchesExact_append (evs1 : List Event) :
    ∀ (pending : List Tx) (evs2 : List Event),
      UpdateBatchesExact pending (evs1 ++ evs2) ↔
        UpdateBatchesExact pending evs1 ∧ UpdateBatchesExact (pendingAfter pending evs1) evs2 := by
  induction evs1 with
  | nil => intro pending evs2; simp [UpdateBatchesExact, pendingAfter]
  | cons e rest ih =>
    intro pending evs2
    cases e with
    | enqueueUpdatePoolTx batch =>
      simp only [List.cons_append, UpdateBatchesExact, pendingAfter]
      cases batch.PendingUpdatePoolTxs <;> simp only [List.append_eq, ih, and_assoc]
    | _ => simp only [List.cons_append, UpdateBatchesExact, pendingAfter, List.append_eq, ih]

theorem UpdateLinked_quiet (st st1 : ExecutorState) (evs : List Event)
    (hexact : ∀ pending, UpdateBatchesExact pending evs)
    (hafter : ∀ pending, pendingAfter pending evs = pending)
    (hpending : st1.pendingUpdatePoolTxs = st.pendingUpdatePoolTxs) :
    UpdateLinked st evs st1 :=
  ⟨hexact _, by rw [hafter]; exact hpending⟩

theorem checkPriorityRequest_quiet (env : Collaborators) (latestRequestId : Int) (t : Tx)
    (requestId : Int) (evs : List Event)
    (h : checkPriorityRequest env latestRequestId t = .ok (requestId, evs)) :
    (∀ pending, UpdateBatchesExact pending evs) ∧ (∀ pending, pendingAfter pending evs = pending) ∧
    appliedTxs evs = [] := by
  rcases checkPriorityRequest_cases env _ _ _ _ h with ⟨_, _, rfl⟩ | ⟨_, request, _, _, _, rfl⟩
  · exact ⟨fun _ => trivial, fun _ => rfl, rfl⟩
  · exact ⟨fun _ => trivial, fun _ => rfl, rfl⟩

theorem writeProposedBlock_quiet (env : Collaborators) (bc bc2 : BlockChain)
    (evs : List Event) (h : writeProposedBlock env bc = .ok (bc2, evs)) :
    (∀ pending, UpdateBatchesExact pending evs) ∧ (∀ pending, pendingAfter pending evs = pending) ∧
    appliedTxs evs = [] := by
  rcases (writeProposedBlock_cases env bc bc2 evs h).2 with ⟨_, _, rfl⟩ | ⟨_, _, rfl⟩
  · exact ⟨fun _ => trivial, fun _ => rfl, rfl⟩
  · exact ⟨fun _ => trivial, fun _ => rfl, rfl⟩

theorem UpdateLinked_compositional (env : Collaborators) (c : Committer) :
    Compositional env c UpdateLinked (fun _ => True) where
  trans := by
    intro st1 evs1 st2 evs2 st3 h1 h2
    unfold UpdateLinked at *
    rw [UpdateBatchesExact_append, pendingAfter_append, ← h1.2]
    exact ⟨⟨h1.1, h2.1⟩, h2.2⟩
  frame := by
    intro st st1 _ _ hp
    exact ⟨trivial, hp⟩
  pool := by
    intro st t st1 evs h
    rcases executePoolTx_cases env c st t st1 evs h with
      ⟨_, rfl, rfl⟩ | ⟨_, bc1, t1, err, _, _, rfl, rfl⟩ |
      ⟨_, bc1, t1, requestId, evs1, bc2, evs2, _, hchk, hw, rfl, rfl⟩
    · exact ⟨trivial, rfl⟩
    · exact ⟨trivial, rfl⟩
    · have h1 := checkPriorityRequest_quiet env _ _ _ _ hchk
      have h2 := writeProposedBlock_quiet env _ _ _ hw
      unfold UpdateLinked
      simp only [UpdateBatchesExact, pendingAfter, UpdateBatchesExact_append,
        pendingAfter_append, h1.1, h1.2.1, h2.1, h2.2.1, and_self]
  publish := by
    intro st
    exact ⟨trivial, rfl⟩
  published := fun _ => trivial
  commit := by
    intro st st1 evs _ h
    unfold commitBlock at h
    simp only at h
    split at h
    · exact absurd h (by simp)
    · injection h with h
      injection h with h1 h2
      subst h1 h2
      exact ⟨⟨trivial, rfl⟩, trivial⟩
  flush := by
    intro st
    unfold flushPendingUpdates
    split
    · rename_i hlen
      refine ⟨⟨⟨rfl, ?_, rfl⟩, trivial⟩, rfl⟩
      intro hnil
      rw [hnil] at hlen
      exact absurd hlen (by decide)
    · exact ⟨trivial, rfl⟩
  init := by
    intro st bc1 _ _ _
    exact ⟨⟨trivial, rfl⟩, trivial⟩

/-- C4, amended: an update batch reaches the PoolTxUpdater only through the flush of the
idle loop.  In a run of the executor that does not panic, every enqueued update batch is
exactly the list of txs applied since the last update batch or block commit before it
(`pendingAfter` of the events before it), it is not empty and comes without a delete
batch; and the list still pending at the end is determined the same way.  A block commit
empties the pending list without enqueuing it, so a tx applied in a round that ends with
a commit is in no update batch. -/
theorem update_batches_exact (env : Collaborators) (c : Committer) (bc : BlockChain)
    (n : Nat) (st : ExecutorState) (evs : List Event)
    (h : executeTxFunc env c bc n = .ok (st, evs)) :
    (∀ before batch after txs, evs = before ++ .enqueueUpdatePoolTx batch :: after →
      batch.PendingUpdatePoolTxs = some txs →
      txs = pendingAfter [] before ∧ txs ≠ [] ∧ batch.PendingDeletePoolTxs = none) ∧
    (∀ before stateDataCopy after,
      evs = before ++ .enqueueUpdateAccountAssetTree stateDataCopy :: after →
      pendingAfter [] (before ++ [.enqueueUpdateAccountAssetTree stateDataCopy]) = []) ∧
    st.pendingUpdatePoolTxs = pendingAfter [] evs := by
  unfold executeTxFunc at h
  cases hlatest : getLatestExecutedRequestId env with
  | error e => rw [hlatest] at h; exact absurd h (by simp)
  | ok latest =>
    rw [hlatest] at h
    simp only at h
    have hlinked := (executeTxSteps_rel (UpdateLinked_compositional env c) n _ _ _ trivial h).1
    refine ⟨?_, ?_, hlinked.2⟩
    · intro before batch after txs hevs htxs
      have hexact := hlinked.1
      rw [hevs, UpdateBatchesExact_append] at hexact
      have h2 := hexact.2
      simp only [UpdateBatchesExact, htxs] at h2
      exact h2.1
    · intro before stateDataCopy after _
      rw [pendingAfter_append]
      rfl

/-- C4 amended, at three transfers followed by an idle poll: the idle flush enqueues the
three applied txs as one update batch. -/
theorem update_batches_exact_witness :
    (updateBatches
      (resultOf (executeTxFunc (sampleCollaborators [] threeTransfers)
        sampleCommitter sampleBlockChain 2)).2).map (fun b => b.map (fun t => t.ID)) =
      [[1, 2, 3]] ∧
    ((∀ before batch after txs,
      (resultOf (executeTxFunc (sampleCollaborators [] threeTransfers)
        sampleCommitter sampleBlockChain 2)).2 =
          before ++ .enqueueUpdatePoolTx batch :: after →
      batch.PendingUpdatePoolTxs = some txs →
      txs = pendingAfter [] before ∧ txs ≠ [] ∧ batch.PendingDeletePoolTxs = none) ∧
    (∀ before stateDataCopy after,
      (resultOf (executeTxFunc (sampleCollaborators [] threeTransfers)
        sampleCommitter sampleBlockChain 2)).2 =
          before ++ .enqueueUpdateAccountAssetTree stateDataCopy :: after →
      pendingAfter [] (before ++ [.enqueueUpdateAccountAssetTree stateDataCopy]) = []) ∧
    (resultOf (executeTxFunc (sampleCollaborators [] threeTransfers)
        sampleCommitter sampleBlockChain 2)).1.pendingUpdatePoolTxs =
      pendingAfter []
        (resultOf (executeTxFunc (sampleCollaborators [] threeTransfers)
          sampleCommitter sampleBlockChain 2)).2) :=
  ⟨by decide,
   update_batches_exact (sampleCollaborators [] threeTransfers) sampleCommitter
     sampleBlockChain 2 _ _ (by rfl)⟩

/-- C4 as stated fails on scenario S1: with the slots 2, 4, 8 and eight transfers drained
in one round, the eight txs are applied and the block is committed (one hand-off to the
asset-tree stage), yet no update batch is enqueued in that round or in the idle steps
after it, and the pending list is empty, so none will be. -/
theorem applied_txs_of_committed_round_not_enqueued :
    (executeTxFunc (sampleCollaborators [] eightTransfers) sampleCommitter
        sampleBlockChain 3).toOption.map
      (fun r => ((appliedTxs r.2).map (fun t => t.ID), updateBatches r.2,
        r.1.pendingUpdatePoolTxs, r.1.bc.currentBlock.BlockHeight)) =
      some ([1, 2, 3, 4, 5, 6, 7, 8], [], [], 2) := by
  decide

/-! ## Theorems: a tx whose application fails -/

theorem withEvents_nil (r : Except Panic (ExecutorState × List Event)) :
    withEvents [] r = r := by
  unfold withEvents
  split <;> simp_all

theorem withEvents_withEvents (evs1 evs2 : List Event)
    (r : Except Panic (ExecutorState × List Event)) :
    withEvents evs1 (withEvents evs2 r) = withEvents (evs1 ++ evs2) r := by
  unfold withEvents
  cases r with
  | error p => rfl
  | ok x => simp

theorem processPendingTxs_append (env : Collaborators) (c : Committer) (before : List Tx) :
    ∀ (after : List Tx) (st : ExecutorState),
      processPendingTxs env c (before ++ after) st =
        match processPendingTxs env c before st with
        | .error p => .error p
        | .ok (st1, evs1) => withEvents evs1 (processPendingTxs env c after st1) := by
  induction before with
  | nil =>
    intro after st
    simp only [List.nil_append, processPendingTxs, withEvents_nil]
  | cons t rest ih =>
    intro after st
    simp only [List.cons_append, processPendingTxs]
    cases h1 : executePoolTx env c st t with
    | error p => rfl
    | ok r =>
      obtain ⟨st1, evs1⟩ := r
      simp only [List.append_eq]
      rw [ih]
      cases h2 : processPendingTxs env c rest st1 with
      | error p => rfl
      | ok r2 =>
        obtain ⟨st2, evs2⟩ := r2
        simp only [withEvents, withEvents_withEvents]
        cases processPendingTxs env c after st2 <;> simp

theorem processPendingTxs_keeps_deletes (env : Collaborators) (c : Committer) :
    ∀ (txs : List Tx) (st st1 : ExecutorState) (evs : List Event),
      processPendingTxs env c txs st = .ok (st1, evs) →
      ∀ t ∈ st.pendingDeletePoolTxs, t ∈ st1.pendingDeletePoolTxs := by
  intro txs
  induction txs with
  | nil =>
    intro st st1 evs h
    simp only [processPendingTxs] at h
    injection h with h
    injection h with h1 h2
    subst h1
    exact fun t ht => ht
  | cons t rest ih =>
    intro st st1 evs h
    simp only [processPendingTxs] at h
    cases h1 : executePoolTx env c st t with
    | error p => rw [h1] at h; exact absurd h (by simp)
    | ok r =>
      obtain ⟨st2, evs2⟩ := r
      rw [h1] at h
      obtain ⟨evs3, h3, rfl⟩ := withEvents_ok _ _ _ _ h
      have hrest := ih _ _ _ h3
      intro x hx
      apply hrest
      rcases executePoolTx_cases env c st t st2 evs2 h1 with
        ⟨_, rfl, _⟩ | ⟨_, bc1, t1, err, _, _, rfl, _⟩ |
        ⟨_, bc1, t1, requestId, evs1, bc2, evs4, _, _, _, rfl, _⟩
      · exact hx
      · exact List.mem_append_left _ hx
      · exact hx

theorem executeRound_enqueues_deletes (env : Collaborators) (c : Committer)
    (st st1 : ExecutorState) (txs : List Tx) (evs : List Event)
    (h : executeRound env c st txs = .ok (st1, evs)) :
    ∃ st2 evs1, processPendingTxs env c txs { st with pendingDeletePoolTxs := [] } =
        .ok (st2, evs1) ∧
      (∀ e ∈ evs1, e ∈ evs) ∧
      enqueueUpdatePoolTx none (some st2.pendingDeletePoolTxs) ∈ evs := by
  unfold executeRound at h
  cases h1 : processPendingTxs env c txs { st with pendingDeletePoolTxs := [] } with
  | error p => rw [h1] at h; exact absurd h (by simp)
  | ok r =>
    obtain ⟨st2, evs2⟩ := r
    rw [h1] at h
    simp only at h
    refine ⟨st2, evs2, rfl, ?_⟩
    split at h
    · obtain ⟨evs3, _, rfl⟩ := withEvents_ok _ _ _ _ h
      constructor
      · intro e he
        simp [he]
      · simp
    · injection h with h
      injection h with h3 h4
      subst h4
      constructor
      · intro e he
        simp [he]
      · simp

/-- C7: when `ApplyTransaction` returns an error for a tx that the loop reaches with the
commit criterion not met, the executor panics exactly when the tx is a priority
operation.  For a non-priority tx the loop body sets the status to `Failed`, appends the
tx to `pendingDeletePoolTxs`, leaves `latestRequestId`, `pendingUpdatePoolTxs` and the
parked txs as they were, emits no block-row write, and the loop goes on with the
remaining txs of the round; the enqueue that ends the round carries a delete batch that
holds the tx, and no update batch. -/
theorem apply_error_handling (env : Collaborators) (c : Committer) (st : ExecutorState)
    (t : Tx) (rest : List Tx) (bc1 : BlockChain) (t1 : Tx) (err : String)
    (hopen : shouldCommit c st.bc st.bc.currentBlock (env.clock st.clockReads) = false)
    (hfail : env.ApplyTransaction st.bc t = (bc1, t1, some err)) :
    ((∃ p, executePoolTx env c st t = .error p) ↔
      env.IsPriorityOperationTx t1.TxType = true) ∧
    (env.IsPriorityOperationTx t1.TxType = true →
      processPendingTxs env c (t :: rest) st = .error (.applyPriorityPoolTxFailed t1.ID)) ∧
    (env.IsPriorityOperationTx t1.TxType = false →
      executePoolTx env c st t =
        .ok ({ st with clockReads := st.clockReads + 1, bc := bc1,
                       pendingDeletePoolTxs := st.pendingDeletePoolTxs ++
                         [{ t1 with TxStatus := env.StatusFailed }] },
             [.applyFailed { t1 with TxStatus := env.StatusFailed }]) ∧
      processPendingTxs env c (t :: rest) st =
        withEvents [.applyFailed { t1 with TxStatus := env.StatusFailed }]
          (processPendingTxs env c rest
            { st with clockReads := st.clockReads + 1, bc := bc1,
                      pendingDeletePoolTxs := st.pendingDeletePoolTxs ++
                        [{ t1 with TxStatus := env.StatusFailed }] }) ∧
      ∀ st0 before evs0 st2 evs,
        processPendingTxs env c before { st0 with pendingDeletePoolTxs := [] } = .ok (st, evs0) →
        executeRound env c st0 (before ++ t :: rest) = .ok (st2, evs) →
        Event.applyFailed { t1 with TxStatus := env.StatusFailed } ∈ evs ∧
        ∃ deletes, { t1 with TxStatus := env.StatusFailed } ∈ deletes ∧
          Event.enqueueUpdatePoolTx
            { PendingUpdatePoolTxs := none, PendingDeletePoolTxs := some deletes } ∈ evs) := by
  have hpriority : env.IsPriorityOperationTx t1.TxType = true →
      executePoolTx env c st t = .error (.applyPriorityPoolTxFailed t1.ID) := by
    intro hp
    unfold executePoolTx
    simp only [hopen, hfail, hp, if_true]
    rfl
  have hother : env.IsPriorityOperationTx t1.TxType = false →
      executePoolTx env c st t =
        .ok ({ st with clockReads := st.clockReads + 1, bc := bc1,
                       pendingDeletePoolTxs := st.pendingDeletePoolTxs ++
                         [{ t1 with TxStatus := env.StatusFailed }] },
             [.applyFailed { t1 with TxStatus := env.StatusFailed }]) := by
    intro hp
    unfold executePoolTx
    simp only [hopen, hfail, hp]
    rfl
  refine ⟨⟨?_, fun hp => ⟨_, hpriority hp⟩⟩, ?_, ?_⟩
  · rintro ⟨p, hp⟩
    cases hb : env.IsPriorityOperationTx t1.TxType
    · rw [hother hb] at hp
      exact absurd hp (by simp)
    · rfl
  · intro hp
    simp only [processPendingTxs, hpriority hp]
  · intro hp
    have hstep : processPendingTxs env c (t :: rest) st =
        withEvents [.applyFailed { t1 with TxStatus := env.StatusFailed }]
          (processPendingTxs env c rest
            { st with clockReads := st.clockReads + 1, bc := bc1,
                      pendingDeletePoolTxs := st.pendingDeletePoolTxs ++
                        [{ t1 with TxStatus := env.StatusFailed }] }) := by
      simp only [processPendingTxs, hother hp]
    refine ⟨hother hp, hstep, ?_⟩
    intro st0 before evs0 st2 evs hbefore hround
    obtain ⟨st3, evs1, hproc, hsub, henq⟩ := executeRound_enqueues_deletes env c _ _ _ _ hround
    rw [processPendingTxs_append, hbefore] at hproc
    simp only at hproc
    obtain ⟨evs4, h4, rfl⟩ := withEvents_ok _ _ _ _ hproc
    rw [hstep] at h4
    obtain ⟨evs5, h5, rfl⟩ := withEvents_ok _ _ _ _ h4
    refine ⟨hsub _ (by simp), st3.pendingDeletePoolTxs, ?_, henq⟩
    exact processPendingTxs_keeps_deletes env c _ _ _ _ h5 _ (by simp)

/-- C7 at a tx of the empty type followed by a transfer: the first tx is marked `Failed`
(status 6) and put in the delete list, and the loop goes on with the transfer. -/
theorem apply_error_handling_witness :
    executePoolTx (sampleCollaborators [] (fun _ => [])) sampleCommitter
        (initialExecutorState sampleBlockChain (-1)) (poolTx 1 0 "x") =
      .ok ({ initialExecutorState sampleBlockChain (-1) with
              clockReads := 1,
              pendingDeletePoolTxs := [{ poolTx 1 0 "x" with TxStatus := 6 }] },
           [.applyFailed { poolTx 1 0 "x" with TxStatus := 6 }]) ∧
    processPendingTxs (sampleCollaborators [] (fun _ => [])) sampleCommitter
        rejectedThenTransfer (initialExecutorState sampleBlockChain (-1)) =
      withEvents [.applyFailed { poolTx 1 0 "x" with TxStatus := 6 }]
        (processPendingTxs (sampleCollaborators [] (fun _ => [])) sampleCommitter
          [poolTx 2 4 "t"]
          { initialExecutorState sampleBlockChain (-1) with
            clockReads := 1,
            pendingDeletePoolTxs := [{ poolTx 1 0 "x" with TxStatus := 6 }] }) :=
  ⟨((apply_error_handling (sampleCollaborators [] (fun _ => [])) sampleCommitter
      (initialExecutorState sampleBlockChain (-1)) (poolTx 1 0 "x") [poolTx 2 4 "t"]
      sampleBlockChain (poolTx 1 0 "x") "unknown tx type" (by decide) (by rfl)).2.2
        (by decide)).1,
   ((apply_error_handling (sampleCollaborators [] (fun _ => [])) sampleCommitter
      (initialExecutorState sampleBlockChain (-1)) (poolTx 1 0 "x") [poolTx 2 4 "t"]
      sampleBlockChain (poolTx 1 0 "x") "unknown tx type" (by decide) (by rfl)).2.2
        (by decide)).2.1⟩

/-! ## Theorems: gas accounting across the run -/

theorem GoMap.WF_set {V : Type} (m : GoMap V) (k : Int) (v : V) (hwf : GoMap.WF m) :
    GoMap.WF (GoMap.set m k v) := by
  unfold GoMap.WF at *
  by_cases hk : k ∈ GoMap.keys m
  · rw [GoMap.keys_set_of_mem m k v hk]
    exact hwf
  · rw [GoMap.keys_set_of_not_mem m k v hk]
    exact List.Nodup.append hwf (List.nodup_singleton k) (by simpa using hk)

theorem GoMap.set_of_not_mem {V : Type} (m : GoMap V) (k : Int) (v : V)
    (hk : k ∉ GoMap.keys m) : GoMap.set m k v = m ++ [(k, v)] := by
  induction m with
  | nil => rfl
  | cons e rest ih =>
    obtain ⟨k0, v0⟩ := e
    simp only [GoMap.keys, List.map_cons, List.mem_cons, not_or] at hk
    have h : ¬ k0 = k := fun h2 => hk.1 h2.symm
    have := ih hk.2
    simp [GoMap.set, h, this]

theorem rekey_foldl {V : Type} (index : V → Int) (m : GoMap V) :
    ∀ acc : GoMap V, GoMap.WF (acc ++ m) → (∀ e ∈ m, index e.2 = e.1) →
      m.foldl (fun fresh e => GoMap.set fresh (index e.2) e.2) acc = acc ++ m := by
  induction m with
  | nil => intro acc _ _; simp
  | cons e rest ih =>
    intro acc hwf hkey
    obtain ⟨k0, v0⟩ := e
    have hk0 : index v0 = k0 := hkey (k0, v0) (List.mem_cons_self _ _)
    have hnot : k0 ∉ GoMap.keys acc := by
      intro hin
      unfold GoMap.WF GoMap.keys at hwf
      rw [List.map_append, List.map_cons] at hwf
      have := (List.nodup_append.mp hwf).2.2
      exact this hin (List.mem_cons_self _ _)
    simp only [List.foldl_cons, hk0]
    rw [GoMap.set_of_not_mem acc k0 v0 hnot, ih]
    · simp
    · simpa using hwf
    · exact fun e he => hkey e (List.mem_cons_of_mem _ he)

theorem rekey_of_keyed (m : GoMap AccountInfo) (hwf : GoMap.WF m) (hkey : KeyedByIndex m) :
    rekey AccountInfo.AccountIndex m = m := by
  unfold rekey
  have := rekey_foldl AccountInfo.AccountIndex m [] (by simpa using hwf) hkey
  simpa using this

theorem foldGasEntries_settles (es : List (Int × Int)) (k : Int) :
    ∀ (a : AccountInfo) (g : GoMap Int), k ∈ GoMap.keys es →
      GoMap.get (foldGasEntries es a g).2 k = some 0 := by
  induction es with
  | nil => intro a g hk; simp [GoMap.keys] at hk
  | cons e rest ih =>
    intro a g hk
    obtain ⟨k0, d0⟩ := e
    simp only [foldGasEntries]
    by_cases hrest : k ∈ GoMap.keys rest
    · exact ih _ _ hrest
    · have hk0 : k = k0 := by
        simp only [GoMap.keys, List.map_cons, List.mem_cons] at hk
        rcases hk with h | h
        · exact h
        · exact absurd h hrest
      subst hk0
      rw [(foldGasEntries_get_of_not_mem rest k _ _ hrest).2]
      exact GoMap.get_set_self _ _ _

theorem foldGasEntries_all_zero (a : AccountInfo) (g : GoMap Int) (k : Int) :
    (GoMap.get (foldGasEntries g a g).2 k).getD 0 = 0 := by
  by_cases hk : k ∈ GoMap.keys g
  · rw [foldGasEntries_settles g k a g hk]
    rfl
  · rw [(foldGasEntries_get_of_not_mem g k a g hk).2, (GoMap.get_eq_none_iff g k).mpr hk]
    rfl

theorem foldGasAccounts_keeps_zero (gasAccount : Int) (m : GoMap AccountInfo) :
    ∀ g : GoMap Int, (∀ k, (GoMap.get g k).getD 0 = 0) →
      ∀ k, (GoMap.get (foldGasAccounts gasAccount m g).2 k).getD 0 = 0 := by
  induction m with
  | nil => intro g hg; exact hg
  | cons e rest ih =>
    intro g hg
    obtain ⟨k0, a0⟩ := e
    by_cases h0 : a0.AccountIndex ≠ gasAccount
    · simp only [foldGasAccounts, h0, ne_eq, not_false_eq_true, if_true]
      exact ih g hg
    · simp only [foldGasAccounts, h0, if_false]
      exact ih _ (foldGasEntries_all_zero a0 g)

theorem foldGasAccounts_settles (gasAccount : Int) (m : GoMap AccountInfo) :
    ∀ g : GoMap Int, (∃ e ∈ m, e.2.AccountIndex = gasAccount) →
      ∀ k, (GoMap.get (foldGasAccounts gasAccount m g).2 k).getD 0 = 0 := by
  induction m with
  | nil => intro g h; obtain ⟨e, he, _⟩ := h; simp at he
  | cons e rest ih =>
    intro g h
    obtain ⟨k0, a0⟩ := e
    by_cases h0 : a0.AccountIndex ≠ gasAccount
    · simp only [foldGasAccounts, h0, ne_eq, not_false_eq_true, if_true]
      apply ih g
      obtain ⟨e, he, hidx⟩ := h
      rcases List.mem_cons.mp he with rfl | he
      · exact absurd hidx h0
      · exact ⟨e, he, hidx⟩
    · simp only [foldGasAccounts, h0, if_false]
      exact foldGasAccounts_keeps_zero gasAccount rest _ (foldGasEntries_all_zero a0 g)

theorem foldGasAccounts_index_of_mem (gasAccount : Int) (m : GoMap AccountInfo) :
    ∀ (g : GoMap Int), ∀ e1 ∈ (foldGasAccounts gasAccount m g).1,
      ∃ e ∈ m, e.1 = e1.1 ∧ e.2.AccountIndex = e1.2.AccountIndex := by
  induction m with
  | nil => intro g e1 he1; simp [foldGasAccounts] at he1
  | cons e rest ih =>
    intro g e1 he1
    obtain ⟨k0, a0⟩ := e
    by_cases h0 : a0.AccountIndex ≠ gasAccount
    · simp only [foldGasAccounts, h0, ne_eq, not_false_eq_true, if_true, List.mem_cons] at he1
      rcases he1 with rfl | he1
      · exact ⟨(k0, a0), List.mem_cons_self _ _, rfl, rfl⟩
      · obtain ⟨e, he, h1, h2⟩ := ih g e1 he1
        exact ⟨e, List.mem_cons_of_mem _ he, h1, h2⟩
    · simp only [foldGasAccounts, h0, if_false, List.mem_cons] at he1
      rcases he1 with rfl | he1
      · exact ⟨(k0, a0), List.mem_cons_self _ _, rfl, (foldGasEntries_index _ _ _).symm⟩
      · obtain ⟨e, he, h1, h2⟩ := ih _ e1 he1
        exact ⟨e, List.mem_cons_of_mem _ he, h1, h2⟩

theorem foldGasAccounts_gas_keys (gasAccount : Int) (m : GoMap AccountInfo) :
    ∀ g : GoMap Int, GoMap.keys (foldGasAccounts gasAccount m g).2 = GoMap.keys g := by
  induction m with
  | nil => intro g; rfl
  | cons e rest ih =>
    intro g
    obtain ⟨k0, a0⟩ := e
    by_cases h0 : a0.AccountIndex ≠ gasAccount
    · simp only [foldGasAccounts, h0, ne_eq, not_false_eq_true, if_true]
      exact ih g
    · simp only [foldGasAccounts, h0, if_false]
      rw [ih, foldGasEntries_keys _ _ _ (fun k hk => hk)]

theorem foldGas_settled (gasAccount : Int) (sc : StateCache)
    (hready : GasReady gasAccount (foldGas gasAccount sc)) (k : Int) :
    (GoMap.get (foldGas gasAccount sc).PendingGasMap k).getD 0 = 0 := by
  obtain ⟨_, hkey, _, hmem⟩ := hready
  obtain ⟨v, hv⟩ := (GoMap.get_isSome_iff _ _).mpr hmem
  have hin := GoMap.mem_of_get _ _ _ hv
  have hidx : v.AccountIndex = gasAccount := hkey (gasAccount, v) hin
  simp only [foldGas] at hin
  obtain ⟨e, he, _, h2⟩ := foldGasAccounts_index_of_mem gasAccount _ _ _ hin
  simp only [foldGas]
  exact foldGasAccounts_settles gasAccount _ _ ⟨e, he, h2.trans hidx⟩ k

theorem foldGas_ready (gasAccount : Int) (sc : StateCache) (hready : GasReady gasAccount sc) :
    GasReady gasAccount (foldGas gasAccount sc) := by
  obtain ⟨hwfA, hkey, hwfG, hmem⟩ := hready
  refine ⟨?_, ?_, ?_, ?_⟩
  · unfold GoMap.WF
    simp only [foldGas]
    rw [foldGasAccounts_keys]
    exact hwfA
  · simp only [foldGas]
    exact foldGasAccounts_keyed _ _ _ hkey
  · unfold GoMap.WF
    simp only [foldGas]
    rw [foldGasAccounts_gas_keys]
    exact hwfG
  · simp only [foldGas]
    rw [foldGasAccounts_keys]
    exact hmem

theorem foldGas_total (gasAccount : Int) (bc : BlockChain)
    (hready : GasReady gasAccount bc.Statedb) (a : Int) :
    gasBalance gasAccount { bc with Statedb := foldGas gasAccount bc.Statedb } a +
        pendingGas { bc with Statedb := foldGas gasAccount bc.Statedb } a =
      gasBalance gasAccount bc a + pendingGas bc a := by
  obtain ⟨hwfA, hkey, hwfG, hmem⟩ := hready
  obtain ⟨acct, hacct⟩ := (GoMap.get_isSome_iff _ _).mpr hmem
  have hfold := foldGasAccounts_of_gas gasAccount bc.Statedb.PendingAccountMap acct
    bc.Statedb.PendingGasMap hwfA hkey hacct
  simp only [gasBalance, pendingGas, foldGas, hfold.1, hfold.2.1, hacct]
  cases hget : GoMap.get bc.Statedb.PendingGasMap a with
  | none =>
    have hk := (GoMap.get_eq_none_iff _ _).mp hget
    have h := foldGasEntries_get_of_not_mem bc.Statedb.PendingGasMap a acct
      bc.Statedb.PendingGasMap hk
    simp only [balanceOf]
    rw [h.1, h.2, hget]
  | some d =>
    have hin := GoMap.mem_of_get _ _ _ hget
    have h := foldGasEntries_get_of_mem bc.Statedb.PendingGasMap a d acct
      bc.Statedb.PendingGasMap hwfG hin
    simp only [balanceOf]
    rw [h.1, h.2]
    cases GoMap.get acct.AssetInfo a <;> simp [foldedAsset]

theorem appliedTxs_append (evs1 evs2 : List Event) :
    appliedTxs (evs1 ++ evs2) = appliedTxs evs1 ++ appliedTxs evs2 := by
  induction evs1 with
  | nil => rfl
  | cons e rest ih => cases e <;> simp [appliedTxs, ih]

theorem contributed_append (contribution : Tx → Int → Int) (evs1 evs2 : List Event) (a : Int) :
    contributed contribution (evs1 ++ evs2) a =
      contributed contribution evs1 a + contributed contribution evs2 a := by
  simp [contributed, appliedTxs_append]

theorem GasLinked_still (env : Collaborators) (contribution : Tx → Int → Int)
    (st st1 : ExecutorState) (evs : List Event)
    (hsc : st1.bc.Statedb = st.bc.Statedb) (hevs : appliedTxs evs = []) :
    GasLinked env contribution st evs st1 := by
  intro hready
  simp only [gasBalance, pendingGas, contributed, hsc, hevs]
  exact ⟨hready, fun a => by simp⟩

theorem GasLinked_compositional (env : Collaborators) (c : Committer)
    (contribution : Tx → Int → Int) (hgas : GasFaithful env contribution) :
    Compositional env c (GasLinked env contribution) (GasSettled env) where
  trans := by
    intro st1 evs1 st2 evs2 st3 h1 h2 hready
    obtain ⟨hr2, ht2⟩ := h1 hready
    obtain ⟨hr3, ht3⟩ := h2 hr2
    refine ⟨hr3, fun a => ?_⟩
    rw [ht3 a, ht2 a, contributed_append]
    ring
  frame := by
    intro st st1 hbc _ _
    exact GasLinked_still env contribution _ _ _ (by rw [hbc]) rfl
  pool := by
    intro st t st1 evs h
    rcases executePoolTx_cases env c st t st1 evs h with
      ⟨_, rfl, rfl⟩ | ⟨_, bc1, t1, err, happ, _, rfl, rfl⟩ |
      ⟨_, bc1, t1, requestId, evs1, bc2, evs2, happ, hchk, hw, rfl, rfl⟩
    · exact GasLinked_still env contribution _ _ _ rfl rfl
    · intro hready
      obtain ⟨hr, ht⟩ := hgas.failed _ _ _ _ _ happ hready
      refine ⟨hr, fun a => ?_⟩
      simp only [contributed, appliedTxs, List.map_nil, List.sum_nil, add_zero]
      rw [(ht a).1, (ht a).2]
    · intro hready
      obtain ⟨hr, ht⟩ := hgas.applied _ _ _ _ happ hready
      have hsc := (writeProposedBlock_cases env bc1 bc2 evs2 hw).1
      have h1 := (checkPriorityRequest_quiet env _ _ _ _ hchk).2.2
      have h2 := (writeProposedBlock_quiet env _ _ _ hw).2.2
      have hsum : ∀ a, contributed contribution (Event.applied t1 :: (evs1 ++ evs2)) a =
          contribution t1 a := by
        intro a
        simp [contributed, appliedTxs, appliedTxs_append, h1, h2]
      simp only [GasReady, gasBalance, pendingGas, hsc] at hr ht ⊢
      refine ⟨hr, fun a => ?_⟩
      rw [hsum a, (ht a).1, (ht a).2]
      ring
  publish := by
    intro st hready
    refine ⟨foldGas_ready _ _ hready, fun a => ?_⟩
    have := foldGas_total env.GasAccount st.bc hready a
    simp only [afterPublish, contributed, appliedTxs, enqueueSyncAccountToRedis,
      enqueueUpdatePoolTx, List.map_nil, List.sum_nil, add_zero]
    exact this
  published := by
    intro st hready a
    exact foldGas_settled env.GasAccount st.bc.Statedb hready a
  commit := by
    intro st st1 evs hsettled h
    unfold commitBlock at h
    simp only at h
    split at h
    · exact absurd h (by simp)
    · rename_i bc1 hinit
      injection h with h
      injection h with h1 h2
      subst h1 h2
      obtain ⟨hzero, hkeep⟩ := hgas.opened _ _ hinit
      refine ⟨?_, fun _ => hzero⟩
      intro hready
      have hrekey := rekey_of_keyed st.bc.Statedb.PendingAccountMap hready.1 hready.2.1
      have hready1 : GasReady env.GasAccount
          ({ st.bc with Statedb := { st.bc.Statedb with
              PendingAccountMap := rekey AccountInfo.AccountIndex st.bc.Statedb.PendingAccountMap,
              PendingNftMap := rekey L2Nft.NftIndex st.bc.Statedb.PendingNftMap } } :
            BlockChain).Statedb := by
        simp only [GasReady, hrekey]
        exact hready
      obtain ⟨hr, hb⟩ := hkeep hready1
      refine ⟨hr, fun a => ?_⟩
      have hz := hsettled hready a
      rw [hb a, hzero a, hz]
      simp only [gasBalance, hrekey, contributed, appliedTxs, List.map_nil, List.sum_nil,
        add_zero]
  flush := by
    intro st
    apply GasLinked_still
    · rw [flushPendingUpdates_bc]
    · unfold flushPendingUpdates
      split <;> rfl
  init := by
    intro st bc1 hsettled _ hinit
    obtain ⟨hzero, hkeep⟩ := hgas.opened _ _ hinit
    refine ⟨?_, fun _ => hzero⟩
    intro hready
    obtain ⟨hr, hb⟩ := hkeep hready
    refine ⟨hr, fun a => ?_⟩
    have hz := hsettled hready a
    simp only [contributed, appliedTxs, List.map_nil, List.sum_nil, add_zero]
    rw [hb a, hzero a, hz]

/-- C6, amended: provided the gas account is in `PendingAccountMap` (as it is once
`MarkGasAccountAsPending` has run, and as `InitNewBlock` keeps it) and no gas is pending at
the start, after any run of the executor that does not panic (any split of the txs into
drain rounds, with or without commits) the gas account's balance of every asset has grown
by exactly the sum of the gas contributions of the txs that were applied, and no gas is
left pending.  A successful `ApplyTransaction` adds its contribution to `PendingGasMap`,
a failed one contributes nothing (`GasFaithful`). -/
theorem gas_balance_accumulates (env : Collaborators) (c : Committer)
    (contribution : Tx → Int → Int) (hgas : GasFaithful env contribution) (bc : BlockChain)
    (n : Nat) (st : ExecutorState) (evs : List Event)
    (hready : GasReady env.GasAccount bc.Statedb) (hzero : ∀ a, pendingGas bc a = 0)
    (hrun : executeTxFunc env c bc n = .ok (st, evs)) :
    ∀ a, gasBalance env.GasAccount st.bc a =
        gasBalance env.GasAccount bc a +
          ((appliedTxs evs).map (fun t => contribution t a)).sum ∧
      pendingGas st.bc a = 0 := by
  unfold executeTxFunc at hrun
  cases hlatest : getLatestExecutedRequestId env with
  | error e => rw [hlatest] at hrun; exact absurd hrun (by simp)
  | ok latest =>
    rw [hlatest] at hrun
    simp only at hrun
    have h := executeTxSteps_rel (GasLinked_compositional env c contribution hgas) n
      (initialExecutorState bc latest) st evs (fun _ => hzero) hrun
    obtain ⟨hr, ht⟩ := h.1 hready
    intro a
    have hz := h.2 hr a
    have hta := ht a
    simp only [initialExecutorState, hzero a, hz, add_zero, contributed] at hta
    exact ⟨hta, hz⟩

theorem sample_gas_faithful (requestIds : List (String × Int)) (drains : Nat → List Tx) :
    GasFaithful (sampleCollaborators requestIds drains) sampleContribution where
  applied := by
    intro bc t bc1 t1 happ hready
    simp only [sampleCollaborators, sampleApplyTransaction] at happ
    by_cases h0 : t.TxType = 0
    · simp [h0] at happ
    · simp only [h0, if_false, Prod.mk.injEq, and_true] at happ
      obtain ⟨hbc, ht⟩ := happ
      subst hbc ht
      by_cases h4 : t.TxType = 4
      · simp only [h4, if_true, GasReady, gasBalance, pendingGas, sampleCollaborators]
        refine ⟨⟨hready.1, hready.2.1, GoMap.WF_set _ _ _ hready.2.2.1, hready.2.2.2⟩, ?_⟩
        intro a
        refine ⟨trivial, ?_⟩
        by_cases ha : a = 1
        · subst ha
          rw [GoMap.get_set_self]
          simp [sampleContribution, h4]
        · rw [GoMap.get_set_ne _ _ _ _ ha]
          simp [sampleContribution, ha]
      · simp only [h4, if_false, GasReady, gasBalance, pendingGas, sampleCollaborators]
        refine ⟨hready, fun a => ⟨trivial, ?_⟩⟩
        simp [sampleContribution, h4]
  failed := by
    intro bc t bc1 t1 err happ hready
    simp only [sampleCollaborators, sampleApplyTransaction] at happ
    by_cases h0 : t.TxType = 0
    · simp only [h0, if_true, Prod.mk.injEq] at happ
      obtain ⟨hbc, _, _⟩ := happ
      subst hbc
      exact ⟨hready, fun a => ⟨rfl, rfl⟩⟩
    · simp [h0] at happ
  opened := by
    intro bc bc1 hinit
    simp only [sampleCollaborators, sampleInitNewBlock, Prod.mk.injEq, and_true] at hinit
    subst hinit
    refine ⟨fun a => rfl, ?_⟩
    intro hready
    obtain ⟨acct, hacct⟩ := (GoMap.get_isSome_iff _ _).mpr hready.2.2.2
    simp only [sampleCollaborators] at hacct
    have hidx : acct.AccountIndex = 1 := hready.2.1 (1, acct) (GoMap.mem_of_get _ _ _ hacct)
    simp only [GasReady, gasBalance, sampleCollaborators, hacct]
    refine ⟨⟨?_, ?_, ?_, ?_⟩, fun a => ?_⟩
    · simp [GoMap.WF, GoMap.keys]
    · intro e he
      simp only [List.mem_singleton] at he
      subst he
      exact hidx
    · simp [GoMap.WF, GoMap.keys]
    · simp [GoMap.keys]
    · simp [GoMap.get]

/-- C6 amended, on scenario S5: three transfers, each paying a fee of 5 on asset 1, are
drained in one round; the gas account's balance of asset 1 goes from 100 to 115 and no
gas is left pending. -/
theorem gas_balance_accumulates_witness :
    gasBalance 1 (resultOf (executeTxFunc (sampleCollaborators [] threeTransfers)
      sampleCommitter sampleBlockChain 1)).1.bc 1 = 115 ∧
    ∀ a, gasBalance 1 (resultOf (executeTxFunc (sampleCollaborators [] threeTransfers)
        sampleCommitter sampleBlockChain 1)).1.bc a =
        gasBalance 1 sampleBlockChain a +
          ((appliedTxs (resultOf (executeTxFunc (sampleCollaborators [] threeTransfers)
            sampleCommitter sampleBlockChain 1)).2).map
              (fun t => sampleContribution t a)).sum ∧
      pendingGas (resultOf (executeTxFunc (sampleCollaborators [] threeTransfers)
        sampleCommitter sampleBlockChain 1)).1.bc a = 0 :=
  ⟨by decide,
   gas_balance_accumulates (sampleCollaborators [] threeTransfers) sampleCommitter
     sampleContribution (sample_gas_faithful [] threeTransfers) sampleBlockChain 1 _ _
     ⟨by unfold GoMap.WF; decide,
      by intro e he; simp [sampleBlockChain] at he; subst he; rfl,
      by unfold GoMap.WF; decide, by decide⟩
     (fun _ => rfl) (by rfl)⟩

/-- C6 as stated fails when the gas account is not in `PendingAccountMap`: three
transfers, each contributing 5 on asset 1, are applied in a round that ends with the fold
step, and the gas account's balance of asset 1 is 0 before and after; the 15 stay in
`PendingGasMap`. -/
theorem gas_not_folded_without_gas_account :
    gasBalance 1 sampleBlockChainNoGas 1 = 0 ∧
    (executeTxFunc (sampleCollaborators [] threeTransfers) sampleCommitter
        sampleBlockChainNoGas 1).toOption.map
      (fun r => ((appliedTxs r.2).map (fun t => sampleContribution t 1),
        gasBalance 1 r.1.bc 1, pendingGas r.1.bc 1)) = some ([5, 5, 5], 0, 15) := by
  decide

/-! ## Theorems: the puller -/

theorem chain_append_lastIdFrom (l1 : List Nat) :
    ∀ (a : Nat) (l2 : List Nat), List.Chain (· < ·) a l1 →
      List.Chain (· < ·) (lastIdFrom a l1) l2 → List.Chain (· < ·) a (l1 ++ l2) := by
  induction l1 with
  | nil => intro a l2 _ h; exact h
  | cons x rest ih =>
    intro a l2 h1 h2
    rw [List.chain_cons] at h1
    exact List.Chain.cons h1.1 (ih x l2 h1.2 h2)

theorem lastIdFrom_append (l1 : List Nat) :
    ∀ (a : Nat) (l2 : List Nat),
      lastIdFrom a (l1 ++ l2) = lastIdFrom (lastIdFrom a l1) l2 := by
  induction l1 with
  | nil => intro a l2; rfl
  | cons x rest ih => intro a l2; exact ih x l2

theorem le_lastIdFrom (l : List Nat) :
    ∀ a : Nat, List.Chain (· < ·) a l → a ≤ lastIdFrom a l := by
  induction l with
  | nil => intro a _; exact le_refl a
  | cons x rest ih =>
    intro a h
    rw [List.chain_cons] at h
    exact le_trans (le_of_lt h.1) (ih x h.2)

theorem enqueuedTxs_append (evs1 evs2 : List PullEvent) :
    enqueuedTxs (evs1 ++ evs2) = enqueuedTxs evs1 ++ enqueuedTxs evs2 := by
  induction evs1 with
  | nil => rfl
  | cons e rest ih => cases e <;> simp [enqueuedTxs, ih]

theorem enqueuedIds_append (evs1 evs2 : List PullEvent) :
    enqueuedIds (evs1 ++ evs2) = enqueuedIds evs1 ++ enqueuedIds evs2 := by
  simp [enqueuedIds, enqueuedTxs_append]

theorem dispatchBatch_increasing (env : PullerCollaborators) (rows : List Tx) :
    ∀ st : PullerState, (∀ row ∈ rows, st.executedTxMaxId < row.ID) →
      rows.Pairwise (fun a b => a.ID < b.ID) →
      List.Chain (· < ·) st.executedTxMaxId (enqueuedIds (dispatchBatch env rows st).2) ∧
      (dispatchBatch env rows st).1.executedTxMaxId =
        lastIdFrom st.executedTxMaxId (enqueuedIds (dispatchBatch env rows st).2) := by
  induction rows with
  | nil => intro st _ _; exact ⟨List.Chain.nil, rfl⟩
  | cons row rest ih =>
    intro st habove hsorted
    rw [List.pairwise_cons] at hsorted
    have hrow : st.executedTxMaxId < row.ID := habove row (List.mem_cons_self _ _)
    simp only [dispatchBatch]
    split
    · split
      · exact ⟨List.Chain.nil, rfl⟩
      · have h := ih { st with clockReads := st.clockReads + 1, executedTxMaxId := row.ID }
          hsorted.1 hsorted.2
        exact ⟨List.Chain.cons hrow h.1, h.2⟩
    · have h := ih { st with executedTxMaxId := row.ID } hsorted.1 hsorted.2
      exact ⟨List.Chain.cons hrow h.1, h.2⟩

theorem pullIteration_increasing (env : PullerCollaborators)
    (hfetch : ∀ k maxId limit rows, env.GetTxsByStatusAndMaxId k maxId limit = .ok rows →
      (∀ row ∈ rows, maxId < row.ID) ∧ rows.Pairwise (fun a b => a.ID < b.ID))
    (st : PullerState) (hloops : Nat) :
    List.Chain (· < ·) st.executedTxMaxId
      (enqueuedIds (pullIteration env { st with loops := hloops }).2) ∧
    (pullIteration env { st with loops := hloops }).1.executedTxMaxId =
      lastIdFrom st.executedTxMaxId
        (enqueuedIds (pullIteration env { st with loops := hloops }).2) := by
  unfold pullIteration
  simp only
  cases hf : env.GetTxsByStatusAndMaxId st.fetches st.executedTxMaxId st.limit with
  | error e => exact ⟨List.Chain.nil, rfl⟩
  | ok rows =>
    simp only
    split
    · exact ⟨List.Chain.nil, rfl⟩
    · obtain ⟨habove, hsorted⟩ := hfetch _ _ _ _ hf
      exact dispatchBatch_increasing env rows
        { st with loops := hloops, fetches := st.fetches + 1, limit := 1000 } habove hsorted

theorem pullLoop_increasing (env : PullerCollaborators)
    (hfetch : ∀ k maxId limit rows, env.GetTxsByStatusAndMaxId k maxId limit = .ok rows →
      (∀ row ∈ rows, maxId < row.ID) ∧ rows.Pairwise (fun a b => a.ID < b.ID)) :
    ∀ (n : Nat) (st : PullerState),
      List.Chain (· < ·) st.executedTxMaxId (enqueuedIds (pullLoop env n st).2) ∧
      (pullLoop env n st).1.executedTxMaxId =
        lastIdFrom st.executedTxMaxId (enqueuedIds (pullLoop env n st).2) := by
  intro n
  induction n with
  | zero => intro st; exact ⟨List.Chain.nil, rfl⟩
  | succ n ih =>
    intro st
    simp only [pullLoop]
    split
    · have h1 := pullIteration_increasing env hfetch st (st.loops + 1)
      have h2 := ih (pullIteration env { st with loops := st.loops + 1 }).1
      simp only [enqueuedIds_append, lastIdFrom_append]
      rw [← h1.2]
      refine ⟨chain_append_lastIdFrom _ _ _ h1.1 ?_, h2.2⟩
      rw [← h1.2]
      exact h2.1
    · exact ⟨List.Chain.nil, rfl⟩

theorem pullLoop_add (env : PullerCollaborators) :
    ∀ (m k : Nat) (st : PullerState),
      pullLoop env (m + k) st =
        ((pullLoop env k (pullLoop env m st).1).1,
         (pullLoop env m st).2 ++ (pullLoop env k (pullLoop env m st).1).2) := by
  intro m
  induction m with
  | zero => intro k st; simp [pullLoop]
  | succ m ih =>
    intro k st
    rw [Nat.succ_add]
    by_cases hrun : env.running st.loops = true
    · simp only [pullLoop, hrun, if_true]
      rw [ih]
      simp
    · simp only [pullLoop, hrun]
      cases k with
      | zero => simp [pullLoop]
      | succ k => simp [pullLoop, hrun]

/-- C8: if every fetch returns only rows with id above `executedTxMaxId`, in strictly
ascending id order, then over any run of `pullPoolTxs2` the ids handed to the executor
queue are strictly increasing and above the initial `executedTxMaxId`; `executedTxMaxId`
equals the id of the last row enqueued (its initial value if none was); and it never
decreases: at every earlier point of the run it was at most what it is later, and the
rows enqueued by then are the first of the rows enqueued later. -/
theorem puller_enqueues_increasing (env : PullerCollaborators) (n : Nat) (st : PullerState)
    (evs : List PullEvent)
    (hfetch : ∀ k maxId limit rows, env.GetTxsByStatusAndMaxId k maxId limit = .ok rows →
      (∀ row ∈ rows, maxId < row.ID) ∧ rows.Pairwise (fun a b => a.ID < b.ID))
    (hrun : pullPoolTxs2 env n = .ok (st, evs)) :
    ∃ executedTx, env.GetLatestExecutedTx = .ok executedTx ∧
      List.Pairwise (· < ·)
        ((initialPullerState executedTx).executedTxMaxId :: enqueuedIds evs) ∧
      st.executedTxMaxId =
        (enqueuedIds evs).getLastD (initialPullerState executedTx).executedTxMaxId ∧
      ∀ m st1 evs1, m ≤ n → pullPoolTxs2 env m = .ok (st1, evs1) →
        st1.executedTxMaxId ≤ st.executedTxMaxId ∧
        ∃ more, enqueuedIds evs = enqueuedIds evs1 ++ more := by
  unfold pullPoolTxs2 at hrun
  cases hlatest : env.GetLatestExecutedTx with
  | error e => rw [hlatest] at hrun; exact absurd hrun (by simp)
  | ok executedTx =>
    rw [hlatest] at hrun
    simp only at hrun
    injection hrun with hrun
    have hinv := pullLoop_increasing env hfetch n (initialPullerState executedTx)
    rw [hrun] at hinv
    simp only at hinv
    have hlast : ∀ (l : List Nat) (a : Nat), lastIdFrom a l = l.getLastD a := by
      intro l
      induction l with
      | nil => intro a; rfl
      | cons x rest ih =>
        intro a
        simp only [lastIdFrom, ih x]
        cases rest <;> simp [List.getLastD]
    refine ⟨executedTx, rfl, List.chain_iff_pairwise.mp hinv.1, ?_, ?_⟩
    · rw [hinv.2, hlast]
    · intro m st1 evs1 hm hrun1
      unfold pullPoolTxs2 at hrun1
      rw [hlatest] at hrun1
      simp only at hrun1
      injection hrun1 with hrun1
      obtain ⟨k, rfl⟩ := Nat.exists_eq_add_of_le hm
      have hadd := pullLoop_add env m k (initialPullerState executedTx)
      rw [hrun, hrun1] at hadd
      simp only [Prod.mk.injEq] at hadd
      have hk := pullLoop_increasing env hfetch k st1
      rw [hadd.1]
      refine ⟨?_, (enqueuedIds (pullLoop env k st1).2), ?_⟩
      · rw [hk.2]
        exact le_lastIdFrom _ _ hk.1
      · rw [hadd.2, enqueuedIds_append]

theorem samplePuller_fetch_sorted (k maxId : Nat) (limit : Int) (rows : List Tx)
    (h : samplePullerCollaborators.GetTxsByStatusAndMaxId k maxId limit = .ok rows) :
    (∀ row ∈ rows, maxId < row.ID) ∧ rows.Pairwise (fun a b => a.ID < b.ID) := by
  simp only [samplePullerCollaborators] at h
  injection h with h
  subst h
  constructor
  · intro row hrow
    have := List.mem_of_mem_take hrow
    simpa using (List.mem_filter.mp this).2
  · apply List.Pairwise.sublist (List.take_sublist _ _)
    apply List.Pairwise.sublist (List.filter_sublist _)
    unfold samplePool
    split <;> decide

/-- C8 on scenario S6: rows 1, 2 and 4 are in the pool, row 4 being 1 s old; rows 1 and 2
are enqueued and row 4 is held back; once row 3 is there, 3 and 4 follow. -/
theorem puller_enqueues_increasing_witness :
    enqueuedIds (pullLoop samplePullerCollaborators 2 (initialPullerState none)).2 =
      [1, 2, 3, 4] ∧
    ∃ executedTx, samplePullerCollaborators.GetLatestExecutedTx = .ok executedTx ∧
      List.Pairwise (· < ·)
        ((initialPullerState executedTx).executedTxMaxId ::
          enqueuedIds (pullLoop samplePullerCollaborators 2 (initialPullerState none)).2) ∧
      (pullLoop samplePullerCollaborators 2 (initialPullerState none)).1.executedTxMaxId =
        (enqueuedIds (pullLoop samplePullerCollaborators 2 (initialPullerState none)).2).getLastD
          (initialPullerState executedTx).executedTxMaxId ∧
      ∀ m st1 evs1, m ≤ 2 → pullPoolTxs2 samplePullerCollaborators m = .ok (st1, evs1) →
        st1.executedTxMaxId ≤
          (pullLoop samplePullerCollaborators 2 (initialPullerState none)).1.executedTxMaxId ∧
        ∃ more,
          enqueuedIds (pullLoop samplePullerCollaborators 2 (initialPullerState none)).2 =
            enqueuedIds evs1 ++ more :=
  ⟨by decide,
   puller_enqueues_increasing samplePullerCollaborators 2 _ _ samplePuller_fetch_sorted
     (by rfl)⟩

/-! ## Theorems: FinalSave -/

/-- C9 fails on the code: with a compressed block present, an insert that succeeds and an
update to `Pending` that fails, `finalSaveBlockDataFunc` panics and the transaction is
rolled back (no block row is set to `Pending`, the watermark stays), yet the
compressed-block row is in the database: `CreateCompressedBlock` is not given the
transaction handle, so its insert is outside the transaction. -/
theorem finalSave_rollback_keeps_compressed_block :
    finalSaveBlockDataFunc updateFails emptyDatabase 6 sampleBlockStates =
      { db := { compressedBlockRows := [{ BlockHeight := 7, BlockSize := 2 }],
                pendingBlockIds := [] },
        prunedBlockHeight := 6,
        panicked := true } := by
  decide

/-! ## Theorems: start-up -/

/-- C10, amended: when `NewCommitter` returns a committer, start-up makes these calls in
this order: the calls of `NewCommitter`, the creation and start of the eight workers (the
executor worker among them), `loadAllAccounts`, and, once that has returned, the puller
`pullPoolTxs2`.  So the puller starts only after `loadAllAccounts` has completed, and
after all workers were started; `restoreExecutedTxs` is not called at all. -/
theorem startup_order (env : StartupCollaborators) (config : BlockConfig)
    (committer : Committer) (hnew : (NewCommitter env config).1 = .ok committer) :
    StartupCall.restoreExecutedTxs ∉ startup env config ∧
    ∃ before, startup env config =
        before ++ [.loadAllAccounts] ++
          (if env.loadAllAccountsReturns then [.pullPoolTxs2] else []) ∧
      StartupCall.pullPoolTxs2 ∉ before ∧ StartupCall.loadAllAccounts ∉ before ∧
      ∀ w, StartupCall.startWorker w ∈ before := by
  unfold startup
  unfold NewCommitter at hnew ⊢
  split at hnew
  · exact absurd hnew (by simp)
  · rename_i hlen
    simp only [hlen, if_false] at hnew ⊢
    cases hbc : env.NewBlockChain with
    | some e => rw [hbc] at hnew; exact absurd hnew (by simp)
    | none =>
      rw [hbc] at hnew
      simp only at hnew ⊢
      cases hreg : env.Register with
      | some e => rw [hreg] at hnew; exact absurd hnew (by simp)
      | none =>
        simp only [Run]
        constructor
        · cases env.loadAllAccountsReturns <;> decide
        · refine ⟨[.NewBlockChain, .registerMetrics, .NewPool,
            .createWorker .executeTxWorker,
            .createWorker .updatePoolTxWorker,
            .createWorker .syncAccountToRedisWorker,
            .createWorker .updateAccountAssetTreeWorker,
            .createWorker .updateAccountTreeAndNftTreeWorker,
            .createWorker .preSaveBlockDataWorker,
            .createWorker .saveBlockDataWorker,
            .createWorker .finalSaveBlockDataWorker,
            .startWorker .executeTxWorker,
            .startWorker .syncAccountToRedisWorker,
            .startWorker .updatePoolTxWorker,
            .startWorker .updateAccountAssetTreeWorker,
            .startWorker .updateAccountTreeAndNftTreeWorker,
            .startWorker .preSaveBlockDataWorker,
            .startWorker .saveBlockDataWorker,
            .startWorker .finalSaveBlockDataWorker], ?_, by decide, by decide, ?_⟩
          · simp
          · intro w
            cases w <;> decide

/-- C10 amended, for the slot sizes 2, 4, 8 and collaborators that do not fail. -/
theorem startup_order_witness :
    StartupCall.restoreExecutedTxs ∉ startup startupSucceeds sampleCommitter.config ∧
    ∃ before, startup startupSucceeds sampleCommitter.config =
        before ++ [.loadAllAccounts] ++
          (if startupSucceeds.loadAllAccountsReturns then [.pullPoolTxs2] else []) ∧
      StartupCall.pullPoolTxs2 ∉ before ∧ StartupCall.loadAllAccounts ∉ before ∧
      ∀ w, StartupCall.startWorker w ∈ before :=
  startup_order startupSucceeds sampleCommitter.config sampleCommitter (by rfl)

/-- C10 as stated fails: with collaborators that do not fail, start-up reaches the puller
without ever calling `restoreExecutedTxs`. -/
theorem startup_without_restore :
    StartupCall.pullPoolTxs2 ∈ startup startupSucceeds sampleCommitter.config ∧
    StartupCall.restoreExecutedTxs ∉ startup startupSucceeds sampleCommitter.config := by
  decide

/-! ## Theorems: the hard cap -/

/-- C13, amended: `NewCommitter` rejects an empty `OptionalBlockSizes` with an error, and
for every configuration it accepts the committer's `maxTxsPerBlock` is the last element of
`OptionalBlockSizes`; that is the largest element when the list is in ascending order. -/
theorem NewCommitter_maxTxsPerBlock (env : StartupCollaborators) (config : BlockConfig) :
    (config.OptionalBlockSizes = [] →
      (NewCommitter env config).1 = .error "nil optional block sizes") ∧
    ∀ committer, (NewCommitter env config).1 = .ok committer →
      ∃ hne : config.OptionalBlockSizes ≠ [],
        committer.maxTxsPerBlock = config.OptionalBlockSizes.getLast hne ∧
        committer.optionalBlockSizes = config.OptionalBlockSizes ∧
        (config.OptionalBlockSizes.Sorted (· ≤ ·) →
          ∀ s ∈ config.OptionalBlockSizes, s ≤ committer.maxTxsPerBlock) := by
  constructor
  · intro hnil
    simp [NewCommitter, hnil]
  · intro committer hnew
    unfold NewCommitter at hnew
    split at hnew
    · exact absurd hnew (by simp)
    · rename_i hlen
      have hne : config.OptionalBlockSizes ≠ [] := by
        intro h
        exact hlen (by simp [h])
      cases hbc : env.NewBlockChain with
      | some e => rw [hbc] at hnew; exact absurd hnew (by simp)
      | none =>
        rw [hbc] at hnew
        cases hreg : env.Register with
        | some e => rw [hreg] at hnew; exact absurd hnew (by simp)
        | none =>
          rw [hreg] at hnew
          simp only at hnew
          injection hnew with hnew
          subst hnew
          have hlast : config.OptionalBlockSizes.getLastD 0 =
              config.OptionalBlockSizes.getLast hne := by
            rw [List.getLastD_eq_getLast?, List.getLast?_eq_getLast _ hne]
            rfl
          refine ⟨hne, hlast, rfl, ?_⟩
          intro hsorted s hs
          simp only [hlast]
          obtain ⟨front, hfront⟩ : ∃ front, config.OptionalBlockSizes =
              front ++ [config.OptionalBlockSizes.getLast hne] :=
            ⟨_, (List.dropLast_append_getLast hne).symm⟩
          rw [hfront] at hsorted hs
          rcases List.mem_append.mp hs with h1 | h1
          · exact (List.pairwise_append.mp hsorted).2.2 s h1 _ (List.mem_singleton_self _)
          · rw [List.mem_singleton.mp h1]

/-- C13 amended, for the slot sizes 2, 4, 8: the hard cap is 8. -/
theorem NewCommitter_maxTxsPerBlock_witness :
    (NewCommitter startupSucceeds sampleCommitter.config).1 = .ok sampleCommitter ∧
    ∃ hne : sampleCommitter.config.OptionalBlockSizes ≠ [],
      sampleCommitter.maxTxsPerBlock = sampleCommitter.config.OptionalBlockSizes.getLast hne ∧
      sampleCommitter.optionalBlockSizes = sampleCommitter.config.OptionalBlockSizes ∧
      (sampleCommitter.config.OptionalBlockSizes.Sorted (· ≤ ·) →
        ∀ s ∈ sampleCommitter.config.OptionalBlockSizes, s ≤ sampleCommitter.maxTxsPerBlock) :=
  ⟨by rfl,
   (NewCommitter_maxTxsPerBlock startupSucceeds sampleCommitter.config).2 sampleCommitter
     (by rfl)⟩

/-- C13 as stated fails: `NewCommitter` accepts the slot sizes 8, 4, 2 and sets the hard
cap to 2, the last element, although 8 is the largest. -/
theorem NewCommitter_cap_is_last_slot :
    (match (NewCommitter startupSucceeds descendingConfig).1 with
      | .ok committer => some committer.maxTxsPerBlock
      | .error _ => none) = some 2 ∧
    (8 : Int) ∈ descendingConfig.OptionalBlockSizes := by
  decide

/-! ## Theorems: the priority-request step rule -/

/-- C15: for a priority tx that was applied and whose request lookup returns id `r`, the
executor panics on the request id exactly when `latestRequestId` is not -1 and `r` is not
`latestRequestId + 1` (computed in `int64`); otherwise the check accepts the tx and the
loop body, if it completes, leaves `latestRequestId = r`.  A failed lookup panics.  When
`GetLatestTx` finds no earlier priority tx, `getLatestExecutedRequestId` returns -1, so
the first priority tx is accepted whatever its id. -/
theorem priority_request_step_rule (env : Collaborators) (c : Committer) (st : ExecutorState)
    (t : Tx) (bc1 : BlockChain) (t1 : Tx)
    (hopen : shouldCommit c st.bc st.bc.currentBlock (env.clock st.clockReads) = false)
    (happ : env.ApplyTransaction st.bc t = (bc1, t1, none))
    (hp : env.IsPriorityOperationTx t1.TxType = true) :
    (∀ request, env.GetPriorityRequestsByL2TxHash t1.TxHash = .ok request →
      ((∃ p, checkPriorityRequest env st.latestRequestId t1 = .error p) ↔
        (st.latestRequestId ≠ -1 ∧
          request.RequestId ≠ wrapInt64 (st.latestRequestId + 1))) ∧
      (st.latestRequestId ≠ -1 ∧ request.RequestId ≠ wrapInt64 (st.latestRequestId + 1) →
        executePoolTx env c st t = .error (.invalidRequestId request.RequestId)) ∧
      (¬ (st.latestRequestId ≠ -1 ∧
            request.RequestId ≠ wrapInt64 (st.latestRequestId + 1)) →
        checkPriorityRequest env st.latestRequestId t1 =
          .ok (request.RequestId, [.priorityAccepted t1 request.RequestId]) ∧
        ∀ st1 evs, executePoolTx env c st t = .ok (st1, evs) →
          st1.latestRequestId = request.RequestId)) ∧
    (∀ err, env.GetPriorityRequestsByL2TxHash t1.TxHash = .error err →
      executePoolTx env c st t = .error (.queryPriorityRequestFailed t1.TxHash)) ∧
    (env.GetLatestTx = .notFound → getLatestExecutedRequestId env = .ok (-1)) ∧
    (-(2 ^ 63) ≤ st.latestRequestId + 1 → st.latestRequestId + 1 < 2 ^ 63 →
      wrapInt64 (st.latestRequestId + 1) = st.latestRequestId + 1) := by
  refine ⟨?_, ?_, ?_, wrapInt64_of_range _⟩
  · intro request hreq
    have hbad : st.latestRequestId ≠ -1 ∧
        request.RequestId ≠ wrapInt64 (st.latestRequestId + 1) →
        checkPriorityRequest env st.latestRequestId t1 =
          .error (.invalidRequestId request.RequestId) := by
      intro hcond
      unfold checkPriorityRequest
      simp only [hp, if_true, hreq]
      rw [if_pos hcond]
    have hgood : ¬ (st.latestRequestId ≠ -1 ∧
        request.RequestId ≠ wrapInt64 (st.latestRequestId + 1)) →
        checkPriorityRequest env st.latestRequestId t1 =
          .ok (request.RequestId, [.priorityAccepted t1 request.RequestId]) := by
      intro hcond
      unfold checkPriorityRequest
      simp only [hp, if_true, hreq]
      rw [if_neg hcond]
    refine ⟨⟨?_, fun hcond => ⟨_, hbad hcond⟩⟩, ?_, ?_⟩
    · rintro ⟨p, hp1⟩
      by_contra hcond
      rw [hgood hcond] at hp1
      exact absurd hp1 (by simp)
    · intro hcond
      unfold executePoolTx
      simp only [hopen, happ, hbad hcond]
      rfl
    · intro hcond
      refine ⟨hgood hcond, ?_⟩
      intro st1 evs hrun
      rcases executePoolTx_cases env c st t st1 evs hrun with
        ⟨hsc, _, _⟩ | ⟨_, bc2, t2, err, happ2, _, _, _⟩ |
        ⟨_, bc2, t2, requestId, evs1, bc3, evs2, happ2, hchk, _, rfl, _⟩
      · rw [hopen] at hsc
        exact absurd hsc (by simp)
      · rw [happ] at happ2
        simp at happ2
      · rw [happ] at happ2
        simp only [Prod.mk.injEq, and_true] at happ2
        obtain ⟨_, ht⟩ := happ2
        subst ht
        rw [hgood hcond] at hchk
        injection hchk with hchk
        injection hchk with h1 _
        exact h1.symm
  · intro err herr
    unfold executePoolTx
    simp only [hopen, happ, checkPriorityRequest, hp, if_true, herr]
    rfl
  · intro hnone
    simp [getLatestExecutedRequestId, hnone]

/-- C15 on scenario S3: after `getLatestExecutedRequestId` found no earlier priority tx
the deposit with request id 7 is accepted; the next deposit, with request id 9, panics on
the request id. -/
theorem priority_request_step_rule_witness :
    executeTxFunc (sampleCollaborators [("a", 7), ("b", 9)] twoDeposits) sampleCommitter
      sampleBlockChain 1 = .error (.invalidRequestId 9) ∧
    (∀ st1 evs, executePoolTx (sampleCollaborators [("a", 7), ("b", 9)] twoDeposits)
        sampleCommitter sampleExecutorState (poolTx 1 2 "a") = .ok (st1, evs) →
      st1.latestRequestId = 7) :=
  ⟨by rfl,
   (((priority_request_step_rule (sampleCollaborators [("a", 7), ("b", 9)] twoDeposits)
      sampleCommitter sampleExecutorState (poolTx 1 2 "a")
      (sampleApplyTransaction sampleBlockChain (poolTx 1 2 "a")).1
      (sampleApplyTransaction sampleBlockChain (poolTx 1 2 "a")).2.1
      (by decide) (by rfl) (by rfl)).1
        { RequestId := 7, L1BlockHeight := 0, L2TxHash := "a" } (by rfl)).2.2
          (by decide)).2⟩

/-! ## Theorems: an empty block is never committed -/

/-- C16: with no txs in the open block and `maxTxsPerBlock >= 1`, `shouldCommit` is false
for every `now` and every block; hence an executor step that finds the block open, no
parked txs and the queue empty hands nothing to the asset-tree stage and opens no new
block: it leaves the rollup state as it is, emits at most the flush of the pending update
batch, and stays in the idle loop. -/
theorem empty_block_never_commits (env : Collaborators) (c : Committer) (st : ExecutorState)
    (hempty : st.bc.Statedb.Txs = []) (hmax : c.maxTxsPerBlock ≥ 1)
    (hopen : ¬ st.bc.currentBlock.BlockStatus > env.StatusProposing)
    (hsub : st.subPendingTxs = [])
    (hdrain : ∀ k, st.polls ≤ k → (env.drain k).take 300 = []) :
    (∀ (curBlock : Block) (now : Int), shouldCommit c st.bc curBlock now = false) ∧
    ∃ st1 evs, executeTxStep env c st = .ok (st1, evs) ∧
      st1.bc = st.bc ∧ st1.position = .idleLoop ∧
      (∀ e ∈ evs, ∃ batch, e = Event.enqueueUpdatePoolTx batch) ∧
      (∀ stateDataCopy, Event.enqueueUpdateAccountAssetTree stateDataCopy ∉ evs) ∧
      (∀ b, Event.initNewBlock b ∉ evs) := by
  have hnever : ∀ (bc : BlockChain) (curBlock : Block) (now : Int), bc.Statedb.Txs = [] →
      shouldCommit c bc curBlock now = false := by
    intro bc curBlock now hbc
    unfold shouldCommit
    rw [if_neg]
    simp only [hbc, List.length_nil, Nat.cast_zero, gt_iff_lt, lt_self_iff_false, false_and,
      false_or, ge_iff_le, not_le]
    omega
  refine ⟨fun curBlock now => hnever st.bc curBlock now hempty, ?_⟩
  have hidle : ∀ s : ExecutorState, s.bc = st.bc → st.polls ≤ s.polls →
      ∃ st1 evs, idleIteration env c s = .ok (st1, evs) ∧
        st1.bc = st.bc ∧ st1.position = .idleLoop ∧
        (∀ e ∈ evs, ∃ batch, e = Event.enqueueUpdatePoolTx batch) := by
    intro s hbc hpolls
    have hsc := hnever s.bc s.bc.currentBlock (env.clock s.clockReads) (by rw [hbc]; exact hempty)
    unfold idleIteration
    simp only [hsc]
    have hpoll : (getPoolTxsFromQueue env
        (flushPendingUpdates { s with clockReads := s.clockReads + 1 }).1).1 = [] := by
      simp only [getPoolTxsFromQueue]
      apply hdrain
      unfold flushPendingUpdates
      split <;> exact hpolls
    simp only [hpoll, List.length_nil, if_true]
    refine ⟨_, _, rfl, ?_, rfl, ?_⟩
    · simp only [getPoolTxsFromQueue, flushPendingUpdates_bc]
      exact hbc
    · intro e he
      unfold flushPendingUpdates at he
      split at he
      · simp only [List.mem_singleton] at he
        exact ⟨_, he⟩
      · simp at he
  have hstep : ∃ st1 evs, executeTxStep env c st = .ok (st1, evs) ∧
      st1.bc = st.bc ∧ st1.position = .idleLoop ∧
      (∀ e ∈ evs, ∃ batch, e = Event.enqueueUpdatePoolTx batch) := by
    unfold executeTxStep
    split
    · unfold loopIteration
      have hlen : ¬ st.subPendingTxs.length > 0 := by simp [hsub]
      simp only [hopen, if_false, hlen]
      have hpoll : (getPoolTxsFromQueue env { st with bc := st.bc }).1 = [] := by
        simp only [getPoolTxsFromQueue]
        exact hdrain _ (le_refl _)
      simp only [hpoll, List.length_nil, if_true]
      obtain ⟨st1, evs, hrun, h1, h2, h3⟩ :=
        hidle (getPoolTxsFromQueue env { st with bc := st.bc }).2 rfl
          (by simp [getPoolTxsFromQueue])
      refine ⟨st1, evs, ?_, h1, h2, h3⟩
      rw [hrun]
      simp [withEvents]
    · exact hidle st rfl (le_refl _)
  obtain ⟨st1, evs, hrun, h1, h2, h3⟩ := hstep
  refine ⟨st1, evs, hrun, h1, h2, h3, ?_, ?_⟩
  · intro s hs
    obtain ⟨batch, hb⟩ := h3 _ hs
    exact absurd hb (by simp)
  · intro b hb
    obtain ⟨batch, hb2⟩ := h3 _ hb
    exact absurd hb2 (by simp)

/-- C16 at the sample state (open block of height 1 with no txs, slots 2, 4, 8, queue
always empty): the step emits nothing and the executor waits in the idle loop. -/
theorem empty_block_never_commits_witness :
    (∀ (curBlock : Block) (now : Int),
      shouldCommit sampleCommitter sampleExecutorState.bc curBlock now = false) ∧
    ∃ st1 evs, executeTxStep (sampleCollaborators [] (fun _ => [])) sampleCommitter
        sampleExecutorState = .ok (st1, evs) ∧
      st1.bc = sampleExecutorState.bc ∧ st1.position = .idleLoop ∧
      (∀ e ∈ evs, ∃ batch, e = Event.enqueueUpdatePoolTx batch) ∧
      (∀ stateDataCopy, Event.enqueueUpdateAccountAssetTree stateDataCopy ∉ evs) ∧
      (∀ b, Event.initNewBlock b ∉ evs) :=
  empty_block_never_commits (sampleCollaborators [] (fun _ => [])) sampleCommitter
    sampleExecutorState (by rfl) (by decide) (by decide) (by rfl) (fun _ _ => rfl)

/-! ## Theorems: start-up recovery -/

theorem replayExecutedTxs_calls (env : RestoreCollaborators) (executedTxs : List Tx) :
    ∀ bc : BlockChain,
      ∃ k, k ≤ executedTxs.length ∧
        (replayExecutedTxs env executedTxs bc).2.2 =
          (executedTxs.take k).map RestoreCall.ApplyTransaction ∧
        ((replayExecutedTxs env executedTxs bc).1 = none → k = executedTxs.length) ∧
        (∀ err, (replayExecutedTxs env executedTxs bc).1 = some err →
          ∃ before failing after,
            executedTxs = before ++ failing :: after ∧ k = before.length + 1 ∧
            (replayExecutedTxs env before bc).1 = none ∧
            (env.ApplyTransaction (replayExecutedTxs env before bc).2.1 failing).2.2 =
              some err) := by
  induction executedTxs with
  | nil =>
    intro bc
    exact ⟨0, le_refl _, rfl, fun _ => rfl, fun err h => by simp [replayExecutedTxs] at h⟩
  | cons t rest ih =>
    intro bc
    rcases happ : env.ApplyTransaction bc t with ⟨bc1, t1, err⟩
    cases err with
    | some e =>
      refine ⟨1, by simp, ?_, ?_, ?_⟩
      · simp [replayExecutedTxs, happ]
      · intro h
        simp [replayExecutedTxs, happ] at h
      · intro err h
        simp only [replayExecutedTxs, happ, Option.some.injEq] at h
        subst h
        exact ⟨[], t, rest, rfl, rfl, rfl, by simp [replayExecutedTxs, happ]⟩
    | none =>
      obtain ⟨k, hk, hcalls, hnone, hsome⟩ := ih bc1
      refine ⟨k + 1, by simp [hk], ?_, ?_, ?_⟩
      · simp [replayExecutedTxs, happ, hcalls]
      · intro h
        simp only [replayExecutedTxs, happ] at h
        simp [hnone h]
      · intro err h
        simp only [replayExecutedTxs, happ] at h
        obtain ⟨before, failing, after, h1, h2, h3, h4⟩ := hsome err h
        refine ⟨t :: before, failing, after, by simp [h1], by simp [h2], ?_, ?_⟩
        · simp [replayExecutedTxs, happ, h3]
        · simp only [replayExecutedTxs, happ]
          exact h4

/-- C11, amended: when its three loads succeed, `restoreExecutedTxs` behaves as follows.
If the current block's status is past `Proposing` it returns an error exactly when at
least one Executed pool tx exists (the current block otherwise), and calls neither
`MarkGasAccountAsPending` nor `ApplyTransaction`.  Otherwise it calls
`MarkGasAccountAsPending`; if that fails it returns its error and applies no tx; if it
succeeds it applies the Executed pool txs in the order returned, stops at the first apply
error and returns it (no tx after it is applied), or, when all succeed, returns the
current block. -/
theorem restoreExecutedTxs_outcome (env : RestoreCollaborators) (bc : BlockChain)
    (curHeight : Int) (curBlock : Block) (executedTxs : List Tx)
    (hheight : env.GetCurrentBlockHeight = .ok curHeight)
    (hblock : env.GetBlockByHeight curHeight = .ok curBlock)
    (htxs : env.GetTxsByStatus env.StatusExecuted = .ok executedTxs) :
    (curBlock.BlockStatus > env.StatusProposing →
      (restoreExecutedTxs env bc).2.2 = [] ∧ (restoreExecutedTxs env bc).2.1 = bc ∧
      (executedTxs ≠ [] →
        (restoreExecutedTxs env bc).1 = .error "no proposing block but exist executed txs") ∧
      (executedTxs = [] → (restoreExecutedTxs env bc).1 = .ok curBlock)) ∧
    (¬ curBlock.BlockStatus > env.StatusProposing →
      (∀ bc1 err, env.MarkGasAccountAsPending bc = (bc1, some err) →
        restoreExecutedTxs env bc = (.error err, bc1, [.MarkGasAccountAsPending])) ∧
      (∀ bc1, env.MarkGasAccountAsPending bc = (bc1, none) →
        ∃ k, k ≤ executedTxs.length ∧
          (restoreExecutedTxs env bc).2.2 =
            .MarkGasAccountAsPending ::
              (executedTxs.take k).map RestoreCall.ApplyTransaction ∧
          (∀ err, (restoreExecutedTxs env bc).1 = .error err →
            ∃ before failing after,
              executedTxs = before ++ failing :: after ∧ k = before.length + 1 ∧
              (replayExecutedTxs env before bc1).1 = none ∧
              (env.ApplyTransaction (replayExecutedTxs env before bc1).2.1 failing).2.2 =
                some err) ∧
          ((replayExecutedTxs env executedTxs bc1).1 = none →
            k = executedTxs.length ∧ (restoreExecutedTxs env bc).1 = .ok curBlock))) := by
  constructor
  · intro hpast
    unfold restoreExecutedTxs
    simp only [hheight, hblock, htxs, hpast, if_true]
    by_cases hnil : executedTxs = []
    · simp [hnil]
    · have hlen : executedTxs.length ≠ 0 := by
        intro h
        exact hnil (List.length_eq_zero.mp h)
      simp [hlen, hnil]
  · intro hopen
    constructor
    · intro bc1 err hmark
      unfold restoreExecutedTxs
      simp only [hheight, hblock, htxs, hopen, if_false, hmark]
    · intro bc1 hmark
      obtain ⟨k, hk, hcalls, hnone, hsome⟩ := replayExecutedTxs_calls env executedTxs bc1
      have hres : restoreExecutedTxs env bc =
          (match (replayExecutedTxs env executedTxs bc1).1 with
            | some err => .error err
            | none => .ok curBlock,
           (replayExecutedTxs env executedTxs bc1).2.1,
           .MarkGasAccountAsPending :: (replayExecutedTxs env executedTxs bc1).2.2) := by
        unfold restoreExecutedTxs
        simp only [hheight, hblock, htxs, hopen, if_false, hmark]
      refine ⟨k, hk, ?_, ?_, ?_⟩
      · rw [hres, hcalls]
      · intro err herr
        rw [hres] at herr
        cases hr : (replayExecutedTxs env executedTxs bc1).1 with
        | none => rw [hr] at herr; exact absurd herr (by simp)
        | some e =>
          rw [hr] at herr
          simp only at herr
          injection herr with herr
          subst herr
          exact hsome e hr
      · intro hr
        refine ⟨hnone hr, ?_⟩
        rw [hres, hr]

/-- C11 amended, at an open block with three Executed pool txs of which the second is
rejected: the gas account is marked, the first two txs are applied in order, the third is
not, and the error of the second is returned. -/
theorem restoreExecutedTxs_outcome_witness :
    restoreExecutedTxs (sampleRestore sampleBlock executedWithRejected false) sampleBlockChain
      = (.error "unknown tx type",
         (sampleApplyTransaction sampleBlockChain (poolTx 1 4 "t")).1,
         [.MarkGasAccountAsPending, .ApplyTransaction (poolTx 1 4 "t"),
          .ApplyTransaction (poolTx 2 0 "x")]) ∧
    ∃ k, k ≤ executedWithRejected.length ∧
      (restoreExecutedTxs (sampleRestore sampleBlock executedWithRejected false)
          sampleBlockChain).2.2 =
        .MarkGasAccountAsPending ::
          (executedWithRejected.take k).map RestoreCall.ApplyTransaction ∧
      (∀ err, (restoreExecutedTxs (sampleRestore sampleBlock executedWithRejected false)
          sampleBlockChain).1 = .error err →
        ∃ before failing after,
          executedWithRejected = before ++ failing :: after ∧ k = before.length + 1 ∧
          (replayExecutedTxs (sampleRestore sampleBlock executedWithRejected false) before
            sampleBlockChain).1 = none ∧
          ((sampleRestore sampleBlock executedWithRejected false).ApplyTransaction
            (replayExecutedTxs (sampleRestore sampleBlock executedWithRejected false) before
              sampleBlockChain).2.1 failing).2.2 = some err) ∧
      ((replayExecutedTxs (sampleRestore sampleBlock executedWithRejected false)
          executedWithRejected sampleBlockChain).1 = none →
        k = executedWithRejected.length ∧
        (restoreExecutedTxs (sampleRestore sampleBlock executedWithRejected false)
          sampleBlockChain).1 = .ok sampleBlock) :=
  ⟨by rfl,
   ((restoreExecutedTxs_outcome (sampleRestore sampleBlock executedWithRejected false)
      sampleBlockChain 1 sampleBlock executedWithRejected (by rfl) (by rfl) (by rfl)).2
        (by decide)).2 sampleBlockChain (by rfl)⟩

/-- C11 as stated fails when `MarkGasAccountAsPending` fails: the three loads succeed, the
block is open and three Executed pool txs exist, yet no tx is applied, and what is
returned is neither an apply error nor the current block. -/
theorem restoreExecutedTxs_mark_failure :
    restoreExecutedTxs (sampleRestore sampleBlock executedWithRejected true) sampleBlockChain
      = (.error "gas account not found", sampleBlockChain, [.MarkGasAccountAsPending]) := by
  rfl

/-! ## Theorems: PreSave and the pruned-height watermark -/

theorem runStages_append (c : Committer) (env : PersistenceCollaborators)
    (schedule1 : List Stage) :
    ∀ (schedule2 : List Stage) (st : PersistenceState),
      runStages c env (schedule1 ++ schedule2) st =
        runStages c env schedule2 (runStages c env schedule1 st) := by
  induction schedule1 with
  | nil => intro schedule2 st; rfl
  | cons stage rest ih => intro schedule2 st; exact ih schedule2 _

theorem finalSaveBlockDataFunc_watermark (env : FinalSaveCollaborators) (db : Database)
    (prunedBlockHeight : Int) (blockStates : BlockStates) :
    ((finalSaveBlockDataFunc env db prunedBlockHeight blockStates).panicked = true ∧
      (finalSaveBlockDataFunc env db prunedBlockHeight blockStates).prunedBlockHeight =
        prunedBlockHeight) ∨
    ((finalSaveBlockDataFunc env db prunedBlockHeight blockStates).panicked = false ∧
      (finalSaveBlockDataFunc env db prunedBlockHeight blockStates).prunedBlockHeight =
        blockStates.Block.BlockHeight) := by
  unfold finalSaveBlockDataFunc
  rcases Transaction db (finalSaveStatements env blockStates) with ⟨db1, err⟩
  cases err with
  | some e => exact Or.inl ⟨rfl, rfl⟩
  | none => exact Or.inr ⟨rfl, rfl⟩

theorem heightsInFlight_split (st : PersistenceState) :
    ∃ later, heightsInFlight st = st.finalSaved ++ [] ++ later :=
  ⟨heights st.finalSaveQueue ++ heights st.saveQueue ++ heights st.preSaveQueue,
   by simp [heightsInFlight, List.append_assoc]⟩

/-- With the block save enabled, a stage step keeps the heights in flight in their order
(unless it panics) and keeps the watermark at the height of the last block that completed
FinalSave. -/
theorem stageStep_enabled (c : Committer) (env : PersistenceCollaborators)
    (hsave : ∀ b saved, env.saveBlockData b = some saved →
      saved.Block.BlockHeight = b.Block.BlockHeight)
    (henabled : c.config.BlockSaveDisabled = false) (initial : Int)
    (st : PersistenceState) (stage : Stage)
    (hmark : st.prunedBlockHeight = st.finalSaved.getLastD initial) :
    (stageStep c env st stage).prunedBlockHeight =
        (stageStep c env st stage).finalSaved.getLastD initial ∧
    (∃ more, (stageStep c env st stage).finalSaved = st.finalSaved ++ more ∧
      ∃ later, heightsInFlight st = st.finalSaved ++ more ++ later) ∧
    ((stageStep c env st stage).panicked = false →
      heightsInFlight (stageStep c env st stage) = heightsInFlight st) := by
  have hsame : ∀ s : PersistenceState, s.prunedBlockHeight = st.prunedBlockHeight →
      s.finalSaved = st.finalSaved →
      (s.panicked = false → heightsInFlight s = heightsInFlight st) →
      s.prunedBlockHeight = s.finalSaved.getLastD initial ∧
      (∃ more, s.finalSaved = st.finalSaved ++ more ∧
        ∃ later, heightsInFlight st = st.finalSaved ++ more ++ later) ∧
      (s.panicked = false → heightsInFlight s = heightsInFlight st) := by
    intro s h1 h2 h3
    refine ⟨by rw [h1, h2]; exact hmark, ⟨[], by rw [h2]; simp, heightsInFlight_split st⟩, h3⟩
  by_cases hp : st.panicked = true
  · have hstep : stageStep c env st stage = st := by
      cases stage <;> simp [stageStep, hp]
    rw [hstep]
    exact hsame st rfl rfl (fun _ => rfl)
  · have hp2 : st.panicked = false := by
      cases h : st.panicked
      · rfl
      · exact absurd h hp
    cases stage with
    | PreSave =>
      cases hq : st.preSaveQueue with
      | nil =>
        have hstep : stageStep c env st .PreSave = st := by simp [stageStep, hp2, hq]
        rw [hstep]
        exact hsame st rfl rfl (fun _ => rfl)
      | cons b rest =>
        cases hpre : env.PreSaveBlockData
            { b.Block with
              AccountIndexes := marshalIndexes
                (b.PendingAccount.map (fun accountInfo => accountInfo.AccountIndex)),
              NftIndexes := marshalIndexes (b.PendingNft.map (fun nftInfo => nftInfo.NftIndex)) }
          with
        | some e =>
          apply hsame
          · simp [stageStep, hp2, hq, preSaveBlockDataFunc, henabled, hpre]
          · simp [stageStep, hp2, hq]
          · intro h
            simp [stageStep, hp2, hq, preSaveBlockDataFunc, henabled, hpre] at h
        | none =>
          apply hsame
          · simp [stageStep, hp2, hq, preSaveBlockDataFunc, henabled, hpre]
          · simp [stageStep, hp2, hq]
          · intro _
            simp [stageStep, hp2, hq, preSaveBlockDataFunc, henabled, hpre, heightsInFlight,
              heights]
    | Save =>
      cases hq : st.saveQueue with
      | nil =>
        have hstep : stageStep c env st .Save = st := by simp [stageStep, hp2, hq]
        rw [hstep]
        exact hsame st rfl rfl (fun _ => rfl)
      | cons b rest =>
        cases hs : env.saveBlockData b with
        | none =>
          apply hsame
          · simp [stageStep, hp2, hq, hs]
          · simp [stageStep, hp2, hq, hs]
          · intro h
            simp [stageStep, hp2, hq, hs] at h
        | some saved =>
          apply hsame
          · simp [stageStep, hp2, hq, hs]
          · simp [stageStep, hp2, hq, hs]
          · intro _
            simp [stageStep, hp2, hq, hs, heightsInFlight, heights, hsave b saved hs]
    | FinalSave =>
      cases hq : st.finalSaveQueue with
      | nil =>
        have hstep : stageStep c env st .FinalSave = st := by simp [stageStep, hp2, hq]
        rw [hstep]
        exact hsame st rfl rfl (fun _ => rfl)
      | cons b rest =>
        rcases finalSaveBlockDataFunc_watermark env.finalSave st.db st.prunedBlockHeight b with
          ⟨h1, h2⟩ | ⟨h1, h2⟩
        · apply hsame
          · simp [stageStep, hp2, hq, h2]
          · simp [stageStep, hp2, hq, h1]
          · intro h
            simp [stageStep, hp2, hq, h1] at h
        · refine ⟨?_, ⟨[b.Block.BlockHeight], ?_, ?_⟩, fun _ => ?_⟩
          · simp [stageStep, hp2, hq, h1, h2]
          · simp [stageStep, hp2, hq, h1]
          · exact ⟨heights rest ++ heights st.saveQueue ++ heights st.preSaveQueue,
              by simp [heightsInFlight, heights, hq]⟩
          · simp [stageStep, hp2, hq, h1, heightsInFlight, heights]

theorem getLastD_append_eq (l1 : List Int) :
    ∀ (l2 : List Int) (d : Int), (l1 ++ l2).getLastD d = l2.getLastD (l1.getLastD d) := by
  induction l1 with
  | nil => intro l2 d; rfl
  | cons x rest ih =>
    intro l2 d
    rw [List.cons_append, List.getLastD_cons, List.getLastD_cons]
    exact ih l2 x

theorem getLastD_mem_or (l : List Int) :
    ∀ d : Int, l.getLastD d ∈ l ∨ (l = [] ∧ l.getLastD d = d) := by
  induction l with
  | nil => intro d; exact Or.inr ⟨rfl, rfl⟩
  | cons x rest ih =>
    intro d
    left
    rw [List.getLastD_cons]
    rcases ih x with h | ⟨h1, h2⟩
    · exact List.mem_cons_of_mem _ h
    · subst h1
      exact List.mem_cons_self _ _

theorem sorted_le_getLastD (l : List Int) :
    ∀ d : Int, (∀ h ∈ l, d ≤ h) → l.Sorted (· < ·) →
      d ≤ l.getLastD d ∧ ∀ h ∈ l, h ≤ l.getLastD d := by
  induction l with
  | nil => intro d _ _; exact ⟨le_refl d, fun h hh => by simp at hh⟩
  | cons x rest ih =>
    intro d hd hsorted
    have hx : ∀ h ∈ rest, x ≤ h := fun h hh => le_of_lt (List.rel_of_sorted_cons hsorted h hh)
    obtain ⟨h1, h2⟩ := ih x hx (List.Sorted.of_cons hsorted)
    have hdx : d ≤ x := hd x (List.mem_cons_self _ _)
    rw [List.getLastD_cons]
    refine ⟨le_trans hdx h1, ?_⟩
    intro h hh
    rcases List.mem_cons.mp hh with rfl | hh
    · exact h1
    · exact h2 h hh

theorem getLastD_le_of_grown (front more later : List Int) (d : Int)
    (hsorted : (front ++ more ++ later).Sorted (· < ·))
    (hd : ∀ h ∈ front ++ more ++ later, d ≤ h) :
    front.getLastD d ≤ (front ++ more).getLastD d := by
  rw [getLastD_append_eq]
  have hfm : (front ++ more).Sorted (· < ·) := (List.pairwise_append.mp hsorted).1
  have hm : more.Sorted (· < ·) := (List.pairwise_append.mp hfm).2.1
  refine (sorted_le_getLastD more (front.getLastD d) ?_ hm).1
  intro h hh
  rcases getLastD_mem_or front d with h1 | ⟨_, h2⟩
  · exact le_of_lt ((List.pairwise_append.mp hfm).2.2 _ h1 _ hh)
  · rw [h2]
    exact hd h (by simp [hh])

theorem stageStep_of_panicked (c : Committer) (env : PersistenceCollaborators)
    (st : PersistenceState) (stage : Stage) (hp : st.panicked = true) :
    stageStep c env st stage = st := by
  cases stage <;> simp [stageStep, hp]

theorem runStages_enabled (c : Committer) (env : PersistenceCollaborators)
    (hsave : ∀ b saved, env.saveBlockData b = some saved →
      saved.Block.BlockHeight = b.Block.BlockHeight)
    (henabled : c.config.BlockSaveDisabled = false) (initial : Int) (all : List Int)
    (schedule : List Stage) :
    ∀ st : PersistenceState,
      st.prunedBlockHeight = st.finalSaved.getLastD initial →
      (∃ later, all = st.finalSaved ++ later) →
      (st.panicked = false → heightsInFlight st = all) →
      (runStages c env schedule st).prunedBlockHeight =
          (runStages c env schedule st).finalSaved.getLastD initial ∧
      (∃ more later, (runStages c env schedule st).finalSaved = st.finalSaved ++ more ∧
        all = st.finalSaved ++ more ++ later) ∧
      ((runStages c env schedule st).panicked = false →
        heightsInFlight (runStages c env schedule st) = all) := by
  induction schedule with
  | nil =>
    intro st h1 h2 h3
    obtain ⟨later, hl⟩ := h2
    exact ⟨h1, ⟨[], later, by simp [runStages], by simpa using hl⟩, h3⟩
  | cons stage rest ih =>
    intro st h1 h2 h3
    simp only [runStages]
    by_cases hp : st.panicked = true
    · rw [stageStep_of_panicked c env st stage hp]
      exact ih st h1 h2 h3
    · have hp2 : st.panicked = false := by
        cases h : st.panicked
        · rfl
        · exact absurd h hp
      obtain ⟨hm, ⟨more, hfs, later, hfl⟩, hkeep⟩ :=
        stageStep_enabled c env hsave henabled initial st stage h1
      rw [h3 hp2] at hfl
      have hinv := ih (stageStep c env st stage) hm
        ⟨later, by rw [hfs]; exact hfl⟩
        (fun hnp => by rw [hkeep hnp]; exact h3 hp2)
      obtain ⟨g1, ⟨more2, later2, g2, g3⟩, g4⟩ := hinv
      refine ⟨g1, ⟨more ++ more2, later2, ?_, ?_⟩, g4⟩
      · rw [g2, hfs, List.append_assoc]
      · rw [g3, hfs]
        simp only [List.append_assoc]

theorem runStages_disabled (c : Committer) (env : PersistenceCollaborators)
    (hdisabled : c.config.BlockSaveDisabled = true) (schedule : List Stage) :
    ∀ st : PersistenceState, st.saveQueue = [] → st.finalSaveQueue = [] →
      (runStages c env schedule st).saveQueue = [] ∧
      (runStages c env schedule st).finalSaveQueue = [] ∧
      (runStages c env schedule st).db = st.db ∧
      (runStages c env schedule st).blockRows = st.blockRows ∧
      (runStages c env schedule st).finalSaved = st.finalSaved ∧
      (runStages c env schedule st).panicked = st.panicked ∧
      ∃ taken, st.preSaveQueue = taken ++ (runStages c env schedule st).preSaveQueue ∧
        (runStages c env schedule st).prunedBlockHeight =
          (heights taken).getLastD st.prunedBlockHeight := by
  induction schedule with
  | nil => intro st h1 h2; exact ⟨h1, h2, rfl, rfl, rfl, rfl, [], rfl, rfl⟩
  | cons stage rest ih =>
    intro st h1 h2
    simp only [runStages]
    by_cases hp : st.panicked = true
    · rw [stageStep_of_panicked c env st stage hp]
      exact ih st h1 h2
    · have hp2 : st.panicked = false := by
        cases h : st.panicked
        · rfl
        · exact absurd h hp
      cases stage with
      | PreSave =>
        cases hq : st.preSaveQueue with
        | nil =>
          have hstep : stageStep c env st .PreSave = st := by simp [stageStep, hp2, hq]
          rw [hstep]
          have := ih st h1 h2
          rw [hq] at this
          exact this
        | cons b rest2 =>
          have hstep : stageStep c env st .PreSave =
              { st with preSaveQueue := rest2, prunedBlockHeight := b.Block.BlockHeight } := by
            simp [stageStep, hp2, hq, preSaveBlockDataFunc, hdisabled, h1]
          rw [hstep]
          obtain ⟨g1, g2, g3, g4, g5, g6, taken, g7, g8⟩ :=
            ih { st with preSaveQueue := rest2, prunedBlockHeight := b.Block.BlockHeight } h1 h2
          refine ⟨g1, g2, g3, g4, g5, g6, b :: taken, ?_, ?_⟩
          · exact congrArg (List.cons b) g7
          · rw [g8]
            show (heights taken).getLastD b.Block.BlockHeight =
              (b.Block.BlockHeight :: heights taken).getLastD st.prunedBlockHeight
            rw [List.getLastD_cons]
      | Save =>
        have hstep : stageStep c env st .Save = st := by simp [stageStep, hp2, h1]
        rw [hstep]
        exact ih st h1 h2
      | FinalSave =>
        have hstep : stageStep c env st .FinalSave = st := by simp [stageStep, hp2, h2]
        rw [hstep]
        exact ih st h1 h2

/-- C12, amended: over every run of the persistence stages in which blocks arrive in
increasing height order (and the watermark starts at or below them), the pruned-height
watermark depends on `BlockSaveDisabled`.  With the block save enabled the watermark at
every point equals the height of the last block that completed FinalSave (its initial
value if none did), which is the highest such height; it never decreases; and a FinalSave
whose transaction fails does not advance it.  With the block save disabled no block
reaches FinalSave, the watermark equals the height of the last block that PreSave took
(its initial value if none), and it never decreases. -/
theorem watermark_tracks_stages (c : Committer) (env : PersistenceCollaborators)
    (blocks : List BlockStates) (initial : Int) (schedule : List Stage)
    (hsave : ∀ b saved, env.saveBlockData b = some saved →
      saved.Block.BlockHeight = b.Block.BlockHeight)
    (hsorted : (heights blocks).Sorted (· < ·))
    (hinitial : ∀ h ∈ heights blocks, initial ≤ h) :
    (c.config.BlockSaveDisabled = false →
      (runStages c env schedule (initialPersistence blocks initial)).prunedBlockHeight =
        (runStages c env schedule (initialPersistence blocks initial)).finalSaved.getLastD
          initial ∧
      (∀ h ∈ (runStages c env schedule (initialPersistence blocks initial)).finalSaved,
        h ≤ (runStages c env schedule (initialPersistence blocks initial)).prunedBlockHeight) ∧
      (∀ more,
        (runStages c env schedule (initialPersistence blocks initial)).prunedBlockHeight ≤
          (runStages c env (schedule ++ more)
            (initialPersistence blocks initial)).prunedBlockHeight) ∧
      (∀ b, (finalSaveBlockDataFunc env.finalSave
            (runStages c env schedule (initialPersistence blocks initial)).db
            (runStages c env schedule (initialPersistence blocks initial)).prunedBlockHeight
            b).panicked = true →
        (finalSaveBlockDataFunc env.finalSave
            (runStages c env schedule (initialPersistence blocks initial)).db
            (runStages c env schedule (initialPersistence blocks initial)).prunedBlockHeight
            b).prunedBlockHeight =
          (runStages c env schedule (initialPersistence blocks initial)).prunedBlockHeight)) ∧
    (c.config.BlockSaveDisabled = true →
      (runStages c env schedule (initialPersistence blocks initial)).finalSaved = [] ∧
      (runStages c env schedule (initialPersistence blocks initial)).finalSaveQueue = [] ∧
      (∃ taken,
        blocks = taken ++
          (runStages c env schedule (initialPersistence blocks initial)).preSaveQueue ∧
        (runStages c env schedule (initialPersistence blocks initial)).prunedBlockHeight =
          (heights taken).getLastD initial) ∧
      (∀ more,
        (runStages c env schedule (initialPersistence blocks initial)).prunedBlockHeight ≤
          (runStages c env (schedule ++ more)
            (initialPersistence blocks initial)).prunedBlockHeight)) := by
  constructor
  · intro henabled
    have hstart : ∀ sched, _ := fun sched =>
      runStages_enabled c env hsave henabled initial (heights blocks) sched
        (initialPersistence blocks initial) rfl ⟨heights blocks, rfl⟩
        (fun _ => by simp [heightsInFlight, initialPersistence, heights])
    obtain ⟨h1, ⟨more, later, h2a, h3a⟩, h4⟩ := hstart schedule
    have h2 : (runStages c env schedule (initialPersistence blocks initial)).finalSaved =
        more := h2a
    have h3 : heights blocks = more ++ later := h3a
    refine ⟨h1, ?_, ?_, ?_⟩
    · intro h hh
      rw [h1]
      have hfs : (runStages c env schedule (initialPersistence blocks initial)).finalSaved.Sorted
          (· < ·) := by
        rw [h2]
        rw [h3] at hsorted
        exact (List.pairwise_append.mp hsorted).1
      refine (sorted_le_getLastD _ initial ?_ hfs).2 h hh
      intro x hx
      apply hinitial
      rw [h3]
      rw [h2] at hx
      exact List.mem_append_left _ hx
    · intro extra
      rw [runStages_append]
      obtain ⟨k1, ⟨more2, later2, k2, k3⟩, _⟩ :=
        runStages_enabled c env hsave henabled initial (heights blocks) extra
          (runStages c env schedule (initialPersistence blocks initial)) h1
          ⟨later, by rw [h2]; exact h3⟩ h4
      rw [k1, h1, k2]
      rw [k3] at hsorted hinitial
      exact getLastD_le_of_grown _ more2 later2 initial hsorted hinitial
    · intro b hpanic
      rcases finalSaveBlockDataFunc_watermark env.finalSave
          (runStages c env schedule (initialPersistence blocks initial)).db
          (runStages c env schedule (initialPersistence blocks initial)).prunedBlockHeight b with
        ⟨_, g2⟩ | ⟨g1, _⟩
      · exact g2
      · rw [g1] at hpanic
        exact absurd hpanic (by simp)
  · intro hdisabled
    obtain ⟨g1, g2, _, _, g5, _, taken, g7, g8⟩ :=
      runStages_disabled c env hdisabled schedule (initialPersistence blocks initial) rfl rfl
    refine ⟨g5, g2, ⟨taken, g7, g8⟩, ?_⟩
    intro extra
    rw [runStages_append]
    obtain ⟨_, _, _, _, _, _, taken2, k7, k8⟩ :=
      runStages_disabled c env hdisabled extra
        (runStages c env schedule (initialPersistence blocks initial)) g1 g2
    have g8a : (runStages c env schedule (initialPersistence blocks initial)).prunedBlockHeight =
        (heights taken).getLastD initial := g8
    have g7a : blocks = taken ++
        (runStages c env schedule (initialPersistence blocks initial)).preSaveQueue := g7
    rw [k8, g8a, ← getLastD_append_eq]
    have hblocks : heights blocks = heights taken ++ heights taken2 ++
        heights (runStages c env extra
          (runStages c env schedule (initialPersistence blocks initial))).preSaveQueue := by
      have hb := congrArg heights (g7a.trans (congrArg (fun q => taken ++ q) k7))
      rw [hb]
      simp only [heights, List.map_append, List.append_assoc]
    rw [hblocks] at hsorted hinitial
    exact getLastD_le_of_grown _ _ _ initial hsorted hinitial

/-- C12 as stated fails with the block save disabled: after PreSave took block 7 the
watermark is 7 (it started at 6), while no block has reached FinalSave, whatever the
other stages then do. -/
theorem watermark_advances_without_final_save :
    (runStages saveDisabledCommitter persistenceSucceeds [.PreSave, .Save, .FinalSave]
      (initialPersistence [sampleBlockStates] 6)).prunedBlockHeight = 7 ∧
    (runStages saveDisabledCommitter persistenceSucceeds [.PreSave, .Save, .FinalSave]
      (initialPersistence [sampleBlockStates] 6)).finalSaved = [] := by
  decide

/-- C17: with `BlockSaveDisabled` set, `preSaveBlockDataFunc` writes no block row, leaves
the block states (the block's `AccountIndexes` and `NftIndexes` among them) as they are,
sets the pruned-height watermark to the block's height and forwards nothing to the Save
stage; so, whatever the schedule, the queues of Save and FinalSave stay empty and the
block rows and the database stay as they were. -/
theorem preSave_disabled (c : Committer) (PreSaveBlockData : Block → Option String)
    (prunedBlockHeight : Int) (blockStates : BlockStates)
    (hdisabled : c.config.BlockSaveDisabled = true) :
    preSaveBlockDataFunc c PreSaveBlockData prunedBlockHeight blockStates =
      { prunedBlockHeight := blockStates.Block.BlockHeight,
        blockStates := blockStates,
        blockRowWritten := none,
        forwarded := none,
        panicked := false } ∧
    ∀ (env : PersistenceCollaborators) (schedule : List Stage) (st : PersistenceState),
      st.saveQueue = [] → st.finalSaveQueue = [] →
      (runStages c env schedule st).saveQueue = [] ∧
      (runStages c env schedule st).finalSaveQueue = [] ∧
      (runStages c env schedule st).db = st.db ∧
      (runStages c env schedule st).blockRows = st.blockRows := by
  constructor
  · simp [preSaveBlockDataFunc, hdisabled]
  · intro env schedule st h1 h2
    obtain ⟨g1, g2, g3, g4, _⟩ := runStages_disabled c env hdisabled schedule st h1 h2
    exact ⟨g1, g2, g3, g4⟩

/-- Witness for C12: with the block save enabled, two blocks (7 and 8) and a schedule that
carries block 7 through FinalSave, the watermark is the height of the last block that
completed FinalSave. -/
theorem watermark_tracks_stages_witness :
    sampleCommitter.config.BlockSaveDisabled = false ∧
    (runStages sampleCommitter persistenceSucceeds [.PreSave, .Save, .FinalSave, .PreSave]
      (initialPersistence [sampleBlockStates, nextBlockStates] 6)).prunedBlockHeight =
      (runStages sampleCommitter persistenceSucceeds [.PreSave, .Save, .FinalSave, .PreSave]
        (initialPersistence [sampleBlockStates, nextBlockStates] 6)).finalSaved.getLastD 6 :=
  ⟨rfl,
    ((watermark_tracks_stages sampleCommitter persistenceSucceeds
      [sampleBlockStates, nextBlockStates] 6 [.PreSave, .Save, .FinalSave, .PreSave]
      (fun b saved h => by rw [← Option.some.inj h])
      (by decide) (by decide)).1 rfl).1⟩

/-- Witness for C17: the committer with the block save disabled, taking block 7 while the
watermark is 6. -/
theorem preSave_disabled_witness :
    saveDisabledCommitter.config.BlockSaveDisabled = true ∧
    preSaveBlockDataFunc saveDisabledCommitter persistenceSucceeds.PreSaveBlockData 6
        sampleBlockStates =
      { prunedBlockHeight := 7,
        blockStates := sampleBlockStates,
        blockRowWritten := none,
        forwarded := none,
        panicked := false } :=
  ⟨rfl, (preSave_disabled saveDisabledCommitter persistenceSucceeds.PreSaveBlockData 6
    sampleBlockStates rfl).1⟩

theorem dispatchBatch_sleeps (env : PullerCollaborators) (rows : List Tx) :
    ∀ st : PullerState, ∀ ms, PullEvent.sleep ms ∈ (dispatchBatch env rows st).2 → ms = 50 := by
  induction rows with
  | nil => intro st ms h; simp [dispatchBatch] at h
  | cons row rest ih =>
    intro st ms h
    simp only [dispatchBatch] at h
    split at h
    · split at h
      · simpa using h
      · rcases List.mem_cons.mp h with h | h
        · cases h
        · exact ih _ ms h
    · rcases List.mem_cons.mp h with h | h
      · cases h
      · exact ih _ ms h

/-- C14 (the code lacks the back-pressure the claim states): in `pullPoolTxs2` the size
of the executor queue is read for a metric only.  Whatever that size is, every iteration
of the loop begins with a fetch and never sleeps for 10 ms (its only sleeps are the 100 ms
after a failed or empty fetch and the 50 ms of the gap rule); and with 5000 items in the
queue at every reading the puller still fetches twice and enqueues the rows 1, 2, 3, 4. -/
theorem puller_has_no_back_pressure :
    (∀ (env : PullerCollaborators) (st : PullerState), ∃ rest,
      (pullIteration env st).2 =
        .fetch st.executedTxMaxId st.limit :: .queueMetric (env.GetQueueSize st.fetches) ::
          rest ∧
      ∀ ms, PullEvent.sleep ms ∈ rest → ms = 100 ∨ ms = 50) ∧
    (pullPoolTxs2 congestedPullerCollaborators 2).toOption.map (fun r => r.2) =
      some [.fetch 0 1000, .queueMetric 5000, .enqueue (poolRow 1 0), .enqueue (poolRow 2 0),
            .sleep 50,
            .fetch 2 10, .queueMetric 5000, .enqueue (poolRow 3 7000000000),
            .enqueue (poolRow 4 5000000000)] := by
  refine ⟨?_, by decide⟩
  intro env st
  unfold pullIteration
  simp only
  cases hf : env.GetTxsByStatusAndMaxId st.fetches st.executedTxMaxId st.limit with
  | error e => exact ⟨_, rfl, fun ms h => by simp at h; exact Or.inl h⟩
  | ok rows =>
    simp only
    split
    · exact ⟨_, rfl, fun ms h => by simp at h; exact Or.inl h⟩
    · exact ⟨_, rfl, fun ms h => Or.inr (dispatchBatch_sleeps env rows _ ms h)⟩

theorem notNextId_eq (id executedTxMaxId : Nat) (hid : id < 2 ^ 64)
    (habove : executedTxMaxId < id) :
    notNextId id executedTxMaxId = true ↔ id ≠ executedTxMaxId + 1 := by
  unfold notNextId wrapInt64
  simp only [ne_eq, decide_eq_true_eq, not_iff_not]
  have h64 : (2 : Nat) ^ 64 = 18446744073709551616 := by norm_num
  rw [h64] at hid
  constructor
  · intro h
    omega
  · intro h
    omega

theorem youngerThan5s_eq (now createdAt : Int) :
    youngerThan5s now createdAt = true ↔ now - createdAt < 5 * nanosPerSecond := by
  unfold youngerThan5s Sub nanosPerSecond
  simp only [decide_eq_true_eq]
  omega

theorem dispatchBatch_gapRule (env : PullerCollaborators) (rows : List Tx) :
    ∀ st : PullerState, (∀ row ∈ rows, st.executedTxMaxId < row.ID) →
      rows.Pairwise (fun a b => a.ID < b.ID) →
      (∀ row ∈ rows, row.ID < 2 ^ 64) →
      enqueuedTxs (dispatchBatch env rows st).2 =
        (gapRule env.now st.clockReads st.executedTxMaxId rows).1 ∧
      (dispatchBatch env rows st).1.limit =
        (if (gapRule env.now st.clockReads st.executedTxMaxId rows).2 then 10 else st.limit) ∧
      ∃ rest, rows = (gapRule env.now st.clockReads st.executedTxMaxId rows).1 ++ rest ∧
        ((gapRule env.now st.clockReads st.executedTxMaxId rows).2 = true ↔ rest ≠ []) := by
  induction rows with
  | nil => intro st _ _ _; exact ⟨rfl, rfl, [], rfl, by simp [gapRule]⟩
  | cons row rest ih =>
    intro st habove hsorted huint
    rw [List.pairwise_cons] at hsorted
    have hrow : st.executedTxMaxId < row.ID := habove row (List.mem_cons_self _ _)
    have hid : row.ID < 2 ^ 64 := huint row (List.mem_cons_self _ _)
    have huint2 : ∀ r ∈ rest, r.ID < 2 ^ 64 := fun r hr => huint r (List.mem_cons_of_mem _ hr)
    by_cases hgap : row.ID ≠ st.executedTxMaxId + 1
    · have hn : notNextId row.ID st.executedTxMaxId = true := (notNextId_eq _ _ hid hrow).mpr hgap
      by_cases hyoung : env.now st.clockReads - row.CreatedAt < 5 * nanosPerSecond
      · have hy : youngerThan5s (env.now st.clockReads) row.CreatedAt = true :=
          (youngerThan5s_eq _ _).mpr hyoung
        have hg : gapRule env.now st.clockReads st.executedTxMaxId (row :: rest) =
            ([], true) := by
          simp only [gapRule]
          rw [if_pos ⟨hgap, hyoung⟩]
        have hd : dispatchBatch env (row :: rest) st =
            ({ st with clockReads := st.clockReads + 1, limit := 10 }, [.sleep 50]) := by
          simp only [dispatchBatch]
          rw [if_pos hn, if_pos hy]
        rw [hg, hd]
        exact ⟨rfl, rfl, row :: rest, rfl, by simp⟩
      · have hy : ¬ youngerThan5s (env.now st.clockReads) row.CreatedAt = true :=
          fun h => hyoung ((youngerThan5s_eq _ _).mp h)
        have hg : gapRule env.now st.clockReads st.executedTxMaxId (row :: rest) =
            (row :: (gapRule env.now (st.clockReads + 1) row.ID rest).1,
              (gapRule env.now (st.clockReads + 1) row.ID rest).2) := by
          simp only [gapRule]
          rw [if_neg (fun h => hyoung h.2), if_pos hgap]
        have hd : dispatchBatch env (row :: rest) st =
            ((dispatchBatch env rest
                { st with clockReads := st.clockReads + 1, executedTxMaxId := row.ID }).1,
              .enqueue row :: (dispatchBatch env rest
                { st with clockReads := st.clockReads + 1, executedTxMaxId := row.ID }).2) := by
          simp only [dispatchBatch]
          rw [if_pos hn, if_neg hy]
        rw [hg, hd]
        obtain ⟨h1, h2, more, h3, h4⟩ :=
          ih { st with clockReads := st.clockReads + 1, executedTxMaxId := row.ID }
            hsorted.1 hsorted.2 huint2
        exact ⟨congrArg (List.cons row) h1, h2, more, congrArg (List.cons row) h3, h4⟩
    · have hn : ¬ notNextId row.ID st.executedTxMaxId = true :=
        fun h => hgap ((notNextId_eq _ _ hid hrow).mp h)
      have hg : gapRule env.now st.clockReads st.executedTxMaxId (row :: rest) =
          (row :: (gapRule env.now st.clockReads row.ID rest).1,
            (gapRule env.now st.clockReads row.ID rest).2) := by
        simp only [gapRule]
        rw [if_neg (fun h => hgap h.1), if_neg hgap]
      have hd : dispatchBatch env (row :: rest) st =
          ((dispatchBatch env rest { st with executedTxMaxId := row.ID }).1,
            .enqueue row :: (dispatchBatch env rest { st with executedTxMaxId := row.ID }).2) := by
        simp only [dispatchBatch]
        rw [if_neg hn]
      rw [hg, hd]
      obtain ⟨h1, h2, more, h3, h4⟩ :=
        ih { st with executedTxMaxId := row.ID } hsorted.1 hsorted.2 huint2
      exact ⟨congrArg (List.cons row) h1, h2, more, congrArg (List.cons row) h3, h4⟩

/-- C19: the gap rule of `pullPoolTxs2` for one non-empty fetched batch whose rows are in
ascending id order with ids above `executedTxMaxId` (ids being 64-bit unsigned).  The
iteration enqueues exactly the rows that the rule of the specification dispatches: those
before the first row that is both non-consecutive and younger than 5 s (so a
non-consecutive row aged 5 s or more is enqueued); they are a front part of the batch,
and the walk stopped exactly when rows are left over.  The next fetch limit is 10 if the
walk stopped at such a row and 1000 otherwise. -/
theorem puller_gap_rule (env : PullerCollaborators) (st : PullerState) (rows : List Tx)
    (hfetch : env.GetTxsByStatusAndMaxId st.fetches st.executedTxMaxId st.limit = .ok rows)
    (hrows : rows ≠ [])
    (habove : ∀ row ∈ rows, st.executedTxMaxId < row.ID)
    (hsorted : rows.Pairwise (fun a b => a.ID < b.ID))
    (huint : ∀ row ∈ rows, row.ID < 2 ^ 64) :
    enqueuedTxs (pullIteration env st).2 =
      (gapRule env.now st.clockReads st.executedTxMaxId rows).1 ∧
    (pullIteration env st).1.limit =
      (if (gapRule env.now st.clockReads st.executedTxMaxId rows).2 then 10 else 1000) ∧
    ∃ rest, rows = enqueuedTxs (pullIteration env st).2 ++ rest ∧
      ((gapRule env.now st.clockReads st.executedTxMaxId rows).2 = true ↔ rest ≠ []) := by
  have hlen : ¬ rows.length = 0 := fun h => hrows (List.length_eq_zero.mp h)
  obtain ⟨h1, h2, rest, h3, h4⟩ := dispatchBatch_gapRule env rows
    { st with fetches := st.fetches + 1, limit := 1000 } habove hsorted huint
  have hit : pullIteration env st =
      ((dispatchBatch env rows { st with fetches := st.fetches + 1, limit := 1000 }).1,
        .fetch st.executedTxMaxId st.limit :: .queueMetric (env.GetQueueSize st.fetches) ::
          (dispatchBatch env rows { st with fetches := st.fetches + 1, limit := 1000 }).2) := by
    unfold pullIteration
    simp only [hfetch, hlen, if_false]
  rw [hit]
  simp only [enqueuedTxs]
  refine ⟨h1, h2, rest, ?_, h4⟩
  rw [h1]
  exact h3

/-- Witness for C19: scenario S6.  The pool holds rows 1, 2 and 4, row 4 being 1 s old:
the first iteration enqueues exactly rows 1 and 2 and sets the limit to 10; once row 3
exists the next iteration enqueues 3 and then 4. -/
theorem puller_gap_rule_witness :
    samplePullerCollaborators.GetTxsByStatusAndMaxId 0 0 1000 =
      .ok [poolRow 1 0, poolRow 2 0, poolRow 4 5000000000] ∧
    (gapRule samplePullerCollaborators.now 0 0
      [poolRow 1 0, poolRow 2 0, poolRow 4 5000000000]) = ([poolRow 1 0, poolRow 2 0], true) ∧
    enqueuedTxs (pullIteration samplePullerCollaborators (initialPullerState none)).2 =
      (gapRule samplePullerCollaborators.now 0 0
        [poolRow 1 0, poolRow 2 0, poolRow 4 5000000000]).1 ∧
    (pullIteration samplePullerCollaborators (initialPullerState none)).1.limit = 10 ∧
    enqueuedIds (pullIteration samplePullerCollaborators
      (pullIteration samplePullerCollaborators (initialPullerState none)).1).2 = [3, 4] :=
  have h := puller_gap_rule samplePullerCollaborators (initialPullerState none)
    [poolRow 1 0, poolRow 2 0, poolRow 4 5000000000] (by rfl) (by decide) (by decide)
    (by decide) (by decide)
  ⟨by rfl, by decide, h.1, by decide, by decide⟩

theorem addAccounts_ok (env : LoadCollaborators) (format : Account → AccountInfo)
    (rows : List Account) :
    ∀ st : LoadState, (∀ a ∈ rows, env.ToFormatAccountInfo a = .ok (format a)) →
      addAccounts env rows st =
        .ok { offset := st.offset + rows.length,
              requests := st.requests,
              added := st.added ++ rows.map (fun a => (a.AccountIndex, format a)) } := by
  induction rows with
  | nil => intro st _; simp [addAccounts]
  | cons a rest ih =>
    intro st hformat
    simp only [addAccounts]
    rw [hformat a (List.mem_cons_self _ _)]
    simp only
    rw [ih _ (fun b hb => hformat b (List.mem_cons_of_mem _ hb))]
    simp only [List.length_cons, List.map_cons, List.append_assoc, List.singleton_append,
      Nat.cast_add, Nat.cast_one]
    congr 2
    omega

theorem page_eq (store : List Account) (limit offset : Int) :
    page store limit offset =
      if (store.drop offset.toNat).take limit.toNat = [] then none
      else some ((store.drop offset.toNat).take limit.toNat) := by
  unfold page
  cases (store.drop offset.toNat).take limit.toNat <;> simp

theorem loadAllAccountsLoop_from (env : LoadCollaborators) (store : List Account)
    (format : Account → AccountInfo)
    (hstore : ∀ offset, env.GetUsers 1000 offset = .ok (page store 1000 offset))
    (hformat : ∀ a ∈ store, env.ToFormatAccountInfo a = .ok (format a)) :
    ∀ (fuel d : Nat) (st : LoadState), st.offset = (d : Int) → d ≤ store.length →
      (store.length - d + 999) / 1000 + 1 ≤ fuel →
      loadAllAccountsLoop env fuel st =
        .ok (some
          { offset := (store.length : Int),
            requests := st.requests ++
              (List.range ((store.length - d + 999) / 1000 + 1)).map
                (fun k => ((1000 : Int), ((min (d + 1000 * k) store.length : Nat) : Int))),
            added := st.added ++ (store.drop d).map (fun a => (a.AccountIndex, format a)) }) := by
  intro fuel
  induction fuel with
  | zero => intro d st _ _ h; omega
  | succ fuel ih =>
    intro d st hoff hd hfuel
    have h1000 : (1000 : Int).toNat = 1000 := rfl
    have hpage : env.GetUsers 1000 st.offset =
        .ok (if (store.drop d).take 1000 = [] then none else some ((store.drop d).take 1000)) := by
      rw [hstore, page_eq, hoff, Int.toNat_ofNat, h1000]
    simp only [loadAllAccountsLoop]
    rw [hpage]
    generalize hrows : (store.drop d).take 1000 = rows
    have hlenr : rows.length = min 1000 (store.length - d) := by
      rw [← hrows, List.length_take, List.length_drop]
    by_cases hempty : rows = []
    · rw [if_pos hempty]
      simp only
      have hdn : d = store.length := by
        rw [hempty] at hlenr
        simp only [List.length_nil] at hlenr
        omega
      have hdrop : store.drop d = [] := by rw [hdn]; exact List.drop_length store
      have hz : (store.length - d + 999) / 1000 + 1 = 1 := by omega
      have hr : List.range 1 = [0] := rfl
      rw [hz, hdrop, hr]
      simp only [List.map_cons, List.map_nil, Nat.mul_zero, Nat.add_zero, List.append_nil,
        Nat.min_eq_left hd]
      rw [hoff, ← hdn]
    · rw [if_neg hempty]
      simp only
      have hsub : ∀ a ∈ rows, a ∈ store := by
        intro a ha
        rw [← hrows] at ha
        exact List.mem_of_mem_drop (List.mem_of_mem_take ha)
      rw [addAccounts_ok env format rows _ (fun a ha => hformat a (hsub a ha))]
      simp only
      have hpos : 0 < rows.length := List.length_pos.mpr hempty
      have hint : st.offset + (rows.length : Int) = ((d + rows.length : Nat) : Int) := by
        rw [hoff]; push_cast; rfl
      rw [ih (d + rows.length) _ hint (by rw [hlenr]; omega) (by rw [hlenr]; omega)]
      have hpages : (store.length - d + 999) / 1000 + 1 =
          ((store.length - (d + rows.length) + 999) / 1000 + 1) + 1 := by
        rw [hlenr]; omega
      have hreq : ∀ k : Nat, min (d + rows.length + 1000 * k) store.length =
          min (d + 1000 * (k + 1)) store.length := by
        intro k
        rw [hlenr]
        omega
      have hadd : store.drop d = rows ++ store.drop (d + rows.length) := by
        have h1 := List.take_append_drop 1000 (store.drop d)
        rw [hrows, List.drop_drop] at h1
        by_cases hc : 1000 ≤ store.length - d
        · have h2 : rows.length = 1000 := by rw [hlenr]; omega
          rw [h2, ← h1]
        · have h2 : d + rows.length = store.length := by rw [hlenr]; omega
          have h3 : store.drop (d + 1000) = [] := List.drop_eq_nil_iff.mpr (by omega)
          rw [h2, List.drop_length, ← h1, h3]
      have hmap : ∀ pages : Nat,
          (List.range (pages + 1)).map
            (fun k => ((1000 : Int), ((min (d + 1000 * k) store.length : Nat) : Int))) =
          (1000, st.offset) :: (List.range pages).map
            (fun k => ((1000 : Int),
              ((min (d + rows.length + 1000 * k) store.length : Nat) : Int))) := by
        intro pages
        rw [List.range_succ_eq_map, List.map_cons, List.map_map]
        simp only [Nat.mul_zero, Nat.add_zero, Nat.min_eq_left hd, Function.comp_def, hreq,
          Nat.succ_eq_add_one, hoff]
      rw [hpages, hmap, hadd]
      simp only [List.map_append, List.append_assoc, List.singleton_append]

theorem sampleStore_length (n : Nat) : (sampleStore n).length = n := by
  unfold sampleStore
  rw [List.length_map, List.length_range]

/-- C18, amended: against a store of `n` accounts for which `GetUsers(1000, offset)`
returns the accounts at positions `[offset, offset + 1000)` of a fixed order and nil when
that range is empty, and for which `ToFormatAccountInfo` succeeds on every account,
`loadAllAccounts` returns (given fuel for its `ceil(n/1000) + 1` iterations) after exactly
`ceil(n/1000) + 1` page requests of 1000 rows, the `k`-th at offset `min (1000 * k) n`
(the offset advances by the number of accounts received, so the last request is at
offset `n`), having added each of the `n` accounts to the account cache exactly once, in
the order of the store. -/
theorem loadAllAccounts_pages (env : LoadCollaborators) (store : List Account)
    (format : Account → AccountInfo) (fuel : Nat)
    (hstore : ∀ offset, env.GetUsers 1000 offset = .ok (page store 1000 offset))
    (hformat : ∀ a ∈ store, env.ToFormatAccountInfo a = .ok (format a))
    (hfuel : (store.length + 999) / 1000 + 1 ≤ fuel) :
    loadAllAccounts env fuel =
      .ok (some
        { offset := (store.length : Int),
          requests := pageRequests store.length,
          added := store.map (fun a => (a.AccountIndex, format a)) }) ∧
    (pageRequests store.length).length = (store.length + 999) / 1000 + 1 := by
  constructor
  · unfold loadAllAccounts
    rw [loadAllAccountsLoop_from env store format hstore hformat fuel 0 _ rfl (Nat.zero_le _)
      (by simpa using hfuel)]
    simp only [List.nil_append, List.drop_zero, Nat.sub_zero, Nat.zero_add, pageRequests]
  · simp [pageRequests]

/-- Witness for C18: a store of 1500 accounts and fuel for three iterations. -/
theorem loadAllAccounts_pages_witness :
    ((sampleStore 1500).length + 999) / 1000 + 1 ≤ 3 ∧
    loadAllAccounts (storeCollaborators (sampleStore 1500)) 3 =
      .ok (some
        { offset := ((sampleStore 1500).length : Int),
          requests := pageRequests (sampleStore 1500).length,
          added := (sampleStore 1500).map (fun a => (a.AccountIndex, sampleFormat a)) }) :=
  ⟨by simp [sampleStore_length],
   (loadAllAccounts_pages (storeCollaborators (sampleStore 1500)) (sampleStore 1500)
      sampleFormat 3 (fun _ => rfl) (fun _ _ => rfl) (by simp [sampleStore_length])).1⟩

/-- C18 as stated fails for a store whose size is not a multiple of 1000: with 1500
accounts the three page requests are at the offsets 0, 1000 and 1500, the last of which
is not a multiple of 1000. -/
theorem loadAllAccounts_last_offset :
    (loadAllAccounts (storeCollaborators (sampleStore 1500)) 3).toOption.map
        (fun r => r.map (fun st => st.requests)) =
      some (some [(1000, 0), (1000, 1000), (1000, 1500)]) := by
  unfold loadAllAccounts
  rw [loadAllAccountsLoop_from (storeCollaborators (sampleStore 1500)) (sampleStore 1500)
    sampleFormat (fun _ => rfl) (fun _ _ => rfl) 3 0 _ rfl (Nat.zero_le _)
    (by simp [sampleStore_length])]
  simp only [sampleStore_length, List.nil_append, Except.toOption, Option.map]
  decide

/-! ## Theorems: parked txs -/

theorem parkedTxs_append (evs1 evs2 : List Event) :
    parkedTxs (evs1 ++ evs2) = parkedTxs evs1 ++ parkedTxs evs2 := by
  induction evs1 with
  | nil => rfl
  | cons e rest ih => cases e <;> simp [parkedTxs, ih]

theorem parkedTxs_map_parked (txs : List Tx) : parkedTxs (txs.map Event.parked) = txs := by
  induction txs with
  | nil => rfl
  | cons t rest ih => simp [parkedTxs, ih]

theorem shouldCommit_steady (c : Committer) (bc bc2 : BlockChain) (curBlock : Block)
    (now later : Int) (htxs : bc2.Statedb.Txs = bc.Statedb.Txs) (hle : now ≤ later)
    (hnow : InRange now) (hlater : InRange later) (hcreated : InRange curBlock.CreatedAt)
    (h : shouldCommit c bc curBlock now = true) :
    shouldCommit c bc2 curBlock later = true := by
  unfold shouldCommit at h ⊢
  rw [htxs]
  split at h
  · rename_i hc
    rw [if_pos]
    rcases hc with ⟨h1, h2⟩ | h3
    · left
      refine ⟨h1, ?_⟩
      unfold InRange at hnow hlater hcreated
      have hmono : Unix now ≤ Unix later := by
        unfold Unix
        exact Int.ediv_le_ediv (by decide) hle
      rw [wrapInt64_of_range _ (by omega) (by omega)] at h2
      rw [wrapInt64_of_range _ (by omega) (by omega)]
      omega
    · exact Or.inr h3
  · exact absurd h (by simp)

theorem processPendingTxs_park_all (env : Collaborators) (c : Committer) (txs : List Tx) :
    ∀ st : ExecutorState,
      (∀ j, st.clockReads ≤ j →
        shouldCommit c st.bc st.bc.currentBlock (env.clock j) = true) →
      processPendingTxs env c txs st =
        .ok ({ st with clockReads := st.clockReads + txs.length,
                       subPendingTxs := st.subPendingTxs ++ txs },
             txs.map Event.parked) := by
  induction txs with
  | nil =>
    intro st _
    simp [processPendingTxs]
  | cons t rest ih =>
    intro st hsteady
    have hexec : executePoolTx env c st t =
        .ok ({ st with clockReads := st.clockReads + 1,
                       subPendingTxs := st.subPendingTxs ++ [t] }, [.parked t]) := by
      unfold executePoolTx
      simp only [hsteady st.clockReads (le_refl _), if_true]
    simp only [processPendingTxs, hexec]
    rw [ih { st with clockReads := st.clockReads + 1,
                     subPendingTxs := st.subPendingTxs ++ [t] }
      (fun j hj => hsteady j (Nat.le_trans (Nat.le_succ _) hj))]
    simp only [withEvents, List.length_cons, List.map_cons, List.append_assoc,
      List.singleton_append, List.cons_append, List.nil_append]
    congr 3
    omega

theorem executePoolTx_processed (env : Collaborators) (c : Committer) (st : ExecutorState)
    (t : Tx) (st1 : ExecutorState) (evs : List Event)
    (happly : ∀ bc t, InRange bc.currentBlock.CreatedAt →
      InRange (env.ApplyTransaction bc t).1.currentBlock.CreatedAt)
    (hcreate : ∀ b, InRange b.CreatedAt → InRange (env.CreateBlockInTransact b).1.CreatedAt)
    (hblock : InRange st.bc.currentBlock.CreatedAt)
    (hopen : shouldCommit c st.bc st.bc.currentBlock (env.clock st.clockReads) = false)
    (h : executePoolTx env c st t = .ok (st1, evs)) :
    parkedTxs evs = [] ∧ st1.subPendingTxs = st.subPendingTxs ∧
      InRange st1.bc.currentBlock.CreatedAt := by
  rcases executePoolTx_cases env c st t st1 evs h with
    ⟨hsc, _, _⟩ | ⟨_, bc1, t1, err, happ, _, hst1, hevs⟩ |
    ⟨_, bc1, t1, requestId, evs1, bc2, evs2, happ, hcheck, hwrite, hst1, hevs⟩
  · rw [hsc] at hopen
    exact absurd hopen (by simp)
  · have hr := happly st.bc t hblock
    rw [happ] at hr
    subst hst1 hevs
    exact ⟨rfl, rfl, hr⟩
  · have hr := happly st.bc t hblock
    rw [happ] at hr
    have hr2 : InRange bc2.currentBlock.CreatedAt := by
      rcases (writeProposedBlock_cases env bc1 bc2 evs2 hwrite).2 with
        ⟨_, hbc, _⟩ | ⟨_, hnew, _⟩
      · rw [hbc]; exact hr
      · have hc := hcreate bc1.currentBlock hr
        unfold createNewBlock at hnew
        rw [hnew] at hc
        exact hc
    have hp1 : parkedTxs evs1 = [] := by
      rcases checkPriorityRequest_cases env st.latestRequestId t1 requestId evs1 hcheck with
        ⟨_, _, he⟩ | ⟨_, request, _, _, _, he⟩
      · rw [he]; rfl
      · rw [he]; rfl
    have hp2 : parkedTxs evs2 = [] := by
      rcases (writeProposedBlock_cases env bc1 bc2 evs2 hwrite).2 with
        ⟨_, _, he⟩ | ⟨_, _, he⟩
      · rw [he]; rfl
      · rw [he]; rfl
    subst hst1 hevs
    refine ⟨?_, rfl, hr2⟩
    show parkedTxs (evs1 ++ evs2) = []
    rw [parkedTxs_append, hp1, hp2]
    rfl

theorem processPendingTxs_split (env : Collaborators) (c : Committer)
    (hclock : ∀ j k, j ≤ k → env.clock j ≤ env.clock k)
    (hrange : ∀ k, InRange (env.clock k))
    (happly : ∀ bc t, InRange bc.currentBlock.CreatedAt →
      InRange (env.ApplyTransaction bc t).1.currentBlock.CreatedAt)
    (hcreate : ∀ b, InRange b.CreatedAt → InRange (env.CreateBlockInTransact b).1.CreatedAt)
    (txs : List Tx) :
    ∀ (st st1 : ExecutorState) (evs : List Event), InRange st.bc.currentBlock.CreatedAt →
      processPendingTxs env c txs st = .ok (st1, evs) →
      ∃ k stk evsk, k ≤ txs.length ∧
        processPendingTxs env c (txs.take k) st = .ok (stk, evsk) ∧
        parkedTxs evsk = [] ∧
        stk.subPendingTxs = st.subPendingTxs ∧
        st1 = { stk with clockReads := stk.clockReads + (txs.drop k).length,
                         subPendingTxs := st.subPendingTxs ++ txs.drop k } ∧
        evs = evsk ++ (txs.drop k).map Event.parked ∧
        (txs.drop k ≠ [] → ∀ j, stk.clockReads ≤ j →
          shouldCommit c stk.bc stk.bc.currentBlock (env.clock j) = true) := by
  induction txs with
  | nil =>
    intro st st1 evs _ h
    simp only [processPendingTxs] at h
    injection h with h
    injection h with h1 h2
    subst h1 h2
    refine ⟨0, st, [], le_refl _, rfl, rfl, rfl, ?_, rfl, fun hne => absurd rfl hne⟩
    simp
  | cons t rest ih =>
    intro st st1 evs hblock h
    by_cases hsc : shouldCommit c st.bc st.bc.currentBlock (env.clock st.clockReads) = true
    · have hsteady : ∀ j, st.clockReads ≤ j →
          shouldCommit c st.bc st.bc.currentBlock (env.clock j) = true :=
        fun j hj => shouldCommit_steady c st.bc st.bc st.bc.currentBlock _ _ rfl
          (hclock _ _ hj) (hrange _) (hrange _) hblock hsc
      rw [processPendingTxs_park_all env c (t :: rest) st hsteady] at h
      injection h with h
      injection h with h1 h2
      exact ⟨0, st, [], Nat.zero_le _, rfl, rfl, rfl, h1.symm, h2.symm, fun _ => hsteady⟩
    · have hopen : shouldCommit c st.bc st.bc.currentBlock (env.clock st.clockReads) = false := by
        cases hb : shouldCommit c st.bc st.bc.currentBlock (env.clock st.clockReads)
        · rfl
        · exact absurd hb hsc
      simp only [processPendingTxs] at h
      cases hexec : executePoolTx env c st t with
      | error p => rw [hexec] at h; exact absurd h (by simp)
      | ok r =>
        obtain ⟨sta, evsa⟩ := r
        rw [hexec] at h
        simp only at h
        obtain ⟨evsb, hrest, hevs⟩ := withEvents_ok _ _ _ _ h
        obtain ⟨hpa, hsuba, hblocka⟩ :=
          executePoolTx_processed env c st t sta evsa happly hcreate hblock hopen hexec
        obtain ⟨k, stk, evsk, hk, hfront, hpk, hsubk, hst1, hevsb, hsteady⟩ :=
          ih sta st1 evsb hblocka hrest
        refine ⟨k + 1, stk, evsa ++ evsk, Nat.succ_le_succ hk, ?_, ?_, ?_, ?_, ?_, ?_⟩
        · simp only [List.take_succ_cons, processPendingTxs, hexec, hfront, withEvents]
        · rw [parkedTxs_append, hpa, hpk]
          rfl
        · rw [hsubk, hsuba]
        · rw [hst1, hsuba]
          rfl
        · rw [hevs, hevsb, List.append_assoc]
          rfl
        · exact hsteady

theorem shouldCommit_of_same_txs (c : Committer) (bc bc2 : BlockChain) (curBlock : Block)
    (now : Int) (htxs : bc2.Statedb.Txs = bc.Statedb.Txs) :
    shouldCommit c bc2 curBlock now = shouldCommit c bc curBlock now := by
  unfold shouldCommit
  rw [htxs]

theorem loopIteration_parked (env : Collaborators) (c : Committer) (st : ExecutorState)
    (hpos : st.position = .loopHead) (hne : st.subPendingTxs ≠ []) :
    (¬ st.bc.currentBlock.BlockStatus > env.StatusProposing →
      executeTxStep env c st =
        executeRound env c { st with subPendingTxs := [] } st.subPendingTxs) ∧
    (st.bc.currentBlock.BlockStatus > env.StatusProposing →
      ∀ bc2, env.InitNewBlock st.bc = (bc2, none) →
        executeTxStep env c st =
          withEvents [.initNewBlock bc2.currentBlock]
            (executeRound env c { st with bc := bc2, subPendingTxs := [] }
              st.subPendingTxs)) := by
  have hlen : st.subPendingTxs.length > 0 := List.length_pos.mpr hne
  have hstep : executeTxStep env c st = loopIteration env c st := by
    unfold executeTxStep
    rw [hpos]
  rw [hstep]
  constructor
  · intro hstatus
    unfold loopIteration
    simp only [hstatus, if_false, hlen, if_true]
    exact withEvents_nil _
  · intro hstatus bc2 hinit
    unfold loopIteration
    simp only [hstatus, if_true, hinit, hlen]

/-- C20: assuming the clock read by `shouldCommit` never goes backwards (and the instants
involved are such that the difference of their whole seconds does not wrap), a round of
the executor that starts with nothing parked splits its txs `txs` at some `k`: the first
`k` txs are processed, none of them parked, and the rest, `txs.drop k`, are parked in
their order (once one tx is parked every later tx of the round is parked too).  The
round ends at the head of the loop with `subPendingTxs = txs.drop k`; if any tx was
parked the round committed the block, and the next step of the executor is the round
whose input is exactly `txs.drop k`, run on the state as the round left it, nothing
having been drained from the queue in between. -/
theorem parked_txs_carry_over (env : Collaborators) (c : Committer) (st st1 : ExecutorState)
    (txs : List Tx) (evs : List Event)
    (hclock : ∀ j k, j ≤ k → env.clock j ≤ env.clock k)
    (hrange : ∀ k, InRange (env.clock k))
    (happly : ∀ bc t, InRange bc.currentBlock.CreatedAt →
      InRange (env.ApplyTransaction bc t).1.currentBlock.CreatedAt)
    (hcreate : ∀ b, InRange b.CreatedAt → InRange (env.CreateBlockInTransact b).1.CreatedAt)
    (hblock : InRange st.bc.currentBlock.CreatedAt)
    (hsub : st.subPendingTxs = [])
    (hround : executeRound env c st txs = .ok (st1, evs)) :
    ∃ k stk evsk, k ≤ txs.length ∧
      processPendingTxs env c (txs.take k) { st with pendingDeletePoolTxs := [] } =
        .ok (stk, evsk) ∧
      parkedTxs evsk = [] ∧
      stk.subPendingTxs = [] ∧
      parkedTxs evs = txs.drop k ∧
      st1.subPendingTxs = txs.drop k ∧
      st1.position = .loopHead ∧
      (txs.drop k ≠ [] →
        (∃ stateDataCopy, Event.enqueueUpdateAccountAssetTree stateDataCopy ∈ evs) ∧
        (¬ st1.bc.currentBlock.BlockStatus > env.StatusProposing →
          executeTxStep env c st1 =
            executeRound env c { st1 with subPendingTxs := [] } (txs.drop k)) ∧
        (st1.bc.currentBlock.BlockStatus > env.StatusProposing →
          ∀ bc2, env.InitNewBlock st1.bc = (bc2, none) →
            executeTxStep env c st1 =
              withEvents [.initNewBlock bc2.currentBlock]
                (executeRound env c { st1 with bc := bc2, subPendingTxs := [] }
                  (txs.drop k)))) := by
  unfold executeRound at hround
  cases hproc : processPendingTxs env c txs { st with pendingDeletePoolTxs := [] } with
  | error p => rw [hproc] at hround; exact absurd hround (by simp)
  | ok r =>
    obtain ⟨stp, evsp⟩ := r
    rw [hproc] at hround
    simp only at hround
    obtain ⟨k, stk, evsk, hk, hfront, hpk, hsubk, hstp, hevsp, hsteady⟩ :=
      processPendingTxs_split env c hclock hrange happly hcreate txs
        { st with pendingDeletePoolTxs := [] } stp evsp hblock hproc
    simp only [hsub, List.nil_append] at hsubk hstp
    have hpp : parkedTxs evsp = txs.drop k := by
      rw [hevsp, parkedTxs_append, hpk, parkedTxs_map_parked]
      rfl
    have hstpsub : stp.subPendingTxs = txs.drop k := by rw [hstp]
    have hmain : parkedTxs evs = txs.drop k ∧ st1.subPendingTxs = txs.drop k ∧
        st1.position = .loopHead ∧
        (txs.drop k ≠ [] →
          ∃ stateDataCopy, Event.enqueueUpdateAccountAssetTree stateDataCopy ∈ evs) := by
      split at hround
      · obtain ⟨evs3, hcommit, hevs⟩ := withEvents_ok _ _ _ _ hround
        unfold commitBlock at hcommit
        simp only at hcommit
        split at hcommit
        · exact absurd hcommit (by simp)
        · injection hcommit with hcommit
          injection hcommit with h1 h2
          subst h1 h2
          refine ⟨?_, hstpsub, rfl, fun _ => ?_⟩
          · rw [hevs, parkedTxs_append, parkedTxs_append, hpp]
            simp [parkedTxs, enqueueSyncAccountToRedis, enqueueUpdatePoolTx]
          · rw [hevs]
            exact ⟨_, List.mem_append_right _ (List.mem_cons_self _ _)⟩
      · rename_i hno
        injection hround with hround
        injection hround with h1 h2
        subst h1 h2
        refine ⟨?_, hstpsub, rfl, fun hne => ?_⟩
        · rw [parkedTxs_append, hpp]
          simp [parkedTxs, enqueueSyncAccountToRedis, enqueueUpdatePoolTx]
        · exfalso
          apply hno
          have hs := hsteady hne stp.clockReads (by rw [hstp]; exact Nat.le_add_right _ _)
          rw [← hs]
          rw [hstp]
          exact shouldCommit_of_same_txs c stk.bc _ _ _ rfl
    obtain ⟨h1, h2, h3, h4⟩ := hmain
    refine ⟨k, stk, evsk, hk, hfront, hpk, hsubk, h1, h2, h3, fun hne => ⟨h4 hne, ?_⟩⟩
    have hne1 : st1.subPendingTxs ≠ [] := by rw [h2]; exact hne
    have hnext := loopIteration_parked env c st1 h3 hne1
    rw [h2] at hnext
    exact hnext

theorem InRange_zero : InRange 0 := by
  unfold InRange Unix nanosPerSecond
  decide

theorem sampleApplyTransaction_keeps_block (bc : BlockChain) (t : Tx) :
    (sampleApplyTransaction bc t).1.currentBlock = bc.currentBlock := by
  unfold sampleApplyTransaction
  split <;> rfl

/-- Witness for C20: three transfers in a round of the sample executor with blocks of at
most two txs.  The first two are processed, the third is parked and is the input of the
next round. -/
theorem parked_txs_carry_over_witness :
    parkedTxs parkedRound.2 = [poolTx 3 4 "t"] ∧
    parkedRound.1.subPendingTxs = [poolTx 3 4 "t"] ∧
    ∃ k stk evsk, k ≤ [poolTx 1 4 "t", poolTx 2 4 "t", poolTx 3 4 "t"].length ∧
      processPendingTxs (sampleCollaborators [] (fun _ => [])) twoTxCommitter
          ([poolTx 1 4 "t", poolTx 2 4 "t", poolTx 3 4 "t"].take k)
          { sampleExecutorState with pendingDeletePoolTxs := [] } = .ok (stk, evsk) ∧
      parkedTxs evsk = [] ∧
      stk.subPendingTxs = [] ∧
      parkedTxs parkedRound.2 = [poolTx 1 4 "t", poolTx 2 4 "t", poolTx 3 4 "t"].drop k ∧
      parkedRound.1.subPendingTxs = [poolTx 1 4 "t", poolTx 2 4 "t", poolTx 3 4 "t"].drop k ∧
      parkedRound.1.position = .loopHead ∧
      ([poolTx 1 4 "t", poolTx 2 4 "t", poolTx 3 4 "t"].drop k ≠ [] →
        (∃ stateDataCopy, Event.enqueueUpdateAccountAssetTree stateDataCopy ∈ parkedRound.2) ∧
        (¬ parkedRound.1.bc.currentBlock.BlockStatus >
            (sampleCollaborators [] (fun _ => [])).StatusProposing →
          executeTxStep (sampleCollaborators [] (fun _ => [])) twoTxCommitter parkedRound.1 =
            executeRound (sampleCollaborators [] (fun _ => [])) twoTxCommitter
              { parkedRound.1 with subPendingTxs := [] }
              ([poolTx 1 4 "t", poolTx 2 4 "t", poolTx 3 4 "t"].drop k)) ∧
        (parkedRound.1.bc.currentBlock.BlockStatus >
            (sampleCollaborators [] (fun _ => [])).StatusProposing →
          ∀ bc2, (sampleCollaborators [] (fun _ => [])).InitNewBlock parkedRound.1.bc =
              (bc2, none) →
            executeTxStep (sampleCollaborators [] (fun _ => [])) twoTxCommitter
                parkedRound.1 =
              withEvents [.initNewBlock bc2.currentBlock]
                (executeRound (sampleCollaborators [] (fun _ => [])) twoTxCommitter
                  { parkedRound.1 with bc := bc2, subPendingTxs := [] }
                  ([poolTx 1 4 "t", poolTx 2 4 "t", poolTx 3 4 "t"].drop k)))) :=
  ⟨by decide, by decide,
    parked_txs_carry_over (sampleCollaborators [] (fun _ => [])) twoTxCommitter
      sampleExecutorState parkedRound.1 [poolTx 1 4 "t", poolTx 2 4 "t", poolTx 3 4 "t"]
      parkedRound.2
      (fun _ _ _ => le_refl _)
      (fun _ => InRange_zero)
      (fun bc t h => by
        show InRange (sampleApplyTransaction bc t).1.currentBlock.CreatedAt
        rw [sampleApplyTransaction_keeps_block]
        exact h)
      (fun _ h => h)
      InRange_zero
      rfl
      (by rfl)⟩

/-! ## Theorems: the block size in configuration order -/

theorem firstFittingSlot_first (n : Int) :
    ∀ sizes : List Int,
      (∃ before s after, sizes = before ++ s :: after ∧ (∀ b ∈ before, b < n) ∧ n ≤ s ∧
        firstFittingSlot n sizes = s) ∨
      ((∀ s ∈ sizes, s < n) ∧ firstFittingSlot n sizes = 0)
  | [] => Or.inr ⟨fun s hs => by simp at hs, rfl⟩
  | s0 :: rest => by
    unfold firstFittingSlot
    by_cases h0 : n ≤ s0
    · left
      exact ⟨[], s0, rest, rfl, fun b hb => by simp at hb, h0, by simp [h0]⟩
    · simp only [h0, if_false]
      rcases firstFittingSlot_first n rest with ⟨before, s, after, h1, h2, h3, h4⟩ | ⟨h1, h2⟩
      · left
        refine ⟨s0 :: before, s, after, by rw [h1]; rfl, ?_, h3, h4⟩
        intro b hb
        rcases List.mem_cons.mp hb with rfl | hb
        · omega
        · exact h2 b hb
      · right
        refine ⟨?_, h2⟩
        intro s hs
        rcases List.mem_cons.mp hs with rfl | hs
        · omega
        · exact h1 s hs

/-- C26: for every list of slot sizes, sorted or not, and every tx count,
`computeCurrentBlockSize` returns the first slot in configuration order that is at least
the tx count (every slot before it is smaller than the count), and 0 when no slot
is.  The first fitting slot need not be the smallest one: with the slots 8, 4, 2 and
three txs it is 8, although 4 fits; with the slots 1, 2 and three txs it is 0. -/
theorem computeCurrentBlockSize_first_in_order :
    (∀ (c : Committer) (stateCopy : StateDataCopy),
      (∃ before s after, c.optionalBlockSizes = before ++ s :: after ∧
        (∀ b ∈ before, b < (stateCopy.StateCache.Txs.length : Int)) ∧
        (stateCopy.StateCache.Txs.length : Int) ≤ s ∧
        computeCurrentBlockSize c stateCopy = s) ∨
      ((∀ s ∈ c.optionalBlockSizes, s < (stateCopy.StateCache.Txs.length : Int)) ∧
        computeCurrentBlockSize c stateCopy = 0)) ∧
    computeCurrentBlockSize descendingCommitter threeTxsCopy = 8 ∧
    ((4 : Int) ∈ descendingCommitter.optionalBlockSizes ∧
      (threeTxsCopy.StateCache.Txs.length : Int) ≤ 4) ∧
    computeCurrentBlockSize twoSlotCommitter threeTxsCopy = 0 := by
  refine ⟨fun c stateCopy => ?_, by decide, by decide, by decide⟩
  unfold computeCurrentBlockSize
  exact firstFittingSlot_first _ _

/-! ## Theorems: conservation of gas by the fold -/

theorem foldGas_of_no_gas (gasAccount : Int) (sc : StateCache)
    (hkey : KeyedByIndex sc.PendingAccountMap)
    (hno : gasAccount ∉ GoMap.keys sc.PendingAccountMap) :
    foldGas gasAccount sc = sc := by
  have hne : ∀ e ∈ sc.PendingAccountMap, e.2.AccountIndex ≠ gasAccount := by
    intro e he heq
    apply hno
    rw [← heq, hkey e he]
    exact List.mem_map.mpr ⟨e, he, rfl⟩
  unfold foldGas
  rw [foldGasAccounts_of_no_gas gasAccount sc.PendingAccountMap sc.PendingGasMap hne]

theorem foldGas_total_of_maps (gasAccount : Int) (bc : BlockChain)
    (hwfA : GoMap.WF bc.Statedb.PendingAccountMap)
    (hkey : KeyedByIndex bc.Statedb.PendingAccountMap)
    (hwfG : GoMap.WF bc.Statedb.PendingGasMap) (a : Int) :
    gasBalance gasAccount { bc with Statedb := foldGas gasAccount bc.Statedb } a +
        pendingGas { bc with Statedb := foldGas gasAccount bc.Statedb } a =
      gasBalance gasAccount bc a + pendingGas bc a := by
  by_cases hin : gasAccount ∈ GoMap.keys bc.Statedb.PendingAccountMap
  · exact foldGas_total gasAccount bc ⟨hwfA, hkey, hwfG, hin⟩ a
  · rw [foldGas_of_no_gas gasAccount bc.Statedb hkey hin]

/-- C27: gas conservation of the fold step, for Go maps that hold each account under its
index.  For every asset the gas account's balance (0 if the account or the asset is
absent) plus the pending gas is the same before and after the fold.  When the gas account
is not in `PendingAccountMap` the fold changes nothing.  In every case the accounts other
than the gas account are unchanged, and so are the gas account's assets that are not keys
of `PendingGasMap`.  Folding a second time leaves every balance of the gas account, and
every other account, as the first fold left it. -/
theorem foldGas_conserves (gasAccount : Int) (bc : BlockChain)
    (hwfA : GoMap.WF bc.Statedb.PendingAccountMap)
    (hkey : KeyedByIndex bc.Statedb.PendingAccountMap)
    (hwfG : GoMap.WF bc.Statedb.PendingGasMap) :
    (∀ a, gasBalance gasAccount { bc with Statedb := foldGas gasAccount bc.Statedb } a +
        pendingGas { bc with Statedb := foldGas gasAccount bc.Statedb } a =
      gasBalance gasAccount bc a + pendingGas bc a) ∧
    (gasAccount ∉ GoMap.keys bc.Statedb.PendingAccountMap →
      foldGas gasAccount bc.Statedb = bc.Statedb) ∧
    (∀ k, k ≠ gasAccount →
      GoMap.get (foldGas gasAccount bc.Statedb).PendingAccountMap k =
        GoMap.get bc.Statedb.PendingAccountMap k) ∧
    (∀ acct, GoMap.get bc.Statedb.PendingAccountMap gasAccount = some acct →
      ∃ folded,
        GoMap.get (foldGas gasAccount bc.Statedb).PendingAccountMap gasAccount = some folded ∧
        ∀ a, a ∉ GoMap.keys bc.Statedb.PendingGasMap →
          GoMap.get folded.AssetInfo a = GoMap.get acct.AssetInfo a) ∧
    (∀ a,
      gasBalance gasAccount
          { bc with Statedb := foldGas gasAccount (foldGas gasAccount bc.Statedb) } a =
        gasBalance gasAccount { bc with Statedb := foldGas gasAccount bc.Statedb } a) ∧
    (∀ k, k ≠ gasAccount →
      GoMap.get (foldGas gasAccount (foldGas gasAccount bc.Statedb)).PendingAccountMap k =
        GoMap.get (foldGas gasAccount bc.Statedb).PendingAccountMap k) := by
  have hother : ∀ sc : StateCache, GoMap.WF sc.PendingAccountMap →
      KeyedByIndex sc.PendingAccountMap → ∀ k, k ≠ gasAccount →
      GoMap.get (foldGas gasAccount sc).PendingAccountMap k =
        GoMap.get sc.PendingAccountMap k := by
    intro sc hwf hk k hne
    by_cases hin : gasAccount ∈ GoMap.keys sc.PendingAccountMap
    · obtain ⟨acct, hacct⟩ := (GoMap.get_isSome_iff _ _).mpr hin
      exact (foldGasAccounts_of_gas gasAccount sc.PendingAccountMap acct sc.PendingGasMap
        hwf hk hacct).2.2 k hne
    · rw [foldGas_of_no_gas gasAccount sc hk hin]
  have hwfA2 : GoMap.WF (foldGas gasAccount bc.Statedb).PendingAccountMap := by
    unfold GoMap.WF at hwfA ⊢
    simp only [foldGas]
    rw [foldGasAccounts_keys]
    exact hwfA
  have hkey2 : KeyedByIndex (foldGas gasAccount bc.Statedb).PendingAccountMap :=
    foldGasAccounts_keyed gasAccount _ _ hkey
  have hwfG2 : GoMap.WF (foldGas gasAccount bc.Statedb).PendingGasMap := by
    unfold GoMap.WF at hwfG ⊢
    simp only [foldGas]
    rw [foldGasAccounts_gas_keys]
    exact hwfG
  refine ⟨foldGas_total_of_maps gasAccount bc hwfA hkey hwfG,
    foldGas_of_no_gas gasAccount bc.Statedb hkey, hother bc.Statedb hwfA hkey, ?_, ?_,
    hother _ hwfA2 hkey2⟩
  · intro acct hacct
    have h := foldGasAccounts_of_gas gasAccount bc.Statedb.PendingAccountMap acct
      bc.Statedb.PendingGasMap hwfA hkey hacct
    refine ⟨(foldGasEntries bc.Statedb.PendingGasMap acct bc.Statedb.PendingGasMap).1, h.1, ?_⟩
    intro a ha
    exact (foldGasEntries_get_of_not_mem bc.Statedb.PendingGasMap a acct
      bc.Statedb.PendingGasMap ha).1
  · intro a
    have h2 := foldGas_total_of_maps gasAccount
      { bc with Statedb := foldGas gasAccount bc.Statedb } hwfA2 hkey2 hwfG2 a
    by_cases hin : gasAccount ∈ GoMap.keys bc.Statedb.PendingAccountMap
    · have hready : GasReady gasAccount bc.Statedb := ⟨hwfA, hkey, hwfG, hin⟩
      have hready1 := foldGas_ready gasAccount bc.Statedb hready
      have hz1 := foldGas_settled gasAccount bc.Statedb hready1 a
      have hz2 := foldGas_settled gasAccount (foldGas gasAccount bc.Statedb)
        (foldGas_ready gasAccount _ hready1) a
      unfold pendingGas at h2
      simp only at h2
      rw [hz1, hz2] at h2
      simpa using h2
    · rw [foldGas_of_no_gas gasAccount bc.Statedb hkey hin,
        foldGas_of_no_gas gasAccount bc.Statedb hkey hin]

/-- Witness for C27: the gas account holds 100 of asset 1 and 15 are pending; after the
fold it holds 115 and nothing is pending, and a second fold leaves 115. -/
theorem foldGas_conserves_witness :
    gasBalance 1 threeFeesBlockChain 1 + pendingGas threeFeesBlockChain 1 = 115 ∧
    gasBalance 1 { threeFeesBlockChain with Statedb := foldGas 1 threeFeesCache } 1 = 115 ∧
    pendingGas { threeFeesBlockChain with Statedb := foldGas 1 threeFeesCache } 1 = 0 ∧
    gasBalance 1
      { threeFeesBlockChain with Statedb := foldGas 1 (foldGas 1 threeFeesCache) } 1 = 115 ∧
    ∀ a, gasBalance 1
          { threeFeesBlockChain with
            Statedb := foldGas 1 threeFeesBlockChain.Statedb } a +
        pendingGas { threeFeesBlockChain with
            Statedb := foldGas 1 threeFeesBlockChain.Statedb } a =
      gasBalance 1 threeFeesBlockChain a + pendingGas threeFeesBlockChain a :=
  ⟨by decide, by decide, by decide, by decide,
   (foldGas_conserves 1 threeFeesBlockChain (by unfold GoMap.WF; decide)
     (by intro e he; simp [threeFeesBlockChain, threeFeesCache] at he; subst he; rfl)
     (by unfold GoMap.WF; decide)).1⟩

/-! ## Theorems: ids that the puller skipped -/

theorem chain_lt_mem (l : List Nat) :
    ∀ a : Nat, List.Chain (· < ·) a l → ∀ x ∈ l, a < x := by
  induction l with
  | nil => intro a _ x hx; simp at hx
  | cons y rest ih =>
    intro a h x hx
    rw [List.chain_cons] at h
    rcases List.mem_cons.mp hx with rfl | hx
    · exact h.1
    · exact lt_trans h.1 (ih y h.2 x hx)

theorem chain_mem_le_lastIdFrom (l : List Nat) :
    ∀ a : Nat, List.Chain (· < ·) a l → ∀ x ∈ l, x ≤ lastIdFrom a l := by
  induction l with
  | nil => intro a _ x hx; simp at hx
  | cons y rest ih =>
    intro a h x hx
    rw [List.chain_cons] at h
    show x ≤ lastIdFrom y rest
    rcases List.mem_cons.mp hx with rfl | hx
    · exact le_lastIdFrom rest _ h.2
    · exact ih y h.2 x hx

theorem chain_of_append (l1 : List Nat) :
    ∀ (a : Nat) (l2 : List Nat), List.Chain (· < ·) a (l1 ++ l2) →
      List.Chain (· < ·) a l1 ∧ List.Chain (· < ·) (lastIdFrom a l1) l2 := by
  induction l1 with
  | nil => intro a l2 h; exact ⟨List.Chain.nil, h⟩
  | cons y rest ih =>
    intro a l2 h
    rw [List.cons_append, List.chain_cons] at h
    obtain ⟨h1, h2⟩ := ih y l2 h.2
    exact ⟨List.Chain.cons h.1 h1, h2⟩

/-- C28: let the rows that a fetch returns have ids above the id it asked for, in
ascending order.  Every iteration of `pullPoolTxs2` fetches with the current
`executedTxMaxId`, and every row that the rest of the run enqueues has an id above the
`executedTxMaxId` reached so far.  Hence once a row has been enqueued, no row with an id
at or below it is enqueued for the rest of the run; and the ids that an enqueue jumped
over (those between the previous `executedTxMaxId` and the enqueued row) are enqueued
nowhere in the run, whenever they appear in the pool. -/
theorem skipped_ids_never_enqueued (env : PullerCollaborators)
    (hfetch : ∀ k maxId limit rows, env.GetTxsByStatusAndMaxId k maxId limit = .ok rows →
      (∀ row ∈ rows, maxId < row.ID) ∧ rows.Pairwise (fun a b => a.ID < b.ID))
    (n : Nat) (st : PullerState) :
    (∀ st0 : PullerState,
      (pullIteration env st0).2.head? = some (.fetch st0.executedTxMaxId st0.limit)) ∧
    (∀ m k, m + k = n →
      ∀ t ∈ enqueuedTxs (pullLoop env k (pullLoop env m st).1).2,
        (pullLoop env m st).1.executedTxMaxId < t.ID) ∧
    (∀ evs1 row evs2, (pullLoop env n st).2 = evs1 ++ .enqueue row :: evs2 →
      (∀ g, g ≤ row.ID → g ∉ enqueuedIds evs2) ∧
      (∀ g, lastIdFrom st.executedTxMaxId (enqueuedIds evs1) < g → g < row.ID →
        g ∉ enqueuedIds (pullLoop env n st).2)) := by
  refine ⟨?_, ?_, ?_⟩
  · intro st0
    unfold pullIteration
    simp only
    cases env.GetTxsByStatusAndMaxId st0.fetches st0.executedTxMaxId st0.limit with
    | error e => rfl
    | ok rows =>
      simp only
      split <;> rfl
  · intro m k _ t ht
    have hchain := (pullLoop_increasing env hfetch k (pullLoop env m st).1).1
    exact chain_lt_mem _ _ hchain t.ID (List.mem_map.mpr ⟨t, ht, rfl⟩)
  · intro evs1 row evs2 hsplit
    have hchain := (pullLoop_increasing env hfetch n st).1
    have hids : enqueuedIds (pullLoop env n st).2 =
        enqueuedIds evs1 ++ row.ID :: enqueuedIds evs2 := by
      rw [hsplit, enqueuedIds_append]
      rfl
    rw [hids] at hchain
    obtain ⟨hc1, hc2⟩ := chain_of_append _ _ _ hchain
    rw [List.chain_cons] at hc2
    have habove : ∀ x ∈ enqueuedIds evs2, row.ID < x := chain_lt_mem _ _ hc2.2
    constructor
    · intro g hg hmem
      have := habove g hmem
      omega
    · intro g hlo hhi hmem
      rw [hids] at hmem
      rcases List.mem_append.mp hmem with h1 | h2
      · have := chain_mem_le_lastIdFrom _ _ hc1 g h1
        omega
      · rcases List.mem_cons.mp h2 with h3 | h3
        · omega
        · have := habove g h3
          omega

/-- Witness for C28: rows 1, 2 and 4 are in the pool and row 4 is 6 s old, so the first
iteration enqueues row 4 across the gap; row 3, in the pool from the second fetch on, is
never enqueued. -/
theorem skipped_ids_never_enqueued_witness :
    enqueuedIds (pullLoop latePullerCollaborators 3 (initialPullerState none)).2 = [1, 2, 4] ∧
    poolRow 3 7000000000 ∈ samplePool 1 ∧
    ∀ evs1 row evs2,
      (pullLoop latePullerCollaborators 3 (initialPullerState none)).2 =
          evs1 ++ .enqueue row :: evs2 →
      (∀ g, g ≤ row.ID → g ∉ enqueuedIds evs2) ∧
      (∀ g, lastIdFrom (initialPullerState none).executedTxMaxId (enqueuedIds evs1) < g →
        g < row.ID →
        g ∉ enqueuedIds (pullLoop latePullerCollaborators 3 (initialPullerState none)).2) :=
  ⟨by decide, by decide,
   (skipped_ids_never_enqueued latePullerCollaborators
     (fun k maxId limit rows h => samplePuller_fetch_sorted k maxId limit rows h)
     3 (initialPullerState none)).2.2⟩

/-! ## Theorems: signature bodies -/

/-- C29: the signature body does not identify the tx type.  The withdrawal template and
the withdrawal-NFT template are the same string; so, with tx type constants that differ
from one another, whenever a withdraw tx info and a withdraw-NFT tx info parse to values
with `AssetAmount` equal to `NftIndex` and the same `ToAddress`, `GasFeeAssetAmount`,
`GasAccountIndex` and `Nonce`, `GenerateSignatureBody` returns the same body for
`TxTypeWithdraw` and for `TxTypeWithdrawNft`. -/
theorem withdraw_bodies_coincide (env : SignatureCollaborators) (w n : String)
    (wi : WithdrawTxInfo) (ni : WithdrawNftTxInfo)
    (htypes : [env.TxTypeWithdraw, env.TxTypeTransfer, env.TxTypeCreateCollection,
      env.TxTypeMintNft, env.TxTypeTransferNft, env.TxTypeWithdrawNft,
      env.TxTypeCancelOffer, env.TxTypeAtomicMatch].Nodup)
    (hw : env.ParseWithdrawTxInfo w = .ok wi)
    (hn : env.ParseWithdrawNftTxInfo n = .ok ni)
    (hamount : wi.AssetAmount = ni.NftIndex)
    (haddress : wi.ToAddress = ni.ToAddress)
    (hfee : wi.GasFeeAssetAmount = ni.GasFeeAssetAmount)
    (hgas : wi.GasAccountIndex = ni.GasAccountIndex)
    (hnonce : wi.Nonce = ni.Nonce) :
    SignatureTemplateWithdrawal = SignatureTemplateWithdrawalNft ∧
    GenerateSignatureBody env env.TxTypeWithdraw w =
      .ok (Sprintf SignatureTemplateWithdrawal
        [.int wi.AssetAmount, .str wi.ToAddress, .int wi.GasFeeAssetAmount,
         .int wi.GasAccountIndex, .int wi.Nonce]) ∧
    GenerateSignatureBody env env.TxTypeWithdrawNft n =
      GenerateSignatureBody env env.TxTypeWithdraw w := by
  simp only [List.nodup_cons, List.mem_cons, List.mem_singleton, not_or, List.not_mem_nil,
    not_false_eq_true, List.nodup_nil, and_true] at htypes
  obtain ⟨⟨h12, h13, h14, h15, h16, h17, h18⟩, ⟨_, _, _, _, _, _⟩, ⟨_, _, _, _, _⟩,
    ⟨_, _, _, _⟩, ⟨_, _, _⟩, ⟨h67, h68⟩, _⟩ := htypes
  have hgetW : GoMap.get (ConstructSignatureFunction env) env.TxTypeWithdraw =
      some (SignatureForWithdrawal env) := by
    unfold ConstructSignatureFunction
    simp only
    rw [GoMap.get_set_ne _ _ _ _ h18, GoMap.get_set_ne _ _ _ _ h17,
      GoMap.get_set_ne _ _ _ _ h16, GoMap.get_set_ne _ _ _ _ h15,
      GoMap.get_set_ne _ _ _ _ h14, GoMap.get_set_ne _ _ _ _ h13,
      GoMap.get_set_ne _ _ _ _ h12, GoMap.get_set_self]
  have hgetN : GoMap.get (ConstructSignatureFunction env) env.TxTypeWithdrawNft =
      some (SignatureForWithdrawalNft env) := by
    unfold ConstructSignatureFunction
    simp only
    rw [GoMap.get_set_ne _ _ _ _ h68, GoMap.get_set_ne _ _ _ _ h67, GoMap.get_set_self]
  have hbodyW : GenerateSignatureBody env env.TxTypeWithdraw w =
      .ok (Sprintf SignatureTemplateWithdrawal
        [.int wi.AssetAmount, .str wi.ToAddress, .int wi.GasFeeAssetAmount,
         .int wi.GasAccountIndex, .int wi.Nonce]) := by
    unfold GenerateSignatureBody
    rw [hgetW]
    simp only [SignatureForWithdrawal, hw]
  refine ⟨rfl, hbodyW, ?_⟩
  rw [hbodyW]
  unfold GenerateSignatureBody
  rw [hgetN]
  simp only [SignatureForWithdrawalNft, hn]
  rw [hamount, haddress, hfee, hgas, hnonce]
  rfl

/-- Witness for C29: the withdrawal of 7 and the withdrawal of NFT 7 to the same address,
with the same fee and nonce, have the same signature body. -/
theorem withdraw_bodies_coincide_witness :
    GenerateSignatureBody sampleSignatureCollaborators 5 "w" =
      .ok "Withdrawal 7 to: 0xabc\\nFee: 3 1\\nNonce: 9" ∧
    GenerateSignatureBody sampleSignatureCollaborators 11 "n" =
      .ok "Withdrawal 7 to: 0xabc\\nFee: 3 1\\nNonce: 9" ∧
    GenerateSignatureBody sampleSignatureCollaborators
        sampleSignatureCollaborators.TxTypeWithdrawNft "n" =
      GenerateSignatureBody sampleSignatureCollaborators
        sampleSignatureCollaborators.TxTypeWithdraw "w" :=
  ⟨by rfl, by rfl,
   (withdraw_bodies_coincide sampleSignatureCollaborators "w" "n"
      { AssetAmount := 7, ToAddress := "0xabc", GasFeeAssetAmount := 3,
        GasAccountIndex := 1, Nonce := 9 }
      { NftIndex := 7, ToAddress := "0xabc", GasFeeAssetAmount := 3,
        GasAccountIndex := 1, Nonce := 9 }
      (by decide) (by rfl) (by rfl) rfl rfl rfl rfl rfl).2.2⟩

/-! ## Theorems: packed amounts -/

/-- C30: for every big integer `x` and every cleaning function, `CheckPackedFee`
returns nil exactly when the cleaning succeeds with a value equal to `x`; it returns the
cleaning error when the cleaning fails, and the error with code 20002 and message
`Invalid Gas Fee`, which is `errcode.ErrInvalidGasFee`, when the cleaning succeeds with
another value.  `CheckPackedAmount` does the same with its cleaning function and an error
of code 20003 (whose message is `Invalid amount`). -/
theorem CheckPacked_outcomes (clean : Int → Except GoError Int) (x : Int) :
    (CheckPackedFee clean x = none ↔ clean x = .ok x) ∧
    (∀ err, clean x = .error err → CheckPackedFee clean x = some err) ∧
    (∀ y, clean x = .ok y → y ≠ x →
      CheckPackedFee clean x = some (.New 20002 "Invalid Gas Fee") ∧
      CheckPackedFee clean x = some ErrInvalidGasFee) ∧
    (CheckPackedAmount clean x = none ↔ clean x = .ok x) ∧
    (∀ err, clean x = .error err → CheckPackedAmount clean x = some err) ∧
    (∀ y, clean x = .ok y → y ≠ x →
      ∃ message, CheckPackedAmount clean x = some (.New 20003 message)) := by
  unfold CheckPackedFee CheckPackedAmount
  cases h : clean x with
  | error e => simp
  | ok y =>
    by_cases hxy : x = y
    · subst hxy
      simp
    · have hyx : ¬ y = x := fun h => hxy h.symm
      simp [hxy, hyx, ErrInvalidGasFee]

/-- Witness for C30 with a cleaning that rounds down to a multiple of 10 and rejects
negative amounts: 120 passes, 125 is an invalid fee and an invalid amount, and for -1 the
error of the cleaning is returned. -/
theorem CheckPacked_outcomes_witness :
    CheckPackedFee sampleClean 120 = none ∧
    CheckPackedFee sampleClean 125 = some ErrInvalidGasFee ∧
    CheckPackedAmount sampleClean 125 = some (.New 20003 "Invalid amount") ∧
    CheckPackedFee sampleClean (-1) = some (.library "invalid packed amount") ∧
    (CheckPackedFee sampleClean 120 = none ↔ sampleClean 120 = .ok 120) ∧
    (∀ y, sampleClean 125 = .ok y → y ≠ 125 →
      CheckPackedFee sampleClean 125 = some (.New 20002 "Invalid Gas Fee") ∧
      CheckPackedFee sampleClean 125 = some ErrInvalidGasFee) :=
  ⟨by decide, by decide, by decide, by decide,
   (CheckPacked_outcomes sampleClean 120).1,
   (CheckPacked_outcomes sampleClean 125).2.2.1⟩

/-! ## Theorems: the Save stage -/

theorem chunkLoop_chunking {α : Type} (xs : List α) :
    ∀ (fuel fromIndex : Nat), fromIndex ≤ xs.length →
      (xs.length - fromIndex + 99) / 100 + 1 ≤ fuel →
      ∃ bs, chunkLoop xs fuel fromIndex (fromIndex + 100) = some bs ∧
        bs.flatten = xs.drop fromIndex ∧
        (∀ b ∈ bs, b ≠ [] ∧ b.length ≤ 100) ∧
        (∀ b ∈ bs.dropLast, b.length = 100) ∧
        bs.length = (xs.length - fromIndex + 99) / 100 := by
  intro fuel
  induction fuel with
  | zero => intro fromIndex _ h; omega
  | succ fuel ih =>
    intro fromIndex hle hfuel
    by_cases hend : fromIndex ≥ xs.length
    · have heq : fromIndex = xs.length := le_antisymm hle hend
      refine ⟨[], ?_, ?_, ?_, ?_, ?_⟩
      · simp only [chunkLoop, hend, if_true]
      · rw [heq, List.drop_length]; rfl
      · intro b hb; simp at hb
      · intro b hb; simp at hb
      · simp only [List.length_nil]; omega
    · have hlt : fromIndex < xs.length := Nat.lt_of_not_le hend
      have hto : (if fromIndex + 100 > xs.length then xs.length else fromIndex + 100) =
          min (fromIndex + 100) xs.length := by
        split <;> omega
      obtain ⟨rest, hrest, hjoin, hsize, hfull, hcount⟩ :=
        ih (min (fromIndex + 100) xs.length) (Nat.min_le_right _ _) (by omega)
      have hslice : ((xs.drop fromIndex).take (min (fromIndex + 100) xs.length - fromIndex)).length
          = min 100 (xs.length - fromIndex) := by
        rw [List.length_take, List.length_drop]
        omega
      have hdrop : xs.drop (min (fromIndex + 100) xs.length) =
          (xs.drop fromIndex).drop (min (fromIndex + 100) xs.length - fromIndex) := by
        rw [List.drop_drop]
        congr 1
        omega
      refine ⟨(xs.drop fromIndex).take (min (fromIndex + 100) xs.length - fromIndex) :: rest,
        ?_, ?_, ?_, ?_, ?_⟩
      · simp only [chunkLoop, hend, if_false, hto, hrest]
      · rw [List.flatten_cons, hjoin, hdrop, List.take_append_drop]
      · intro b hb
        rcases List.mem_cons.mp hb with rfl | hb
        · constructor
          · intro hnil
            rw [hnil] at hslice
            simp only [List.length_nil] at hslice
            omega
          · rw [hslice]; omega
        · exact hsize b hb
      · intro b hb
        cases hr : rest with
        | nil => rw [hr] at hb; simp at hb
        | cons r0 rs =>
          rw [hr, List.dropLast_cons₂] at hb
          rcases List.mem_cons.mp hb with rfl | hb
          · rw [hslice]
            rw [hr] at hcount
            simp only [List.length_cons] at hcount
            omega
          · rw [hr] at hfull
            exact hfull b hb
      · simp only [List.length_cons, hcount]
        omega

theorem chunks_chunking {α : Type} (xs : List α) (fuel : Nat)
    (hfuel : (xs.length + 99) / 100 + 1 ≤ fuel) :
    ∃ bs, chunks xs fuel = some bs ∧ IsChunking xs bs := by
  unfold chunks IsChunking
  by_cases hlen : xs.length > 0
  · obtain ⟨bs, h1, h2, h3, h4, h5⟩ := chunkLoop_chunking xs fuel 0 (Nat.zero_le _) (by omega)
    refine ⟨bs, ?_, ?_, h3, h4, ?_⟩
    · simp only [hlen, if_true]
      exact h1
    · simpa using h2
    · simpa using h5
  · have hnil : xs = [] := List.length_eq_zero.mp (by omega)
    subst hnil
    exact ⟨[], by simp, rfl, fun b hb => by simp at hb, fun b hb => by simp at hb, by simp⟩

theorem insertByIndex_perm (a : Account) (l : List Account) :
    (insertByIndex a l).Perm (a :: l) := by
  induction l with
  | nil => exact List.Perm.refl _
  | cons b rest ih =>
    unfold insertByIndex
    split
    · exact List.Perm.refl _
    · exact (List.Perm.cons b ih).trans (List.Perm.swap a b rest)

theorem insertByIndex_sorted (a : Account) (l : List Account)
    (h : l.Pairwise (fun x y => x.AccountIndex ≤ y.AccountIndex)) :
    (insertByIndex a l).Pairwise (fun x y => x.AccountIndex ≤ y.AccountIndex) := by
  induction l with
  | nil => simp [insertByIndex]
  | cons b rest ih =>
    rw [List.pairwise_cons] at h
    unfold insertByIndex
    split
    · rename_i hab
      rw [List.pairwise_cons]
      refine ⟨?_, List.pairwise_cons.mpr h⟩
      intro y hy
      rcases List.mem_cons.mp hy with rfl | hy
      · exact hab
      · exact le_trans hab (h.1 y hy)
    · rename_i hab
      rw [List.pairwise_cons]
      refine ⟨?_, ih h.2⟩
      intro y hy
      rcases List.mem_cons.mp ((insertByIndex_perm a rest).subset hy) with rfl | hy
      · omega
      · exact h.1 y hy

theorem SliceStable_sorted (l : List Account) :
    (SliceStable l).Perm l ∧
    (SliceStable l).Pairwise (fun x y => x.AccountIndex ≤ y.AccountIndex) := by
  induction l with
  | nil => exact ⟨List.Perm.refl _, List.Pairwise.nil⟩
  | cons a rest ih =>
    exact ⟨(insertByIndex_perm a _).trans (List.Perm.cons a ih.1),
      insertByIndex_sorted a _ ih.2⟩

theorem saveTasks_eq (env : SaveCollaborators) (fuel : Nat) (blockStates : BlockStates)
    (haccounts : (blockStates.PendingAccount.length + 99) / 100 + 1 ≤ fuel)
    (hhistories : (blockStates.PendingAccountHistory.length + 99) / 100 + 1 ≤ fuel)
    (htxs : ((env.ClearTxsModel blockStates.Block).Txs.length + 99) / 100 + 1 ≤ fuel)
    (hdetails : ((flattenTxDetails (env.ClearTxsModel blockStates.Block).Txs).length + 99) / 100
      + 1 ≤ fuel) :
    ∃ accountBatches historyBatches txBatches detailBatches,
      saveTasks env fuel blockStates =
        some (SubTask.DeleteTxsBatch (blockStates.Block.Txs.map (fun poolTx => poolTx.ID))
            env.StatusExecuted (env.ClearTxsModel blockStates.Block).BlockHeight ::
          (accountBatches.map SubTask.BatchInsertOrUpdate ++
            historyBatches.map SubTask.CreateAccountHistories ++
            txBatches.map SubTask.CreateTxs ++
            detailBatches.map SubTask.CreateTxDetails)) ∧
      IsChunking (SliceStable blockStates.PendingAccount) accountBatches ∧
      IsChunking blockStates.PendingAccountHistory historyBatches ∧
      IsChunking (env.ClearTxsModel blockStates.Block).Txs txBatches ∧
      IsChunking (flattenTxDetails (env.ClearTxsModel blockStates.Block).Txs) detailBatches := by
  have hlenA : (SliceStable blockStates.PendingAccount).length =
      blockStates.PendingAccount.length := (SliceStable_sorted _).1.length_eq
  obtain ⟨a, ha1, ha2⟩ := chunks_chunking (SliceStable blockStates.PendingAccount) fuel
    (by rw [hlenA]; exact haccounts)
  obtain ⟨h, hh1, hh2⟩ := chunks_chunking blockStates.PendingAccountHistory fuel hhistories
  obtain ⟨t, ht1, ht2⟩ := chunks_chunking (env.ClearTxsModel blockStates.Block).Txs fuel htxs
  obtain ⟨d, hd1, hd2⟩ :=
    chunks_chunking (flattenTxDetails (env.ClearTxsModel blockStates.Block).Txs) fuel hdetails
  by_cases hlen : (env.ClearTxsModel blockStates.Block).Txs.length > 0
  · refine ⟨a, h, t, d, ?_, ha2, hh2, ht2, hd2⟩
    simp only [saveTasks, savedBlockStates, ha1, hh1, ht1, hd1, hlen, if_true]
  · have hnil : (env.ClearTxsModel blockStates.Block).Txs = [] :=
      List.length_eq_zero.mp (by omega)
    have htnil : IsChunking (env.ClearTxsModel blockStates.Block).Txs ([] : List (List Tx)) := by
      rw [hnil]
      exact ⟨rfl, fun b hb => by simp at hb, fun b hb => by simp at hb, by simp [flattenTxDetails]⟩
    have hdnil : IsChunking (flattenTxDetails (env.ClearTxsModel blockStates.Block).Txs)
        ([] : List (List TxDetail)) := by
      rw [hnil]
      exact ⟨rfl, fun b hb => by simp at hb, fun b hb => by simp at hb, by simp [flattenTxDetails]⟩
    refine ⟨a, h, [], [], ?_, ha2, hh2, htnil, hdnil⟩
    simp only [saveTasks, savedBlockStates, ha1, hh1, hlen, if_false, List.map_nil,
      List.append_nil]

/-- C22: in `saveBlockDataFunc`, given fuel for `ceil(n/100) + 1` iterations of each
chunking loop (so each loop terminates), the sub-tasks submitted are the deletion of the
pool txs followed by the batches of the four lists, in this order: `PendingAccount`
sorted ascending by account index (a stable sort, so a permutation of the list),
`PendingAccountHistory`, the txs of the block, and the tx details flattened from the txs
in tx order.  The batches of each list are consecutive slices whose concatenation in
submission order is the whole list; every batch is non-empty and has at most 100
elements, all but the last have exactly 100, and a list of `n` elements yields
`ceil(n/100)` batches (none for `n = 0`). -/
theorem save_batches_chunk_by_100 (env : SaveCollaborators) (fuel : Nat)
    (blockStates : BlockStates)
    (haccounts : (blockStates.PendingAccount.length + 99) / 100 + 1 ≤ fuel)
    (hhistories : (blockStates.PendingAccountHistory.length + 99) / 100 + 1 ≤ fuel)
    (htxs : ((env.ClearTxsModel blockStates.Block).Txs.length + 99) / 100 + 1 ≤ fuel)
    (hdetails : ((flattenTxDetails (env.ClearTxsModel blockStates.Block).Txs).length + 99) / 100
      + 1 ≤ fuel) :
    ∃ accountBatches historyBatches txBatches detailBatches,
      saveTasks env fuel blockStates =
        some (SubTask.DeleteTxsBatch (blockStates.Block.Txs.map (fun poolTx => poolTx.ID))
            env.StatusExecuted (env.ClearTxsModel blockStates.Block).BlockHeight ::
          (accountBatches.map SubTask.BatchInsertOrUpdate ++
            historyBatches.map SubTask.CreateAccountHistories ++
            txBatches.map SubTask.CreateTxs ++
            detailBatches.map SubTask.CreateTxDetails)) ∧
      IsChunking (SliceStable blockStates.PendingAccount) accountBatches ∧
      IsChunking blockStates.PendingAccountHistory historyBatches ∧
      IsChunking (env.ClearTxsModel blockStates.Block).Txs txBatches ∧
      IsChunking (flattenTxDetails (env.ClearTxsModel blockStates.Block).Txs) detailBatches ∧
      (SliceStable blockStates.PendingAccount).Perm blockStates.PendingAccount ∧
      (SliceStable blockStates.PendingAccount).Pairwise
        (fun x y => x.AccountIndex ≤ y.AccountIndex) := by
  obtain ⟨a, h, t, d, h1, h2, h3, h4, h5⟩ :=
    saveTasks_eq env fuel blockStates haccounts hhistories htxs hdetails
  exact ⟨a, h, t, d, h1, h2, h3, h4, h5, (SliceStable_sorted _).1, (SliceStable_sorted _).2⟩

theorem accountsDescending_length (n : Nat) : (accountsDescending n).length = n := by
  unfold accountsDescending
  rw [List.length_map, List.length_range]

/-- Witness for C22: 250 accounts give three batches; and for block states with three
accounts in descending order, one account history and two txs with two tx details, the
sub-tasks are the deletion and one batch of each list, the accounts in ascending order. -/
theorem save_batches_chunk_by_100_witness :
    saveTasks saveSucceeds 2 filledBlockStates =
      some [.DeleteTxsBatch [1, 2] 2 9,
            .BatchInsertOrUpdate [{ AccountIndex := 1, Nonce := 0 },
              { AccountIndex := 2, Nonce := 0 }, { AccountIndex := 3, Nonce := 0 }],
            .CreateAccountHistories [{ AccountIndex := 3, L2BlockHeight := 9 }],
            .CreateTxs filledBlockStates.Block.Txs,
            .CreateTxDetails [{ AssetId := 1, AccountIndex := 3 },
              { AssetId := 1, AccountIndex := 1 }]] ∧
    ∃ accountBatches historyBatches txBatches detailBatches,
      saveTasks saveSucceeds 4 manyAccountsBlockStates =
        some (SubTask.DeleteTxsBatch
            (manyAccountsBlockStates.Block.Txs.map (fun poolTx => poolTx.ID))
            saveSucceeds.StatusExecuted
            (saveSucceeds.ClearTxsModel manyAccountsBlockStates.Block).BlockHeight ::
          (accountBatches.map SubTask.BatchInsertOrUpdate ++
            historyBatches.map SubTask.CreateAccountHistories ++
            txBatches.map SubTask.CreateTxs ++
            detailBatches.map SubTask.CreateTxDetails)) ∧
      IsChunking (SliceStable manyAccountsBlockStates.PendingAccount) accountBatches ∧
      IsChunking manyAccountsBlockStates.PendingAccountHistory historyBatches ∧
      IsChunking (saveSucceeds.ClearTxsModel manyAccountsBlockStates.Block).Txs txBatches ∧
      IsChunking (flattenTxDetails (saveSucceeds.ClearTxsModel manyAccountsBlockStates.Block).Txs)
        detailBatches ∧
      (SliceStable manyAccountsBlockStates.PendingAccount).Perm
        manyAccountsBlockStates.PendingAccount ∧
      (SliceStable manyAccountsBlockStates.PendingAccount).Pairwise
        (fun x y => x.AccountIndex ≤ y.AccountIndex) :=
  ⟨by rfl,
   save_batches_chunk_by_100 saveSucceeds 4 manyAccountsBlockStates
     (by
       have h : manyAccountsBlockStates.PendingAccount.length = 250 :=
         accountsDescending_length 250
       rw [h])
     (by decide) (by decide) (by decide)⟩

theorem map_fst_set {α β : Type} (l : List (α × β)) :
    ∀ (k : Nat) (a : α) (b b1 : β), l[k]? = some (a, b) →
      (l.set k (a, b1)).map Prod.fst = l.map Prod.fst := by
  induction l with
  | nil => intro k a b b1 h; simp at h
  | cons x rest ih =>
    intro k a b b1 h
    cases k with
    | zero =>
      simp only [List.getElem?_cons_zero, Option.some.injEq] at h
      subst h
      rfl
    | succ j =>
      simp only [List.getElem?_cons_succ] at h
      simp only [List.set_cons_succ, List.map_cons, ih j a b b1 h]

theorem taskStep_frame (env : SaveCollaborators) (st : SaveState) (k : Nat) :
    (taskStep env st k).main = st.main ∧
    (taskStep env st k).totalTask = st.totalTask ∧
    (taskStep env st k).tasks.map Prod.fst = st.tasks.map Prod.fst ∧
    (st.tasks = [] → taskStep env st k = st) := by
  unfold taskStep
  cases h : st.tasks[k]? with
  | none => exact ⟨rfl, rfl, rfl, fun _ => rfl⟩
  | some x =>
    obtain ⟨task, pc⟩ := x
    have hne : st.tasks = [] → False := by
      intro hnil
      rw [hnil] at h
      simp at h
    cases pc with
    | started =>
      simp only
      split
      · exact ⟨rfl, rfl, map_fst_set _ _ _ _ _ h, fun hnil => (hne hnil).elim⟩
      · exact ⟨rfl, rfl, map_fst_set _ _ _ _ _ h, fun hnil => (hne hnil).elim⟩
    | assigned =>
      simp only
      split
      · exact ⟨rfl, rfl, map_fst_set _ _ _ _ _ h, fun hnil => (hne hnil).elim⟩
      · exact ⟨rfl, rfl, map_fst_set _ _ _ _ _ h, fun hnil => (hne hnil).elim⟩
    | failed => exact ⟨rfl, rfl, map_fst_set _ _ _ _ _ h, fun hnil => (hne hnil).elim⟩
    | sending value =>
      exact ⟨rfl, rfl, map_fst_set _ _ _ _ _ h, fun hnil => (hne hnil).elim⟩
    | finished => exact ⟨rfl, rfl, rfl, fun _ => rfl⟩

theorem SubmittedSoFar_nextSubmit (all : List SubTask) (st : SaveState) (k : Nat)
    (hk : k ≤ all.length) (htasks : st.tasks.map Prod.fst = all.take k)
    (htotal : st.totalTask = k) (hmain : st.main = nextSubmit all k) :
    SubmittedSoFar all st := by
  unfold SubmittedSoFar
  rw [hmain]
  unfold nextSubmit
  by_cases hlt : k < all.length
  · rw [if_pos hlt]
    exact ⟨hlt, htasks, htotal⟩
  · rw [if_neg hlt]
    have hge : all.length ≤ k := by omega
    rw [List.take_of_length_le hge] at htasks
    exact ⟨htasks, by omega⟩

theorem SubmittedSoFar_mainStep (env : SaveCollaborators) (all : List SubTask)
    (st : SaveState) (h : SubmittedSoFar all st) : SubmittedSoFar all (mainStep env all st) := by
  unfold SubmittedSoFar at h
  cases hm : st.main with
  | submitting k =>
    rw [hm] at h
    obtain ⟨hk, htasks, htotal⟩ := h
    have hget : all[k]? = some (all.get ⟨k, hk⟩) := List.getElem?_eq_getElem hk
    have htake : all.take (k + 1) = all.take k ++ [all.get ⟨k, hk⟩] := by
      rw [List.take_succ, hget]
      rfl
    unfold mainStep
    simp only [hm, hget]
    cases hs : env.Submit k with
    | some err =>
      simp only
      by_cases hzero : k = 0
      · rw [if_pos hzero]
        unfold SubmittedSoFar
        simp only
        refine ⟨by omega, by omega, Or.inr ⟨by simp, ?_⟩⟩
        have hnil : st.tasks.map Prod.fst = [] := by rw [htasks, hzero]; rfl
        exact List.map_eq_nil_iff.mp hnil
      · rw [if_neg hzero]
        unfold SubmittedSoFar
        simp only
    | none =>
      simp only
      by_cases hzero : k = 0
      · rw [if_pos hzero]
        unfold SubmittedSoFar
        simp only
        refine ⟨by omega, by omega, Or.inl ⟨by first | rfl | trivial, ?_⟩⟩
        rw [List.map_append, htasks]
        subst hzero
        rw [htake]
        rfl
      · rw [if_neg hzero]
        refine SubmittedSoFar_nextSubmit all _ (k + 1) (by omega) ?_ (by simp only; omega) rfl
        simp only [List.map_append, htasks, htake, List.map_cons, List.map_nil]
  | assigning submitError =>
    rw [hm] at h
    obtain ⟨hlen, htotal, hcases⟩ := h
    unfold mainStep
    simp only [hm]
    unfold SubmittedSoFar
    simp only
    refine ⟨hlen, htotal, ?_⟩
    rcases hcases with ⟨_, htasks⟩ | ⟨hne, hnil⟩
    · exact Or.inl htasks
    · exact Or.inr ⟨hne, hnil⟩
  | testing =>
    rw [hm] at h
    obtain ⟨hlen, htotal, hcases⟩ := h
    unfold mainStep
    simp only [hm]
    cases herr : st.err with
    | some err =>
      simp only
      unfold SubmittedSoFar
      simp only
    | none =>
      simp only
      rcases hcases with htasks | ⟨hne, _⟩
      · exact SubmittedSoFar_nextSubmit all _ 1 (by omega) htasks htotal rfl
      · exact absurd herr hne
  | awaiting =>
    unfold mainStep
    simp only [hm]
    unfold SubmittedSoFar
    rw [hm]
    rw [hm] at h
    exact h
  | panicked message =>
    unfold mainStep
    simp only [hm]
    unfold SubmittedSoFar
    rw [hm]
    trivial

theorem SubmittedSoFar_taskStep (env : SaveCollaborators) (all : List SubTask)
    (st : SaveState) (k : Nat) (h : SubmittedSoFar all st) :
    SubmittedSoFar all (taskStep env st k) := by
  obtain ⟨f1, f2, f3, f4⟩ := taskStep_frame env st k
  by_cases hnil : st.tasks = []
  · rw [f4 hnil]
    exact h
  · unfold SubmittedSoFar at h ⊢
    rw [f1]
    cases hm : st.main with
    | submitting j =>
      rw [hm] at h
      simp only at h ⊢
      rw [f2, f3]
      exact h
    | assigning submitError =>
      rw [hm] at h
      simp only at h ⊢
      rw [f2, f3]
      obtain ⟨h1, h2, h3⟩ := h
      refine ⟨h1, h2, ?_⟩
      rcases h3 with h3 | ⟨_, h3⟩
      · exact Or.inl h3
      · exact absurd h3 hnil
    | testing =>
      rw [hm] at h
      simp only at h ⊢
      rw [f2, f3]
      obtain ⟨h1, h2, h3⟩ := h
      refine ⟨h1, h2, ?_⟩
      rcases h3 with h3 | ⟨_, h3⟩
      · exact Or.inl h3
      · exact absurd h3 hnil
    | awaiting =>
      rw [hm] at h
      simp only at h ⊢
      rw [f2, f3]
      exact h
    | panicked message => trivial

theorem SubmittedSoFar_saveStep (env : SaveCollaborators) (all : List SubTask)
    (st : SaveState) (thread : Thread) (h : SubmittedSoFar all st) :
    SubmittedSoFar all (saveStep env all st thread) := by
  unfold saveStep
  split
  · exact h
  · cases thread with
    | main => exact SubmittedSoFar_mainStep env all st h
    | task k => exact SubmittedSoFar_taskStep env all st k h

theorem SubmittedSoFar_runSave (env : SaveCollaborators) (all : List SubTask)
    (schedule : List Thread) :
    ∀ st : SaveState, SubmittedSoFar all st → SubmittedSoFar all (runSave env all schedule st) := by
  induction schedule with
  | nil => intro st h; exact h
  | cons thread rest ih =>
    intro st h
    exact ih _ (SubmittedSoFar_saveStep env all st thread h)

theorem SubmittedSoFar_initial (all : List SubTask) :
    SubmittedSoFar all (initialSaveState all) :=
  SubmittedSoFar_nextSubmit all _ 0 (Nat.zero_le _) rfl rfl rfl

theorem awaitResults_completed (n : Nat) :
    ∀ (arrivals : List (Option String)) (read : Nat),
      awaitResults n arrivals = .completed read →
      read = n ∧ n ≤ arrivals.length ∧ ∀ v ∈ arrivals.take n, v = none := by
  induction n with
  | zero =>
    intro arrivals read h
    simp only [awaitResults, Awaited.completed.injEq] at h
    exact ⟨h.symm, Nat.zero_le _, fun v hv => by simp at hv⟩
  | succ m ih =>
    intro arrivals read h
    match arrivals, h with
    | [], h => simp [awaitResults] at h
    | some err :: rest, h => simp [awaitResults] at h
    | none :: rest, h =>
      simp only [awaitResults] at h
      cases hrest : awaitResults m rest with
      | completed read1 =>
        rw [hrest] at h
        simp only [Awaited.completed.injEq] at h
        obtain ⟨h1, h2, h3⟩ := ih rest read1 hrest
        refine ⟨by omega, by simp only [List.length_cons]; omega, ?_⟩
        intro v hv
        simp only [List.take_succ_cons, List.mem_cons] at hv
        rcases hv with hv | hv
        · exact hv
        · exact h3 v hv
      | panicked read1 message => rw [hrest] at h; simp at h
      | blocked read1 => rw [hrest] at h; simp at h

theorem awaitResults_of_all_nil (n : Nat) :
    ∀ arrivals : List (Option String), n ≤ arrivals.length →
      (∀ v ∈ arrivals.take n, v = none) → awaitResults n arrivals = .completed n := by
  induction n with
  | zero => intro arrivals _ _; rfl
  | succ m ih =>
    intro arrivals hlen hall
    match arrivals, hlen, hall with
    | [], hlen, _ => simp at hlen
    | some err :: rest, _, hall =>
      exact absurd (hall (some err) (by simp)) (by simp)
    | none :: rest, hlen, hall =>
      have hrest := ih rest (by simpa using hlen)
        (fun v hv => hall v (by simp only [List.take_succ_cons, List.mem_cons]; exact Or.inr hv))
      simp only [awaitResults, hrest]

/-- C23 (the code does not provide the barrier the claim states).  What holds for every
schedule: when `saveBlockDataFunc` reaches its await loop it has submitted all the
sub-tasks and `totalTask` is their number, one deletion of pool txs plus one per batch
of accounts, account histories, txs and tx details; it forwards the block states to the
FinalSave stage exactly when the `totalTask` values it reads from `errChan` are all nil,
and does not panic then.  What fails: a value sent is not the error of the sender's own
DAO call, because all closures but that of the accounts assign to and read the one
variable `err` of the function.  With the insert of the txs failing, the block states are
not forwarded when the sub-tasks run one by one, but they are forwarded, all five values
read being nil, when the insert of the tx details assigns to `err` between the
assignment and the test of the insert of the txs; and a failed deletion, the only
sub-task, sends nil and the block states are forwarded when the function assigns what
`Submit` returned after the sub-task assigned its error. -/
theorem save_forwards_despite_failed_subtask :
    (∀ (env : SaveCollaborators) (fuel : Nat) (schedule : List Thread)
        (blockStates : BlockStates) (outcome : SaveOutcome),
      saveBlockDataFunc env fuel schedule blockStates = some outcome →
      (outcome.awaited ≠ none →
        saveTasks env fuel blockStates = some outcome.submitted ∧
        outcome.totalTask = outcome.submitted.length) ∧
      (outcome.forwarded ≠ none ↔
        outcome.awaited ≠ none ∧ outcome.totalTask ≤ outcome.sent.length ∧
          ∀ v ∈ outcome.sent.take outcome.totalTask, v = none) ∧
      (outcome.forwarded ≠ none →
        outcome.forwarded = some (savedBlockStates env blockStates) ∧
        outcome.awaited = some (.completed outcome.totalTask) ∧ outcome.panic = none)) ∧
    (∀ (env : SaveCollaborators) (fuel : Nat) (blockStates : BlockStates),
      (blockStates.PendingAccount.length + 99) / 100 + 1 ≤ fuel →
      (blockStates.PendingAccountHistory.length + 99) / 100 + 1 ≤ fuel →
      ((env.ClearTxsModel blockStates.Block).Txs.length + 99) / 100 + 1 ≤ fuel →
      ((flattenTxDetails (env.ClearTxsModel blockStates.Block).Txs).length + 99) / 100 + 1
        ≤ fuel →
      ∃ tasks, saveTasks env fuel blockStates = some tasks ∧
        tasks.length = 1 + (blockStates.PendingAccount.length + 99) / 100 +
          (blockStates.PendingAccountHistory.length + 99) / 100 +
          ((env.ClearTxsModel blockStates.Block).Txs.length + 99) / 100 +
          ((flattenTxDetails (env.ClearTxsModel blockStates.Block).Txs).length + 99) / 100) ∧
    (saveBlockDataFunc createTxsFails 2 oneByOne filledBlockStates).map
        (fun outcome => (outcome.totalTask, outcome.sent, outcome.awaited,
          outcome.forwarded.isSome, outcome.panic)) =
      some (5, [none, none, none, some "duplicate key", none],
        some (.panicked 4 "saveBlockDataFunc failed: duplicate key"), false,
        some "saveBlockDataFunc failed: duplicate key") ∧
    (saveBlockDataFunc createTxsFails 2 detailsOverwriteTxs filledBlockStates).map
        (fun outcome => (outcome.totalTask, outcome.sent, outcome.awaited,
          outcome.forwarded.isSome, outcome.panic)) =
      some (5, [none, none, none, none, none], some (.completed 5), true, none) ∧
    saveTasks deleteTxsFails 1 bareBlockStates = some [.DeleteTxsBatch [] 2 9] ∧
    (saveBlockDataFunc deleteTxsFails 1 submitOverwritesDeletion bareBlockStates).map
        (fun outcome => (outcome.totalTask, outcome.sent, outcome.awaited,
          outcome.forwarded.isSome, outcome.panic)) =
      some (1, [none], some (.completed 1), true, none) := by
  refine ⟨?_, ?_, by decide, by decide, by rfl, by decide⟩
  · intro env fuel schedule blockStates outcome h
    unfold saveBlockDataFunc at h
    cases htasks : saveTasks env fuel blockStates with
    | none => rw [htasks] at h; exact absurd h (by simp)
    | some all =>
      rw [htasks] at h
      simp only at h
      have hinv := SubmittedSoFar_runSave env all schedule _ (SubmittedSoFar_initial all)
      unfold SubmittedSoFar at hinv
      cases hm : (runSave env all schedule (initialSaveState all)).main with
      | submitting k => rw [hm] at h; exact absurd h (by simp)
      | assigning submitError => rw [hm] at h; exact absurd h (by simp)
      | testing => rw [hm] at h; exact absurd h (by simp)
      | panicked message =>
        rw [hm] at h
        simp only [Option.some.injEq] at h
        subst h
        exact ⟨fun hne => absurd rfl hne, ⟨fun hne => absurd rfl hne, fun hr => absurd rfl hr.1⟩,
          fun hne => absurd rfl hne⟩
      | awaiting =>
        rw [hm] at h hinv
        simp only at h hinv
        obtain ⟨hsub, htotal⟩ := hinv
        cases hawait : awaitResults (runSave env all schedule (initialSaveState all)).totalTask
            (runSave env all schedule (initialSaveState all)).arrivals with
        | completed read =>
          rw [hawait] at h
          simp only [Option.some.injEq] at h
          subst h
          obtain ⟨hread, hlen, hall⟩ := awaitResults_completed _ _ _ hawait
          refine ⟨fun _ => ⟨by rw [hsub], by rw [hsub]; exact htotal⟩,
            ⟨fun _ => ⟨by simp, hlen, hall⟩, fun _ => by simp⟩,
            fun _ => ⟨rfl, by rw [hread], rfl⟩⟩
        | panicked read message =>
          rw [hawait] at h
          simp only [Option.some.injEq] at h
          subst h
          refine ⟨fun _ => ⟨by rw [hsub], by rw [hsub]; exact htotal⟩,
            ⟨fun hne => absurd rfl hne, ?_⟩, fun hne => absurd rfl hne⟩
          rintro ⟨_, hlen, hall⟩
          rw [awaitResults_of_all_nil _ _ hlen hall] at hawait
          exact absurd hawait (by simp)
        | blocked read =>
          rw [hawait] at h
          simp only [Option.some.injEq] at h
          subst h
          refine ⟨fun _ => ⟨by rw [hsub], by rw [hsub]; exact htotal⟩,
            ⟨fun hne => absurd rfl hne, ?_⟩, fun hne => absurd rfl hne⟩
          rintro ⟨_, hlen, hall⟩
          rw [awaitResults_of_all_nil _ _ hlen hall] at hawait
          exact absurd hawait (by simp)
  · intro env fuel blockStates haccounts hhistories htxs hdetails
    obtain ⟨a, h, t, d, htasks, ha, hh, ht, hd⟩ :=
      saveTasks_eq env fuel blockStates haccounts hhistories htxs hdetails
    have hlenA : (SliceStable blockStates.PendingAccount).length =
        blockStates.PendingAccount.length := (SliceStable_sorted _).1.length_eq
    refine ⟨_, htasks, ?_⟩
    simp only [List.length_cons, List.length_append, List.length_map, ha.2.2.2, hh.2.2.2,
      ht.2.2.2, hd.2.2.2, hlenA]
    omega

/-! ## Theorems: the size of a committed block -/

theorem enqueuedCopies_append (evs1 evs2 : List Event) :
    enqueuedCopies (evs1 ++ evs2) = enqueuedCopies evs1 ++ enqueuedCopies evs2 := by
  induction evs1 with
  | nil => rfl
  | cons e rest ih => cases e <;> simp [enqueuedCopies, ih]

theorem mem_enqueuedCopies (evs : List Event) (stateDataCopy : StateDataCopy) :
    Event.enqueueUpdateAccountAssetTree stateDataCopy ∈ evs ↔
      stateDataCopy ∈ enqueuedCopies evs := by
  induction evs with
  | nil => simp [enqueuedCopies]
  | cons e rest ih => cases e <;> simp [enqueuedCopies, ih]

theorem lt_cap_of_open (c : Committer) (bc : BlockChain) (curBlock : Block) (now : Int)
    (h : shouldCommit c bc curBlock now = false) :
    (bc.Statedb.Txs.length : Int) < c.maxTxsPerBlock := by
  unfold shouldCommit at h
  split at h
  · exact absurd h (by simp)
  · rename_i hc
    rw [not_or] at hc
    omega

theorem enqueuedCopies_of_pool (env : Collaborators) (c : Committer) (st : ExecutorState)
    (t : Tx) (st1 : ExecutorState) (evs : List Event)
    (h : executePoolTx env c st t = .ok (st1, evs)) : enqueuedCopies evs = [] := by
  rcases executePoolTx_cases env c st t st1 evs h with
    ⟨_, _, rfl⟩ | ⟨_, bc1, t1, err, _, _, _, rfl⟩ |
    ⟨_, bc1, t1, requestId, evs1, bc2, evs2, _, hchk, hw, _, rfl⟩
  · rfl
  · rfl
  · have h1 : enqueuedCopies evs1 = [] := by
      rcases checkPriorityRequest_cases env _ _ _ _ hchk with
        ⟨_, _, rfl⟩ | ⟨_, request, _, _, _, rfl⟩ <;> rfl
    have h2 : enqueuedCopies evs2 = [] := by
      rcases (writeProposedBlock_cases env bc1 bc2 evs2 hw).2 with
        ⟨_, _, rfl⟩ | ⟨_, _, rfl⟩ <;> rfl
    show enqueuedCopies (evs1 ++ evs2) = []
    rw [enqueuedCopies_append, h1, h2]
    rfl

theorem TxsBounded_compositional (env : Collaborators) (c : Committer)
    (hcount : TxsCounted env) : Compositional env c (TxsBounded c) (fun _ => True) where
  trans := by
    intro st1 evs1 st2 evs2 st3 h1 h2 hb
    obtain ⟨hb2, hq1⟩ := h1 hb
    obtain ⟨hb3, hq2⟩ := h2 hb2
    refine ⟨hb3, ?_⟩
    intro stateDataCopy hmem
    rw [enqueuedCopies_append] at hmem
    rcases List.mem_append.mp hmem with hm | hm
    · exact hq1 _ hm
    · exact hq2 _ hm
  frame := by
    intro st st1 hbc _ _ hb
    rw [hbc]
    exact ⟨hb, fun _ hm => by simp [enqueuedCopies] at hm⟩
  pool := by
    intro st t st1 evs h hb
    have hnone := enqueuedCopies_of_pool env c st t st1 evs h
    refine ⟨?_, fun _ hm => by rw [hnone] at hm; simp at hm⟩
    unfold TxsWithinCap at hb ⊢
    rcases executePoolTx_cases env c st t st1 evs h with
      ⟨_, rfl, _⟩ | ⟨_, bc1, t1, err, happ, _, rfl, _⟩ |
      ⟨hopen, bc1, t1, requestId, evs1, bc2, evs2, happ, _, hw, rfl, _⟩
    · exact hb
    · show (bc1.Statedb.Txs.length : Int) ≤ max 0 c.maxTxsPerBlock
      rw [hcount.failed _ _ _ _ _ happ]
      exact hb
    · show (bc2.Statedb.Txs.length : Int) ≤ max 0 c.maxTxsPerBlock
      rw [(writeProposedBlock_cases env bc1 bc2 evs2 hw).1, hcount.applied _ _ _ _ happ]
      have hlt := lt_cap_of_open c _ _ _ hopen
      push_cast
      omega
  publish := by
    intro st hb
    exact ⟨hb, fun _ hm => by simp [enqueuedCopies, enqueueSyncAccountToRedis,
      enqueueUpdatePoolTx] at hm⟩
  published := fun _ => trivial
  commit := by
    intro st st1 evs _ h
    refine ⟨?_, trivial⟩
    intro hb
    unfold commitBlock at h
    simp only at h
    split at h
    · exact absurd h (by simp)
    · rename_i bc1 hinit
      injection h with h
      injection h with h1 h2
      subst h1 h2
      constructor
      · show TxsWithinCap c bc1.Statedb.Txs
        unfold TxsWithinCap
        rw [hcount.opened _ _ hinit]
        simp
      · intro stateDataCopy hm
        simp only [enqueuedCopies, List.mem_singleton] at hm
        rw [hm]
        exact hb
  flush := by
    intro st hb
    refine ⟨by rw [flushPendingUpdates_bc]; exact hb, ?_⟩
    intro stateDataCopy hm
    unfold flushPendingUpdates at hm
    split at hm <;> simp [enqueuedCopies, enqueueUpdatePoolTx] at hm
  init := by
    intro st bc1 _ _ hinit
    refine ⟨?_, trivial⟩
    intro _
    constructor
    · show TxsWithinCap c bc1.Statedb.Txs
      unfold TxsWithinCap
      rw [hcount.opened _ _ hinit]
      simp
    · intro _ hm
      simp [enqueuedCopies] at hm

theorem firstFittingSlot_ge_of_last (n : Nat) (sizes : List Int) (hne : sizes ≠ [])
    (hn : (n : Int) ≤ max 0 (sizes.getLast hne)) : (n : Int) ≤ firstFittingSlot n sizes := by
  by_cases hle : (n : Int) ≤ sizes.getLast hne
  · exact (firstFittingSlot_mem n sizes ⟨_, List.getLast_mem hne, hle⟩).2
  · have hzero : (n : Int) ≤ 0 := by omega
    rcases firstFittingSlot_first n sizes with ⟨_, s, _, _, _, h3, h4⟩ | ⟨_, h2⟩
    · rw [h4]; exact h3
    · rw [h2]; exact hzero

/-- C21: assume that a successful `ApplyTransaction` appends exactly one tx to
`Statedb.Txs` (and a failed one does not lengthen the list), that a newly opened block has
no txs, and that the executor starts within the cap.  Then in a run of the executor that
does not panic every hand-off record enqueued at a commit holds at most `maxTxsPerBlock`
txs (for a cap that is not negative; none otherwise).  Hence, `maxTxsPerBlock` being the
last element of a non-empty `OptionalBlockSizes`, `computeCurrentBlockSize` of the record
is at least the number of its txs, and `updateAccountAssetTreeFunc` does not panic with
`block size too small` on it. -/
theorem block_size_never_too_small (env : Collaborators) (c : Committer) (bc : BlockChain)
    (n : Nat) (st : ExecutorState) (evs : List Event)
    (hcount : TxsCounted env)
    (hcap : ∃ hne : c.optionalBlockSizes ≠ [],
      c.maxTxsPerBlock = c.optionalBlockSizes.getLast hne)
    (hstart : TxsWithinCap c bc.Statedb.Txs)
    (h : executeTxFunc env c bc n = .ok (st, evs)) :
    ∀ stateDataCopy, Event.enqueueUpdateAccountAssetTree stateDataCopy ∈ evs →
      ((stateDataCopy.StateCache.Txs.length : Int) ≤ max 0 c.maxTxsPerBlock) ∧
      (0 ≤ c.maxTxsPerBlock →
        (stateDataCopy.StateCache.Txs.length : Int) ≤ c.maxTxsPerBlock) ∧
      (stateDataCopy.StateCache.Txs.length : Int) ≤ computeCurrentBlockSize c stateDataCopy ∧
      ∀ UpdateAccountAssetTree,
        updateAccountAssetTreeFunc c UpdateAccountAssetTree stateDataCopy ≠
          .error .blockSizeTooSmall := by
  unfold executeTxFunc at h
  cases hlatest : getLatestExecutedRequestId env with
  | error e => rw [hlatest] at h; exact absurd h (by simp)
  | ok latestRequestId =>
    rw [hlatest] at h
    simp only at h
    have hrel := (executeTxSteps_rel (TxsBounded_compositional env c hcount) n _ _ _ trivial h).1
    obtain ⟨_, hq⟩ := hrel hstart
    intro stateDataCopy hmem
    have hb : (stateDataCopy.StateCache.Txs.length : Int) ≤ max 0 c.maxTxsPerBlock :=
      hq _ ((mem_enqueuedCopies _ _).mp hmem)
    obtain ⟨hne, hlast⟩ := hcap
    have hsize : (stateDataCopy.StateCache.Txs.length : Int) ≤
        computeCurrentBlockSize c stateDataCopy := by
      unfold computeCurrentBlockSize
      apply firstFittingSlot_ge_of_last _ _ hne
      rw [← hlast]
      exact hb
    refine ⟨hb, fun h0 => by omega, hsize, ?_⟩
    intro UpdateAccountAssetTree
    unfold updateAccountAssetTreeFunc
    simp only
    rw [if_neg (by omega)]
    cases UpdateAccountAssetTree stateDataCopy <;> simp

theorem sample_txs_counted (requestIds : List (String × Int)) (drains : Nat → List Tx) :
    TxsCounted (sampleCollaborators requestIds drains) where
  applied := by
    intro bc t bc1 t1 h
    change sampleApplyTransaction bc t = (bc1, t1, none) at h
    unfold sampleApplyTransaction at h
    split at h
    · simp at h
    · simp only [Prod.mk.injEq] at h
      rw [← h.1]
      simp
  failed := by
    intro bc t bc1 t1 err h
    change sampleApplyTransaction bc t = (bc1, t1, some err) at h
    unfold sampleApplyTransaction at h
    split at h
    · simp only [Prod.mk.injEq] at h
      rw [← h.1]
    · simp at h
  opened := by
    intro bc bc1 h
    change sampleInitNewBlock bc = (bc1, none) at h
    unfold sampleInitNewBlock at h
    simp only [Prod.mk.injEq] at h
    rw [← h.1]

/-- Witness for C21: eight transfers fill a block of the sample committer (cap 8, slots
2, 4, 8); the hand-off record of the commit holds eight txs and its block size is 8. -/
theorem block_size_never_too_small_witness :
    (enqueuedCopies
      (resultOf (executeTxFunc (sampleCollaborators [] eightTransfers) sampleCommitter
        sampleBlockChain 1)).2).map
        (fun stateDataCopy => (stateDataCopy.StateCache.Txs.length,
          computeCurrentBlockSize sampleCommitter stateDataCopy)) = [(8, 8)] ∧
    ∀ stateDataCopy, Event.enqueueUpdateAccountAssetTree stateDataCopy ∈
        (resultOf (executeTxFunc (sampleCollaborators [] eightTransfers) sampleCommitter
          sampleBlockChain 1)).2 →
      ((stateDataCopy.StateCache.Txs.length : Int) ≤ max 0 sampleCommitter.maxTxsPerBlock) ∧
      (0 ≤ sampleCommitter.maxTxsPerBlock →
        (stateDataCopy.StateCache.Txs.length : Int) ≤ sampleCommitter.maxTxsPerBlock) ∧
      (stateDataCopy.StateCache.Txs.length : Int) ≤
        computeCurrentBlockSize sampleCommitter stateDataCopy ∧
      ∀ UpdateAccountAssetTree,
        updateAccountAssetTreeFunc sampleCommitter UpdateAccountAssetTree stateDataCopy ≠
          .error .blockSizeTooSmall :=
  ⟨by decide,
   block_size_never_too_small (sampleCollaborators [] eightTransfers) sampleCommitter
     sampleBlockChain 1 _ _ (sample_txs_counted _ _) ⟨by decide, by decide⟩
     (by unfold TxsWithinCap; decide) (by rfl)⟩

/-! ## Theorems: the block row written at the first tx of a block -/

theorem rowWritesOk_append (evs1 : List Event) :
    ∀ (n : Nat) (due : Bool) (evs2 : List Event), rowWritesOk n due evs1 = true →
      rowWritesOk n due (evs1 ++ evs2) = rowWritesOk (txsAfter n evs1) false evs2 := by
  induction evs1 with
  | nil =>
    intro n due evs2 h
    cases due
    · rfl
    · simp [rowWritesOk] at h
  | cons e rest ih =>
    intro n due evs2 h
    cases e <;>
      simp only [rowWritesOk, Bool.and_eq_true, Bool.not_eq_true', List.cons_append,
        txsAfter] at h ⊢
    all_goals first
      | (rw [h.1]; exact ih _ _ _ h.2)
      | exact ih _ _ _ h

theorem txsAfter_append (evs1 : List Event) :
    ∀ (n : Nat) (evs2 : List Event),
      txsAfter n (evs1 ++ evs2) = txsAfter (txsAfter n evs1) evs2 := by
  induction evs1 with
  | nil => intro n evs2; rfl
  | cons e rest ih =>
    intro n evs2
    cases e <;> simp only [txsAfter, List.cons_append] <;> exact ih _ _

theorem rowWrites_eq_firstAppliedTxs (evs : List Event) :
    ∀ (n : Nat) (due : Bool), rowWritesOk n due evs = true →
      rowWrites evs = firstAppliedTxs n evs + (if due then 1 else 0) := by
  induction evs with
  | nil =>
    intro n due h
    cases due
    · rfl
    · simp [rowWritesOk] at h
  | cons e rest ih =>
    intro n due h
    cases e <;>
      simp only [rowWritesOk, Bool.and_eq_true, Bool.not_eq_true'] at h <;>
      simp only [rowWrites, firstAppliedTxs]
    case applied t =>
      rw [ih _ _ h.2, h.1]
      by_cases hn : n = 0 <;> simp [hn]
      omega
    case createNewBlock b =>
      rw [ih _ _ h.2, h.1]
      simp
    case priorityAccepted t r => exact ih _ _ h
    all_goals rw [ih _ _ h.2, h.1]

theorem RowWritten_compositional (env : Collaborators) (c : Committer)
    (hcount : TxsCounted env) : Compositional env c RowWritten (fun _ => True) where
  trans := by
    intro st1 evs1 st2 evs2 st3 h1 h2
    unfold RowWritten at *
    rw [rowWritesOk_append _ _ _ _ h1.1, txsAfter_append, ← h1.2]
    exact h2
  frame := by
    intro st st1 hbc _ _
    unfold RowWritten
    rw [hbc]
    exact ⟨rfl, rfl⟩
  pool := by
    intro st t st1 evs h
    unfold RowWritten
    rcases executePoolTx_cases env c st t st1 evs h with
      ⟨_, rfl, rfl⟩ | ⟨_, bc1, t1, err, happ, _, rfl, rfl⟩ |
      ⟨_, bc1, t1, requestId, evs1, bc2, evs2, happ, hchk, hw, rfl, rfl⟩
    · exact ⟨rfl, rfl⟩
    · exact ⟨rfl, hcount.failed _ _ _ _ _ happ⟩
    · have hlen := hcount.applied _ _ _ _ happ
      have hsame := (writeProposedBlock_cases env bc1 bc2 evs2 hw).1
      have hlen2 : bc2.Statedb.Txs.length = st.bc.Statedb.Txs.length + 1 := by
        rw [hsame, hlen]
      rcases (writeProposedBlock_cases env bc1 bc2 evs2 hw).2 with
        ⟨hne, _, rfl⟩ | ⟨hone, _, rfl⟩
      · have hn : ¬ st.bc.Statedb.Txs.length = 0 := by omega
        rcases checkPriorityRequest_cases env _ _ _ _ hchk with
          ⟨_, _, rfl⟩ | ⟨_, request, _, _, _, rfl⟩
        · exact ⟨by simp [rowWritesOk, hn], by simp only [txsAfter, List.append_nil]; exact hlen2⟩
        · exact ⟨by simp [rowWritesOk, hn], by
            simp only [txsAfter, List.append_nil, List.singleton_append]; exact hlen2⟩
      · have hn : st.bc.Statedb.Txs.length = 0 := by omega
        rcases checkPriorityRequest_cases env _ _ _ _ hchk with
          ⟨_, _, rfl⟩ | ⟨_, request, _, _, _, rfl⟩
        · exact ⟨by simp [rowWritesOk, hn], by simp only [txsAfter, List.nil_append]; exact hlen2⟩
        · exact ⟨by simp [rowWritesOk, hn], by
            simp only [txsAfter, List.singleton_append]; exact hlen2⟩
  publish := by
    intro st
    exact ⟨rfl, rfl⟩
  published := fun _ => trivial
  commit := by
    intro st st1 evs _ h
    refine ⟨?_, trivial⟩
    unfold commitBlock at h
    simp only at h
    split at h
    · exact absurd h (by simp)
    · rename_i bc1 hinit
      injection h with h
      injection h with h1 h2
      subst h1 h2
      refine ⟨rfl, ?_⟩
      show bc1.Statedb.Txs.length = 0
      rw [hcount.opened _ _ hinit]
      rfl
  flush := by
    intro st
    unfold RowWritten
    rw [flushPendingUpdates_bc]
    unfold flushPendingUpdates
    split
    · exact ⟨rfl, rfl⟩
    · exact ⟨rfl, rfl⟩
  init := by
    intro st bc1 _ _ hinit
    refine ⟨⟨rfl, ?_⟩, trivial⟩
    show bc1.Statedb.Txs.length = 0
    rw [hcount.opened _ _ hinit]
    rfl

/-- C25: assume that a successful `ApplyTransaction` appends exactly one tx to
`Statedb.Txs` (and a failed one does not lengthen the list) and that a newly opened block
has no txs.  Then in a run of the executor that does not panic the block row is written
(`createNewBlock`) exactly at the first applied tx of each block: a write happens only
right after a tx was applied to a block that had no txs (only the acceptance of that tx's
request id comes in between), every such tx is followed by the write, and so the number
of writes is the number of blocks that received an applied tx; a block whose txs all
failed, or that received none, gets no write.  A failure of `createNewBlock` panics. -/
theorem block_row_written_once (env : Collaborators) (c : Committer) (bc : BlockChain)
    (n : Nat) (st : ExecutorState) (evs : List Event)
    (hcount : TxsCounted env)
    (h : executeTxFunc env c bc n = .ok (st, evs)) :
    rowWritesOk bc.Statedb.Txs.length false evs = true ∧
    rowWrites evs = firstAppliedTxs bc.Statedb.Txs.length evs ∧
    st.bc.Statedb.Txs.length = txsAfter bc.Statedb.Txs.length evs ∧
    (∀ (bc1 : BlockChain) created err, bc1.Statedb.Txs.length = 1 →
      env.CreateBlockInTransact bc1.currentBlock = (created, some err) →
      writeProposedBlock env bc1 = .error .createNewBlockFailed) ∧
    (∀ bc1 : BlockChain, bc1.Statedb.Txs.length ≠ 1 →
      writeProposedBlock env bc1 = .ok (bc1, [])) := by
  unfold executeTxFunc at h
  cases hlatest : getLatestExecutedRequestId env with
  | error e => rw [hlatest] at h; exact absurd h (by simp)
  | ok latestRequestId =>
    rw [hlatest] at h
    simp only at h
    obtain ⟨hok, hlen⟩ :=
      (executeTxSteps_rel (RowWritten_compositional env c hcount) n _ _ _ trivial h).1
    refine ⟨hok, ?_, hlen, ?_, ?_⟩
    · have := rowWrites_eq_firstAppliedTxs evs _ _ hok
      simpa using this
    · intro bc1 created err hone hfail
      unfold writeProposedBlock createNewBlock
      simp only [hone, if_true, hfail]
    · intro bc1 hne
      unfold writeProposedBlock
      simp only [hne, if_false]

/-- Witness for C25: with blocks of at most two txs, a rejected tx and three transfers
give two blocks; the row of the first is written after the first transfer (not after the
rejected tx), the row of the second after the third transfer. -/
theorem block_row_written_once_witness :
    (resultOf (executeTxFunc (sampleCollaborators [] rejectedAndThreeTransfers)
      twoTxCommitter sampleBlockChain 2)).2.filterMap
        (fun e => match e with
          | .applyFailed t => some ("failed", t.ID)
          | .applied t => some ("applied", t.ID)
          | .createNewBlock b => some ("row", b.ID)
          | .initNewBlock b => some ("opened", b.ID)
          | _ => none) =
      [("failed", 1), ("applied", 2), ("row", 1), ("applied", 3), ("opened", 2),
       ("applied", 4), ("row", 2)] ∧
    rowWritesOk sampleBlockChain.Statedb.Txs.length false
      (resultOf (executeTxFunc (sampleCollaborators [] rejectedAndThreeTransfers)
        twoTxCommitter sampleBlockChain 2)).2 = true ∧
    rowWrites (resultOf (executeTxFunc (sampleCollaborators [] rejectedAndThreeTransfers)
        twoTxCommitter sampleBlockChain 2)).2 =
      firstAppliedTxs sampleBlockChain.Statedb.Txs.length
        (resultOf (executeTxFunc (sampleCollaborators [] rejectedAndThreeTransfers)
          twoTxCommitter sampleBlockChain 2)).2 :=
  have h := block_row_written_once (sampleCollaborators [] rejectedAndThreeTransfers)
    twoTxCommitter sampleBlockChain 2 _ _ (sample_txs_counted _ _) (by rfl)
  ⟨by decide, h.1, h.2.1⟩

/-! ## Theorems: the update batches and the PoolTxUpdater -/

theorem mem_updatePendingPoolTxs (env : PoolTxCollaborators) (o : Option (List Tx))
    (ids : List Nat) (status blockHeight : Int)
    (h : PoolTxCall.UpdateTxsStatusAndHeightByIds ids status blockHeight ∈
      updatePendingPoolTxs env o) :
    ∃ first rest, o = some (first :: rest) ∧ ids = (first :: rest).map (fun t => t.ID) ∧
      status = env.StatusExecuted ∧ blockHeight = first.BlockHeight := by
  match o, h with
  | some (first :: rest), h =>
    refine ⟨first, rest, rfl, ?_⟩
    unfold updatePendingPoolTxs at h
    simp only at h
    split at h <;> simp at h <;> exact ⟨h.1, h.2.1, h.2.2⟩
  | some [], h => simp [updatePendingPoolTxs] at h
  | none, h => simp [updatePendingPoolTxs] at h

theorem not_mem_deletePendingPoolTxs (env : PoolTxCollaborators) (o : Option (List Tx))
    (ids : List Nat) (status blockHeight : Int) :
    PoolTxCall.UpdateTxsStatusAndHeightByIds ids status blockHeight ∉
      deletePendingPoolTxs env o := by
  match o with
  | some (first :: rest) =>
    unfold deletePendingPoolTxs
    simp only
    split <;> simp
  | some [] => simp [deletePendingPoolTxs]
  | none => simp [deletePendingPoolTxs]

theorem mem_deletePendingPoolTxs (env : PoolTxCollaborators) (o : Option (List Tx))
    (ids : List Nat) (status blockHeight : Int)
    (h : PoolTxCall.DeleteTxsBatch ids status blockHeight ∈ deletePendingPoolTxs env o) :
    ∃ first rest, o = some (first :: rest) ∧ ids = (first :: rest).map (fun t => t.ID) ∧
      status = env.StatusFailed ∧ blockHeight = -1 := by
  match o, h with
  | some (first :: rest), h =>
    refine ⟨first, rest, rfl, ?_⟩
    unfold deletePendingPoolTxs at h
    simp only at h
    split at h <;> simp at h <;> exact ⟨h.1, h.2.1, h.2.2⟩
  | some [], h => simp [deletePendingPoolTxs] at h
  | none, h => simp [deletePendingPoolTxs] at h

theorem not_mem_updatePendingPoolTxs (env : PoolTxCollaborators) (o : Option (List Tx))
    (ids : List Nat) (status blockHeight : Int) :
    PoolTxCall.DeleteTxsBatch ids status blockHeight ∉ updatePendingPoolTxs env o := by
  match o with
  | some (first :: rest) =>
    unfold updatePendingPoolTxs
    simp only
    split <;> simp
  | some [] => simp [updatePendingPoolTxs]
  | none => simp [updatePendingPoolTxs]

theorem deletePendingPoolTxs_mem (env : PoolTxCollaborators) (first : Tx) (rest : List Tx) :
    PoolTxCall.DeleteTxsBatch ((first :: rest).map (fun t => t.ID)) env.StatusFailed (-1) ∈
      deletePendingPoolTxs env (some (first :: rest)) := by
  unfold deletePendingPoolTxs
  simp only
  split <;> simp

theorem updatePendingPoolTxs_mem (env : PoolTxCollaborators) (first : Tx) (rest : List Tx) :
    PoolTxCall.UpdateTxsStatusAndHeightByIds ((first :: rest).map (fun t => t.ID))
        env.StatusExecuted first.BlockHeight ∈
      updatePendingPoolTxs env (some (first :: rest)) := by
  unfold updatePendingPoolTxs
  simp only
  split <;> simp

theorem bulkUpdates_append (xs ys : List PoolTxCall) :
    bulkUpdates (xs ++ ys) = bulkUpdates xs ++ bulkUpdates ys := by
  induction xs with
  | nil => rfl
  | cons x rest ih =>
    cases x <;> simp [bulkUpdates, ih]

theorem bulkUpdates_updatePoolTxFunc (env : PoolTxCollaborators) (m : UpdatePoolTx) :
    (bulkUpdates (updatePoolTxFunc env m)).length ≤ 1 := by
  unfold updatePoolTxFunc
  rw [bulkUpdates_append]
  have hd : bulkUpdates (deletePendingPoolTxs env m.PendingDeletePoolTxs) = [] := by
    match m.PendingDeletePoolTxs with
    | some (first :: rest) =>
      unfold deletePendingPoolTxs
      simp only
      split <;> rfl
    | some [] => rfl
    | none => rfl
  rw [hd, List.append_nil]
  match m.PendingUpdatePoolTxs with
  | some (first :: rest) =>
    unfold updatePendingPoolTxs
    simp only
    split <;> simp [bulkUpdates]
  | some [] => simp [updatePendingPoolTxs, bulkUpdates]
  | none => simp [updatePendingPoolTxs, bulkUpdates]

theorem OneBlockBatches_of_none (evs : List Event)
    (h : ∀ batch, Event.enqueueUpdatePoolTx batch ∈ evs → batch.PendingUpdatePoolTxs = none) :
    OneBlockBatches evs := by
  intro batch txs hmem hsome
  rw [h batch hmem] at hsome
  exact absurd hsome (by simp)

theorem OneBlockBatches_append (evs1 evs2 : List Event) (h1 : OneBlockBatches evs1)
    (h2 : OneBlockBatches evs2) : OneBlockBatches (evs1 ++ evs2) := by
  intro batch txs hmem hsome
  rcases List.mem_append.mp hmem with hm | hm
  · exact h1 batch txs hm hsome
  · exact h2 batch txs hm hsome

theorem BatchLinked_compositional (env : Collaborators) (c : Committer)
    (henv : BlockStamped env) : Compositional env c (BatchLinked env) (fun _ => True) where
  trans := by
    intro st1 evs1 st2 evs2 st3 h1 h2 hinv
    obtain ⟨hinv2, hq1⟩ := h1 hinv
    obtain ⟨hinv3, hq2⟩ := h2 hinv2
    exact ⟨hinv3, OneBlockBatches_append _ _ hq1 hq2⟩
  frame := by
    intro st st1 hbc _ hpending hinv
    refine ⟨?_, OneBlockBatches_of_none _ (by intro batch hm; simp at hm)⟩
    unfold OpenBlockPending at *
    rw [hbc, hpending]
    exact hinv
  pool := by
    intro st t st1 evs h hinv
    rcases executePoolTx_cases env c st t st1 evs h with
      ⟨_, rfl, rfl⟩ | ⟨_, bc1, t1, err, happ, _, rfl, rfl⟩ |
      ⟨_, bc1, t1, requestId, evs1, bc2, evs2, happ, hchk, hw, rfl, rfl⟩
    · exact ⟨hinv, OneBlockBatches_of_none _ (by intro batch hm; simp at hm)⟩
    · refine ⟨?_, OneBlockBatches_of_none _ (by intro batch hm; simp at hm)⟩
      obtain ⟨hh, hs⟩ := henv.applied _ _ _ _ _ happ
      unfold OpenBlockPending at *
      simp only
      rw [hh, hs]
      exact hinv
    · obtain ⟨hh, hs⟩ := henv.applied _ _ _ _ _ happ
      have hstamp := henv.stamped _ _ _ _ happ
      have hblock : bc2.currentBlock.BlockHeight = bc1.currentBlock.BlockHeight ∧
          bc2.currentBlock.BlockStatus = bc1.currentBlock.BlockStatus := by
        rcases (writeProposedBlock_cases env bc1 bc2 evs2 hw).2 with
          ⟨_, hsame, _⟩ | ⟨_, hcreate, _⟩
        · rw [hsame]; exact ⟨rfl, rfl⟩
        · exact henv.created _ _ hcreate
      have hevs2 : ∀ batch, Event.enqueueUpdatePoolTx batch ∉ evs2 := by
        intro batch
        rcases (writeProposedBlock_cases env bc1 bc2 evs2 hw).2 with
          ⟨_, _, rfl⟩ | ⟨_, _, rfl⟩ <;> simp
      have hevs1 : ∀ batch, Event.enqueueUpdatePoolTx batch ∉ evs1 := by
        intro batch
        rcases checkPriorityRequest_cases env _ _ _ _ hchk with
          ⟨_, _, rfl⟩ | ⟨_, request, _, _, _, rfl⟩ <;> simp
      refine ⟨?_, OneBlockBatches_of_none _ ?_⟩
      · unfold OpenBlockPending at *
        simp only
        rw [hblock.1, hblock.2, hh, hs]
        refine ⟨hinv.1, ?_⟩
        intro u hu
        rcases List.mem_append.mp hu with hu | hu
        · exact hinv.2 u hu
        · rw [List.mem_singleton.mp hu]; exact hstamp
      · intro batch hm
        simp only [List.mem_cons, List.mem_append, reduceCtorEq, false_or] at hm
        rcases hm with hm | hm
        · exact absurd hm (hevs1 batch)
        · exact absurd hm (hevs2 batch)
  publish := by
    intro st hinv
    refine ⟨hinv, OneBlockBatches_of_none _ ?_⟩
    intro batch hm
    simp only [enqueueSyncAccountToRedis, enqueueUpdatePoolTx, List.mem_cons,
      reduceCtorEq, false_or, List.mem_singleton, List.not_mem_nil, or_false,
      Event.enqueueUpdatePoolTx.injEq] at hm
    rw [hm]
  published := fun _ => trivial
  commit := by
    intro st st1 evs _ h
    refine ⟨?_, trivial⟩
    intro _
    unfold commitBlock at h
    simp only at h
    split at h
    · exact absurd h (by simp)
    · rename_i bc1 hinit
      injection h with h
      injection h with h1 h2
      subst h1 h2
      refine ⟨⟨henv.opened _ _ hinit, ?_⟩,
        OneBlockBatches_of_none _ (by intro batch hm; simp at hm)⟩
      intro t ht
      simp at ht
  flush := by
    intro st hinv
    unfold flushPendingUpdates
    split
    · rename_i hlen
      refine ⟨⟨hinv.1, by intro t ht; simp at ht⟩, ?_⟩
      intro batch txs hm hsome
      simp only [enqueueUpdatePoolTx, List.mem_singleton, Event.enqueueUpdatePoolTx.injEq]
        at hm
      rw [hm] at hsome
      simp only [Option.some.injEq] at hsome
      subst hsome
      refine ⟨?_, ?_⟩
      · intro hnil
        rw [hnil] at hlen
        simp at hlen
      · intro t ht u hu
        rw [hinv.2 t ht, hinv.2 u hu]
    · exact ⟨hinv, OneBlockBatches_of_none _ (by intro batch hm; simp at hm)⟩
  init := by
    intro st bc1 _ hguard _
    exact ⟨fun hinv => absurd hguard hinv.1, trivial⟩

theorem loopIteration_opened (env : Collaborators) (c : Committer) (st : ExecutorState)
    (bc1 : BlockChain) (hguard : st.bc.currentBlock.BlockStatus > env.StatusProposing)
    (hinit : env.InitNewBlock st.bc = (bc1, none))
    (hopen : ¬ bc1.currentBlock.BlockStatus > env.StatusProposing) :
    loopIteration env c st =
      withEvents [.initNewBlock bc1.currentBlock]
        (loopIteration env c { st with bc := bc1 }) := by
  unfold loopIteration
  simp only [hguard, hinit, hopen, if_true, if_false, withEvents_nil]
  split
  · rfl
  · split <;> rfl

theorem executeTxSteps_opened (env : Collaborators) (c : Committer) (n : Nat)
    (st : ExecutorState) (bc1 : BlockChain) (hpos : st.position = .loopHead)
    (hguard : st.bc.currentBlock.BlockStatus > env.StatusProposing)
    (hinit : env.InitNewBlock st.bc = (bc1, none))
    (hopen : ¬ bc1.currentBlock.BlockStatus > env.StatusProposing) :
    executeTxSteps env c (n + 1) st =
      withEvents [.initNewBlock bc1.currentBlock]
        (executeTxSteps env c (n + 1) { st with bc := bc1 }) := by
  have h1 : executeTxStep env c st = loopIteration env c st := by
    unfold executeTxStep; rw [hpos]
  have h2 : executeTxStep env c { st with bc := bc1 } =
      loopIteration env c { st with bc := bc1 } := by
    unfold executeTxStep; simp only [hpos]
  show (match executeTxStep env c st with
      | .error p => Except.error p
      | .ok (st1, evs1) => withEvents evs1 (executeTxSteps env c n st1)) =
    withEvents [.initNewBlock bc1.currentBlock]
      (match executeTxStep env c { st with bc := bc1 } with
      | .error p => Except.error p
      | .ok (st1, evs1) => withEvents evs1 (executeTxSteps env c n st1))
  rw [h1, h2, loopIteration_opened env c st bc1 hguard hinit hopen]
  cases loopIteration env c { st with bc := bc1 } with
  | error p => rfl
  | ok x =>
    obtain ⟨s, e⟩ := x
    show withEvents ([.initNewBlock bc1.currentBlock] ++ e) (executeTxSteps env c n s) = _
    rw [← withEvents_withEvents]

theorem executeTxSteps_opening_failed (env : Collaborators) (c : Committer) (n : Nat)
    (st : ExecutorState) (bc1 : BlockChain) (err : String) (hpos : st.position = .loopHead)
    (hguard : st.bc.currentBlock.BlockStatus > env.StatusProposing)
    (hinit : env.InitNewBlock st.bc = (bc1, some err)) :
    executeTxSteps env c (n + 1) st = .error .proposeNewBlockFailed := by
  have h1 : executeTxStep env c st = .error .proposeNewBlockFailed := by
    unfold executeTxStep
    rw [hpos]
    unfold loopIteration
    simp only [hguard, hinit, if_true]
  show (match executeTxStep env c st with
      | .error p => Except.error p
      | .ok (st1, evs1) => withEvents evs1 (executeTxSteps env c n st1)) = _
  rw [h1]

theorem OneBlockBatches_of_run (env : Collaborators) (c : Committer) (bc : BlockChain)
    (latestRequestId : Int) (henv : BlockStamped env) :
    ∀ (n : Nat) (st : ExecutorState) (evs : List Event),
      executeTxSteps env c n (initialExecutorState bc latestRequestId) = .ok (st, evs) →
      OneBlockBatches evs := by
  intro n st evs h
  have hpending : ∀ b : BlockChain, ∀ t ∈ (initialExecutorState b latestRequestId).pendingUpdatePoolTxs,
      t.BlockHeight = b.currentBlock.BlockHeight := by
    intro b t ht
    simp [initialExecutorState] at ht
  by_cases hguard : bc.currentBlock.BlockStatus > env.StatusProposing
  · cases n with
    | zero =>
      injection h with h
      injection h with _ h2
      subst h2
      exact OneBlockBatches_of_none _ (by intro batch hm; simp at hm)
    | succ n =>
      rcases hinit : env.InitNewBlock bc with ⟨bc1, err⟩
      cases err with
      | some e =>
        rw [executeTxSteps_opening_failed env c n _ bc1 e rfl hguard hinit] at h
        exact absurd h (by simp)
      | none =>
        have hopen := henv.opened _ _ hinit
        rw [executeTxSteps_opened env c n _ bc1 rfl hguard hinit hopen] at h
        obtain ⟨evs2, hrun, rfl⟩ := withEvents_ok _ _ _ _ h
        have hrel := (executeTxSteps_rel (BatchLinked_compositional env c henv)
          (n + 1) _ _ _ trivial hrun).1
        have hq := (hrel ⟨hopen, hpending bc1⟩).2
        exact OneBlockBatches_append _ _
          (OneBlockBatches_of_none _ (by intro batch hm; simp at hm)) hq
  · have hrel := (executeTxSteps_rel (BatchLinked_compositional env c henv)
      n _ _ _ trivial h).1
    exact (hrel ⟨hguard, hpending bc⟩).2

theorem sample_block_stamped (requestIds : List (String × Int)) (drains : Nat → List Tx) :
    BlockStamped (sampleCollaborators requestIds drains) where
  stamped := by
    intro bc t bc1 t1 h
    simp only [sampleCollaborators, sampleApplyTransaction] at h
    split at h
    · simp at h
    · simp only [Prod.mk.injEq] at h
      rw [← h.2.1]
  applied := by
    intro bc t bc1 t1 err h
    simp only [sampleCollaborators, sampleApplyTransaction] at h
    split at h
    · simp only [Prod.mk.injEq] at h
      rw [← h.1]
      exact ⟨rfl, rfl⟩
    · simp only [Prod.mk.injEq] at h
      rw [← h.1]
      exact ⟨rfl, rfl⟩
  created := by
    intro b b1 h
    simp only [sampleCollaborators, Prod.mk.injEq] at h
    rw [← h.1]
    exact ⟨rfl, rfl⟩
  opened := by
    intro bc bc1 h
    simp only [sampleCollaborators, sampleInitNewBlock, Prod.mk.injEq] at h
    rw [← h.1]
    simp [sampleCollaborators]

/-- C24: assume that a successful `ApplyTransaction` stamps the tx with the height of the
open block (and that neither it nor the write of the block row changes the height or the
status of the open block, and that a newly opened block is not past `Proposing`).  Then
in a run of the executor that does not panic every update batch handed to the
PoolTxUpdater is not empty and its txs all carry the same block height, and the bulk
update that `updatePoolTxFunc` makes for the batch names the ids of the batch, status
`Executed` and the block height that every tx of the batch carries.  For any batch,
`updatePoolTxFunc` makes at most one bulk update, and one only for a list that is
present and not empty (with the height of its first tx); a delete is made only for a list
that is present and not empty, with status `Failed` and height -1; and it is made whether
or not the update call failed.  The function has no panic site. -/
theorem update_batches_one_block (env : Collaborators) (c : Committer) (bc : BlockChain)
    (n : Nat) (st : ExecutorState) (evs : List Event) (db : PoolTxCollaborators)
    (henv : BlockStamped env)
    (h : executeTxFunc env c bc n = .ok (st, evs)) :
    (∀ batch txs, Event.enqueueUpdatePoolTx batch ∈ evs →
      batch.PendingUpdatePoolTxs = some txs →
      txs ≠ [] ∧ (∀ t ∈ txs, ∀ u ∈ txs, t.BlockHeight = u.BlockHeight) ∧
      ∃ height, (∀ t ∈ txs, t.BlockHeight = height) ∧
        PoolTxCall.UpdateTxsStatusAndHeightByIds (txs.map (fun t => t.ID))
          db.StatusExecuted height ∈ updatePoolTxFunc db batch) ∧
    (∀ batch, Event.enqueueUpdatePoolTx batch ∈ evs → ∀ ids status height,
      PoolTxCall.UpdateTxsStatusAndHeightByIds ids status height ∈
        updatePoolTxFunc db batch →
      ∃ txs, batch.PendingUpdatePoolTxs = some txs ∧ ids = txs.map (fun t => t.ID) ∧
        status = db.StatusExecuted ∧ ∀ t ∈ txs, t.BlockHeight = height) ∧
    (∀ (m : UpdatePoolTx) ids status height,
      PoolTxCall.UpdateTxsStatusAndHeightByIds ids status height ∈ updatePoolTxFunc db m →
      ∃ first rest, m.PendingUpdatePoolTxs = some (first :: rest) ∧
        ids = (first :: rest).map (fun t => t.ID) ∧ status = db.StatusExecuted ∧
        height = first.BlockHeight) ∧
    (∀ m : UpdatePoolTx, (bulkUpdates (updatePoolTxFunc db m)).length ≤ 1) ∧
    (∀ (m : UpdatePoolTx) ids status height,
      PoolTxCall.DeleteTxsBatch ids status height ∈ updatePoolTxFunc db m →
      ∃ first rest, m.PendingDeletePoolTxs = some (first :: rest) ∧
        ids = (first :: rest).map (fun t => t.ID) ∧ status = db.StatusFailed ∧
        height = -1) ∧
    (∀ (m : UpdatePoolTx) first rest, m.PendingDeletePoolTxs = some (first :: rest) →
      PoolTxCall.DeleteTxsBatch ((first :: rest).map (fun t => t.ID)) db.StatusFailed (-1) ∈
        updatePoolTxFunc db m) := by
  have hq : OneBlockBatches evs := by
    unfold executeTxFunc at h
    cases hlatest : getLatestExecutedRequestId env with
    | error e => rw [hlatest] at h; exact absurd h (by simp)
    | ok latestRequestId =>
      rw [hlatest] at h
      exact OneBlockBatches_of_run env c bc latestRequestId henv n st evs h
  have hupd : ∀ (m : UpdatePoolTx) ids status height,
      PoolTxCall.UpdateTxsStatusAndHeightByIds ids status height ∈ updatePoolTxFunc db m →
      ∃ first rest, m.PendingUpdatePoolTxs = some (first :: rest) ∧
        ids = (first :: rest).map (fun t => t.ID) ∧ status = db.StatusExecuted ∧
        height = first.BlockHeight := by
    intro m ids status height hm
    unfold updatePoolTxFunc at hm
    rcases List.mem_append.mp hm with hm | hm
    · exact mem_updatePendingPoolTxs db _ ids status height hm
    · exact absurd hm (not_mem_deletePendingPoolTxs db _ ids status height)
  refine ⟨?_, ?_, hupd, bulkUpdates_updatePoolTxFunc db, ?_, ?_⟩
  · intro batch txs hmem hsome
    obtain ⟨hne, hsame⟩ := hq batch txs hmem hsome
    refine ⟨hne, hsame, ?_⟩
    cases txs with
    | nil => exact absurd rfl hne
    | cons first rest =>
      refine ⟨first.BlockHeight, fun t ht => hsame t ht first (List.mem_cons_self _ _), ?_⟩
      unfold updatePoolTxFunc
      rw [hsome]
      exact List.mem_append_left _ (updatePendingPoolTxs_mem db first rest)
  · intro batch hmem ids status height hcall
    obtain ⟨first, rest, hsome, hids, hstatus, hheight⟩ := hupd batch ids status height hcall
    refine ⟨first :: rest, hsome, hids, hstatus, ?_⟩
    intro t ht
    rw [hheight]
    exact (hq batch _ hmem hsome).2 t ht first (List.mem_cons_self _ _)
  · intro m ids status height hm
    unfold updatePoolTxFunc at hm
    rcases List.mem_append.mp hm with hm | hm
    · exact absurd hm (not_mem_updatePendingPoolTxs db _ ids status height)
    · exact mem_deletePendingPoolTxs db _ ids status height hm
  · intro m first rest hsome
    unfold updatePoolTxFunc
    rw [hsome]
    exact List.mem_append_right _ (deletePendingPoolTxs_mem db first rest)

/-- Witness for C24: three transfers applied to block 1 are flushed as one update batch
when the queue runs empty, each stamped with height 1; and for a batch whose bulk update
fails, `updatePoolTxFunc` logs the error and still makes the delete. -/
theorem update_batches_one_block_witness :
    updateBatches (resultOf (executeTxFunc (sampleCollaborators [] threeTransfers)
      sampleCommitter sampleBlockChain 2)).2 =
      [[{ poolTx 1 4 "t" with BlockHeight := 1 }, { poolTx 2 4 "t" with BlockHeight := 1 },
        { poolTx 3 4 "t" with BlockHeight := 1 }]] ∧
    updatePoolTxFunc (samplePoolTxModel true) sampleUpdatePoolTx =
      [.UpdateTxsStatusAndHeightByIds [1, 2] 2 7, .logError "connection refused",
       .DeleteTxsBatch [3] 6 (-1)] ∧
    updatePoolTxFunc (samplePoolTxModel true)
      { PendingUpdatePoolTxs := some [], PendingDeletePoolTxs := none } = [] ∧
    (∀ batch txs, Event.enqueueUpdatePoolTx batch ∈
        (resultOf (executeTxFunc (sampleCollaborators [] threeTransfers)
          sampleCommitter sampleBlockChain 2)).2 →
      batch.PendingUpdatePoolTxs = some txs →
      txs ≠ [] ∧ (∀ t ∈ txs, ∀ u ∈ txs, t.BlockHeight = u.BlockHeight) ∧
      ∃ height, (∀ t ∈ txs, t.BlockHeight = height) ∧
        PoolTxCall.UpdateTxsStatusAndHeightByIds (txs.map (fun t => t.ID))
          (samplePoolTxModel true).StatusExecuted height ∈
            updatePoolTxFunc (samplePoolTxModel true) batch) :=
  ⟨by decide, by decide, by decide,
   (update_batches_one_block (sampleCollaborators [] threeTransfers) sampleCommitter
      sampleBlockChain 2 _ _ (samplePoolTxModel true) (sample_block_stamped _ _)
      (by rfl)).1⟩

end Zkbnb
